import Mathlib

/-!
# PanzerChasm model loader (`src/src/model.cpp`)

A shallow embedding of the O3 and CAR model decoders and of `CalculateNormals`, and
proofs about them.

Conventions of the embedding

* `Vfs::FileContent` is `std::vector<unsigned char>`: a `List Nat`, every entry
  taken modulo 256 when it is read.
* The source reads through `data() + offset` with no bounds check.  Reading a
  byte past the end of a buffer is undefined behaviour in C++; here such a byte
  reads as `0`, and no error is raised, as none is raised by the source.
* `unsigned short` is 16 bits, `unsigned int` 32 bits, `size_t` 64 bits.  A
  `% 2 ^ w` is written where a value can exceed its type.
* Integer division by zero and a failed `PC_ASSERT` end a decode with an
  error; everything else returns a value.
* `float` values that are exact (a 16-bit integer times `1 / 2048`) are rational
  numbers; a texture coordinate keeps the two operands of its float division.
* `CalculateNormals` calls float operations of headers that are not among the
  sources at hand; they are the fields of `FloatOps`, a parameter of its model.
  Indexing a `std::vector` past its end is undefined behaviour in C++; here such
  a read gives a value-initialised entry and such a store is dropped.
-/

namespace PanzerChasm

/-! ## Machine integers and byte buffers -/

/-- Contents of a file: `std::vector<unsigned char>`. -/
abbrev FileContent := List Nat

/-- Conversion to `unsigned short`. -/
def u16 (x : Nat) : Nat := x % 2 ^ 16

/-- Conversion to `unsigned int`. -/
def u32 (x : Nat) : Nat := x % 2 ^ 32

/-- Conversion to `size_t`. -/
def usize (x : Nat) : Nat := x % 2 ^ 64

/-- The byte at `data() + off`. -/
def rdU8 (buf : FileContent) (off : Nat) : Nat := buf.getD off 0 % 256

/-- The little-endian `unsigned short` at `data() + off`. -/
def rdU16 (buf : FileContent) (off : Nat) : Nat := rdU8 buf off + 256 * rdU8 buf (off + 1)

/-- The little-endian `short` at `data() + off`. -/
def rdS16 (buf : FileContent) (off : Nat) : Int :=
  if rdU16 buf off < 2 ^ 15 then (rdU16 buf off : Int) else (rdU16 buf off : Int) - 2 ^ 16

/-- The bytes `data() + off .. data() + off + n`, as `memcpy` reads them. -/
def rdBytes (buf : FileContent) (off n : Nat) : List Nat :=
  (List.range n).map (fun k => rdU8 buf (off + k))

/-- Method `std::vector::resize`, new entries being value-initialised to `d`. -/
def vecResize {α : Type} (xs : List α) (n : Nat) (d : α) : List α :=
  xs.take n ++ List.replicate (n - xs.length) d

/-! ## Source records -/

/-- Record `Polygon_o3`, 32 bytes. -/
structure Polygon_o3 where
  vertices_indeces : Fin 4 → Nat
  uv : Fin 4 → Fin 2 → Nat
  unknown0 : Fin 4 → Nat
  group_id : Nat
  flags : Nat
  v_offset : Nat

namespace Polygon_o3.Flags

def Twosided : Nat := 0x01
def AlphaTested : Nat := 0x02
def Translucent : Nat := 0x04 ||| 0x08

end Polygon_o3.Flags

/-- The record `reinterpret_cast<const Polygon_o3*>( data() + off )[0]`. -/
def readPolygon (buf : FileContent) (off : Nat) : Polygon_o3 where
  vertices_indeces := fun j => rdU16 buf (off + 2 * j.val)
  uv := fun j k => rdU16 buf (off + 8 + 4 * j.val + 2 * k.val)
  unknown0 := fun j => rdU8 buf (off + 24 + j.val)
  group_id := rdU8 buf (off + 28)
  flags := rdU8 buf (off + 29)
  v_offset := rdU16 buf (off + 30)

/-- The records `polygons[0] .. polygons[polygon_count - 1]` of an array at `data() + off`. -/
def readPolygons (buf : FileContent) (off polygon_count : Nat) : List Polygon_o3 :=
  (List.range polygon_count).map (fun p => readPolygon buf (off + 32 * p))

/-- Record `Vertex_o3`, 6 bytes: `short xyz[3]`. -/
structure Vertex_o3 where
  xyz : Int × Int × Int
deriving DecidableEq, Repr

/-- The record `reinterpret_cast<const Vertex_o3*>( data() + off )[v]`. -/
def readVertex (buf : FileContent) (off v : Nat) : Vertex_o3 where
  xyz := (rdS16 buf (off + 6 * v), rdS16 buf (off + 6 * v + 2), rdS16 buf (off + 6 * v + 4))

/-! ## Output records

The header `model.hpp` is not among the sources at hand: the records have the fields
that `model.cpp` accesses, and `Model` derives from `Submodel`, as `prepare_model`
takes the main model for its `Submodel&`. -/

/-- The float quotient `float( num ) / float( den )`, both operands kept. -/
structure FloatQuot where
  num : Nat
  den : Nat
deriving DecidableEq, Repr

/-- A value-initialised float is `0.0`. -/
instance : Inhabited FloatQuot := ⟨⟨0, 1⟩⟩

/-- Record `Model::Vertex`. -/
structure Vertex where
  tex_coord : FloatQuot × FloatQuot
  vertex_id : Nat
  alpha_test_mask : Nat
  groups_mask : Nat
deriving DecidableEq, Repr, Inhabited

/-- Record `Model::AnimationVertex`; of `normal` only entry 0 is ever accessed. -/
structure AnimationVertex where
  pos : Int × Int × Int
  normal0 : Int
deriving DecidableEq, Repr, Inhabited

/-- Record `Model::Animation`. -/
structure Animation where
  id : Nat
  first_frame : Nat
  frame_count : Nat
deriving DecidableEq, Repr, Inhabited

/-- Three floats. -/
structure m_Vec3 where
  x : ℚ
  y : ℚ
  z : ℚ
deriving DecidableEq, Inhabited

/-- Record `m_BBox3`. -/
structure m_BBox3 where
  min : m_Vec3
  max : m_Vec3
deriving DecidableEq, Inhabited

/-- Record `Submodel`. -/
structure Submodel where
  animations : List Animation
  frame_count : Nat
  vertices : List Vertex
  regular_triangles_indeces : List Nat
  transparent_triangles_indeces : List Nat
  animations_vertices : List AnimationVertex
  animations_bboxes : List m_BBox3
  z_min : ℚ
  z_max : ℚ
deriving DecidableEq, Inhabited

/-- Record `Model`, which derives from `Submodel`. -/
structure Model extends Submodel where
  texture_size : Nat × Nat
  texture_data : List Nat
  submodels : List Submodel
  sounds : List (List Nat)
deriving DecidableEq, Inhabited

/-! ## The polygon loop, shared by `LoadModel_o3` and `prepare_model` -/

/-- The two places where the polygon loop of `LoadModel_o3` and the one of
`prepare_model` differ: the texture coordinates and the groups mask of a corner. -/
structure CornerFormat where
  tex_coord : Polygon_o3 → Fin 4 → FloatQuot × FloatQuot
  groups_mask : Polygon_o3 → Nat

/-- Flag `polygon_is_triangle`. -/
def polygon_is_triangle (vertex_count : Nat) (polygon : Polygon_o3) : Bool :=
  decide (polygon.vertices_indeces 3 ≥ vertex_count)

/-- Flag `polygon_is_twosided`. -/
def polygon_is_twosided (polygon : Polygon_o3) : Bool :=
  (polygon.flags &&& Polygon_o3.Flags.Twosided) != 0

/-- Flag `transparent`. -/
def transparent (polygon : Polygon_o3) : Bool :=
  (polygon.flags &&& Polygon_o3.Flags.Translucent) != 0

/-- Value `alpha_test_mask`. -/
def alpha_test_mask (polygon : Polygon_o3) : Nat :=
  if transparent polygon || (polygon.flags &&& Polygon_o3.Flags.AlphaTested) != 0 then 255 else 0

/-- Value `polygon_vertex_count`. -/
def polygon_vertex_count (vertex_count : Nat) (polygon : Polygon_o3) : Nat :=
  if polygon_is_triangle vertex_count polygon then 3 else 4

/-- Value `polygon_index_count`, after the doubling for a two-sided polygon. -/
def polygon_index_count (vertex_count : Nat) (polygon : Polygon_o3) : Nat :=
  let n := if polygon_is_triangle vertex_count polygon then 3 else 6
  if polygon_is_twosided polygon then n * 2 else n

/-- The corner `v[j]` as the inner loop fills it. -/
def cornerVertex (fmt : CornerFormat) (polygon : Polygon_o3) (j : Fin 4) : Vertex where
  tex_coord := fmt.tex_coord polygon j
  vertex_id := polygon.vertices_indeces j
  alpha_test_mask := alpha_test_mask polygon
  groups_mask := fmt.groups_mask polygon

/-- The list `dst_indeces` of an iteration: the transparent list for a transparent
polygon, the regular one otherwise. -/
def dst_indeces (out_submodel : Submodel) (polygon : Polygon_o3) : List Nat :=
  if transparent polygon then out_submodel.transparent_triangles_indeces
  else out_submodel.regular_triangles_indeces

/-- The vertex writes of one iteration: `vertices.resize`, then `v[j]= ...` for
`j < polygon_vertex_count` with `v= vertices.data() + first_vertex_index`. -/
def writeCorners (fmt : CornerFormat) (vertex_count : Nat) (polygon : Polygon_o3)
    (vertices : List Vertex) (first_vertex_index : Nat) : List Vertex :=
  let v0 := vecResize vertices (vertices.length + polygon_vertex_count vertex_count polygon) default
  let v1 := v0.set (first_vertex_index + 0) (cornerVertex fmt polygon 0)
  let v2 := v1.set (first_vertex_index + 1) (cornerVertex fmt polygon 1)
  let v3 := v2.set (first_vertex_index + 2) (cornerVertex fmt polygon 2)
  if polygon_is_triangle vertex_count polygon then v3
  else v3.set (first_vertex_index + 3) (cornerVertex fmt polygon 3)

/-- The index writes of one iteration: `dst_indeces.resize`, then the stores through
`ind`, each converted to the `unsigned short` element type. -/
def writeIndeces (vertex_count : Nat) (polygon : Polygon_o3)
    (dst_indeces : List Nat) (first_vertex_index : Nat) : List Nat :=
  let count := polygon_index_count vertex_count polygon
  let d0 := vecResize dst_indeces (dst_indeces.length + count) 0
  let ind := d0.length - count
  let d1 := d0.set (ind + 0) (u16 (first_vertex_index + 2))
  let d2 := d1.set (ind + 1) (u16 (first_vertex_index + 1))
  let d3 := d2.set (ind + 2) (u16 (first_vertex_index + 0))
  let d4 :=
    if polygon_is_triangle vertex_count polygon then d3
    else
      ((d3.set (ind + 3) (u16 (first_vertex_index + 0))).set
        (ind + 4) (u16 (first_vertex_index + 3))).set (ind + 5) (u16 (first_vertex_index + 2))
  if polygon_is_twosided polygon then
    let ind := ind + count / 2
    let e1 := d4.set (ind + 0) (u16 (first_vertex_index + 0))
    let e2 := e1.set (ind + 1) (u16 (first_vertex_index + 1))
    let e3 := e2.set (ind + 2) (u16 (first_vertex_index + 2))
    if polygon_is_triangle vertex_count polygon then e3
    else
      ((e3.set (ind + 3) (u16 (first_vertex_index + 2))).set
        (ind + 4) (u16 (first_vertex_index + 3))).set (ind + 5) (u16 (first_vertex_index + 0))
  else d4

/-- One iteration of `for( p < polygon_count )`; the state is the output submodel and
`current_vertex_index`. -/
def polygonStep (fmt : CornerFormat) (vertex_count : Nat)
    (st : Submodel × Nat) (polygon : Polygon_o3) : Submodel × Nat :=
  let out_submodel := st.1
  let first_vertex_index := st.2
  let vertices := writeCorners fmt vertex_count polygon out_submodel.vertices first_vertex_index
  let out :=
    if transparent polygon then
      { out_submodel with
        vertices := vertices
        transparent_triangles_indeces :=
          writeIndeces vertex_count polygon out_submodel.transparent_triangles_indeces
            first_vertex_index }
    else
      { out_submodel with
        vertices := vertices
        regular_triangles_indeces :=
          writeIndeces vertex_count polygon out_submodel.regular_triangles_indeces
            first_vertex_index }
  (out, st.2 + polygon_vertex_count vertex_count polygon)

/-- The whole loop `for( p < polygon_count )`, from `current_vertex_index= 0`. -/
def polygonLoop (fmt : CornerFormat) (vertex_count : Nat) (polygons : List Polygon_o3)
    (out_submodel : Submodel) : Submodel :=
  (polygons.foldl (polygonStep fmt vertex_count) (out_submodel, 0)).1

/-- A sample record: a one-sided, opaque triangle of a model with 3 vertices. -/
def sampleTriangle : Polygon_o3 :=
  ⟨![0, 1, 2, 3], fun _ _ => 0, fun _ => 0, 0, 0, 0⟩

/-! ## Bounding boxes and extents -/

/-- Constants `Constants::max_float` and `Constants::min_float` of `math_utils.hpp`,
which is not among the sources at hand; they are parameters of the decoders. -/
structure Constants where
  max_float : ℚ
  min_float : ℚ

/-- Constant `g_3o_model_coords_scale`. -/
def g_3o_model_coords_scale : ℚ := 1 / 2048

/-- Constant `g_3o_model_texture_width`. -/
def g_3o_model_texture_width : Nat := 64

/-- Constant `g_car_model_texture_width`. -/
def g_car_model_texture_width : Nat := 64

/-- Modelled from the spec: `m_BBox3::operator+=` of `bbox.hpp`, which is not among
the sources at hand; the box is extended to the componentwise min/max with the point. -/
def m_BBox3.extend (b : m_BBox3) (p : m_Vec3) : m_BBox3 where
  min := ⟨Min.min b.min.x p.x, Min.min b.min.y p.y, Min.min b.min.z p.z⟩
  max := ⟨Max.max b.max.x p.x, Max.max b.max.y p.y, Max.max b.max.z p.z⟩

/-- Function `ClearModel`. -/
def ClearModel (model : Model) : Model :=
  { model with
    animations := []
    vertices := []
    animations_vertices := []
    regular_triangles_indeces := []
    transparent_triangles_indeces := []
    texture_data := []
    submodels := [] }

/-- Function `CalculateModelZ`; `vertices` is the array at `buf.data() + off`. -/
def CalculateModelZ (c : Constants) (model : Model) (buf : FileContent) (off : Nat)
    (vertex_count : Nat) : Model :=
  (List.range vertex_count).foldl
    (fun m v =>
      let z : ℚ := ((readVertex buf off v).xyz.2.2 : ℚ) * g_3o_model_coords_scale
      { m with z_max := Max.max m.z_max z, z_min := Min.min m.z_min z })
    { model with z_max := c.min_float, z_min := c.max_float }

/-- Function `CalculateBoundingBox`; `vertices` is entry `first` of the array at
`buf.data() + off`. -/
def CalculateBoundingBox (c : Constants) (buf : FileContent) (off first : Nat)
    (vertex_count : Nat) : m_BBox3 :=
  (List.range vertex_count).foldl
    (fun b i =>
      let v := readVertex buf off (first + i)
      b.extend
        ⟨(v.xyz.1 : ℚ) * g_3o_model_coords_scale,
         (v.xyz.2.1 : ℚ) * g_3o_model_coords_scale,
         (v.xyz.2.2 : ℚ) * g_3o_model_coords_scale⟩)
    ⟨⟨c.max_float, c.max_float, c.max_float⟩, ⟨c.min_float, c.min_float, c.min_float⟩⟩

/-- The position of a raw vertex in model coordinates: its three values, each times
`g_3o_model_coords_scale`, as `CalculateBoundingBox` scales them. -/
def Vertex_o3.scaled (v : Vertex_o3) : m_Vec3 :=
  ⟨(v.xyz.1 : ℚ) * g_3o_model_coords_scale,
   (v.xyz.2.1 : ℚ) * g_3o_model_coords_scale,
   (v.xyz.2.2 : ℚ) * g_3o_model_coords_scale⟩

/-- The point `p` lies in the box `b`, in each of the three coordinates. -/
def m_BBox3.contains (b : m_BBox3) (p : m_Vec3) : Prop :=
  (b.min.x ≤ p.x ∧ p.x ≤ b.max.x) ∧ (b.min.y ≤ p.y ∧ p.y ≤ b.max.y) ∧
    (b.min.z ≤ p.z ∧ p.z ≤ b.max.z)

/-- The bounding boxes of `s` are those of its frames, the raw positions being the array
at `buf.data() + off` with `vertex_count` positions for each frame: box `i` is the box
that `CalculateBoundingBox` computes for the run of `vertex_count` positions from
position `i * vertex_count` on, and the positions of that run are those that
`animations_vertices` holds for frame `i`, each of them inside box `i`. -/
def FrameBoxes (c : Constants) (buf : FileContent) (off vertex_count : Nat) (s : Submodel) :
    Prop :=
  s.animations_bboxes =
      (List.range s.frame_count).map
        (fun i => CalculateBoundingBox c buf off (i * vertex_count) vertex_count) ∧
    ∀ i k, i < s.frame_count → k < vertex_count →
      ∃ (b : m_BBox3) (v : AnimationVertex),
        s.animations_bboxes[i]? = some b ∧
        s.animations_vertices[i * vertex_count + k]? = some v ∧
        v.pos = (readVertex buf off (i * vertex_count + k)).xyz ∧
        b.contains (Vertex_o3.mk v.pos).scaled

/-- Function `GroupIdToGroupsMask`. -/
def GroupIdToGroupsMask (group_id : Nat) : Nat :=
  if group_id = 0 then 64 else group_id

/-! ## Decoders -/

/-- The two ways a decode ends without a model, both of them fatal: a violated
`PC_ASSERT` and an integer division by zero. -/
inductive LoadError where
  | assertion_failed
  | division_by_zero
deriving DecidableEq, Repr

/-- Modelled from the spec: the macro `PC_ASSERT` of `assert.hpp`, which is not among
the sources at hand; a violated assertion is fatal and the decode aborts at once. -/
def PC_ASSERT (cond : Bool) : Except LoadError Unit :=
  if cond then Except.ok () else Except.error LoadError.assertion_failed

/-- Unsigned division, undefined in C++ for a zero divisor. -/
def checkedDiv (a b : Nat) : Except LoadError Nat :=
  if b = 0 then Except.error LoadError.division_by_zero else Except.ok (a / b)

/-- The `size_t` difference `a - b`, which wraps around below zero. -/
def usizeSub (a b : Nat) : Nat := usize (a + (2 ^ 64 - usize b))

/-- The loop `for( v < animations_vertices.size() ) pos[j]= vertices[v].xyz[j]`. -/
def copyPositions (buf : FileContent) (off : Nat) (animations_vertices : List AnimationVertex) :
    List AnimationVertex :=
  animations_vertices.enum.map (fun va => { va.2 with pos := (readVertex buf off va.1).xyz })

/-- The loop `for( i < frame_count ) CalculateBoundingBox( vertices + i * vertex_count, .. )`
over the resized `animations_bboxes`; the product is an `unsigned int`. -/
def calculateBoundingBoxes (c : Constants) (buf : FileContent) (off : Nat)
    (vertex_count frame_count : Nat) (animations_bboxes : List m_BBox3) : List m_BBox3 :=
  (List.range frame_count).foldl
    (fun bbs i => bbs.set i (CalculateBoundingBox c buf off (u32 (i * vertex_count)) vertex_count))
    (vecResize animations_bboxes frame_count default)

/-- Corner data as the polygon loop of `LoadModel_o3` computes them. -/
def o3CornerFormat (texture_size : Nat × Nat) (v_offset_shift : Nat) : CornerFormat where
  tex_coord := fun polygon j =>
    (⟨polygon.uv j 0, texture_size.1⟩,
     ⟨polygon.uv j 1 + (polygon.v_offset + v_offset_shift), texture_size.2⟩)
  groups_mask := fun _ => 255

/-- Corner data as the polygon loop of `prepare_model` computes them. -/
def carCornerFormat (texture_size : Nat × Nat) : CornerFormat where
  tex_coord := fun polygon j =>
    (⟨polygon.uv j 0, texture_size.1 <<< 8⟩,
     ⟨polygon.uv j 1 + 4 * polygon.v_offset, texture_size.2 <<< 8⟩)
  groups_mask := fun polygon => GroupIdToGroupsMask polygon.group_id

/-- Lines 131-144 of `LoadModel_o3`: the texture size and the texture bytes;
`texture_data.resize( n )` is followed by a `memcpy` that overwrites all `n` bytes. -/
def o3Texture (model_file : FileContent) (out_model : Model) : Model :=
  let texture_height := rdU16 model_file 0x4804
  let texture_height := texture_height &&& 1023
  { out_model with
    texture_size := (g_3o_model_texture_width, texture_height)
    texture_data := rdBytes model_file 0x4806 (g_3o_model_texture_width * texture_height) }

/-- Lines 163-166 of `LoadModel_o3`: the value of `out_model.frame_count`, a `size_t`
quotient converted to `unsigned int`. -/
def o3FrameCount (vertex_count : Nat) (animation_file : FileContent) : Except LoadError Nat :=
  if animation_file.isEmpty then Except.ok 1
  else (checkedDiv (usizeSub animation_file.length 2) (vertex_count * 6)).map u32

/-- Lines 152-156 of `LoadModel_o3`: the array `vertices`, as a buffer and an offset. -/
def o3InVertices (model_file animation_file : FileContent) : FileContent × Nat :=
  if animation_file.isEmpty then (model_file, 0x3200) else (animation_file, 0x02)

/-- Lines 168-253 of `LoadModel_o3`: the animated positions, the polygon loop, the
animation and the bounding boxes. -/
def o3Geometry (c : Constants) (model_file animation_file : FileContent) (frame_count : Nat)
    (out_model : Model) : Model :=
  let vertex_count := rdU16 model_file 0x4800
  let polygon_count := rdU16 model_file 0x4802
  let v_offset_shift := rdU16 model_file 0x4804 &&& 0xFFFFFC00
  let in_vertices := o3InVertices model_file animation_file
  let animations_vertices :=
    copyPositions in_vertices.1 in_vertices.2
      (vecResize out_model.animations_vertices (u32 (frame_count * vertex_count)) default)
  let out_model :=
    { out_model with frame_count := frame_count, animations_vertices := animations_vertices }
  let out_model :=
    { out_model with
      toSubmodel :=
        polygonLoop (o3CornerFormat out_model.texture_size v_offset_shift) vertex_count
          (readPolygons model_file 0 polygon_count) out_model.toSubmodel }
  -- Setup animation
  let animations := vecResize out_model.animations 1 default
  let animations := animations.set (animations.length - 1) ⟨0, 0, out_model.frame_count⟩
  -- Calculate bounding boxes.
  let animations_bboxes :=
    calculateBoundingBoxes c in_vertices.1 in_vertices.2 vertex_count out_model.frame_count
      out_model.animations_bboxes
  { out_model with animations := animations, animations_bboxes := animations_bboxes }

/-- Function `LoadModel_o3`, the overload taking one animation file. -/
def LoadModel_o3 (c : Constants) (model_file animation_file : FileContent) (out_model : Model) :
    Except LoadError Model := do
  let out_model := ClearModel out_model
  let vertex_count := rdU16 model_file 0x4800
  let out_model := o3Texture model_file out_model
  PC_ASSERT (model_file.length == out_model.texture_data.length + 0x4806)
  let out_model := CalculateModelZ c out_model model_file 0x3200 vertex_count
  let frame_count ← o3FrameCount vertex_count animation_file
  pure (o3Geometry c model_file animation_file frame_count out_model)

/-- One iteration of the first loop of the multi-file `LoadModel_o3`; the state is the
filled part of the local array `animations`, `frame_count` and `vertex_count`. -/
def animationFileStep (st : List Animation × Nat × Nat) (animation_file : FileContent) :
    Except LoadError (List Animation × Nat × Nat) := do
  let animations := st.1
  let frame_count := st.2.1
  let i := animations.length
  PC_ASSERT (!animation_file.isEmpty)
  let vertex_count := rdU16 animation_file 0
  let animation_frame_count ←
    (checkedDiv (usizeSub animation_file.length 2) (vertex_count * 6)).map u32
  pure (animations ++ [⟨i, frame_count, animation_frame_count⟩],
        u32 (frame_count + animation_frame_count), vertex_count)

/-- Function `memcpy( dst.data() + off, src, src.size() )`; a store past the end of
`dst` is dropped. -/
def memcpyInto (dst : List Nat) (off : Nat) (src : List Nat) : List Nat :=
  src.enum.foldl (fun d kb => d.set (off + kb.1) kb.2) dst

/-- The second loop of the multi-file `LoadModel_o3`: the payload of every file is
copied behind the previous one; the state is the buffer and the offset of `ptr`. -/
def appendAnimationData (st : List Nat × Nat) (animation_file : FileContent) : List Nat × Nat :=
  let animation_data_size := u32 (usizeSub animation_file.length 2)
  (memcpyInto st.1 st.2 (rdBytes animation_file 2 animation_data_size),
   st.2 + animation_data_size)

/-- The buffer `combined_animations` of the multi-file `LoadModel_o3`. -/
def combinedAnimations (animation_files : List FileContent) (frame_count vertex_count : Nat) :
    FileContent :=
  let combined_animations := List.replicate (2 + u32 (vertex_count * frame_count) * 6) 0
  let combined_animations :=
    memcpyInto combined_animations 0 [frame_count % 256, frame_count / 256 % 256]
  (animation_files.foldl appendAnimationData (combined_animations, 2)).1

/-- Lines 300-301 of the multi-file `LoadModel_o3`: `out_model.animations` is resized
to the number of files and the local array is copied over it. -/
def copyAnimations (animations : List Animation) (animation_files_count : Nat)
    (out_animations : List Animation) : List Animation :=
  (List.range animation_files_count).foldl (fun a i => a.set i (animations.getD i default))
    (vecResize out_animations animation_files_count default)

/-- Function `LoadModel_o3`, the overload taking an array of animation files; the
array and its length are one list, so that `animation_files != nullptr` always holds. -/
def LoadModel_o3_multi (c : Constants) (model_file : FileContent)
    (animation_files : List FileContent) (out_model : Model) : Except LoadError Model := do
  let animation_files_count := animation_files.length
  PC_ASSERT (decide (animation_files_count ≥ 1))
  PC_ASSERT (decide (animation_files_count < 32))
  let st ← animation_files.foldlM animationFileStep (([] : List Animation), 0, 0)
  let animations := st.1
  let frame_count := st.2.1
  let vertex_count := st.2.2
  -- Produce big animation file
  let combined_animations := combinedAnimations animation_files frame_count vertex_count
  let out_model ← LoadModel_o3 c model_file combined_animations out_model
  pure { out_model with
    animations := copyAnimations animations animation_files_count out_model.animations }

namespace CARHeader

def c_sound_count : Nat := 7

/-- Field `animations[i]`, at byte `0`. -/
def animations (buf : FileContent) (i : Nat) : Nat := rdU16 buf (2 * i)

/-- Field `submodels_animations[i][a]`, at byte `40`. -/
def submodels_animations (buf : FileContent) (i a : Nat) : Nat := rdU16 buf (40 + 4 * i + 2 * a)

/-- Field `sounds[i]`, at byte `70`, behind the nine entries of `unknown0`. -/
def sounds (buf : FileContent) (i : Nat) : Nat := rdU16 buf (70 + 2 * i)

end CARHeader

/-- One iteration of the loops that list the animations of a CAR model or submodel:
a slot of `data_size` bytes with identifier `id`; the state is the list and the number
of frames allotted so far. -/
def carAnimationStep (divisor id : Nat) (st : List Animation × Nat) (data_size : Nat) :
    Except LoadError (List Animation × Nat) := do
  let animation_frame_count ← checkedDiv data_size divisor
  if animation_frame_count = 0 then pure st
  else pure (st.1 ++ [⟨id, st.2, animation_frame_count⟩], st.2 + animation_frame_count)

/-- The lambda `prepare_model` of `LoadModel_car`; `vertices` is the array at
`buf.data() + vertices_off`, `polygons` the one at `buf.data() + polygons_off`, and
`texture_size` is the captured `out_model.texture_size`. -/
def prepare_model (c : Constants) (texture_size : Nat × Nat) (buf : FileContent)
    (vertex_count polygon_count vertices_off polygons_off : Nat) (out_submodel : Submodel) :
    Submodel :=
  let animations_vertices :=
    copyPositions buf vertices_off
      (vecResize out_submodel.animations_vertices (u32 (out_submodel.frame_count * vertex_count))
        default)
  let out_submodel := { out_submodel with animations_vertices := animations_vertices }
  let out_submodel :=
    polygonLoop (carCornerFormat texture_size) vertex_count
      (readPolygons buf polygons_off polygon_count) out_submodel
  -- Calculate bounding boxes.
  { out_submodel with
    animations_bboxes :=
      calculateBoundingBoxes c buf vertices_off vertex_count out_submodel.frame_count
        out_submodel.animations_bboxes }

/-- One iteration of `for( i < 3u )` over the submodels of `LoadModel_car`; the state is
`out_model.submodels` and `submodels_offset`. -/
def carSubmodelStep (c : Constants) (texture_size : Nat × Nat) (model_file : FileContent)
    (st : List Submodel × Nat) (i : Nat) : Except LoadError (List Submodel × Nat) := do
  let submodels_offset := st.2
  let c_animation_data_offset := 0x4806
  let submodel_animation_data_size :=
    CARHeader.submodels_animations model_file i 0 + CARHeader.submodels_animations model_file i 1
  if submodel_animation_data_size = 0 then pure st
  else
    let submodel := st.1.getD i default
    let vertex_count := rdU16 model_file (submodels_offset + 0x4800)
    let polygon_count := rdU16 model_file (submodels_offset + 0x4802)
    let frame_count ← checkedDiv submodel_animation_data_size (6 * vertex_count)
    let submodel := { submodel with frame_count := frame_count }
    let submodel :=
      prepare_model c texture_size model_file vertex_count polygon_count
        (submodels_offset + c_animation_data_offset) submodels_offset submodel
    -- Setup animations.
    let (animations, _) ←
      [0, 1].foldlM
        (fun (s : List Animation × Nat) a =>
          carAnimationStep (6 * vertex_count) i s (CARHeader.submodels_animations model_file i a))
        (submodel.animations, 0)
    let submodel := { submodel with animations := animations }
    pure (st.1.set i submodel,
          submodels_offset + (c_animation_data_offset + submodel_animation_data_size))

/-- One iteration of the loop over the sounds of `LoadModel_car`; the state is
`out_model.sounds` and `sounds_offset`. -/
def carSoundStep (model_file : FileContent) (st : List (List Nat) × Nat) (i : Nat) :
    List (List Nat) × Nat :=
  let sound := vecResize (st.1.getD i []) (CARHeader.sounds model_file i) 0
  let sound := memcpyInto sound 0 (rdBytes model_file st.2 (CARHeader.sounds model_file i))
  (st.1.set i sound, st.2 + CARHeader.sounds model_file i)

/-- Lines 312-324 of `LoadModel_car`: the texture size and the texture bytes;
`texture_data.resize( n )` is followed by a `memcpy` that overwrites all `n` bytes. -/
def carTexture (model_file : FileContent) (out_model : Model) : Model :=
  let texture_texels := rdU16 model_file 0x486A
  { out_model with
    texture_size := (g_car_model_texture_width, texture_texels / g_car_model_texture_width)
    texture_data := rdBytes model_file 0x486C texture_texels }

/-- Lines 328-342 of `LoadModel_car`: the loop over the 20 animation slots of the
header; the result is `out_model.animations` and `out_model.frame_count`. -/
def carMainAnimations (model_file : FileContent) (vertex_count : Nat)
    (animations : List Animation) : Except LoadError (List Animation × Nat) :=
  (List.range 20).foldlM
    (fun (s : List Animation × Nat) i =>
      carAnimationStep (6 * vertex_count) i s (CARHeader.animations model_file i))
    (animations, 0)

/-- Lines 429-439 of `LoadModel_car`: the main model. -/
def carMainModel (c : Constants) (model_file : FileContent)
    (animations : List Animation × Nat) (out_model : Model) : Model :=
  let c_textures_offset := 0x486C
  let vertex_count := rdU16 model_file 0x4866
  let polygon_count := rdU16 model_file 0x4868
  let texture_texels := rdU16 model_file 0x486A
  let out_model := { out_model with animations := animations.1, frame_count := animations.2 }
  let vertices_off := c_textures_offset + texture_texels
  let out_model :=
    { out_model with
      toSubmodel :=
        prepare_model c out_model.texture_size model_file vertex_count polygon_count
          vertices_off 0x66 out_model.toSubmodel }
  -- For all "Car" models first animation frame is frame of "run" animation
  CalculateModelZ c out_model model_file vertices_off vertex_count

/-- Lines 446-497 of `LoadModel_car`: the three submodels. -/
def carSubmodels (c : Constants) (texture_size : Nat × Nat) (model_file : FileContent)
    (submodels : List Submodel) (submodels_offset : Nat) :
    Except LoadError (List Submodel × Nat) :=
  let submodels :=
    (vecResize submodels 3 default).map
      (fun submodel => { submodel with frame_count := 0, z_min := 0, z_max := 0 })
  (List.range 3).foldlM (carSubmodelStep c texture_size model_file) (submodels, submodels_offset)

/-- Lines 499-509 of `LoadModel_car`: the sounds. -/
def carSounds (model_file : FileContent) (sounds : List (List Nat)) (sounds_offset : Nat) :
    List (List Nat) × Nat :=
  (List.range CARHeader.c_sound_count).foldl (carSoundStep model_file)
    (vecResize sounds CARHeader.c_sound_count [], sounds_offset)

/-- Function `LoadModel_car`.  Its offsets are `unsigned int` sums of a few 16-bit
fields and of products bounded by such fields: they stay far below `2 ^ 32`. -/
def LoadModel_car (c : Constants) (model_file : FileContent) (out_model : Model) :
    Except LoadError Model := do
  let out_model := ClearModel out_model
  let c_textures_offset := 0x486C
  let vertex_count := rdU16 model_file 0x4866
  let out_model := carTexture model_file out_model
  let animations ← carMainAnimations model_file vertex_count out_model.animations
  let out_model := carMainModel c model_file animations out_model
  let submodels_offset :=
    c_textures_offset + out_model.texture_data.length + out_model.frame_count * 6 * vertex_count
  let submodels ←
    carSubmodels c out_model.texture_size model_file out_model.submodels submodels_offset
  let sounds := carSounds model_file out_model.sounds submodels.2
  PC_ASSERT (sounds.2 == model_file.length)
  pure { out_model with submodels := submodels.1, sounds := sounds.1 }

/-! ## The running offset of `LoadModel_car` as a function of the header -/

/-- The sum of the frame counts of the 20 animation slots of the main model. -/
def carMainFrameCount (buf : FileContent) : Nat :=
  ((List.range 20).map
    (fun i => CARHeader.animations buf i / (6 * rdU16 buf 0x4866))).sum

/-- The bytes that the block of submodel `i` takes: none when both of its animation
lengths are zero, else `0x4806` plus the two lengths. -/
def carSubmodelBlockSize (buf : FileContent) (i : Nat) : Nat :=
  if CARHeader.submodels_animations buf i 0 + CARHeader.submodels_animations buf i 1 = 0 then 0
  else 0x4806 + (CARHeader.submodels_animations buf i 0 + CARHeader.submodels_animations buf i 1)

/-- The offset behind the main model: the header and polygon area, the texture and the
frames of the main model. -/
def carSubmodelsOffset (buf : FileContent) : Nat :=
  0x486C + rdU16 buf 0x486A + carMainFrameCount buf * 6 * rdU16 buf 0x4866

/-- The running offset accumulated over the texture, the frames of the main model, the
submodel blocks and the 7 sounds. -/
def carFinalOffset (buf : FileContent) : Nat :=
  carSubmodelsOffset buf + ((List.range 3).map (carSubmodelBlockSize buf)).sum +
    ((List.range CARHeader.c_sound_count).map (CARHeader.sounds buf)).sum

/-! ## Frame ranges -/

/-- The animations with consecutive identifiers from `id` on and consecutive frame
ranges from `first_frame` on, one for each of the given frame counts. -/
def sequentialAnimations (id first_frame : Nat) : List Nat → List Animation
  | [] => []
  | n :: ns => ⟨id, first_frame, n⟩ :: sequentialAnimations (id + 1) (first_frame + n) ns

/-- Frame `f` lies in the range `[first_frame, first_frame + frame_count)` of `a`. -/
def Animation.hasFrame (a : Animation) (f : Nat) : Prop :=
  a.first_frame ≤ f ∧ f < a.first_frame + a.frame_count

/-- Ranges that follow one another: the first starts at `first`, each next one where
the previous one ends. -/
def Sequential (first : Nat) : List Animation → Prop
  | [] => True
  | a :: as => a.first_frame = first ∧ Sequential (first + a.frame_count) as

/-- The animations listed for the slots `(id, frame count)`: a slot of no frame is
skipped, the others get consecutive frame ranges from `first_frame` on. -/
def slotAnimations (first_frame : Nat) : List (Nat × Nat) → List Animation
  | [] => []
  | s :: rest =>
    if s.2 = 0 then slotAnimations first_frame rest
    else ⟨s.1, first_frame, s.2⟩ :: slotAnimations (first_frame + s.2) rest

/-! ## Closed forms of the decoded parts -/

/-- The corners that one polygon contributes to `vertices`. -/
def polygonCorners (fmt : CornerFormat) (vertex_count : Nat) (polygon : Polygon_o3) :
    List Vertex :=
  if polygon_is_triangle vertex_count polygon then
    [cornerVertex fmt polygon 0, cornerVertex fmt polygon 1, cornerVertex fmt polygon 2]
  else
    [cornerVertex fmt polygon 0, cornerVertex fmt polygon 1, cornerVertex fmt polygon 2,
     cornerVertex fmt polygon 3]

/-- The animations of the main model of a CAR file, from the 20 slots of its header. -/
def carMainSlots (buf : FileContent) : List Animation :=
  slotAnimations 0
    ((List.range 20).map (fun i => (i, CARHeader.animations buf i / (6 * rdU16 buf 0x4866))))

/-- The offset of the block of submodel `i` of a CAR file; for `i = 3` the offset behind
the last block. -/
def carSubmodelOffset (buf : FileContent) (i : Nat) : Nat :=
  carSubmodelsOffset buf + ((List.range i).map (carSubmodelBlockSize buf)).sum

/-- The vertex count in the block of submodel `i`. -/
def carSubmodelVertexCount (buf : FileContent) (i : Nat) : Nat :=
  rdU16 buf (carSubmodelOffset buf i + 0x4800)

/-- Submodel `i` as `LoadModel_car` leaves it: untouched when both of its animation
lengths are zero, else prepared from its block and given its animations. -/
def carSubmodelResult (c : Constants) (texture_size : Nat × Nat) (buf : FileContent) (i : Nat) :
    Submodel :=
  if CARHeader.submodels_animations buf i 0 + CARHeader.submodels_animations buf i 1 = 0 then
    default
  else
    { prepare_model c texture_size buf (carSubmodelVertexCount buf i)
        (rdU16 buf (carSubmodelOffset buf i + 0x4802)) (carSubmodelOffset buf i + 0x4806)
        (carSubmodelOffset buf i)
        { (default : Submodel) with
          frame_count :=
            (CARHeader.submodels_animations buf i 0 + CARHeader.submodels_animations buf i 1) /
              (6 * carSubmodelVertexCount buf i) } with
      animations :=
        slotAnimations 0
          [(i, CARHeader.submodels_animations buf i 0 / (6 * carSubmodelVertexCount buf i)),
           (i, CARHeader.submodels_animations buf i 1 / (6 * carSubmodelVertexCount buf i))] }

/-- The offset of sound `i` of a CAR file; for `i = 7` the offset behind the last sound. -/
def carSoundOffset (buf : FileContent) (i : Nat) : Nat :=
  carSubmodelOffset buf 3 + ((List.range i).map (CARHeader.sounds buf)).sum

/-- The sounds as `LoadModel_car` leaves them. -/
def carSoundsResult (buf : FileContent) : List (List Nat) :=
  (List.range CARHeader.c_sound_count).map
    (fun i => rdBytes buf (carSoundOffset buf i) (CARHeader.sounds buf i))

/-- The model that `LoadModel_car` returns when it returns one. -/
def carResult (c : Constants) (buf : FileContent) (out_model : Model) : Model :=
  { carMainModel c buf (carMainSlots buf, carMainFrameCount buf)
      (carTexture buf (ClearModel out_model)) with
    submodels :=
      (List.range 3).map
        (carSubmodelResult c
          (g_car_model_texture_width, rdU16 buf 0x486A / g_car_model_texture_width) buf)
    sounds := carSoundsResult buf }

/-! ## Sample inputs -/

/-- A run of `n` zero bytes. -/
def zeros (n : Nat) : List Nat := List.replicate n 0

/-- An O3 model file of 0x4806 bytes: one vertex, one polygon, texture height 0; its
polygon record is all zero except the first vertex index, which is 7. -/
def sampleModelFile : FileContent := (7 :: zeros 0x47FF) ++ [1, 0, 1, 0, 0, 0]

/-- A CAR file of 0x486C bytes: one vertex, no polygon, no texel, every length of the
header zero. -/
def sampleCarFile : FileContent := zeros 0x4866 ++ [1, 0, 0, 0, 0, 0]

/-- An O3 model file of 0x4806 bytes that declares no vertex, 577 polygons and texture
height 0: its polygon records would take 32 * 577 = 0x4820 bytes. -/
def sampleOverrunFile : FileContent := zeros 0x4802 ++ [0x41, 0x02, 0, 0]

/-- An O3 model file of 0x4806 bytes that declares texture height 1, without the 64
texture bytes. -/
def sampleShortFile : FileContent := zeros 0x4804 ++ [1, 0]

/-- Two animation files for the sample O3 file, which has one vertex: one frame in the
first, two in the second. -/
def sampleAnimationFiles : List FileContent :=
  [[1, 0, 1, 0, 2, 0, 3, 0], [1, 0, 4, 0, 5, 0, 6, 0, 7, 0, 8, 0, 9, 0]]

/-- Sample values for the two float constants. -/
def sampleConstants : Constants := ⟨1000000, -1000000⟩

/-- The buffer of `n` bytes whose byte at offset `off` is `f off`. -/
def bytesOf (n : Nat) (f : Nat → Nat) : FileContent := (List.range n).map f

/-- A CAR file with one submodel: the main model has one vertex, no polygon, no texel
and no frame; submodel 0 has one vertex, no polygon and animation lengths `len0` and
`len1`; submodels 1 and 2 and the sounds are absent. -/
def sampleCarSubmodelFile (len0 len1 : Nat) : FileContent :=
  bytesOf (0x486C + 0x4806 + (len0 + len1))
    (fun off =>
      if off = 40 then len0 else if off = 42 then len1
      else if off = 0x4866 then 1 else if off = 0x906C then 1 else 0)

/-- A CAR file with two sounds, of 2 bytes and of 1 byte: the main model has one vertex,
no polygon, no texel and no frame, and there is no submodel. -/
def sampleCarSoundFile : FileContent :=
  bytesOf 0x486F
    (fun off =>
      if off = 70 then 2 else if off = 72 then 1 else if off = 0x4866 then 1
      else if off = 0x486C then 0xAA else if off = 0x486D then 0xBB
      else if off = 0x486E then 0xCC else 0)

/-- A CAR file of 0x486C bytes that is all zero: no vertex, no polygon, no texel, every
length of the header zero. -/
def sampleZeroCarFile : FileContent := zeros 0x486C

/-- A CAR file whose main model has one vertex, no polygon and no texel; the animation
slots 1 and 3 of its header hold 12 and 6 bytes, so 2 frames and 1 frame, and every
other length of the header is zero. -/
def sampleCarAnimatedFile : FileContent :=
  bytesOf 0x487E
    (fun off => if off = 2 then 12 else if off = 6 then 6 else if off = 0x4866 then 1 else 0)

/-- An O3 model file with one vertex and one polygon, an all-zero record, whose height
field is `0x0401`: texture height 1 and the bit of value 1024 set; its 64 texture bytes
are all 9. -/
def sampleTexturedFile : FileContent :=
  bytesOf 0x4846
    (fun off =>
      if off = 0x4800 then 1 else if off = 0x4802 then 1 else if off = 0x4804 then 1
      else if off = 0x4805 then 4 else if 0x4806 ≤ off then 9 else 0)

/-- Two animation files for the sample O3 file, which has one vertex: the first is for
one vertex, the second for two. -/
def sampleMismatchedFiles : List FileContent :=
  [[1, 0, 1, 0, 2, 0, 3, 0], [2, 0, 4, 0, 5, 0, 6, 0, 7, 0, 8, 0, 9, 0]]

/-- A model that holds one sound from an earlier decode. -/
def sampleUsedModel : Model := { (default : Model) with sounds := [[1]] }

/-- An O3 model file of `0x4806 + 4096` bytes: 4 vertices, texture height 64 and one
polygon, the quad with the vertex indices 0, 1, 2, 3, the UVs (0,0), (1,0), (1,1), (0,1)
and no flag; every other byte is zero. -/
def sampleQuadFile : FileContent :=
  bytesOf 0x5806
    (fun off =>
      if off = 2 then 1 else if off = 4 then 2 else if off = 6 then 3
      else if off = 12 then 1 else if off = 16 then 1 else if off = 18 then 1
      else if off = 22 then 1 else if off = 0x4800 then 4 else if off = 0x4802 then 1
      else if off = 0x4804 then 64 else 0)

/-- A CAR file of `0x486C` bytes: one vertex, one polygon with an all-zero record (a
quad of group 0), no texel, every length of the header zero. -/
def sampleCarQuadFile : FileContent :=
  bytesOf 0x486C (fun off => if off = 0x4866 then 1 else if off = 0x4868 then 1 else 0)

/-! ## Function `CalculateNormals` -/

/-- Record `UnpackedVertex`. -/
structure UnpackedVertex where
  index : Nat
  hash : Nat
  pos_v3 : m_Vec3
  face_normal : m_Vec3
  smoothed_normal : m_Vec3
  packed_normal : Nat
deriving DecidableEq, Inhabited

/-- The float operations that `CalculateNormals` takes from `vec.hpp`, `<cmath>` and
`math_utils.hpp`, none of which is among the sources at hand: the `m_Vec3` operators
`-`, `+=` and `*` (the dot product), `mVec3Cross`, `Normalize`, `SquareLength`, `acos`,
`atan2`, the float `+` and `/`, and the constants `Constants::pi` and
`Constants::two_pi`.  Their results are rounded floats, so they are parameters of
`CalculateNormals`; a float is a rational number here. -/
structure FloatOps where
  sub : m_Vec3 → m_Vec3 → m_Vec3
  add : m_Vec3 → m_Vec3 → m_Vec3
  dot : m_Vec3 → m_Vec3 → ℚ
  mVec3Cross : m_Vec3 → m_Vec3 → m_Vec3
  Normalize : m_Vec3 → m_Vec3
  SquareLength : m_Vec3 → ℚ
  acos : ℚ → ℚ
  atan2 : ℚ → ℚ → ℚ
  plus : ℚ → ℚ → ℚ
  div : ℚ → ℚ → ℚ
  pi : ℚ
  two_pi : ℚ

/-- Modelled from the spec: `m_Vec3::operator!=` of `vec.hpp`, which is not among the
sources at hand; two vectors differ when they differ in a component. -/
def m_Vec3.ne (a b : m_Vec3) : Bool :=
  decide (a.x ≠ b.x ∨ a.y ≠ b.y ∨ a.z ≠ b.z)

/-- Constant `normals_dot_limit`, the `float` written `0.7f`: the nearest float to
7/10, with a 24-bit significand. -/
def normals_dot_limit : ℚ := 11744051 / 16777216

/-- Conversion `(unsigned short)x` of a float `x`: the fraction is dropped.  For a value
outside the range of the type the conversion is undefined in C++; here it wraps. -/
def floatToUShort (x : ℚ) : Nat := u16 ⌊x⌋.toNat

/-- Conversion `(short)x` of an `unsigned short`. -/
def s16 (x : Nat) : Int :=
  if u16 x < 2 ^ 15 then (u16 x : Int) else (u16 x : Int) - 2 ^ 16

/-- The expression `(unsigned short)(theta * 64.f) | (unsigned short)(phi * 64.f) << 8`
as assigned to the `unsigned short packed_normal`: the shift binds tighter than the
`|`, both are done in `int`.  The product of a float and 64 is exact. -/
def packNormal (theta phi : ℚ) : Nat :=
  u16 (floatToUShort (theta * 64) ||| (floatToUShort (phi * 64) <<< 8))

/-- The expression `vert.pos[0] + vert.pos[1] + vert.pos[2]`, an `int` sum of three
`short`, as assigned to the `unsigned short hash`. -/
def vertexHash (pos : Int × Int × Int) : Nat :=
  ((pos.1 + pos.2.1 + pos.2.2) % 2 ^ 16).toNat

/-- The initialiser of `first_index`: an `unsigned int` sum times a `size_t` times
`3u`, converted to `unsigned short`. -/
def firstIndex (submodel : Submodel) (anim : Animation) (frame : Nat) : Nat :=
  u16 (usize (usize (u32 (anim.first_frame + frame) * submodel.vertices.length) * 3))

/-- The body of the loop that fills the unpacked vertices, for the entry `index` of an
index list.  The slot `first_index + index` is an `int` sum; a slot past the end of
`animations_vertices`, undefined in C++, reads as a value-initialised entry. -/
def unpackVertex (submodel : Submodel) (first_index index : Nat) : UnpackedVertex :=
  let vert := submodel.animations_vertices.getD (first_index + index) default
  { index := index
    hash := vertexHash vert.pos
    pos_v3 := ⟨vert.pos.1, vert.pos.2.1, vert.pos.2.2⟩
    face_normal := default
    smoothed_normal := default
    packed_normal := 0 }

/-- One `pass` of the loop that fills the unpacked vertices: pass 0 takes the
transparent index list, pass 1 the regular one. -/
def unpackPass (submodel : Submodel) (first_index : Nat) (vertices : List UnpackedVertex)
    (pass : Nat) : Except LoadError (List UnpackedVertex) := do
  let indices :=
    if pass ≠ 0 then submodel.regular_triangles_indeces
    else submodel.transparent_triangles_indeces
  PC_ASSERT (vertices.length % 3 == 0)
  pure (vertices ++ indices.map (unpackVertex submodel first_index))

/-- One iteration of the loop `for( v < vertices.size(); v+=3 )` that calculates the
face normals.  An entry past the end of `vertices`, undefined in C++, reads as a
value-initialised one and is not stored. -/
def faceNormalStep (ops : FloatOps) (vertices : List UnpackedVertex) (v : Nat) :
    List UnpackedVertex :=
  let v1 := vertices.getD v default
  let v2 := vertices.getD (v + 1) default
  let v3 := vertices.getD (v + 2) default
  let e1 := ops.sub v2.pos_v3 v1.pos_v3
  let e2 := ops.sub v3.pos_v3 v1.pos_v3
  let normal := ops.Normalize (ops.mVec3Cross e1 e2)
  let vertices := vertices.set v { v1 with face_normal := normal, smoothed_normal := normal }
  let vertices :=
    vertices.set (v + 1) { v2 with face_normal := normal, smoothed_normal := normal }
  vertices.set (v + 2) { v3 with face_normal := normal, smoothed_normal := normal }

/-- The loop that calculates the face normals: `v` is 0, 3, 6, ... below the size. -/
def faceNormals (ops : FloatOps) (vertices : List UnpackedVertex) : List UnpackedVertex :=
  ((List.range ((vertices.length + 2) / 3)).map (fun t => t * 3)).foldl
    (faceNormalStep ops) vertices

/-- The body of the inner smoothing loop for the pair `vert1 = vertices[v]`,
`vert2 = vertices[v2]`. -/
def smoothPair (ops : FloatOps) (vertices : List UnpackedVertex) (v v2 : Nat) :
    List UnpackedVertex :=
  let vert1 := vertices.getD v default
  let vert2 := vertices.getD v2 default
  if vert1.hash ≠ vert2.hash ∨ vert1.pos_v3.ne vert2.pos_v3 = true then
    vertices -- positions are not same
  else if ops.dot vert1.face_normal vert2.face_normal > normals_dot_limit then
    vertices -- normals are so different
  else
    let vertices :=
      vertices.set v
        { vert1 with smoothed_normal := ops.add vert1.smoothed_normal vert2.face_normal }
    vertices.set v2
      { vert2 with smoothed_normal := ops.add vert2.smoothed_normal vert1.face_normal }

/-- The end of the body of the outer smoothing loop: `vert1.smoothed_normal` is
normalised and packed. -/
def finishVertex (ops : FloatOps) (vertices : List UnpackedVertex) (v : Nat) :
    List UnpackedVertex :=
  let vert1 := vertices.getD v default
  if ops.SquareLength vert1.smoothed_normal ≥ 0 then
    let smoothed_normal := ops.Normalize vert1.smoothed_normal
    -- normalized spherical coordinates
    let theta := ops.div (ops.acos smoothed_normal.z) ops.pi
    let phi := ops.div (ops.plus (ops.atan2 smoothed_normal.y smoothed_normal.x) ops.pi) ops.two_pi
    -- pack normal in one short int
    vertices.set v
      { vert1 with smoothed_normal := smoothed_normal, packed_normal := packNormal theta phi }
  else vertices

/-- One iteration of the outer smoothing loop: `v2` runs from `v + 3` to the size. -/
def smoothStep (ops : FloatOps) (vertices : List UnpackedVertex) (v : Nat) :
    List UnpackedVertex :=
  finishVertex ops
    ((List.range' (v + 3) (vertices.length - (v + 3))).foldl
      (fun vertices v2 => smoothPair ops vertices v v2) vertices)
    v

/-- The loop that smooths the normals by same vertices position and angle. -/
def smoothNormals (ops : FloatOps) (vertices : List UnpackedVertex) : List UnpackedVertex :=
  (List.range vertices.length).foldl (smoothStep ops) vertices

/-- One iteration of the loop that applies the result.  A store to a slot past the end
of `animations_vertices`, undefined in C++, is dropped. -/
def applyStep (first_index : Nat) (animations_vertices : List AnimationVertex)
    (unpacked : UnpackedVertex) : List AnimationVertex :=
  let slot := first_index + unpacked.index
  animations_vertices.set slot
    { animations_vertices.getD slot default with normal0 := s16 unpacked.packed_normal }

/-- The body of the loop over the frames of an animation in `CalculateNormals`. -/
def calculateFrameNormals (ops : FloatOps) (submodel : Submodel) (anim : Animation)
    (frame : Nat) : Except LoadError Submodel := do
  let first_index := firstIndex submodel anim frame
  -- fill unpacked vertices array
  let vertices ← [0, 1].foldlM (unpackPass submodel first_index) []
  -- calculate face normals
  let vertices := faceNormals ops vertices
  -- smooth normals by same vertices position and angle
  let vertices := smoothNormals ops vertices
  -- apply result
  pure { submodel with
    animations_vertices := vertices.foldl (applyStep first_index) submodel.animations_vertices }

/-- The body of the loop over the submodels in `CalculateNormals`: the loops over the
animations of a submodel and over the frames of each. -/
def calculateSubmodelNormals (ops : FloatOps) (submodel : Submodel) :
    Except LoadError Submodel :=
  submodel.animations.foldlM
    (fun submodel anim =>
      (List.range anim.frame_count).foldlM
        (fun submodel frame => calculateFrameNormals ops submodel anim frame) submodel)
    submodel

/-- The loop over the submodels in `CalculateNormals`. -/
def calculateSubmodelsNormals (ops : FloatOps) : List Submodel → Except LoadError (List Submodel)
  | [] => pure []
  | submodel :: rest => do
    let submodel ← calculateSubmodelNormals ops submodel
    let rest ← calculateSubmodelsNormals ops rest
    pure (submodel :: rest)

/-- Function `CalculateNormals`.  It goes over `model.submodels` only; the loop counters
are `unsigned int` and stay below the sizes of the vectors they index. -/
def CalculateNormals (ops : FloatOps) (model : Model) : Except LoadError Model := do
  let submodels ← calculateSubmodelsNormals ops model.submodels
  pure { model with submodels := submodels }

/-- Slot `j` of `animations_vertices` is one that `CalculateNormals` addresses in the
submodel: `first_index + index` for a frame of an animation and an entry `index` of an
index list. -/
def Submodel.Addressed (submodel : Submodel) (j : Nat) : Prop :=
  ∃ anim ∈ submodel.animations, ∃ frame, frame < anim.frame_count ∧
    ∃ index ∈ submodel.transparent_triangles_indeces ++ submodel.regular_triangles_indeces,
      j = firstIndex submodel anim frame + index

/-- Sample float operations: the vector operations are exact; `Normalize` divides by the
sum of the absolute values and `acos` and `atan2` are piecewise linear, which is exact
for a vector along an axis, with 22/7 for pi. -/
def sampleFloatOps : FloatOps where
  sub a b := ⟨a.x - b.x, a.y - b.y, a.z - b.z⟩
  add a b := ⟨a.x + b.x, a.y + b.y, a.z + b.z⟩
  dot a b := a.x * b.x + a.y * b.y + a.z * b.z
  mVec3Cross a b := ⟨a.y * b.z - a.z * b.y, a.z * b.x - a.x * b.z, a.x * b.y - a.y * b.x⟩
  Normalize a :=
    ⟨a.x / (abs a.x + abs a.y + abs a.z), a.y / (abs a.x + abs a.y + abs a.z),
     a.z / (abs a.x + abs a.y + abs a.z)⟩
  SquareLength a := a.x * a.x + a.y * a.y + a.z * a.z
  acos z := 22 / 7 * (1 - z) / 2
  atan2 y x := if y = 0 then (if x < 0 then 22 / 7 else 0) else if 0 < y then 11 / 7 else -11 / 7
  plus a b := a + b
  div a b := a / b
  pi := 22 / 7
  two_pi := 44 / 7

/-- A submodel of 4 vertices in each of 2 frames with one triangle over the vertices 1,
2 and 3, laid out as `prepare_model` does: 3 corners with these vertex ids, the regular
indices 2, 1, 0 and 2 * 4 animation vertices.  The fields that `CalculateNormals` does
not read are left empty. -/
def sampleNormalsSubmodel : Submodel :=
  { (default : Submodel) with
    animations := [⟨0, 0, 2⟩]
    frame_count := 2
    vertices :=
      [{ (default : Vertex) with vertex_id := 1 }, { (default : Vertex) with vertex_id := 2 },
       { (default : Vertex) with vertex_id := 3 }]
    regular_triangles_indeces := [2, 1, 0]
    animations_vertices :=
      [⟨(0, 0, 0), 0⟩, ⟨(1, 0, 0), 0⟩, ⟨(0, 1, 0), 0⟩, ⟨(0, 0, 1), 0⟩,
       ⟨(0, 0, 0), 0⟩, ⟨(2, 0, 0), 0⟩, ⟨(0, 2, 0), 0⟩, ⟨(0, 0, 2), 0⟩] }

/-- A model with `sampleNormalsSubmodel` for its only submodel. -/
def sampleNormalsModel : Model :=
  { (default : Model) with submodels := [sampleNormalsSubmodel] }

/-- Submodel `t` is submodel `s` up to the `normal[0]` fields of the slots of
`animations_vertices` that `CalculateNormals` addresses in `s`. -/
def Submodel.NormalsOnly (s t : Submodel) : Prop :=
  t.animations = s.animations ∧ t.frame_count = s.frame_count ∧ t.vertices = s.vertices ∧
    t.regular_triangles_indeces = s.regular_triangles_indeces ∧
    t.transparent_triangles_indeces = s.transparent_triangles_indeces ∧
    t.animations_bboxes = s.animations_bboxes ∧ t.z_min = s.z_min ∧ t.z_max = s.z_max ∧
    t.animations_vertices.length = s.animations_vertices.length ∧
    t.animations_vertices.map (fun a => a.pos) = s.animations_vertices.map (fun a => a.pos) ∧
    ∀ j, ¬ s.Addressed j → t.animations_vertices[j]? = s.animations_vertices[j]?

/-- The submodel `sampleNormalsSubmodel` with the packed normal 8256 in the slots 0, 1
and 2 of its `animations_vertices`. -/
def sampleNormalsResult : Submodel :=
  { sampleNormalsSubmodel with
    animations_vertices :=
      [⟨(0, 0, 0), 8256⟩, ⟨(1, 0, 0), 8256⟩, ⟨(0, 1, 0), 8256⟩, ⟨(0, 0, 1), 0⟩,
       ⟨(0, 0, 0), 0⟩, ⟨(2, 0, 0), 0⟩, ⟨(0, 2, 0), 0⟩, ⟨(0, 0, 2), 0⟩] }

/-- Two triangles of vertex instances with their face normals calculated: the instances
0 and 3 have the same position and hash, and both triangles, which lie in the plane
`z = 0`, have the face normal (0, 0, 1). -/
def sampleParallelInstances : List UnpackedVertex :=
  [⟨0, 0, ⟨0, 0, 0⟩, ⟨0, 0, 1⟩, ⟨0, 0, 1⟩, 0⟩, ⟨1, 1, ⟨1, 0, 0⟩, ⟨0, 0, 1⟩, ⟨0, 0, 1⟩, 0⟩,
   ⟨2, 1, ⟨0, 1, 0⟩, ⟨0, 0, 1⟩, ⟨0, 0, 1⟩, 0⟩, ⟨3, 0, ⟨0, 0, 0⟩, ⟨0, 0, 1⟩, ⟨0, 0, 1⟩, 0⟩,
   ⟨4, 2, ⟨2, 0, 0⟩, ⟨0, 0, 1⟩, ⟨0, 0, 1⟩, 0⟩, ⟨5, 2, ⟨0, 2, 0⟩, ⟨0, 0, 1⟩, ⟨0, 0, 1⟩, 0⟩]

/-- Two triangles of vertex instances with their face normals calculated: the instances
0 and 3 have the same position and hash, the first triangle lies in the plane `z = 0`
and has the face normal (0, 0, 1), the second one lies in the plane `x = 0` and has the
face normal (1, 0, 0). -/
def samplePerpendicularInstances : List UnpackedVertex :=
  [⟨0, 0, ⟨0, 0, 0⟩, ⟨0, 0, 1⟩, ⟨0, 0, 1⟩, 0⟩, ⟨1, 1, ⟨1, 0, 0⟩, ⟨0, 0, 1⟩, ⟨0, 0, 1⟩, 0⟩,
   ⟨2, 1, ⟨0, 1, 0⟩, ⟨0, 0, 1⟩, ⟨0, 0, 1⟩, 0⟩, ⟨3, 0, ⟨0, 0, 0⟩, ⟨1, 0, 0⟩, ⟨1, 0, 0⟩, 0⟩,
   ⟨4, 1, ⟨0, 1, 0⟩, ⟨1, 0, 0⟩, ⟨1, 0, 0⟩, 0⟩, ⟨5, 1, ⟨0, 0, 1⟩, ⟨1, 0, 0⟩, ⟨1, 0, 0⟩, 0⟩]

/-! ## The smoothing pass with the match on the positions alone -/

/-- The body of the inner smoothing loop as the specification words the match: a pair
is skipped when the positions differ; the hashes are not looked at.  The rest is the
body of `smoothPair`. -/
def smoothPairByPosition (ops : FloatOps) (vertices : List UnpackedVertex) (v v2 : Nat) :
    List UnpackedVertex :=
  let vert1 := vertices.getD v default
  let vert2 := vertices.getD v2 default
  if vert1.pos_v3.ne vert2.pos_v3 = true then
    vertices
  else if ops.dot vert1.face_normal vert2.face_normal > normals_dot_limit then
    vertices
  else
    let vertices :=
      vertices.set v
        { vert1 with smoothed_normal := ops.add vert1.smoothed_normal vert2.face_normal }
    vertices.set v2
      { vert2 with smoothed_normal := ops.add vert2.smoothed_normal vert1.face_normal }

/-- The function `smoothStep` with `smoothPairByPosition` for `smoothPair`. -/
def smoothStepByPosition (ops : FloatOps) (vertices : List UnpackedVertex) (v : Nat) :
    List UnpackedVertex :=
  finishVertex ops
    ((List.range' (v + 3) (vertices.length - (v + 3))).foldl
      (fun vertices v2 => smoothPairByPosition ops vertices v v2) vertices)
    v

/-- The function `smoothNormals` with `smoothStepByPosition` for `smoothStep`. -/
def smoothNormalsByPosition (ops : FloatOps) (vertices : List UnpackedVertex) :
    List UnpackedVertex :=
  (List.range vertices.length).foldl (smoothStepByPosition ops) vertices

/-- The hash and the float position of the vertex instance are those of one raw
position, as `unpackVertex` sets them. -/
def UnpackedVertex.FromPosition (u : UnpackedVertex) : Prop :=
  ∃ pos : Int × Int × Int, u.hash = vertexHash pos ∧ u.pos_v3 = ⟨pos.1, pos.2.1, pos.2.2⟩

/-- A submodel of 4 vertices in 1 frame with one triangle over the vertices 1, 2 and 3,
laid out as `prepare_model` does: 3 corners with these vertex ids, the regular indices
2, 1, 0 and 1 * 4 animation vertices, all with the packed normal 0.  Vertex 0 is the
vertex of no corner.  The fields that `CalculateNormals` does not read are left empty. -/
def sampleOneFrameSubmodel : Submodel :=
  { (default : Submodel) with
    animations := [⟨0, 0, 1⟩]
    frame_count := 1
    vertices :=
      [{ (default : Vertex) with vertex_id := 1 }, { (default : Vertex) with vertex_id := 2 },
       { (default : Vertex) with vertex_id := 3 }]
    regular_triangles_indeces := [2, 1, 0]
    animations_vertices := [⟨(0, 0, 0), 0⟩, ⟨(1, 0, 0), 0⟩, ⟨(0, 1, 0), 0⟩, ⟨(0, 0, 1), 0⟩] }

/-- A model with `sampleOneFrameSubmodel` for its only submodel. -/
def sampleOneFrameModel : Model :=
  { (default : Model) with submodels := [sampleOneFrameSubmodel] }

/-! ## Helper lemmas: vectors -/

theorem length_zeros (n : Nat) : (zeros n).length = n := by simp [zeros]

theorem rdU8_zeros (n off : Nat) : rdU8 (zeros n) off = 0 := by
  unfold rdU8 zeros
  rw [List.getD_eq_getElem?_getD, List.getElem?_replicate]
  split <;> simp

theorem rdU8_append_right (a b : List Nat) (n k : Nat) (h : a.length = n) :
    rdU8 (a ++ b) (n + k) = rdU8 b k := by
  unfold rdU8
  rw [List.getD_eq_getElem?_getD, List.getD_eq_getElem?_getD,
    List.getElem?_append_right (by omega)]
  simp [h]

theorem rdU8_append_left (a b : List Nat) (off : Nat) (h : off < a.length) :
    rdU8 (a ++ b) off = rdU8 a off := by
  unfold rdU8
  rw [List.getD_eq_getElem?_getD, List.getD_eq_getElem?_getD, List.getElem?_append_left h]

theorem rdU8_cons_zero (x : Nat) (a : List Nat) : rdU8 (x :: a) 0 = x % 256 := by
  simp [rdU8]

theorem rdU8_cons_succ (x : Nat) (a : List Nat) (off : Nat) :
    rdU8 (x :: a) (off + 1) = rdU8 a off := by
  simp [rdU8]

theorem rdU8_lt (buf : FileContent) (off : Nat) : rdU8 buf off < 256 :=
  Nat.mod_lt _ (by decide)

theorem rdU16_lt (buf : FileContent) (off : Nat) : rdU16 buf off < 2 ^ 16 := by
  have h0 := rdU8_lt buf off
  have h1 := rdU8_lt buf (off + 1)
  unfold rdU16
  omega

theorem length_rdBytes (buf : FileContent) (off n : Nat) : (rdBytes buf off n).length = n := by
  simp [rdBytes]


theorem vecResize_grow {α : Type} (xs : List α) (k : Nat) (d : α) :
    vecResize xs (xs.length + k) d = xs ++ List.replicate k d := by
  simp [vecResize, List.take_of_length_le]

theorem length_vecResize {α : Type} (xs : List α) (n : Nat) (d : α) :
    (vecResize xs n d).length = n := by
  simp only [vecResize, List.length_append, List.length_take, List.length_replicate]
  omega

theorem set_append_at {α : Type} (xs ys : List α) (i : Nat) (a : α) :
    (xs ++ ys).set (xs.length + i) a = xs ++ ys.set i a := by
  rw [List.set_append_right _ _ (by omega)]
  simp

/-! ## Helper lemmas: one iteration of the polygon loop -/

theorem writeIndeces_eq (vertex_count : Nat) (polygon : Polygon_o3) (dst : List Nat) (b : Nat) :
    writeIndeces vertex_count polygon dst b =
      dst ++
        ((if polygon_is_triangle vertex_count polygon then [u16 (b + 2), u16 (b + 1), u16 (b + 0)]
          else [u16 (b + 2), u16 (b + 1), u16 (b + 0), u16 (b + 0), u16 (b + 3), u16 (b + 2)]) ++
         (if polygon_is_twosided polygon then
            (if polygon_is_triangle vertex_count polygon then
               [u16 (b + 0), u16 (b + 1), u16 (b + 2)]
             else [u16 (b + 0), u16 (b + 1), u16 (b + 2), u16 (b + 2), u16 (b + 3), u16 (b + 0)])
          else [])) := by
  unfold writeIndeces polygon_index_count
  cases polygon_is_triangle vertex_count polygon <;> cases polygon_is_twosided polygon <;>
    simp [vecResize_grow, set_append_at, List.replicate, Nat.add_assoc]

theorem writeCorners_eq (fmt : CornerFormat) (vertex_count : Nat) (polygon : Polygon_o3)
    (vertices : List Vertex) :
    writeCorners fmt vertex_count polygon vertices vertices.length =
      vertices ++
        (if polygon_is_triangle vertex_count polygon then
           [cornerVertex fmt polygon 0, cornerVertex fmt polygon 1, cornerVertex fmt polygon 2]
         else
           [cornerVertex fmt polygon 0, cornerVertex fmt polygon 1, cornerVertex fmt polygon 2,
            cornerVertex fmt polygon 3]) := by
  unfold writeCorners polygon_vertex_count
  cases polygon_is_triangle vertex_count polygon <;>
    simp [vecResize_grow, set_append_at, List.replicate]

theorem length_writeCorners (fmt : CornerFormat) (vertex_count : Nat) (polygon : Polygon_o3)
    (vertices : List Vertex) (first : Nat) :
    (writeCorners fmt vertex_count polygon vertices first).length =
      vertices.length + polygon_vertex_count vertex_count polygon := by
  unfold writeCorners
  cases polygon_is_triangle vertex_count polygon <;> simp [length_vecResize]

theorem polygonStep_snd (fmt : CornerFormat) (vertex_count : Nat) (st : Submodel × Nat)
    (polygon : Polygon_o3) :
    (polygonStep fmt vertex_count st polygon).2 =
      st.2 + polygon_vertex_count vertex_count polygon := by
  simp [polygonStep]

theorem polygonStep_vertices (fmt : CornerFormat) (vertex_count : Nat) (st : Submodel × Nat)
    (polygon : Polygon_o3) :
    (polygonStep fmt vertex_count st polygon).1.vertices =
      writeCorners fmt vertex_count polygon st.1.vertices st.2 := by
  unfold polygonStep
  cases transparent polygon <;> simp

theorem polygonStep_regular (fmt : CornerFormat) (vertex_count : Nat) (st : Submodel × Nat)
    (polygon : Polygon_o3) :
    (polygonStep fmt vertex_count st polygon).1.regular_triangles_indeces =
      if transparent polygon then st.1.regular_triangles_indeces
      else writeIndeces vertex_count polygon st.1.regular_triangles_indeces st.2 := by
  unfold polygonStep
  cases transparent polygon <;> simp

theorem polygonStep_transparent (fmt : CornerFormat) (vertex_count : Nat) (st : Submodel × Nat)
    (polygon : Polygon_o3) :
    (polygonStep fmt vertex_count st polygon).1.transparent_triangles_indeces =
      if transparent polygon then
        writeIndeces vertex_count polygon st.1.transparent_triangles_indeces st.2
      else st.1.transparent_triangles_indeces := by
  unfold polygonStep
  cases transparent polygon <;> simp

theorem polygonStep_dst (fmt : CornerFormat) (vertex_count : Nat) (st : Submodel × Nat)
    (polygon : Polygon_o3) :
    dst_indeces (polygonStep fmt vertex_count st polygon).1 polygon =
      writeIndeces vertex_count polygon (dst_indeces st.1 polygon) st.2 := by
  unfold dst_indeces
  rw [polygonStep_regular, polygonStep_transparent]
  cases transparent polygon <;> simp

theorem polygon_is_triangle_iff (vertex_count : Nat) (polygon : Polygon_o3) :
    polygon_is_triangle vertex_count polygon = true ↔ vertex_count ≤ polygon.vertices_indeces 3 := by
  simp [polygon_is_triangle]

theorem polygon_is_twosided_iff (polygon : Polygon_o3) :
    polygon_is_twosided polygon = true ↔ polygon.flags &&& 0x01 ≠ 0 := by
  simp [polygon_is_twosided, Polygon_o3.Flags.Twosided]

theorem transparent_iff (polygon : Polygon_o3) :
    transparent polygon = true ↔ polygon.flags &&& 0x0C ≠ 0 := by
  have h : Polygon_o3.Flags.Translucent = 0x0C := by decide
  simp [transparent, h]

theorem polygon_vertex_count_eq (vertex_count : Nat) (polygon : Polygon_o3) :
    polygon_vertex_count vertex_count polygon =
      if vertex_count ≤ polygon.vertices_indeces 3 then 3 else 4 := by
  unfold polygon_vertex_count
  by_cases h1 : vertex_count ≤ polygon.vertices_indeces 3
  · rw [if_pos h1, if_pos ((polygon_is_triangle_iff _ _).mpr h1)]
  · rw [if_neg h1, if_neg (mt (polygon_is_triangle_iff _ _).mp h1)]

theorem polygon_index_count_eq (vertex_count : Nat) (polygon : Polygon_o3) :
    polygon_index_count vertex_count polygon =
      if vertex_count ≤ polygon.vertices_indeces 3 then
        (if polygon.flags &&& 0x01 ≠ 0 then 6 else 3)
      else (if polygon.flags &&& 0x01 ≠ 0 then 12 else 6) := by
  unfold polygon_index_count
  by_cases h1 : vertex_count ≤ polygon.vertices_indeces 3 <;>
    by_cases h2 : polygon.flags &&& 0x01 ≠ 0
  · rw [if_pos h1, if_pos h2, if_pos ((polygon_is_triangle_iff _ _).mpr h1),
      if_pos ((polygon_is_twosided_iff _).mpr h2)]
  · rw [if_pos h1, if_neg h2, if_pos ((polygon_is_triangle_iff _ _).mpr h1),
      if_neg (mt (polygon_is_twosided_iff _).mp h2)]
  · rw [if_neg h1, if_pos h2, if_neg (mt (polygon_is_triangle_iff _ _).mp h1),
      if_pos ((polygon_is_twosided_iff _).mpr h2)]
  · rw [if_neg h1, if_neg h2, if_neg (mt (polygon_is_triangle_iff _ _).mp h1),
      if_neg (mt (polygon_is_twosided_iff _).mp h2)]

theorem length_writeIndeces (vertex_count : Nat) (polygon : Polygon_o3) (dst : List Nat)
    (b : Nat) :
    (writeIndeces vertex_count polygon dst b).length =
      dst.length + polygon_index_count vertex_count polygon := by
  rw [writeIndeces_eq]
  unfold polygon_index_count
  cases polygon_is_triangle vertex_count polygon <;> cases polygon_is_twosided polygon <;> simp

theorem foldl_polygonStep_snd (fmt : CornerFormat) (vertex_count : Nat)
    (polygons : List Polygon_o3) (st : Submodel × Nat) :
    (polygons.foldl (polygonStep fmt vertex_count) st).2 =
      st.2 + (polygons.map (polygon_vertex_count vertex_count)).sum := by
  induction polygons generalizing st with
  | nil => simp
  | cons p ps ih =>
    rw [List.foldl_cons, ih, polygonStep_snd, List.map_cons, List.sum_cons]
    omega

theorem foldl_replicate_polygonStep_snd (fmt : CornerFormat) (vertex_count : Nat)
    (polygon : Polygon_o3) (n : Nat) (st : Submodel × Nat) :
    ((List.replicate n polygon).foldl (polygonStep fmt vertex_count) st).2 =
      st.2 + n * polygon_vertex_count vertex_count polygon := by
  induction n generalizing st with
  | zero => simp
  | succ n ih =>
    rw [List.replicate_succ, List.foldl_cons, ih, polygonStep_snd]
    ring

theorem u16_of_lt {x : Nat} (h : x < 2 ^ 16) : u16 x = x :=
  Nat.mod_eq_of_lt h

theorem alpha_test_mask_eq (polygon : Polygon_o3) :
    alpha_test_mask polygon =
      if polygon.flags &&& 0x0C ≠ 0 ∨ polygon.flags &&& 0x02 ≠ 0 then 255 else 0 := by
  have h : Polygon_o3.Flags.Translucent = 0x0C := by decide
  unfold alpha_test_mask transparent
  rw [h]
  simp [Polygon_o3.Flags.AlphaTested]

theorem polygonStep_vertices_append (fmt : CornerFormat) (vertex_count : Nat)
    (st : Submodel × Nat) (polygon : Polygon_o3) (h : st.2 = st.1.vertices.length) :
    (polygonStep fmt vertex_count st polygon).1.vertices =
      st.1.vertices ++
        (if vertex_count ≤ polygon.vertices_indeces 3 then
           [cornerVertex fmt polygon 0, cornerVertex fmt polygon 1, cornerVertex fmt polygon 2]
         else
           [cornerVertex fmt polygon 0, cornerVertex fmt polygon 1, cornerVertex fmt polygon 2,
            cornerVertex fmt polygon 3]) := by
  rw [polygonStep_vertices, h, writeCorners_eq]
  by_cases h1 : vertex_count ≤ polygon.vertices_indeces 3
  · rw [if_pos h1, if_pos ((polygon_is_triangle_iff _ _).mpr h1)]
  · rw [if_neg h1, if_neg (mt (polygon_is_triangle_iff _ _).mp h1)]

theorem foldl_polygonStep_preserved {α : Type} (f : Submodel → α) (fmt : CornerFormat)
    (vertex_count : Nat)
    (hf : ∀ (st : Submodel × Nat) (p : Polygon_o3), f (polygonStep fmt vertex_count st p).1 = f st.1)
    (polygons : List Polygon_o3) (st : Submodel × Nat) :
    f (polygons.foldl (polygonStep fmt vertex_count) st).1 = f st.1 := by
  induction polygons generalizing st with
  | nil => rfl
  | cons p ps ih => rw [List.foldl_cons, ih, hf]

theorem polygonLoop_animations (fmt : CornerFormat) (vertex_count : Nat)
    (polygons : List Polygon_o3) (out : Submodel) :
    (polygonLoop fmt vertex_count polygons out).animations = out.animations :=
  foldl_polygonStep_preserved (fun s => s.animations) fmt vertex_count
    (fun st p => by unfold polygonStep; cases transparent p <;> rfl) polygons (out, 0)

theorem polygonLoop_frame_count (fmt : CornerFormat) (vertex_count : Nat)
    (polygons : List Polygon_o3) (out : Submodel) :
    (polygonLoop fmt vertex_count polygons out).frame_count = out.frame_count :=
  foldl_polygonStep_preserved (fun s => s.frame_count) fmt vertex_count
    (fun st p => by unfold polygonStep; cases transparent p <;> rfl) polygons (out, 0)

theorem polygonLoop_animations_vertices (fmt : CornerFormat) (vertex_count : Nat)
    (polygons : List Polygon_o3) (out : Submodel) :
    (polygonLoop fmt vertex_count polygons out).animations_vertices = out.animations_vertices :=
  foldl_polygonStep_preserved (fun s => s.animations_vertices) fmt vertex_count
    (fun st p => by unfold polygonStep; cases transparent p <;> rfl) polygons (out, 0)

theorem polygonLoop_animations_bboxes (fmt : CornerFormat) (vertex_count : Nat)
    (polygons : List Polygon_o3) (out : Submodel) :
    (polygonLoop fmt vertex_count polygons out).animations_bboxes = out.animations_bboxes :=
  foldl_polygonStep_preserved (fun s => s.animations_bboxes) fmt vertex_count
    (fun st p => by unfold polygonStep; cases transparent p <;> rfl) polygons (out, 0)

theorem polygonLoop_z (fmt : CornerFormat) (vertex_count : Nat)
    (polygons : List Polygon_o3) (out : Submodel) :
    (polygonLoop fmt vertex_count polygons out).z_min = out.z_min ∧
      (polygonLoop fmt vertex_count polygons out).z_max = out.z_max :=
  ⟨foldl_polygonStep_preserved (fun s => s.z_min) fmt vertex_count
      (fun st p => by unfold polygonStep; cases transparent p <;> rfl) polygons (out, 0),
    foldl_polygonStep_preserved (fun s => s.z_max) fmt vertex_count
      (fun st p => by unfold polygonStep; cases transparent p <;> rfl) polygons (out, 0)⟩

theorem foldl_polygonStep_invariant (fmt : CornerFormat) (vertex_count : Nat)
    (polygons : List Polygon_o3) (st : Submodel × Nat) (h : st.2 = st.1.vertices.length) :
    (polygons.foldl (polygonStep fmt vertex_count) st).2 =
      (polygons.foldl (polygonStep fmt vertex_count) st).1.vertices.length := by
  induction polygons generalizing st with
  | nil => exact h
  | cons p ps ih =>
    rw [List.foldl_cons]
    apply ih
    rw [polygonStep_snd, polygonStep_vertices, length_writeCorners, h]

theorem foldl_polygonStep_vertices_cons (fmt : CornerFormat) (vertex_count : Nat)
    (p : Polygon_o3) (ps : List Polygon_o3) (out : Submodel) (hv : out.vertices = []) :
    ∃ rest : List Vertex,
      (polygonLoop fmt vertex_count (p :: ps) out).vertices =
        cornerVertex fmt p 0 :: cornerVertex fmt p 1 :: cornerVertex fmt p 2 :: rest := by
  have key : ∀ (qs : List Polygon_o3) (st : Submodel × Nat) (pre : List Vertex),
      st.2 = st.1.vertices.length → (∃ r, st.1.vertices = pre ++ r) →
      ∃ r, (qs.foldl (polygonStep fmt vertex_count) st).1.vertices = pre ++ r := by
    intro qs
    induction qs with
    | nil => intro st pre _ h; exact h
    | cons q qs ih =>
      intro st pre hst hpre
      rw [List.foldl_cons]
      obtain ⟨r, hr⟩ := hpre
      apply ih
      · rw [polygonStep_snd, polygonStep_vertices, length_writeCorners, hst]
      · rw [polygonStep_vertices_append fmt vertex_count st q hst, hr, List.append_assoc]
        exact ⟨_, rfl⟩
  have h0 : ((out, 0) : Submodel × Nat).2 = ((out, 0) : Submodel × Nat).1.vertices.length := by
    simp [hv]
  have h1 := polygonStep_vertices_append fmt vertex_count (out, 0) p h0
  have hs : (polygonStep fmt vertex_count (out, 0) p).2 =
      (polygonStep fmt vertex_count (out, 0) p).1.vertices.length := by
    rw [polygonStep_snd, polygonStep_vertices, length_writeCorners, h0]
  obtain ⟨r, hr⟩ := key ps (polygonStep fmt vertex_count (out, 0) p)
    [cornerVertex fmt p 0, cornerVertex fmt p 1, cornerVertex fmt p 2] hs (by
      rw [h1]
      simp only [hv, List.nil_append]
      split
      · exact ⟨[], rfl⟩
      · exact ⟨[cornerVertex fmt p 3], rfl⟩)
  exact ⟨r, by unfold polygonLoop; rw [List.foldl_cons, hr]; rfl⟩

/-! ## Helper lemmas: the O3 decoder -/

theorem CalculateModelZ_preserved {α : Type} (f : Model → α)
    (hf : ∀ (m : Model) (a b : ℚ), f { m with z_max := a, z_min := b } = f m)
    (c : Constants) (model : Model) (buf : FileContent) (off vertex_count : Nat) :
    f (CalculateModelZ c model buf off vertex_count) = f model := by
  unfold CalculateModelZ
  have key : ∀ (l : List Nat) (m : Model),
      f (l.foldl (fun m v =>
        { m with
          z_max := Max.max m.z_max
            (((readVertex buf off v).xyz.2.2 : ℚ) * g_3o_model_coords_scale),
          z_min := Min.min m.z_min
            (((readVertex buf off v).xyz.2.2 : ℚ) * g_3o_model_coords_scale) }) m) = f m := by
    intro l
    induction l with
    | nil => intro m; rfl
    | cons v vs ih => intro m; rw [List.foldl_cons, ih, hf]
  rw [key, hf]

theorem LoadModel_o3_ok_iff (c : Constants) (model_file animation_file : FileContent)
    (out_model m : Model) :
    LoadModel_o3 c model_file animation_file out_model = Except.ok m ↔
      model_file.length = 64 * (rdU16 model_file 0x4804 &&& 1023) + 0x4806 ∧
      ∃ frame_count,
        o3FrameCount (rdU16 model_file 0x4800) animation_file = Except.ok frame_count ∧
        m = o3Geometry c model_file animation_file frame_count
              (CalculateModelZ c (o3Texture model_file (ClearModel out_model)) model_file 0x3200
                (rdU16 model_file 0x4800)) := by
  unfold LoadModel_o3
  simp only [bind, Except.bind, PC_ASSERT, pure, Except.pure]
  have hl : (o3Texture model_file (ClearModel out_model)).texture_data.length =
      64 * (rdU16 model_file 0x4804 &&& 1023) := by
    simp [o3Texture, length_rdBytes, g_3o_model_texture_width]
  rw [hl]
  by_cases hs : model_file.length = 64 * (rdU16 model_file 0x4804 &&& 1023) + 0x4806
  · simp only [hs, beq_self_eq_true, if_true, true_and]
    cases hf : o3FrameCount (rdU16 model_file 0x4800) animation_file with
    | error e => simp
    | ok fc =>
      simp only [Except.ok.injEq, exists_eq_left']
      constructor
      · intro h; exact h.symm
      · intro h; exact h.symm
  · have : (model_file.length == 64 * (rdU16 model_file 0x4804 &&& 1023) + 0x4806) = false := by
      simpa using hs
    simp [this, hs]

theorem o3Geometry_vertices (c : Constants) (model_file animation_file : FileContent)
    (frame_count : Nat) (out_model : Model) :
    (o3Geometry c model_file animation_file frame_count out_model).vertices =
      (polygonLoop
        (o3CornerFormat out_model.texture_size (rdU16 model_file 0x4804 &&& 0xFFFFFC00))
        (rdU16 model_file 0x4800) (readPolygons model_file 0 (rdU16 model_file 0x4802))
        { out_model.toSubmodel with
          frame_count := frame_count
          animations_vertices :=
            copyPositions (o3InVertices model_file animation_file).1
              (o3InVertices model_file animation_file).2
              (vecResize out_model.animations_vertices
                (u32 (frame_count * rdU16 model_file 0x4800)) default) }).vertices := by
  rfl

theorem o3FrameCount_nil (vertex_count : Nat) : o3FrameCount vertex_count [] = Except.ok 1 := rfl

theorem o3_start_vertices (c : Constants) (model_file : FileContent) (out_model : Model)
    (vertex_count : Nat) :
    (CalculateModelZ c (o3Texture model_file (ClearModel out_model)) model_file 0x3200
      vertex_count).vertices = [] := by
  rw [CalculateModelZ_preserved (fun m => m.vertices) (fun _ _ _ => rfl)]
  rfl

theorem sample_header (pad : List Nat) (hl : pad.length = 0x47FF) (hz : ∀ off, rdU8 pad off = 0) :
    ((7 :: pad) ++ [1, 0, 1, 0, 0, 0]).length = 0x4806 ∧
      rdU16 ((7 :: pad) ++ [1, 0, 1, 0, 0, 0]) 0x4800 = 1 ∧
      rdU16 ((7 :: pad) ++ [1, 0, 1, 0, 0, 0]) 0x4802 = 1 ∧
      rdU16 ((7 :: pad) ++ [1, 0, 1, 0, 0, 0]) 0x4804 = 0 ∧
      rdU16 ((7 :: pad) ++ [1, 0, 1, 0, 0, 0]) 0 = 7 := by
  have hlen : (7 :: pad).length = 0x4800 := by simp [hl]
  have r : ∀ k, rdU8 ((7 :: pad) ++ [1, 0, 1, 0, 0, 0]) (0x4800 + k) = rdU8 [1, 0, 1, 0, 0, 0] k :=
    fun k => rdU8_append_right _ _ _ k hlen
  have r0 := r 0
  have r1 := r 1
  have r2 := r 2
  have r3 := r 3
  have r4 := r 4
  have r5 := r 5
  norm_num [rdU8] at r0 r1 r2 r3 r4 r5
  refine ⟨by simp [hl], ?_, ?_, ?_, ?_⟩
  · simp [rdU16, rdU8, r0, r1]
  · simp [rdU16, rdU8, r2, r3]
  · simp [rdU16, rdU8, r4, r5]
  · unfold rdU16
    rw [rdU8_append_left _ _ _ (by simp [hl]), rdU8_append_left _ _ _ (by simp [hl]),
      rdU8_cons_zero, rdU8_cons_succ, hz]

theorem sampleModelFile_header :
    sampleModelFile.length = 0x4806 ∧ rdU16 sampleModelFile 0x4800 = 1 ∧
      rdU16 sampleModelFile 0x4802 = 1 ∧ rdU16 sampleModelFile 0x4804 = 0 ∧
      rdU16 sampleModelFile 0 = 7 :=
  sample_header (zeros 0x47FF) (length_zeros _) (rdU8_zeros _)

theorem o3Geometry_first_vertex_id (c : Constants) (model_file animation_file : FileContent)
    (frame_count : Nat) (out_model : Model) (hv : out_model.vertices = [])
    (hp : 0 < rdU16 model_file 0x4802) :
    ∃ v ∈ (o3Geometry c model_file animation_file frame_count out_model).vertices,
      v.vertex_id = rdU16 model_file 0 := by
  rw [o3Geometry_vertices]
  obtain ⟨n, hn⟩ : ∃ n, rdU16 model_file 0x4802 = n + 1 := ⟨rdU16 model_file 0x4802 - 1, by omega⟩
  have hps : readPolygons model_file 0 (rdU16 model_file 0x4802) =
      readPolygon model_file 0 ::
        (List.range n).map (fun p => readPolygon model_file (0 + 32 * (p + 1))) := by
    rw [hn]
    unfold readPolygons
    rw [List.range_succ_eq_map, List.map_cons, List.map_map]
    rfl
  rw [hps]
  obtain ⟨rest, hrest⟩ := foldl_polygonStep_vertices_cons
    (o3CornerFormat out_model.texture_size (rdU16 model_file 0x4804 &&& 0xFFFFFC00))
    (rdU16 model_file 0x4800) (readPolygon model_file 0)
    ((List.range n).map (fun p => readPolygon model_file (0 + 32 * (p + 1))))
    { out_model.toSubmodel with
      frame_count := frame_count
      animations_vertices :=
        copyPositions (o3InVertices model_file animation_file).1
          (o3InVertices model_file animation_file).2
          (vecResize out_model.animations_vertices
            (u32 (frame_count * rdU16 model_file 0x4800)) default) } hv
  rw [hrest]
  exact ⟨_, List.mem_cons_self _ _, rfl⟩

/-! ## Claims about one polygon record -/

/-- C1: one iteration of the polygon loop (the same for `LoadModel_o3` and for
`prepare_model`, whatever the corner format) appends 3, 6, 6 or 12 indices, for a
one-sided triangle, one-sided quad, two-sided triangle and two-sided quad, and appends
3 vertices for a triangle and 4 for a quad; a triangle is a polygon whose 4th vertex
index is at least the vertex count, a two-sided one has flag bit `0x01`. -/
theorem polygonStep_counts (fmt : CornerFormat) (vertex_count : Nat) (st : Submodel × Nat)
    (polygon : Polygon_o3) :
    (dst_indeces (polygonStep fmt vertex_count st polygon).1 polygon).length =
        (dst_indeces st.1 polygon).length +
          (if vertex_count ≤ polygon.vertices_indeces 3 then
             (if polygon.flags &&& 0x01 ≠ 0 then 6 else 3)
           else (if polygon.flags &&& 0x01 ≠ 0 then 12 else 6)) ∧
      (polygonStep fmt vertex_count st polygon).1.regular_triangles_indeces.length +
          (polygonStep fmt vertex_count st polygon).1.transparent_triangles_indeces.length =
        st.1.regular_triangles_indeces.length + st.1.transparent_triangles_indeces.length +
          (if vertex_count ≤ polygon.vertices_indeces 3 then
             (if polygon.flags &&& 0x01 ≠ 0 then 6 else 3)
           else (if polygon.flags &&& 0x01 ≠ 0 then 12 else 6)) ∧
      (polygonStep fmt vertex_count st polygon).1.vertices.length =
        st.1.vertices.length + (if vertex_count ≤ polygon.vertices_indeces 3 then 3 else 4) := by
  refine ⟨?_, ?_, ?_⟩
  · rw [polygonStep_dst, length_writeIndeces, polygon_index_count_eq]
  · rw [polygonStep_regular, polygonStep_transparent, ← polygon_index_count_eq]
    cases transparent polygon <;> simp only [if_true, if_false, Bool.false_eq_true] <;>
      rw [length_writeIndeces] <;> omega
  · rw [polygonStep_vertices, length_writeCorners, polygon_vertex_count_eq]

/-- C2, as stated, fails: after 21845 triangles the next polygon starts at vertex 65535,
and the indices stored for it are `[1, 0, 65535]`, not `[65537, 65536, 65535]`, the
index lists holding 16-bit values. -/
theorem index_block_wraps :
    ((List.replicate 21845 sampleTriangle).foldl (polygonStep (carCornerFormat (64, 64)) 3)
        (default, 0)).2 = 65535 ∧
      (polygonStep (carCornerFormat (64, 64)) 3
          ((List.replicate 21845 sampleTriangle).foldl (polygonStep (carCornerFormat (64, 64)) 3)
            (default, 0)) sampleTriangle).1.regular_triangles_indeces =
        ((List.replicate 21845 sampleTriangle).foldl (polygonStep (carCornerFormat (64, 64)) 3)
            (default, 0)).1.regular_triangles_indeces ++ [1, 0, 65535] ∧
      (polygonStep (carCornerFormat (64, 64)) 3
          ((List.replicate 21845 sampleTriangle).foldl (polygonStep (carCornerFormat (64, 64)) 3)
            (default, 0)) sampleTriangle).1.regular_triangles_indeces ≠
        ((List.replicate 21845 sampleTriangle).foldl (polygonStep (carCornerFormat (64, 64)) 3)
            (default, 0)).1.regular_triangles_indeces ++ [65535 + 2, 65535 + 1, 65535 + 0] := by
  have hv : polygon_vertex_count 3 sampleTriangle = 3 := by decide
  have h2 : ((List.replicate 21845 sampleTriangle).foldl (polygonStep (carCornerFormat (64, 64)) 3)
        (default, 0)).2 = 65535 := by
    rw [foldl_replicate_polygonStep_snd, hv]
  generalize (List.replicate 21845 sampleTriangle).foldl (polygonStep (carCornerFormat (64, 64)) 3)
        (default, 0) = st at h2 ⊢
  have ht : transparent sampleTriangle = false := by decide
  have h3 : polygon_is_triangle 3 sampleTriangle = true := by decide
  have h4 : polygon_is_twosided sampleTriangle = false := by decide
  have hb : (polygonStep (carCornerFormat (64, 64)) 3 st sampleTriangle).1.regular_triangles_indeces =
        st.1.regular_triangles_indeces ++ [1, 0, 65535] := by
    rw [polygonStep_regular, ht, writeIndeces_eq, h2, h3, h4]
    simp [u16]
  refine ⟨h2, hb, ?_⟩
  rw [hb]
  intro h
  have := List.append_cancel_left h
  simp at this

/-- C2, amended: one iteration appends to its index list the first-side block
`[b+2, b+1, b+0]` (triangle) or `[b+2, b+1, b+0, b+0, b+3, b+2]` (quad), followed for a
two-sided polygon by `[b+0, b+1, b+2]` or `[b+0, b+1, b+2, b+2, b+3, b+0]`, every value
being stored modulo `2 ^ 16`; the values are the literal ones whenever `b + 3 < 2 ^ 16`.
Here `b` is `current_vertex_index` at the start of the iteration. -/
theorem polygonStep_index_block (fmt : CornerFormat) (vertex_count : Nat) (st : Submodel × Nat)
    (polygon : Polygon_o3) :
    dst_indeces (polygonStep fmt vertex_count st polygon).1 polygon =
        dst_indeces st.1 polygon ++
          ((if vertex_count ≤ polygon.vertices_indeces 3 then
              List.map u16 [st.2 + 2, st.2 + 1, st.2 + 0]
            else List.map u16 [st.2 + 2, st.2 + 1, st.2 + 0, st.2 + 0, st.2 + 3, st.2 + 2]) ++
           (if polygon.flags &&& 0x01 ≠ 0 then
              (if vertex_count ≤ polygon.vertices_indeces 3 then
                 List.map u16 [st.2 + 0, st.2 + 1, st.2 + 2]
               else List.map u16 [st.2 + 0, st.2 + 1, st.2 + 2, st.2 + 2, st.2 + 3, st.2 + 0])
            else [])) ∧
      (st.2 + 3 < 2 ^ 16 →
        dst_indeces (polygonStep fmt vertex_count st polygon).1 polygon =
          dst_indeces st.1 polygon ++
            ((if vertex_count ≤ polygon.vertices_indeces 3 then [st.2 + 2, st.2 + 1, st.2 + 0]
              else [st.2 + 2, st.2 + 1, st.2 + 0, st.2 + 0, st.2 + 3, st.2 + 2]) ++
             (if polygon.flags &&& 0x01 ≠ 0 then
                (if vertex_count ≤ polygon.vertices_indeces 3 then [st.2 + 0, st.2 + 1, st.2 + 2]
                 else [st.2 + 0, st.2 + 1, st.2 + 2, st.2 + 2, st.2 + 3, st.2 + 0])
              else []))) := by
  have key : dst_indeces (polygonStep fmt vertex_count st polygon).1 polygon =
        dst_indeces st.1 polygon ++
          ((if vertex_count ≤ polygon.vertices_indeces 3 then
              List.map u16 [st.2 + 2, st.2 + 1, st.2 + 0]
            else List.map u16 [st.2 + 2, st.2 + 1, st.2 + 0, st.2 + 0, st.2 + 3, st.2 + 2]) ++
           (if polygon.flags &&& 0x01 ≠ 0 then
              (if vertex_count ≤ polygon.vertices_indeces 3 then
                 List.map u16 [st.2 + 0, st.2 + 1, st.2 + 2]
               else List.map u16 [st.2 + 0, st.2 + 1, st.2 + 2, st.2 + 2, st.2 + 3, st.2 + 0])
            else [])) := by
    rw [polygonStep_dst, writeIndeces_eq]
    by_cases h1 : vertex_count ≤ polygon.vertices_indeces 3 <;>
      by_cases h2 : polygon.flags &&& 0x01 ≠ 0
    · have ht := (polygon_is_triangle_iff vertex_count polygon).mpr h1
      have hs := (polygon_is_twosided_iff polygon).mpr h2
      simp only [ht, hs, if_pos h1, if_pos h2, if_true, List.map_cons, List.map_nil]
    · have ht := (polygon_is_triangle_iff vertex_count polygon).mpr h1
      have hs := Bool.eq_false_iff.mpr (mt (polygon_is_twosided_iff polygon).mp h2)
      simp only [ht, hs, if_pos h1, if_neg h2, if_true, if_false, Bool.false_eq_true,
        List.map_cons, List.map_nil]
    · have ht := Bool.eq_false_iff.mpr (mt (polygon_is_triangle_iff vertex_count polygon).mp h1)
      have hs := (polygon_is_twosided_iff polygon).mpr h2
      simp only [ht, hs, if_neg h1, if_pos h2, if_true, if_false, Bool.false_eq_true,
        List.map_cons, List.map_nil]
    · have ht := Bool.eq_false_iff.mpr (mt (polygon_is_triangle_iff vertex_count polygon).mp h1)
      have hs := Bool.eq_false_iff.mpr (mt (polygon_is_twosided_iff polygon).mp h2)
      simp only [ht, hs, if_neg h1, if_neg h2, if_false, Bool.false_eq_true,
        List.map_cons, List.map_nil]
  refine ⟨key, fun hb => ?_⟩
  rw [key]
  have e0 : u16 (st.2 + 0) = st.2 + 0 := u16_of_lt (by omega)
  have e1 : u16 (st.2 + 1) = st.2 + 1 := u16_of_lt (by omega)
  have e2 : u16 (st.2 + 2) = st.2 + 2 := u16_of_lt (by omega)
  have e3 : u16 (st.2 + 3) = st.2 + 3 := u16_of_lt (by omega)
  simp only [List.map_cons, List.map_nil, e0, e1, e2, e3]

/-- The amended C2 at a concrete iteration: a two-sided quad starting at vertex 4. -/
theorem polygonStep_index_block_witness :
    dst_indeces
        (polygonStep (o3CornerFormat (64, 64) 0) 4 (default, 4)
          ⟨![0, 1, 2, 3], fun _ _ => 0, fun _ => 0, 0, 1, 0⟩).1
        ⟨![0, 1, 2, 3], fun _ _ => 0, fun _ => 0, 0, 1, 0⟩ =
      [6, 5, 4, 4, 7, 6, 4, 5, 6, 6, 7, 4] := by
  have h :=
    (polygonStep_index_block (o3CornerFormat (64, 64) 0) 4 (default, 4)
      ⟨![0, 1, 2, 3], fun _ _ => 0, fun _ => 0, 0, 1, 0⟩).2 (by decide)
  rw [h]
  decide

theorem writeIndeces_block (vertex_count : Nat) (polygon : Polygon_o3) (dst : List Nat)
    (b : Nat) :
    writeIndeces vertex_count polygon dst b =
      dst ++
        ((if vertex_count ≤ polygon.vertices_indeces 3 then
            List.map u16 [b + 2, b + 1, b + 0]
          else List.map u16 [b + 2, b + 1, b + 0, b + 0, b + 3, b + 2]) ++
         (if polygon.flags &&& 0x01 ≠ 0 then
            (if vertex_count ≤ polygon.vertices_indeces 3 then
               List.map u16 [b + 0, b + 1, b + 2]
             else List.map u16 [b + 0, b + 1, b + 2, b + 2, b + 3, b + 0])
          else [])) := by
  rw [writeIndeces_eq]
  by_cases h1 : vertex_count ≤ polygon.vertices_indeces 3 <;>
    by_cases h2 : polygon.flags &&& 0x01 ≠ 0
  · have ht := (polygon_is_triangle_iff vertex_count polygon).mpr h1
    have hs := (polygon_is_twosided_iff polygon).mpr h2
    simp only [ht, hs, if_pos h1, if_pos h2, if_true, List.map_cons, List.map_nil]
  · have ht := (polygon_is_triangle_iff vertex_count polygon).mpr h1
    have hs := Bool.eq_false_iff.mpr (mt (polygon_is_twosided_iff polygon).mp h2)
    simp only [ht, hs, if_pos h1, if_neg h2, if_true, if_false, Bool.false_eq_true,
      List.map_cons, List.map_nil]
  · have ht := Bool.eq_false_iff.mpr (mt (polygon_is_triangle_iff vertex_count polygon).mp h1)
    have hs := (polygon_is_twosided_iff polygon).mpr h2
    simp only [ht, hs, if_neg h1, if_pos h2, if_true, if_false, Bool.false_eq_true,
      List.map_cons, List.map_nil]
  · have ht := Bool.eq_false_iff.mpr (mt (polygon_is_triangle_iff vertex_count polygon).mp h1)
    have hs := Bool.eq_false_iff.mpr (mt (polygon_is_twosided_iff polygon).mp h2)
    simp only [ht, hs, if_neg h1, if_neg h2, if_false, Bool.false_eq_true,
      List.map_cons, List.map_nil]

/-- C3: one iteration appends the indices of its polygon, which are the block
`[b+2, b+1, b+0]` of a triangle or `[b+2, b+1, b+0, b+0, b+3, b+2]` of a quad, followed
for a two-sided polygon by `[b+0, b+1, b+2]` or `[b+0, b+1, b+2, b+2, b+3, b+0]`, each
value as an `unsigned short` and `b` being `current_vertex_index` at the start of the
iteration, to the transparent list if a translucency bit (`0x04 | 0x08`) of the flags
is set and to the regular list otherwise; the other list is left as it was. -/
theorem polygonStep_index_target (fmt : CornerFormat) (vertex_count : Nat) (st : Submodel × Nat)
    (polygon : Polygon_o3) :
    if polygon.flags &&& (0x04 ||| 0x08) ≠ 0 then
      (polygonStep fmt vertex_count st polygon).1.transparent_triangles_indeces =
          st.1.transparent_triangles_indeces ++
            ((if vertex_count ≤ polygon.vertices_indeces 3 then
                List.map u16 [st.2 + 2, st.2 + 1, st.2 + 0]
              else List.map u16 [st.2 + 2, st.2 + 1, st.2 + 0, st.2 + 0, st.2 + 3, st.2 + 2]) ++
             (if polygon.flags &&& 0x01 ≠ 0 then
                (if vertex_count ≤ polygon.vertices_indeces 3 then
                   List.map u16 [st.2 + 0, st.2 + 1, st.2 + 2]
                 else List.map u16 [st.2 + 0, st.2 + 1, st.2 + 2, st.2 + 2, st.2 + 3, st.2 + 0])
              else [])) ∧
        (polygonStep fmt vertex_count st polygon).1.regular_triangles_indeces =
          st.1.regular_triangles_indeces
    else
      (polygonStep fmt vertex_count st polygon).1.regular_triangles_indeces =
          st.1.regular_triangles_indeces ++
            ((if vertex_count ≤ polygon.vertices_indeces 3 then
                List.map u16 [st.2 + 2, st.2 + 1, st.2 + 0]
              else List.map u16 [st.2 + 2, st.2 + 1, st.2 + 0, st.2 + 0, st.2 + 3, st.2 + 2]) ++
             (if polygon.flags &&& 0x01 ≠ 0 then
                (if vertex_count ≤ polygon.vertices_indeces 3 then
                   List.map u16 [st.2 + 0, st.2 + 1, st.2 + 2]
                 else List.map u16 [st.2 + 0, st.2 + 1, st.2 + 2, st.2 + 2, st.2 + 3, st.2 + 0])
              else [])) ∧
        (polygonStep fmt vertex_count st polygon).1.transparent_triangles_indeces =
          st.1.transparent_triangles_indeces := by
  have h12 : (0x04 ||| 0x08 : Nat) = 0x0C := by decide
  rw [h12, polygonStep_regular, polygonStep_transparent]
  by_cases ht : polygon.flags &&& 0x0C ≠ 0
  · rw [if_pos ht, if_pos ((transparent_iff polygon).mpr ht),
      if_pos ((transparent_iff polygon).mpr ht)]
    exact ⟨writeIndeces_block _ _ _ _, rfl⟩
  · rw [if_neg ht, if_neg (mt (transparent_iff polygon).mp ht),
      if_neg (mt (transparent_iff polygon).mp ht)]
    exact ⟨writeIndeces_block _ _ _ _, rfl⟩

/-- C4: in a state of the loop (`current_vertex_index` is the number of vertices output
so far) one iteration leaves the earlier vertices alone and appends the corners of its
polygon, each with `alpha_test_mask` 255 if the polygon is translucent (`flags & 0x0C`)
or alpha-tested (`flags & 0x02`) and 0 otherwise; so the corners of a polygon that goes
to the transparent index list all carry 255. -/
theorem polygonStep_alpha_test_mask (fmt : CornerFormat) (vertex_count : Nat)
    (st : Submodel × Nat) (polygon : Polygon_o3) (h : st.2 = st.1.vertices.length) :
    (polygonStep fmt vertex_count st polygon).1.vertices.take st.1.vertices.length =
        st.1.vertices ∧
      ((polygonStep fmt vertex_count st polygon).1.vertices.drop st.1.vertices.length).length =
        (if vertex_count ≤ polygon.vertices_indeces 3 then 3 else 4) ∧
      (∀ v ∈ (polygonStep fmt vertex_count st polygon).1.vertices.drop st.1.vertices.length,
        v.alpha_test_mask =
          if polygon.flags &&& 0x0C ≠ 0 ∨ polygon.flags &&& 0x02 ≠ 0 then 255 else 0) ∧
      (polygon.flags &&& 0x0C ≠ 0 →
        ∀ v ∈ (polygonStep fmt vertex_count st polygon).1.vertices.drop st.1.vertices.length,
          v.alpha_test_mask = 255) := by
  rw [polygonStep_vertices_append fmt vertex_count st polygon h]
  have hall : ∀ v ∈ (if vertex_count ≤ polygon.vertices_indeces 3 then
           [cornerVertex fmt polygon 0, cornerVertex fmt polygon 1, cornerVertex fmt polygon 2]
         else
           [cornerVertex fmt polygon 0, cornerVertex fmt polygon 1, cornerVertex fmt polygon 2,
            cornerVertex fmt polygon 3]), v.alpha_test_mask = alpha_test_mask polygon := by
    intro v hv
    split at hv <;> simp only [List.mem_cons, List.mem_nil_iff, or_false] at hv
    · rcases hv with hv | hv | hv <;> rw [hv] <;> rfl
    · rcases hv with hv | hv | hv | hv <;> rw [hv] <;> rfl
  refine ⟨by simp, ?_, ?_, ?_⟩
  · rw [List.drop_left]
    split <;> rfl
  · intro v hv
    rw [List.drop_left] at hv
    rw [hall v hv, alpha_test_mask_eq]
  · intro ht v hv
    rw [List.drop_left] at hv
    rw [hall v hv, alpha_test_mask_eq, if_pos (Or.inl ht)]

/-- C4 at a concrete iteration: an alpha-tested quad, first polygon of a model. -/
theorem polygonStep_alpha_test_mask_witness :
    ((default, 0) : Submodel × Nat).2 = ((default, 0) : Submodel × Nat).1.vertices.length ∧
      ((polygonStep (carCornerFormat (64, 64)) 4 (default, 0)
          ⟨![0, 1, 2, 3], fun _ _ => 0, fun _ => 0, 0, 2, 0⟩).1.vertices.drop 0).length = 4 ∧
      ∀ v ∈ (polygonStep (carCornerFormat (64, 64)) 4 (default, 0)
          ⟨![0, 1, 2, 3], fun _ _ => 0, fun _ => 0, 0, 2, 0⟩).1.vertices.drop 0,
        v.alpha_test_mask = 255 := by
  have h :=
    polygonStep_alpha_test_mask (carCornerFormat (64, 64)) 4 (default, 0)
      ⟨![0, 1, 2, 3], fun _ _ => 0, fun _ => 0, 0, 2, 0⟩ rfl
  refine ⟨rfl, h.2.1.trans (by decide), fun v hv => (h.2.2.1 v hv).trans (by decide)⟩

/-- C5, as stated, fails: the sample O3 file declares one vertex, its polygon is a
quad (4th index 0), and the decoded model has a vertex with `vertex_id` 7, the first
index of the record copied unchecked. -/
theorem vertex_id_unchecked :
    rdU16 sampleModelFile 0x4800 = 1 ∧
      ∃ m : Model, LoadModel_o3 sampleConstants sampleModelFile [] default = Except.ok m ∧
        ∃ v ∈ m.vertices, v.vertex_id = 7 ∧ ¬ v.vertex_id < rdU16 sampleModelFile 0x4800 := by
  obtain ⟨hlen, hvc, hpc, hth, h0⟩ := sampleModelFile_header
  refine ⟨hvc, _, (LoadModel_o3_ok_iff _ _ _ _ _).mpr ⟨?_, 1, o3FrameCount_nil _, rfl⟩, ?_⟩
  · rw [hlen, hth]
    rfl
  · obtain ⟨v, hv, hid⟩ :=
      o3Geometry_first_vertex_id sampleConstants sampleModelFile [] 1 _
        (o3_start_vertices sampleConstants sampleModelFile default (rdU16 sampleModelFile 0x4800))
        (by rw [hpc]; decide)
    refine ⟨v, hv, hid.trans h0, ?_⟩
    rw [hid, h0, hvc]
    decide

/-- C5, amended: in a state of the loop one iteration appends the corners of its
polygon with `vertex_id` equal, corner by corner, to the vertex indices of the record,
which are not compared with the vertex count except for the 4th (a polygon whose 4th
index is not below the vertex count is a triangle); so every new `vertex_id` is below
the vertex count whenever the first three indices of the record are. -/
theorem polygonStep_vertex_id (fmt : CornerFormat) (vertex_count : Nat)
    (st : Submodel × Nat) (polygon : Polygon_o3) (h : st.2 = st.1.vertices.length) :
    ((polygonStep fmt vertex_count st polygon).1.vertices.drop st.1.vertices.length).map
        (fun v => v.vertex_id) =
        (if vertex_count ≤ polygon.vertices_indeces 3 then
           [polygon.vertices_indeces 0, polygon.vertices_indeces 1, polygon.vertices_indeces 2]
         else
           [polygon.vertices_indeces 0, polygon.vertices_indeces 1, polygon.vertices_indeces 2,
            polygon.vertices_indeces 3]) ∧
      (polygon.vertices_indeces 0 < vertex_count ∧ polygon.vertices_indeces 1 < vertex_count ∧
          polygon.vertices_indeces 2 < vertex_count →
        ∀ v ∈ (polygonStep fmt vertex_count st polygon).1.vertices.drop st.1.vertices.length,
          v.vertex_id < vertex_count) := by
  rw [polygonStep_vertices_append fmt vertex_count st polygon h, List.drop_left]
  constructor
  · split <;> rfl
  · rintro ⟨h0, h1, h2⟩ v hv
    split at hv <;> simp only [List.mem_cons, List.mem_nil_iff, or_false] at hv
    · rcases hv with hv | hv | hv <;> rw [hv] <;> assumption
    · rename_i h3
      rcases hv with hv | hv | hv | hv <;> rw [hv]
      · exact h0
      · exact h1
      · exact h2
      · exact Nat.lt_of_not_le h3

/-- The amended C5 at a concrete iteration: a quad over the 4 vertices of a model. -/
theorem polygonStep_vertex_id_witness :
    ((polygonStep (o3CornerFormat (64, 64) 0) 4 (default, 0)
        ⟨![0, 1, 2, 3], fun _ _ => 0, fun _ => 0, 0, 0, 0⟩).1.vertices.drop 0).map
      (fun v => v.vertex_id) = [0, 1, 2, 3] := by
  have h :=
    (polygonStep_vertex_id (o3CornerFormat (64, 64) 0) 4 (default, 0)
      ⟨![0, 1, 2, 3], fun _ _ => 0, fun _ => 0, 0, 0, 0⟩ rfl).1
  exact h.trans (by decide)
/-! ## Helper lemmas: the CAR decoder -/

theorem foldlM_carAnimationStep_snd (divisor : Nat) (id size : Nat → Nat) (l : List Nat)
    (st st' : List Animation × Nat)
    (h : l.foldlM (fun (s : List Animation × Nat) i => carAnimationStep divisor (id i) s (size i)) st
      = Except.ok st') :
    st'.2 = st.2 + (l.map (fun i => size i / divisor)).sum ∧ divisor ≠ 0 ∨ (l = [] ∧ st' = st) := by
  induction l generalizing st with
  | nil =>
    right
    simp only [List.foldlM_nil, pure, Except.pure, Except.ok.injEq] at h
    exact ⟨rfl, h.symm⟩
  | cons i is ih =>
    left
    rw [List.foldlM_cons] at h
    simp only [bind, Except.bind] at h
    split at h
    · cases h
    · rename_i s1 hs1
      unfold carAnimationStep checkedDiv at hs1
      by_cases hd : divisor = 0
      · simp [hd, bind, Except.bind] at hs1
      · simp only [hd, if_false, bind, Except.bind, pure, Except.pure] at hs1
        have h1 : s1.2 = st.2 + size i / divisor := by
          split at hs1
          · rename_i h0; cases hs1; omega
          · cases hs1; rfl
        rcases ih s1 h with ⟨h2, _⟩ | ⟨h2, h3⟩
        · exact ⟨by rw [h2, h1, List.map_cons, List.sum_cons]; omega, hd⟩
        · subst h2; subst h3
          exact ⟨by rw [h1]; simp, hd⟩

theorem carSubmodelStep_snd (c : Constants) (texture_size : Nat × Nat) (model_file : FileContent)
    (st st' : List Submodel × Nat) (i : Nat)
    (h : carSubmodelStep c texture_size model_file st i = Except.ok st') :
    st'.2 = st.2 + carSubmodelBlockSize model_file i := by
  unfold carSubmodelStep at h
  unfold carSubmodelBlockSize
  by_cases hz : CARHeader.submodels_animations model_file i 0 +
      CARHeader.submodels_animations model_file i 1 = 0
  · simp only [hz, if_true, pure, Except.pure, Except.ok.injEq] at h
    rw [if_pos hz, ← h]
    rfl
  · simp only [hz, if_false, bind, Except.bind, pure, Except.pure] at h
    rw [if_neg hz]
    split at h
    · cases h
    · split at h
      · cases h
      · cases h
        rfl

theorem foldlM_carSubmodelStep_snd (c : Constants) (texture_size : Nat × Nat)
    (model_file : FileContent) (l : List Nat) (st st' : List Submodel × Nat)
    (h : l.foldlM (carSubmodelStep c texture_size model_file) st = Except.ok st') :
    st'.2 = st.2 + (l.map (carSubmodelBlockSize model_file)).sum := by
  induction l generalizing st with
  | nil =>
    simp only [List.foldlM_nil, pure, Except.pure, Except.ok.injEq] at h
    rw [← h]
    simp
  | cons i is ih =>
    rw [List.foldlM_cons] at h
    simp only [bind, Except.bind] at h
    split at h
    · cases h
    · rename_i s1 hs1
      rw [ih s1 h, carSubmodelStep_snd c texture_size model_file st s1 i hs1, List.map_cons,
        List.sum_cons]
      omega

theorem foldl_carSoundStep_snd (model_file : FileContent) (l : List Nat)
    (st : List (List Nat) × Nat) :
    (l.foldl (carSoundStep model_file) st).2 =
      st.2 + (l.map (CARHeader.sounds model_file)).sum := by
  induction l generalizing st with
  | nil => simp
  | cons i is ih =>
    rw [List.foldl_cons, ih, List.map_cons, List.sum_cons]
    simp only [carSoundStep]
    omega

theorem carMainModel_frame (c : Constants) (model_file : FileContent)
    (animations : List Animation × Nat) (out_model : Model) :
    (carMainModel c model_file animations out_model).frame_count = animations.2 ∧
      (carMainModel c model_file animations out_model).texture_data = out_model.texture_data ∧
      (carMainModel c model_file animations out_model).texture_size = out_model.texture_size ∧
      (carMainModel c model_file animations out_model).submodels = out_model.submodels ∧
      (carMainModel c model_file animations out_model).sounds = out_model.sounds := by
  unfold carMainModel
  refine ⟨?_, ?_, ?_, ?_, ?_⟩
  · rw [CalculateModelZ_preserved (fun m => m.frame_count) (fun _ _ _ => rfl)]
    simp only [prepare_model]
    rw [polygonLoop_frame_count]
  · rw [CalculateModelZ_preserved (fun m => m.texture_data) (fun _ _ _ => rfl)]
  · rw [CalculateModelZ_preserved (fun m => m.texture_size) (fun _ _ _ => rfl)]
  · rw [CalculateModelZ_preserved (fun m => m.submodels) (fun _ _ _ => rfl)]
  · rw [CalculateModelZ_preserved (fun m => m.sounds) (fun _ _ _ => rfl)]

theorem LoadModel_car_ok (c : Constants) (model_file : FileContent) (out_model m : Model)
    (h : LoadModel_car c model_file out_model = Except.ok m) :
    rdU16 model_file 0x4866 ≠ 0 ∧ carFinalOffset model_file = model_file.length := by
  unfold LoadModel_car at h
  simp only [bind, Except.bind, PC_ASSERT, pure, Except.pure] at h
  split at h
  · cases h
  · rename_i anims hanims
    split at h
    · cases h
    · rename_i subs hsubs
      split at h
      · cases h
      · rename_i u hu
        split at hu
        · rename_i hoff
          unfold carMainAnimations at hanims
          have h1 := foldlM_carAnimationStep_snd (6 * rdU16 model_file 0x4866) (fun i => i)
            (CARHeader.animations model_file) (List.range 20) _ anims hanims
          have h1' : anims.2 = carMainFrameCount model_file ∧ 6 * rdU16 model_file 0x4866 ≠ 0 := by
            rcases h1 with ⟨h1, hd⟩ | ⟨h1, _⟩
            · exact ⟨by rw [h1]; simp [carMainFrameCount], hd⟩
            · exact absurd h1 (by decide)
          unfold carSubmodels at hsubs
          have h2 := foldlM_carSubmodelStep_snd c _ model_file (List.range 3) _ subs hsubs
          have h3 := foldl_carSoundStep_snd model_file (List.range CARHeader.c_sound_count)
            (vecResize (carMainModel c model_file anims
              (carTexture model_file (ClearModel out_model))).sounds CARHeader.c_sound_count [],
              subs.2)
          have hm := carMainModel_frame c model_file anims
            (carTexture model_file (ClearModel out_model))
          have ht : (carTexture model_file (ClearModel out_model)).texture_data.length =
              rdU16 model_file 0x486A := by
            simp [carTexture, length_rdBytes]
          refine ⟨by omega, ?_⟩
          have hoff' := eq_of_beq hoff
          unfold carSounds at hoff'
          rw [h3, h2] at hoff'
          simp only [hm.1, hm.2.1, ht, h1'.1] at hoff'
          unfold carFinalOffset carSubmodelsOffset
          exact hoff'
        · cases hu

theorem rdU8_take (buf : FileContent) (n off : Nat) (h : off < n) :
    rdU8 (buf.take n) off = rdU8 buf off := by
  unfold rdU8
  rw [List.getD_eq_getElem?_getD, List.getD_eq_getElem?_getD, List.getElem?_take, if_pos h]

theorem rdU16_take (buf : FileContent) (n off : Nat) (h : off + 1 < n) :
    rdU16 (buf.take n) off = rdU16 buf off := by
  unfold rdU16
  rw [rdU8_take buf n off (by omega), rdU8_take buf n (off + 1) h]

theorem carFinalOffset_take (buf : FileContent) (n : Nat) (h : 0x486C ≤ n) :
    carFinalOffset (buf.take n) = carFinalOffset buf := by
  have r : ∀ off, off + 1 < 0x486C → rdU16 (buf.take n) off = rdU16 buf off :=
    fun off ho => rdU16_take buf n off (by omega)
  have ha : ∀ i ∈ List.range 20,
      CARHeader.animations (buf.take n) i / (6 * rdU16 (buf.take n) 0x4866) =
        CARHeader.animations buf i / (6 * rdU16 buf 0x4866) := by
    intro i hi
    have hi' := List.mem_range.mp hi
    unfold CARHeader.animations
    rw [r (2 * i) (by omega), r 0x4866 (by omega)]
  have hs : ∀ i ∈ List.range 3,
      carSubmodelBlockSize (buf.take n) i = carSubmodelBlockSize buf i := by
    intro i hi
    have hi' := List.mem_range.mp hi
    unfold carSubmodelBlockSize CARHeader.submodels_animations
    rw [r (40 + 4 * i + 2 * 0) (by omega), r (40 + 4 * i + 2 * 1) (by omega)]
  have hd : ∀ i ∈ List.range CARHeader.c_sound_count,
      CARHeader.sounds (buf.take n) i = CARHeader.sounds buf i := by
    intro i hi
    have hi' : i < 7 := List.mem_range.mp hi
    unfold CARHeader.sounds
    rw [r (70 + 2 * i) (by omega)]
  unfold carFinalOffset carSubmodelsOffset carMainFrameCount
  rw [List.map_congr_left ha, List.map_congr_left hs, List.map_congr_left hd,
    r 0x486A (by omega), r 0x4866 (by omega)]

theorem le_carFinalOffset (buf : FileContent) : 0x486C ≤ carFinalOffset buf := by
  unfold carFinalOffset carSubmodelsOffset
  omega

theorem foldlM_carAnimationStep_ok (divisor : Nat) (hd : divisor ≠ 0) (id size : Nat → Nat)
    (l : List Nat) (st : List Animation × Nat) :
    ∃ st', l.foldlM
      (fun (s : List Animation × Nat) i => carAnimationStep divisor (id i) s (size i)) st =
        Except.ok st' := by
  induction l generalizing st with
  | nil => exact ⟨st, rfl⟩
  | cons i is ih =>
    rw [List.foldlM_cons]
    have hstep : ∃ s1, carAnimationStep divisor (id i) st (size i) = Except.ok s1 := by
      unfold carAnimationStep checkedDiv
      simp only [hd, if_false, bind, Except.bind, pure, Except.pure]
      split
      · exact ⟨_, rfl⟩
      · exact ⟨_, rfl⟩
    obtain ⟨s1, hs1⟩ := hstep
    obtain ⟨s2, hs2⟩ := ih s1
    exact ⟨s2, by simp only [bind, Except.bind, hs1, hs2]⟩

theorem carSubmodels_ok_of_zero (c : Constants) (texture_size : Nat × Nat)
    (model_file : FileContent) (submodels : List Submodel) (off : Nat)
    (hz : ∀ i, i < 3 → CARHeader.submodels_animations model_file i 0 +
      CARHeader.submodels_animations model_file i 1 = 0) :
    ∃ st', carSubmodels c texture_size model_file submodels off = Except.ok st' := by
  have step : ∀ (st : List Submodel × Nat) (i : Nat), i < 3 →
      carSubmodelStep c texture_size model_file st i = Except.ok st := by
    intro st i hi
    unfold carSubmodelStep
    simp only [hz i hi, if_true]
    rfl
  have fold : ∀ st : List Submodel × Nat,
      List.foldlM (carSubmodelStep c texture_size model_file) st [0, 1, 2] = Except.ok st := by
    intro st
    simp only [List.foldlM_cons, List.foldlM_nil, bind, Except.bind, step _ 0 (by decide),
      step _ 1 (by decide), step _ 2 (by decide)]
    rfl
  exact ⟨_, fold _⟩

theorem LoadModel_car_ok_of (c : Constants) (model_file : FileContent) (out_model : Model)
    (anims : List Animation × Nat) (subs : List Submodel × Nat)
    (hanims : carMainAnimations model_file (rdU16 model_file 0x4866)
      (carTexture model_file (ClearModel out_model)).animations = Except.ok anims)
    (hsubs : carSubmodels c
      (carMainModel c model_file anims (carTexture model_file (ClearModel out_model))).texture_size
      model_file
      (carMainModel c model_file anims (carTexture model_file (ClearModel out_model))).submodels
      (0x486C +
        (carMainModel c model_file anims
          (carTexture model_file (ClearModel out_model))).texture_data.length +
        (carMainModel c model_file anims
          (carTexture model_file (ClearModel out_model))).frame_count * 6 *
          rdU16 model_file 0x4866) = Except.ok subs)
    (hoff : carFinalOffset model_file = model_file.length) :
    ∃ m, LoadModel_car c model_file out_model = Except.ok m := by
  unfold LoadModel_car
  simp only [bind, Except.bind, PC_ASSERT, pure, Except.pure, hanims, hsubs]
  have h1 := foldlM_carAnimationStep_snd (6 * rdU16 model_file 0x4866) (fun i => i)
    (CARHeader.animations model_file) (List.range 20) _ anims hanims
  have h1' : anims.2 = carMainFrameCount model_file := by
    rcases h1 with ⟨h1, _⟩ | ⟨h1, _⟩
    · rw [h1]; simp [carMainFrameCount]
    · exact absurd h1 (by decide)
  unfold carSubmodels at hsubs
  have h2 := foldlM_carSubmodelStep_snd c _ model_file (List.range 3) _ subs hsubs
  have h3 := foldl_carSoundStep_snd model_file (List.range CARHeader.c_sound_count)
    (vecResize (carMainModel c model_file anims
      (carTexture model_file (ClearModel out_model))).sounds CARHeader.c_sound_count [],
      subs.2)
  have hm := carMainModel_frame c model_file anims (carTexture model_file (ClearModel out_model))
  have ht : (carTexture model_file (ClearModel out_model)).texture_data.length =
      rdU16 model_file 0x486A := by
    simp [carTexture, length_rdBytes]
  have hfin : (carSounds model_file
      (carMainModel c model_file anims (carTexture model_file (ClearModel out_model))).sounds
      subs.2).2 = model_file.length := by
    unfold carSounds
    rw [h3, h2, ← hoff]
    simp only [hm.1, hm.2.1, ht, h1']
    rfl
  rw [hfin]
  simp

theorem sample_car_header (pad : List Nat) (hl : pad.length = 0x4866)
    (hz : ∀ off, rdU8 pad off = 0) :
    (pad ++ [1, 0, 0, 0, 0, 0]).length = 0x486C ∧
      rdU16 (pad ++ [1, 0, 0, 0, 0, 0]) 0x4866 = 1 ∧
      rdU16 (pad ++ [1, 0, 0, 0, 0, 0]) 0x486A = 0 ∧
      (∀ off, off + 1 < 0x4866 → rdU16 (pad ++ [1, 0, 0, 0, 0, 0]) off = 0) := by
  have r : ∀ k, rdU8 (pad ++ [1, 0, 0, 0, 0, 0]) (0x4866 + k) = rdU8 [1, 0, 0, 0, 0, 0] k :=
    fun k => rdU8_append_right _ _ _ k hl
  have r0 := r 0
  have r1 := r 1
  have r4 := r 4
  have r5 := r 5
  norm_num [rdU8] at r0 r1 r4 r5
  refine ⟨by simp [hl], ?_, ?_, ?_⟩
  · simp [rdU16, rdU8, r0, r1]
  · simp [rdU16, rdU8, r4, r5]
  · intro off ho
    unfold rdU16
    rw [rdU8_append_left _ _ _ (by omega), rdU8_append_left _ _ _ (by omega), hz, hz]

theorem sample_car_offset (buf : FileContent)
    (htx : rdU16 buf 0x486A = 0) (hz : ∀ off, off + 1 < 0x4866 → rdU16 buf off = 0) :
    carFinalOffset buf = 0x486C := by
  have ha : ∀ i ∈ List.range 20,
      CARHeader.animations buf i / (6 * rdU16 buf 0x4866) = 0 := by
    intro i hi
    have hi' := List.mem_range.mp hi
    unfold CARHeader.animations
    rw [hz (2 * i) (by omega)]
    simp
  have hs : ∀ i ∈ List.range 3, carSubmodelBlockSize buf i = 0 := by
    intro i hi
    have hi' := List.mem_range.mp hi
    unfold carSubmodelBlockSize CARHeader.submodels_animations
    rw [hz (40 + 4 * i + 2 * 0) (by omega), hz (40 + 4 * i + 2 * 1) (by omega)]
    rfl
  have hd : ∀ i ∈ List.range CARHeader.c_sound_count, CARHeader.sounds buf i = 0 := by
    intro i hi
    have hi' : i < 7 := List.mem_range.mp hi
    unfold CARHeader.sounds
    rw [hz (70 + 2 * i) (by omega)]
  unfold carFinalOffset carSubmodelsOffset carMainFrameCount
  rw [List.map_congr_left ha, List.map_congr_left hs, List.map_congr_left hd, htx]
  simp

theorem sampleCarFile_ok (c : Constants) (out_model : Model) :
    sampleCarFile.length = 0x486C ∧
      ∃ m, LoadModel_car c sampleCarFile out_model = Except.ok m := by
  obtain ⟨hlen, hvc, htx, hz⟩ := sample_car_header (zeros 0x4866) (length_zeros _) (rdU8_zeros _)
  refine ⟨hlen, ?_⟩
  obtain ⟨anims, hanims⟩ := foldlM_carAnimationStep_ok (6 * rdU16 sampleCarFile 0x4866)
    (by rw [show rdU16 sampleCarFile 0x4866 = 1 from hvc]; decide) (fun i => i)
    (CARHeader.animations sampleCarFile) (List.range 20)
    ((carTexture sampleCarFile (ClearModel out_model)).animations, 0)
  obtain ⟨subs, hsubs⟩ := carSubmodels_ok_of_zero c
    (carMainModel c sampleCarFile anims (carTexture sampleCarFile (ClearModel out_model))).texture_size
    sampleCarFile
    (carMainModel c sampleCarFile anims (carTexture sampleCarFile (ClearModel out_model))).submodels
    (0x486C +
      (carMainModel c sampleCarFile anims
        (carTexture sampleCarFile (ClearModel out_model))).texture_data.length +
      (carMainModel c sampleCarFile anims
        (carTexture sampleCarFile (ClearModel out_model))).frame_count * 6 *
        rdU16 sampleCarFile 0x4866)
    (by
      intro i hi
      unfold CARHeader.submodels_animations
      rw [show rdU16 sampleCarFile (40 + 4 * i + 2 * 0) = 0 from hz _ (by omega),
        show rdU16 sampleCarFile (40 + 4 * i + 2 * 1) = 0 from hz _ (by omega)])
  exact LoadModel_car_ok_of c sampleCarFile out_model anims subs hanims hsubs
    ((sample_car_offset sampleCarFile htx hz).trans hlen.symm)

/-! ## Claims about the length checks -/

/-- C6: `LoadModel_car` returns a model only if the running offset accumulated over the
texture, the frames of the main model, the submodel blocks and the 7 sounds equals the
length of the buffer; so when a buffer decodes, no proper initial part of it does: the
decode of a truncated buffer ends with an error and yields no model. -/
theorem LoadModel_car_offset_check (c : Constants) (model_file : FileContent)
    (out_model m : Model) (h : LoadModel_car c model_file out_model = Except.ok m) :
    carFinalOffset model_file = model_file.length ∧
      ∀ n, n < model_file.length → ∀ out_model' : Model,
        ∃ e, LoadModel_car c (model_file.take n) out_model' = Except.error e := by
  have hoff := (LoadModel_car_ok c model_file out_model m h).2
  refine ⟨hoff, fun n hn out_model' => ?_⟩
  cases hr : LoadModel_car c (model_file.take n) out_model' with
  | error e => exact ⟨e, rfl⟩
  | ok m' =>
    exfalso
    have h1 := (LoadModel_car_ok c (model_file.take n) out_model' m' hr).2
    have hl : (model_file.take n).length = n := by
      rw [List.length_take]
      omega
    have h2 := le_carFinalOffset (model_file.take n)
    rw [carFinalOffset_take model_file n (by omega)] at h1
    omega

/-- C6 at the sample CAR file and the same file without its last byte. -/
theorem LoadModel_car_offset_check_witness :
    (∃ m, LoadModel_car sampleConstants sampleCarFile default = Except.ok m) ∧
      carFinalOffset sampleCarFile = sampleCarFile.length ∧
      ∃ e, LoadModel_car sampleConstants (sampleCarFile.take 0x486B) default = Except.error e := by
  obtain ⟨hlen, m, hm⟩ := sampleCarFile_ok sampleConstants default
  have h := LoadModel_car_offset_check sampleConstants sampleCarFile default m hm
  exact ⟨⟨m, hm⟩, h.1, h.2 0x486B (by rw [hlen]; decide) default⟩

theorem sample_overrun_header (pad : List Nat) (hl : pad.length = 0x4802) :
    (pad ++ [0x41, 0x02, 0, 0]).length = 0x4806 ∧
      rdU16 (pad ++ [0x41, 0x02, 0, 0]) 0x4802 = 577 ∧
      rdU16 (pad ++ [0x41, 0x02, 0, 0]) 0x4804 = 0 := by
  have r : ∀ k, rdU8 (pad ++ [0x41, 0x02, 0, 0]) (0x4802 + k) = rdU8 [0x41, 0x02, 0, 0] k :=
    fun k => rdU8_append_right _ _ _ k hl
  have r0 := r 0
  have r1 := r 1
  have r2 := r 2
  have r3 := r 3
  norm_num [rdU8] at r0 r1 r2 r3
  refine ⟨by simp [hl], ?_, ?_⟩
  · simp [rdU16, rdU8, r0, r1]
  · simp [rdU16, rdU8, r2, r3]

theorem sample_short_header (pad : List Nat) (hl : pad.length = 0x4804) :
    (pad ++ [1, 0]).length = 0x4806 ∧ rdU16 (pad ++ [1, 0]) 0x4804 = 1 := by
  have r : ∀ k, rdU8 (pad ++ [1, 0]) (0x4804 + k) = rdU8 [1, 0] k :=
    fun k => rdU8_append_right _ _ _ k hl
  have r0 := r 0
  have r1 := r 1
  norm_num [rdU8] at r0 r1
  refine ⟨by simp [hl], ?_⟩
  simp [rdU16, rdU8, r0, r1]

theorem LoadModel_o3_assertion (c : Constants) (model_file animation_file : FileContent)
    (out_model : Model)
    (h : model_file.length ≠ 64 * (rdU16 model_file 0x4804 &&& 1023) + 0x4806) :
    LoadModel_o3 c model_file animation_file out_model =
      Except.error LoadError.assertion_failed := by
  unfold LoadModel_o3
  have hl : (o3Texture model_file (ClearModel out_model)).texture_data.length =
      64 * (rdU16 model_file 0x4804 &&& 1023) := by
    simp [o3Texture, length_rdBytes, g_3o_model_texture_width]
  have hb : (model_file.length == 64 * (rdU16 model_file 0x4804 &&& 1023) + 0x4806) = false := by
    simpa using h
  simp only [bind, Except.bind, PC_ASSERT, hl, hb]
  rfl

/-- C7, as stated, fails: the sample file of 0x4806 bytes declares 577 polygons, so that
the last of its polygon records extends 26 bytes past its end, and `LoadModel_o3`
returns a model for it. -/
theorem record_ranges_unchecked :
    sampleOverrunFile.length = 0x4806 ∧
      sampleOverrunFile.length < 32 * rdU16 sampleOverrunFile 0x4802 ∧
      ∃ m : Model, LoadModel_o3 sampleConstants sampleOverrunFile [] default = Except.ok m := by
  obtain ⟨hlen, hpc, hth⟩ := sample_overrun_header (zeros 0x4802) (length_zeros _)
  have hlen' : sampleOverrunFile.length = 0x4806 := hlen
  have hpc' : rdU16 sampleOverrunFile 0x4802 = 577 := hpc
  have hth' : rdU16 sampleOverrunFile 0x4804 = 0 := hth
  refine ⟨hlen', ?_, _, (LoadModel_o3_ok_iff _ _ _ _ _).mpr ⟨?_, 1, o3FrameCount_nil _, rfl⟩⟩
  · rw [hlen', hpc']
    decide
  · rw [hlen', hth']
    rfl

/-- C7, amended: a buffer whose length differs from the length that its header implies
is rejected.  `LoadModel_o3` fails its assertion unless the length is `0x4806` plus the
`64 * (h & 1023)` texture bytes, so whenever the header fields or the texture bytes
extend past the end; `LoadModel_car` yields no model unless the length is the running
offset, so whenever the header, the texture, the frames, a submodel block with its count
fields or a sound extends past the end. -/
theorem decode_length_checks (c : Constants) (o3_file animation_file car_file : FileContent)
    (out_model : Model) :
    (o3_file.length ≠ 64 * (rdU16 o3_file 0x4804 &&& 1023) + 0x4806 →
        LoadModel_o3 c o3_file animation_file out_model =
          Except.error LoadError.assertion_failed) ∧
      (car_file.length ≠ carFinalOffset car_file →
        ∃ e, LoadModel_car c car_file out_model = Except.error e) := by
  refine ⟨LoadModel_o3_assertion c o3_file animation_file out_model, fun h => ?_⟩
  cases hr : LoadModel_car c car_file out_model with
  | error e => exact ⟨e, rfl⟩
  | ok m => exact absurd (LoadModel_car_ok c car_file out_model m hr).2.symm h

/-- The amended C7 at an O3 file that lacks its 64 texture bytes and at the sample CAR
file cut to 0x486B bytes. -/
theorem decode_length_checks_witness :
    LoadModel_o3 sampleConstants sampleShortFile [] default =
        Except.error LoadError.assertion_failed ∧
      ∃ e, LoadModel_car sampleConstants (sampleCarFile.take 0x486B) default = Except.error e := by
  obtain ⟨hlen, hth⟩ := sample_short_header (zeros 0x4804) (length_zeros _)
  have hlen' : sampleShortFile.length = 0x4806 := hlen
  have hth' : rdU16 sampleShortFile 0x4804 = 1 := hth
  have h := decode_length_checks sampleConstants sampleShortFile [] (sampleCarFile.take 0x486B)
    default
  refine ⟨h.1 ?_, h.2 ?_⟩
  · rw [hlen', hth']
    decide
  · have h1 := le_carFinalOffset (sampleCarFile.take 0x486B)
    have h2 : (sampleCarFile.take 0x486B).length ≤ 0x486B := by
      rw [List.length_take]
      exact Nat.min_le_left _ _
    omega

/-! ## Helper lemmas: the fields of an O3 model -/

theorem vecResize_nil {α : Type} (n : Nat) (d : α) : vecResize [] n d = List.replicate n d := by
  simp [vecResize]

theorem u32_of_lt {x : Nat} (h : x < 2 ^ 32) : u32 x = x :=
  Nat.mod_eq_of_lt h

theorem length_copyPositions (buf : FileContent) (off : Nat) (l : List AnimationVertex) :
    (copyPositions buf off l).length = l.length := by
  simp [copyPositions]

theorem getElem?_copyPositions_replicate (buf : FileContent) (off n v : Nat)
    (d : AnimationVertex) (h : v < n) :
    (copyPositions buf off (List.replicate n d))[v]? =
      some { d with pos := (readVertex buf off v).xyz } := by
  simp [copyPositions, List.getElem?_enum, List.getElem?_replicate, h]

theorem o3_start_fields (c : Constants) (model_file : FileContent) (out_model : Model)
    (vertex_count : Nat) :
    (CalculateModelZ c (o3Texture model_file (ClearModel out_model)) model_file 0x3200
        vertex_count).animations = [] ∧
      (CalculateModelZ c (o3Texture model_file (ClearModel out_model)) model_file 0x3200
        vertex_count).animations_vertices = [] := by
  constructor
  · rw [CalculateModelZ_preserved (fun m => m.animations) (fun _ _ _ => rfl)]
    rfl
  · rw [CalculateModelZ_preserved (fun m => m.animations_vertices) (fun _ _ _ => rfl)]
    rfl

theorem o3Geometry_frame_count (c : Constants) (model_file animation_file : FileContent)
    (frame_count : Nat) (out_model : Model) :
    (o3Geometry c model_file animation_file frame_count out_model).frame_count = frame_count := by
  unfold o3Geometry
  simp only
  rw [polygonLoop_frame_count]

theorem o3Geometry_animations (c : Constants) (model_file animation_file : FileContent)
    (frame_count : Nat) (out_model : Model) (h : out_model.animations = []) :
    (o3Geometry c model_file animation_file frame_count out_model).animations =
      [⟨0, 0, frame_count⟩] := by
  unfold o3Geometry
  simp only
  rw [polygonLoop_animations, polygonLoop_frame_count]
  simp only [h, vecResize_nil]
  rfl

theorem o3Geometry_animations_vertices (c : Constants) (model_file animation_file : FileContent)
    (frame_count : Nat) (out_model : Model) (h : out_model.animations_vertices = []) :
    (o3Geometry c model_file animation_file frame_count out_model).animations_vertices =
      copyPositions (o3InVertices model_file animation_file).1
        (o3InVertices model_file animation_file).2
        (List.replicate (u32 (frame_count * rdU16 model_file 0x4800)) default) := by
  unfold o3Geometry
  simp only
  rw [polygonLoop_animations_vertices]
  simp only [h, vecResize_nil]

/-- C8: an O3 model file decoded with an empty animation file gives one frame,
`vertex_count` animation vertices, vertex `v` holding the three signed 16-bit values at
offset `0x3200 + 6 * v` of the model file (and no normal yet), and the single animation
with identifier 0, first frame 0 and 1 frame. -/
theorem LoadModel_o3_base_pose (c : Constants) (model_file : FileContent) (out_model m : Model)
    (h : LoadModel_o3 c model_file [] out_model = Except.ok m) :
    m.frame_count = 1 ∧
      m.animations_vertices.length = rdU16 model_file 0x4800 ∧
      (∀ v, v < rdU16 model_file 0x4800 →
        m.animations_vertices[v]? =
          some ⟨(rdS16 model_file (0x3200 + 6 * v), rdS16 model_file (0x3200 + 6 * v + 2),
            rdS16 model_file (0x3200 + 6 * v + 4)), 0⟩) ∧
      m.animations = [⟨0, 0, 1⟩] := by
  obtain ⟨_, fc, hfc, hm⟩ := (LoadModel_o3_ok_iff c model_file [] out_model m).mp h
  have hfc1 : fc = 1 := by
    rw [o3FrameCount_nil] at hfc
    exact (Except.ok.inj hfc).symm
  subst hfc1
  have hs := o3_start_fields c model_file out_model (rdU16 model_file 0x4800)
  have hn : u32 (1 * rdU16 model_file 0x4800) = rdU16 model_file 0x4800 := by
    have := rdU16_lt model_file 0x4800
    rw [Nat.one_mul]
    exact u32_of_lt (by omega)
  have hav := o3Geometry_animations_vertices c model_file [] 1 _ hs.2
  rw [hn] at hav
  subst hm
  refine ⟨o3Geometry_frame_count _ _ _ _ _, ?_, ?_, o3Geometry_animations _ _ _ _ _ hs.1⟩
  · rw [hav, length_copyPositions, List.length_replicate]
  · intro v hv
    rw [hav, getElem?_copyPositions_replicate _ _ _ _ _ hv]
    rfl

/-- C8 at the sample O3 file, which has one vertex. -/
theorem LoadModel_o3_base_pose_witness :
    ∃ m : Model, LoadModel_o3 sampleConstants sampleModelFile [] default = Except.ok m ∧
      m.frame_count = 1 ∧ m.animations_vertices.length = rdU16 sampleModelFile 0x4800 ∧
      m.animations = [⟨0, 0, 1⟩] := by
  obtain ⟨hlen, hvc, hpc, hth, h0⟩ := sampleModelFile_header
  have hm : LoadModel_o3 sampleConstants sampleModelFile [] default = Except.ok _ :=
    (LoadModel_o3_ok_iff _ _ _ _ _).mpr ⟨by rw [hlen, hth]; rfl, 1, o3FrameCount_nil _, rfl⟩
  have h := LoadModel_o3_base_pose sampleConstants sampleModelFile default _ hm
  exact ⟨_, hm, h.1, h.2.1, h.2.2.2⟩

/-! ## Helper lemmas: the multi-file O3 decoder -/

theorem usizeSub_two {n : Nat} (h2 : 2 ≤ n) (hn : n < 2 ^ 64) : usizeSub n 2 = n - 2 := by
  unfold usizeSub usize
  omega

theorem animationFileStep_ok (st0 st1 : List Animation × Nat × Nat) (f : FileContent)
    (h2 : 2 ≤ f.length) (htot : st0.2.1 + f.length < 2 ^ 32)
    (h : animationFileStep st0 f = Except.ok st1) :
    st1 = (st0.1 ++ [⟨st0.1.length, st0.2.1, (f.length - 2) / (rdU16 f 0 * 6)⟩],
        st0.2.1 + (f.length - 2) / (rdU16 f 0 * 6), rdU16 f 0) ∧ rdU16 f 0 ≠ 0 := by
  unfold animationFileStep checkedDiv at h
  have hne : f.isEmpty = false := by
    cases f with
    | nil => simp at h2
    | cons x xs => rfl
  have hq : (f.length - 2) / (rdU16 f 0 * 6) ≤ f.length := by
    exact le_trans (Nat.div_le_self _ _) (Nat.sub_le _ _)
  by_cases hd : rdU16 f 0 * 6 = 0
  · simp [hne, PC_ASSERT, bind, Except.bind, hd, Except.map] at h
  · simp only [hne, PC_ASSERT, bind, Except.bind, hd, Except.map, if_false, pure, Except.pure,
      Bool.not_false, if_true, usizeSub_two h2 (by omega : f.length < 2 ^ 64)] at h
    rw [u32_of_lt (by omega), u32_of_lt (by omega)] at h
    exact ⟨(Except.ok.inj h).symm, by omega⟩

theorem foldlM_animationFileStep (vc : Nat) (files : List FileContent)
    (st0 st : List Animation × Nat × Nat)
    (hvc : ∀ f ∈ files, rdU16 f 0 = vc) (hlen : ∀ f ∈ files, 2 ≤ f.length)
    (htot : st0.2.1 + (files.map List.length).sum < 2 ^ 32)
    (h : files.foldlM animationFileStep st0 = Except.ok st) :
    st.1 = st0.1 ++ sequentialAnimations st0.1.length st0.2.1
        (files.map (fun f => (f.length - 2) / (vc * 6))) ∧
      st.2.1 = st0.2.1 + (files.map (fun f => (f.length - 2) / (vc * 6))).sum ∧
      (files ≠ [] → st.2.2 = vc ∧ vc ≠ 0) := by
  induction files generalizing st0 with
  | nil =>
    simp only [List.foldlM_nil, pure, Except.pure, Except.ok.injEq] at h
    subst h
    simp [sequentialAnimations]
  | cons f fs ih =>
    rw [List.foldlM_cons] at h
    simp only [bind, Except.bind] at h
    rw [List.map_cons, List.sum_cons] at htot
    split at h
    · cases h
    · rename_i st1 hst1
      have hf := hvc f (List.mem_cons_self _ _)
      obtain ⟨e1, hne⟩ := animationFileStep_ok st0 st1 f (hlen f (List.mem_cons_self _ _))
        (by omega) hst1
      rw [hf] at e1 hne
      have hq : (f.length - 2) / (vc * 6) ≤ f.length :=
        le_trans (Nat.div_le_self _ _) (Nat.sub_le _ _)
      obtain ⟨i1, i2, i3⟩ := ih st1 (fun g hg => hvc g (List.mem_cons_of_mem _ hg))
        (fun g hg => hlen g (List.mem_cons_of_mem _ hg)) (by rw [e1]; simp only; omega) h
      rw [e1] at i1 i2
      simp only [List.length_append, List.length_singleton, List.append_assoc,
        List.singleton_append] at i1 i2
      refine ⟨?_, ?_, fun _ => ?_⟩
      · rw [i1, List.map_cons]
        rfl
      · rw [i2, List.map_cons, List.sum_cons]
        omega
      · cases fs with
        | nil =>
          simp only [List.foldlM_nil, pure, Except.pure, Except.ok.injEq] at h
          rw [← h, e1]
          exact ⟨rfl, hne⟩
        | cons g gs => exact i3 (List.cons_ne_nil _ _)

theorem length_sequentialAnimations (id first : Nat) (ns : List Nat) :
    (sequentialAnimations id first ns).length = ns.length := by
  induction ns generalizing id first with
  | nil => rfl
  | cons n ns ih => simp [sequentialAnimations, ih]

theorem getElem?_sequentialAnimations (id first : Nat) (ns : List Nat) (i : Nat)
    (h : i < ns.length) :
    (sequentialAnimations id first ns)[i]? =
      some ⟨id + i, first + (ns.take i).sum, ns.getD i 0⟩ := by
  induction ns generalizing id first i with
  | nil => simp at h
  | cons n ns ih =>
    cases i with
    | zero => simp [sequentialAnimations]
    | succ i =>
      simp only [sequentialAnimations, List.getElem?_cons_succ]
      rw [ih (id + 1) (first + n) i (by simpa using h)]
      simp only [List.take_succ_cons, List.sum_cons, List.getD_cons_succ]
      congr 2 <;> omega

theorem map_frame_count_sequentialAnimations (id first : Nat) (ns : List Nat) :
    (sequentialAnimations id first ns).map (fun a => a.frame_count) = ns := by
  induction ns generalizing id first with
  | nil => rfl
  | cons n ns ih => simp [sequentialAnimations, ih]

theorem foldl_set_range {α : Type} (f : Nat → α) (n : Nat) (xs : List α) (h : xs.length = n) :
    (List.range n).foldl (fun a i => a.set i (f i)) xs = (List.range n).map f := by
  have key : ∀ (k : Nat) (ys : List α), ys.length = n → k ≤ n →
      ((List.range k).foldl (fun a i => a.set i (f i)) ys).length = n ∧
      ∀ i, ((List.range k).foldl (fun a i => a.set i (f i)) ys)[i]? =
        if i < k then some (f i) else ys[i]? := by
    intro k
    induction k with
    | zero => intro ys hy _; simp [hy]
    | succ k ih =>
      intro ys hy hk
      obtain ⟨h1, h2⟩ := ih ys hy (by omega)
      rw [List.range_succ, List.foldl_append]
      simp only [List.foldl_cons, List.foldl_nil, List.length_set]
      refine ⟨h1, fun i => ?_⟩
      rw [List.getElem?_set]
      by_cases hik : k = i
      · subst hik
        simp [h1, hk]
        omega
      · simp only [hik, if_false]
        rw [h2]
        by_cases h3 : i < k
        · simp [h3, Nat.lt_succ_of_lt h3]
        · have : ¬ i < k + 1 := by omega
          simp [h3, this]
  obtain ⟨h1, h2⟩ := key n xs h (le_refl _)
  apply List.ext_getElem?
  intro i
  rw [h2]
  by_cases hi : i < n
  · simp [hi]
  · rw [if_neg hi, List.getElem?_eq_none (by omega), List.getElem?_eq_none (by simp; omega)]

theorem copyAnimations_eq (animations : List Animation) (dst : List Animation) :
    copyAnimations animations animations.length dst = animations := by
  unfold copyAnimations
  rw [foldl_set_range _ _ _ (length_vecResize _ _ _)]
  apply List.ext_getElem?
  intro i
  by_cases hi : i < animations.length
  · simp [hi, List.getD_eq_getElem?_getD]
  · rw [List.getElem?_eq_none (by simp; omega), List.getElem?_eq_none (by omega)]

theorem LoadModel_o3_multi_ok_iff (c : Constants) (model_file : FileContent)
    (files : List FileContent) (out_model m : Model) :
    LoadModel_o3_multi c model_file files out_model = Except.ok m ↔
      1 ≤ files.length ∧ files.length < 32 ∧
      ∃ st inner, files.foldlM animationFileStep (([] : List Animation), 0, 0) = Except.ok st ∧
        LoadModel_o3 c model_file (combinedAnimations files st.2.1 st.2.2) out_model =
          Except.ok inner ∧
        m = { inner with animations := copyAnimations st.1 files.length inner.animations } := by
  unfold LoadModel_o3_multi
  simp only [bind, Except.bind, PC_ASSERT, pure, Except.pure]
  constructor
  · intro h
    by_cases h1 : 1 ≤ files.length
    · by_cases h2 : files.length < 32
      · simp only [h1, h2, ge_iff_le, decide_True, if_true] at h
        cases hst : files.foldlM animationFileStep (([] : List Animation), 0, 0) with
        | error e => rw [hst] at h; cases h
        | ok st =>
          rw [hst] at h
          simp only at h
          cases hin : LoadModel_o3 c model_file (combinedAnimations files st.2.1 st.2.2)
              out_model with
          | error e => rw [hin] at h; cases h
          | ok inner =>
            rw [hin] at h
            exact ⟨h1, h2, st, inner, rfl, hin, (Except.ok.inj h).symm⟩
      · simp [h1, h2] at h
    · simp [h1] at h
  · rintro ⟨h1, h2, st, inner, hst, hin, hm⟩
    simp only [h1, h2, ge_iff_le, decide_True, if_true, hst, hin, hm]

/-- C9: when the multi-file `LoadModel_o3` returns a model for animation files that all
hold the vertex count `vc` in their first two bytes (the files together being shorter
than `2 ^ 32` bytes), there are between 1 and 31 files, the model has one animation for
each file, and animation `i` has identifier `i`, `(size_i - 2) / (vc * 6)` frames and
first frame the sum of the frame counts of the animations before it. -/
theorem LoadModel_o3_multi_animations (c : Constants) (model_file : FileContent)
    (files : List FileContent) (out_model m : Model) (vc : Nat)
    (hvc : ∀ f ∈ files, rdU16 f 0 = vc) (hlen : ∀ f ∈ files, 2 ≤ f.length)
    (htot : (files.map List.length).sum < 2 ^ 32)
    (h : LoadModel_o3_multi c model_file files out_model = Except.ok m) :
    1 ≤ files.length ∧ files.length < 32 ∧ m.animations.length = files.length ∧
      ∀ i, i < files.length →
        ∃ a, m.animations[i]? = some a ∧ a.id = i ∧
          a.frame_count = ((files.getD i []).length - 2) / (vc * 6) ∧
          a.first_frame = ((m.animations.take i).map (fun b => b.frame_count)).sum := by
  obtain ⟨h1, h2, st, inner, hst, _, hm⟩ :=
    (LoadModel_o3_multi_ok_iff c model_file files out_model m).mp h
  obtain ⟨e1, _, _⟩ := foldlM_animationFileStep vc files _ st hvc hlen
    (by simpa using htot) hst
  simp only [List.nil_append, List.length_nil] at e1
  have hl : st.1.length = files.length := by
    rw [e1, length_sequentialAnimations, List.length_map]
  have ha : m.animations =
      sequentialAnimations 0 0 (files.map (fun f => (f.length - 2) / (vc * 6))) := by
    rw [hm]
    show copyAnimations st.1 files.length inner.animations = _
    rw [← hl, copyAnimations_eq, e1]
  refine ⟨h1, h2, by rw [ha, length_sequentialAnimations, List.length_map], fun i hi => ?_⟩
  refine ⟨_, by rw [ha]; exact getElem?_sequentialAnimations 0 0 _ i (by simpa using hi),
    by simp, ?_, ?_⟩
  · show (files.map (fun f => (f.length - 2) / (vc * 6))).getD i 0 = _
    rw [List.getD_eq_getElem?_getD, List.getD_eq_getElem?_getD, List.getElem?_map,
      List.getElem?_eq_getElem hi]
    rfl
  · show 0 + ((files.map (fun f => (f.length - 2) / (vc * 6))).take i).sum = _
    rw [ha, List.map_take, map_frame_count_sequentialAnimations, Nat.zero_add]

theorem o3FrameCount_ok_of_ne (vertex_count : Nat) (animation_file : FileContent)
    (h : vertex_count ≠ 0) : ∃ fc, o3FrameCount vertex_count animation_file = Except.ok fc := by
  unfold o3FrameCount checkedDiv
  by_cases he : animation_file.isEmpty = true
  · exact ⟨1, by simp [he]⟩
  · have hd : vertex_count * 6 ≠ 0 := by omega
    exact ⟨_, by simp only [he, hd, if_false, Except.map]; rfl⟩

theorem sampleAnimationFiles_ok :
    ∃ m, LoadModel_o3_multi sampleConstants sampleModelFile sampleAnimationFiles default =
        Except.ok m ∧
      m.animations = [⟨0, 0, 1⟩, ⟨1, 1, 2⟩] := by
  obtain ⟨hlen, hvc, hpc, hth, h0⟩ := sampleModelFile_header
  have hst : sampleAnimationFiles.foldlM animationFileStep (([] : List Animation), 0, 0) =
      Except.ok ([⟨0, 0, 1⟩, ⟨1, 1, 2⟩], 3, 1) := by
    rfl
  obtain ⟨fc, hfc⟩ := o3FrameCount_ok_of_ne (rdU16 sampleModelFile 0x4800)
    (combinedAnimations sampleAnimationFiles 3 1) (by rw [hvc]; decide)
  obtain ⟨inner, hin⟩ : ∃ inner, LoadModel_o3 sampleConstants sampleModelFile
      (combinedAnimations sampleAnimationFiles 3 1) default = Except.ok inner :=
    ⟨_, (LoadModel_o3_ok_iff _ _ _ _ _).mpr ⟨by rw [hlen, hth]; rfl, fc, hfc, rfl⟩⟩
  refine ⟨{ inner with
      animations := copyAnimations [⟨0, 0, 1⟩, ⟨1, 1, 2⟩] 2 inner.animations },
    (LoadModel_o3_multi_ok_iff _ _ _ _ _).mpr ⟨by decide, by decide, _, inner, hst, hin, rfl⟩,
    ?_⟩
  exact copyAnimations_eq [⟨0, 0, 1⟩, ⟨1, 1, 2⟩] _

/-- C9 at the sample O3 file with its two animation files. -/
theorem LoadModel_o3_multi_animations_witness :
    ∃ m, LoadModel_o3_multi sampleConstants sampleModelFile sampleAnimationFiles default =
        Except.ok m ∧
      m.animations.length = sampleAnimationFiles.length ∧
      ∃ a, m.animations[1]? = some a ∧ a.id = 1 ∧
        a.frame_count = ((sampleAnimationFiles.getD 1 []).length - 2) / (1 * 6) ∧
        a.first_frame = ((m.animations.take 1).map (fun b => b.frame_count)).sum := by
  obtain ⟨m, hm, _⟩ := sampleAnimationFiles_ok
  have h := LoadModel_o3_multi_animations sampleConstants sampleModelFile sampleAnimationFiles
    default m 1 (by decide) (by decide) (by decide) hm
  exact ⟨m, hm, h.2.2.1, h.2.2.2 1 (by decide)⟩

/-! ## Helper lemmas: frame ranges -/

theorem length_memcpyInto (dst : List Nat) (off : Nat) (src : List Nat) :
    (memcpyInto dst off src).length = dst.length := by
  unfold memcpyInto
  generalize src.enum = l
  induction l generalizing dst with
  | nil => rfl
  | cons x xs ih => rw [List.foldl_cons, ih, List.length_set]

theorem length_combinedAnimations (files : List FileContent) (frame_count vertex_count : Nat) :
    (combinedAnimations files frame_count vertex_count).length =
      2 + u32 (vertex_count * frame_count) * 6 := by
  unfold combinedAnimations
  have key : ∀ (l : List FileContent) (st : List Nat × Nat),
      (l.foldl appendAnimationData st).1.length = st.1.length := by
    intro l
    induction l with
    | nil => intro st; rfl
    | cons f fs ih =>
      intro st
      rw [List.foldl_cons, ih]
      simp only [appendAnimationData, length_memcpyInto]
  simp only
  rw [key, length_memcpyInto, List.length_replicate]

theorem mem_sequentialAnimations (id first : Nat) (ns : List Nat) (a : Animation)
    (h : a ∈ sequentialAnimations id first ns) :
    first ≤ a.first_frame ∧ a.first_frame + a.frame_count ≤ first + ns.sum := by
  induction ns generalizing id first with
  | nil => simp [sequentialAnimations] at h
  | cons n ns ih =>
    simp only [sequentialAnimations, List.mem_cons] at h
    rw [List.sum_cons]
    rcases h with h | h
    · subst h
      simp only
      omega
    · have := ih (id + 1) (first + n) h
      omega

theorem sequentialAnimations_partition (id first : Nat) (ns : List Nat) (f : Nat)
    (h1 : first ≤ f) (h2 : f < first + ns.sum) :
    ∃! i : Nat, ∃ a : Animation, (sequentialAnimations id first ns)[i]? = some a ∧ a.hasFrame f := by
  induction ns generalizing id first with
  | nil => simp at h2; omega
  | cons n ns ih =>
    rw [List.sum_cons] at h2
    by_cases hf : f < first + n
    · refine ⟨0, ⟨⟨id, first, n⟩, by simp [sequentialAnimations], h1, hf⟩, ?_⟩
      rintro j ⟨b, hb, hbf⟩
      cases j with
      | zero => rfl
      | succ j =>
        exfalso
        simp only [sequentialAnimations, List.getElem?_cons_succ] at hb
        have := mem_sequentialAnimations (id + 1) (first + n) ns b (List.mem_iff_getElem?.mpr ⟨_, hb⟩)
        unfold Animation.hasFrame at hbf
        omega
    · obtain ⟨i, ⟨a, ha, haf⟩, huniq⟩ := ih (id + 1) (first + n) (by omega) (by omega)
      refine ⟨i + 1, ⟨a, by rw [sequentialAnimations, List.getElem?_cons_succ]; exact ha, haf⟩, ?_⟩
      rintro j ⟨b, hb, hbf⟩
      cases j with
      | zero =>
        exfalso
        simp only [sequentialAnimations, List.getElem?_cons_zero, Option.some.injEq] at hb
        subst hb
        unfold Animation.hasFrame at hbf
        simp only at hbf
        omega
      | succ j =>
        simp only [sequentialAnimations, List.getElem?_cons_succ] at hb
        rw [huniq j ⟨b, hb, hbf⟩]

theorem sum_div_mul_le (files : List FileContent) (d : Nat) :
    (files.map (fun f => (f.length - 2) / d)).sum * d ≤ (files.map List.length).sum := by
  induction files with
  | nil => simp
  | cons f fs ih =>
    simp only [List.map_cons, List.sum_cons, Nat.add_mul]
    have := Nat.div_mul_le_self (f.length - 2) d
    omega

theorem o3FrameCount_combined (vc : Nat) (combined : FileContent) (total fc : Nat)
    (hlen : combined.length = 2 + u32 (vc * total) * 6) (ht : vc * total * 6 < 2 ^ 32)
    (h : o3FrameCount vc combined = Except.ok fc) : fc = total := by
  unfold o3FrameCount checkedDiv at h
  have hne : combined.isEmpty = false := by
    cases combined with
    | nil =>
      exfalso
      simp only [List.length_nil] at hlen
      omega
    | cons x xs => rfl
  by_cases hd : vc * 6 = 0
  · simp [hne, hd, Except.map] at h
  · simp only [hne, hd, if_false, Except.map, Except.ok.injEq, Bool.false_eq_true] at h
    have hu : u32 (vc * total) = vc * total := u32_of_lt (by omega)
    rw [hlen, hu, usizeSub_two (by omega) (by omega)] at h
    have e : (2 + vc * total * 6 - 2) / (vc * 6) = total := by
      have : 2 + vc * total * 6 - 2 = total * (vc * 6) := by
        rw [Nat.add_sub_cancel_left]
        ring
      rw [this, Nat.mul_div_cancel _ (by omega)]
    rw [e] at h
    have hvc : 0 < vc := by
      rcases Nat.eq_zero_or_pos vc with h0 | h0
      · rw [h0] at hd; exact absurd rfl hd
      · exact h0
    have htot : total < 2 ^ 32 := by
      have : total ≤ vc * total * 6 := by
        calc total = 1 * total * 1 := by ring
          _ ≤ vc * total * 6 := by
            apply Nat.mul_le_mul
            · exact Nat.mul_le_mul_right _ hvc
            · decide
      omega
    rw [u32_of_lt htot] at h
    exact h.symm

theorem partition_of_sequential (m : Model) (ns : List Nat)
    (ha : m.animations = sequentialAnimations 0 0 ns) (hf : m.frame_count = ns.sum) :
    m.frame_count = (m.animations.map (fun a => a.frame_count)).sum ∧
      (∀ a ∈ m.animations, a.first_frame + a.frame_count ≤ m.frame_count) ∧
      (∀ f, f < m.frame_count →
        ∃! i : Nat, ∃ a : Animation, m.animations[i]? = some a ∧ a.hasFrame f) := by
  rw [ha, hf, map_frame_count_sequentialAnimations]
  refine ⟨rfl, fun a h => ?_, fun f h => ?_⟩
  · have := mem_sequentialAnimations 0 0 ns a h
    omega
  · exact sequentialAnimations_partition 0 0 ns f (Nat.zero_le _) (by omega)

/-- C10: for a model returned by the one-file `LoadModel_o3`, or by the multi-file one
for animation files that hold the vertex count of the model file (the files together
being shorter than `2 ^ 32` bytes), `frame_count` is the sum of the frame counts of the
animations, every range `[first_frame, first_frame + frame_count)` lies within
`[0, frame_count)`, and every frame below `frame_count` lies in the range of exactly one
entry of `animations`. -/
theorem LoadModel_o3_frames_partition (c : Constants) (model_file animation_file : FileContent)
    (files : List FileContent) (out_model m : Model)
    (h : LoadModel_o3 c model_file animation_file out_model = Except.ok m ∨
      (LoadModel_o3_multi c model_file files out_model = Except.ok m ∧
        (∀ f ∈ files, rdU16 f 0 = rdU16 model_file 0x4800) ∧ (∀ f ∈ files, 2 ≤ f.length) ∧
        (files.map List.length).sum < 2 ^ 32)) :
    m.frame_count = (m.animations.map (fun a => a.frame_count)).sum ∧
      (∀ a ∈ m.animations, a.first_frame + a.frame_count ≤ m.frame_count) ∧
      (∀ f, f < m.frame_count →
        ∃! i : Nat, ∃ a : Animation, m.animations[i]? = some a ∧ a.hasFrame f) := by
  rcases h with h | ⟨h, hvc, hlen, htot⟩
  · obtain ⟨_, fc, _, hm⟩ := (LoadModel_o3_ok_iff c model_file animation_file out_model m).mp h
    have hs := o3_start_fields c model_file out_model (rdU16 model_file 0x4800)
    apply partition_of_sequential m [fc]
    · rw [hm, o3Geometry_animations _ _ _ _ _ hs.1]
      rfl
    · rw [hm, o3Geometry_frame_count]
      simp
  · obtain ⟨h1, h2, st, inner, hst, hin, hm⟩ :=
      (LoadModel_o3_multi_ok_iff c model_file files out_model m).mp h
    obtain ⟨e1, e2, e3⟩ := foldlM_animationFileStep (rdU16 model_file 0x4800) files _ st hvc hlen
      (by simpa using htot) hst
    simp only [List.nil_append, List.length_nil, Nat.zero_add] at e1 e2
    have hne : files ≠ [] := by
      intro h0
      rw [h0] at h1
      simp at h1
    obtain ⟨e3, hvc0⟩ := e3 hne
    have hl : st.1.length = files.length := by
      rw [e1, length_sequentialAnimations, List.length_map]
    obtain ⟨_, fc, hfc, hinner⟩ := (LoadModel_o3_ok_iff c model_file _ out_model inner).mp hin
    have hsum := sum_div_mul_le files (rdU16 model_file 0x4800 * 6)
    have hfc' : fc = st.2.1 := by
      apply o3FrameCount_combined (rdU16 model_file 0x4800) _ st.2.1 fc _ _ hfc
      · rw [length_combinedAnimations, e3]
      · rw [e2]
        calc rdU16 model_file 0x4800 *
              (files.map (fun f => (f.length - 2) / (rdU16 model_file 0x4800 * 6))).sum * 6
            = (files.map (fun f => (f.length - 2) / (rdU16 model_file 0x4800 * 6))).sum *
              (rdU16 model_file 0x4800 * 6) := by ring
          _ < 2 ^ 32 := by omega
    apply partition_of_sequential m
      (files.map (fun f => (f.length - 2) / (rdU16 model_file 0x4800 * 6)))
    · rw [hm]
      show copyAnimations st.1 files.length inner.animations = _
      rw [← hl, copyAnimations_eq, e1]
    · rw [hm]
      show inner.frame_count = _
      rw [hinner, o3Geometry_frame_count, hfc', e2]

/-- C10 at the sample O3 file with its two animation files. -/
theorem LoadModel_o3_frames_partition_witness :
    ∃ m, LoadModel_o3_multi sampleConstants sampleModelFile sampleAnimationFiles default =
        Except.ok m ∧
      m.frame_count = (m.animations.map (fun a => a.frame_count)).sum ∧
      ∃! i : Nat, ∃ a : Animation, m.animations[i]? = some a ∧ a.hasFrame 0 := by
  obtain ⟨hlen, hvc, hpc, hth, h0⟩ := sampleModelFile_header
  obtain ⟨m, hm, ha⟩ := sampleAnimationFiles_ok
  have h := LoadModel_o3_frames_partition sampleConstants sampleModelFile []
    sampleAnimationFiles default m
    (Or.inr ⟨hm, by rw [hvc]; decide, by decide, by decide⟩)
  have hfc : m.frame_count = 3 := by
    rw [h.1, ha]
    rfl
  exact ⟨m, hm, h.1, h.2.2 0 (by omega)⟩

/-! ## Helper lemmas: the whole polygon loop -/

theorem foldl_polygonStep_vertices (fmt : CornerFormat) (vertex_count : Nat)
    (polygons : List Polygon_o3) (st : Submodel × Nat) (h : st.2 = st.1.vertices.length) :
    (polygons.foldl (polygonStep fmt vertex_count) st).1.vertices =
      st.1.vertices ++ polygons.flatMap (polygonCorners fmt vertex_count) := by
  induction polygons generalizing st with
  | nil => simp
  | cons p ps ih =>
    rw [List.foldl_cons, ih, List.flatMap_cons, ← List.append_assoc]
    · congr 1
      rw [polygonStep_vertices, h, writeCorners_eq]
      rfl
    · rw [polygonStep_snd, polygonStep_vertices, length_writeCorners, h]

theorem polygonLoop_vertices (fmt : CornerFormat) (vertex_count : Nat)
    (polygons : List Polygon_o3) (out : Submodel) (h : out.vertices = []) :
    (polygonLoop fmt vertex_count polygons out).vertices =
      polygons.flatMap (polygonCorners fmt vertex_count) := by
  unfold polygonLoop
  rw [foldl_polygonStep_vertices _ _ _ _ (by simp [h])]
  simp [h]

theorem three_dvd_polygon_index_count (vertex_count : Nat) (polygon : Polygon_o3) :
    3 ∣ polygon_index_count vertex_count polygon := by
  unfold polygon_index_count
  cases polygon_is_triangle vertex_count polygon <;> cases polygon_is_twosided polygon <;>
    decide

theorem polygonLoop_three_dvd (fmt : CornerFormat) (vertex_count : Nat)
    (polygons : List Polygon_o3) (out : Submodel)
    (h1 : 3 ∣ out.regular_triangles_indeces.length)
    (h2 : 3 ∣ out.transparent_triangles_indeces.length) :
    3 ∣ (polygonLoop fmt vertex_count polygons out).regular_triangles_indeces.length ∧
      3 ∣ (polygonLoop fmt vertex_count polygons out).transparent_triangles_indeces.length := by
  unfold polygonLoop
  have key : ∀ (ps : List Polygon_o3) (st : Submodel × Nat),
      3 ∣ st.1.regular_triangles_indeces.length →
      3 ∣ st.1.transparent_triangles_indeces.length →
      3 ∣ (ps.foldl (polygonStep fmt vertex_count) st).1.regular_triangles_indeces.length ∧
        3 ∣ (ps.foldl (polygonStep fmt vertex_count) st).1.transparent_triangles_indeces.length := by
    intro ps
    induction ps with
    | nil => intro st a b; exact ⟨a, b⟩
    | cons p ps ih =>
      intro st a b
      rw [List.foldl_cons]
      apply ih
      · rw [polygonStep_regular]
        split
        · exact a
        · rw [length_writeIndeces]
          exact Nat.dvd_add a (three_dvd_polygon_index_count _ _)
      · rw [polygonStep_transparent]
        split
        · rw [length_writeIndeces]
          exact Nat.dvd_add b (three_dvd_polygon_index_count _ _)
        · exact b
  exact key polygons (out, 0) h1 h2

/-! ## Helper lemmas: consecutive frame ranges -/

theorem sequential_mem (first : Nat) (l : List Animation) (h : Sequential first l)
    (a : Animation) (ha : a ∈ l) :
    first ≤ a.first_frame ∧
      a.first_frame + a.frame_count ≤ first + (l.map (fun b => b.frame_count)).sum := by
  induction l generalizing first with
  | nil => simp at ha
  | cons b bs ih =>
    obtain ⟨h1, h2⟩ := h
    rw [List.map_cons, List.sum_cons]
    rcases List.mem_cons.mp ha with e | e
    · subst e
      omega
    · have := ih _ h2 e
      omega

theorem sequential_first_frame (first : Nat) (l : List Animation) (h : Sequential first l)
    (i : Nat) (a : Animation) (ha : l[i]? = some a) :
    a.first_frame = first + ((l.take i).map (fun b => b.frame_count)).sum := by
  induction l generalizing first i with
  | nil => simp at ha
  | cons b bs ih =>
    obtain ⟨h1, h2⟩ := h
    cases i with
    | zero =>
      simp only [List.getElem?_cons_zero, Option.some.injEq] at ha
      subst ha
      simp [h1]
    | succ i =>
      rw [List.getElem?_cons_succ] at ha
      rw [ih _ h2 i ha, List.take_succ_cons, List.map_cons, List.sum_cons]
      omega

theorem sequential_disjoint (first : Nat) (l : List Animation) (h : Sequential first l)
    (f i j : Nat) (a b : Animation) (ha : l[i]? = some a) (hb : l[j]? = some b)
    (haf : a.hasFrame f) (hbf : b.hasFrame f) : i = j := by
  induction l generalizing first i j with
  | nil => simp at ha
  | cons x xs ih =>
    obtain ⟨h1, h2⟩ := h
    unfold Animation.hasFrame at haf hbf
    cases i with
    | zero =>
      cases j with
      | zero => rfl
      | succ j =>
        exfalso
        simp only [List.getElem?_cons_zero, Option.some.injEq] at ha
        rw [List.getElem?_cons_succ] at hb
        have := sequential_mem _ xs h2 b (List.getElem?_mem hb)
        subst ha
        omega
    | succ i =>
      cases j with
      | zero =>
        exfalso
        simp only [List.getElem?_cons_zero, Option.some.injEq] at hb
        rw [List.getElem?_cons_succ] at ha
        have := sequential_mem _ xs h2 a (List.getElem?_mem ha)
        subst hb
        omega
      | succ j =>
        rw [List.getElem?_cons_succ] at ha hb
        rw [ih _ h2 i j ha hb]

theorem sequential_cover (first : Nat) (l : List Animation) (h : Sequential first l) (f : Nat)
    (h1 : first ≤ f) (h2 : f < first + (l.map (fun b => b.frame_count)).sum) :
    ∃ (i : Nat) (a : Animation), l[i]? = some a ∧ a.hasFrame f := by
  induction l generalizing first with
  | nil => simp at h2; omega
  | cons x xs ih =>
    obtain ⟨e1, e2⟩ := h
    rw [List.map_cons, List.sum_cons] at h2
    by_cases hf : f < first + x.frame_count
    · exact ⟨0, x, List.getElem?_cons_zero, by unfold Animation.hasFrame; omega⟩
    · obtain ⟨i, a, ha, haf⟩ := ih _ e2 (by omega) (by omega)
      exact ⟨i + 1, a, by rw [List.getElem?_cons_succ]; exact ha, haf⟩

theorem sequential_partition (first : Nat) (l : List Animation) (h : Sequential first l)
    (f : Nat) (h1 : first ≤ f) (h2 : f < first + (l.map (fun b => b.frame_count)).sum) :
    ∃! i : Nat, ∃ a : Animation, l[i]? = some a ∧ a.hasFrame f := by
  obtain ⟨i, a, ha, haf⟩ := sequential_cover first l h f h1 h2
  refine ⟨i, ⟨a, ha, haf⟩, ?_⟩
  rintro j ⟨b, hb, hbf⟩
  exact sequential_disjoint first l h f j i b a hb ha hbf haf

theorem slotAnimations_cons_zero (first : Nat) (s : Nat × Nat) (rest : List (Nat × Nat))
    (h : s.2 = 0) : slotAnimations first (s :: rest) = slotAnimations first rest := by
  rw [slotAnimations, if_pos h]

theorem slotAnimations_cons_pos (first : Nat) (s : Nat × Nat) (rest : List (Nat × Nat))
    (h : s.2 ≠ 0) :
    slotAnimations first (s :: rest) =
      ⟨s.1, first, s.2⟩ :: slotAnimations (first + s.2) rest := by
  rw [slotAnimations, if_neg h]

theorem sequential_slotAnimations (first : Nat) (slots : List (Nat × Nat)) :
    Sequential first (slotAnimations first slots) := by
  induction slots generalizing first with
  | nil => trivial
  | cons s rest ih =>
    by_cases h0 : s.2 = 0
    · rw [slotAnimations_cons_zero _ _ _ h0]
      exact ih first
    · rw [slotAnimations_cons_pos _ _ _ h0]
      exact ⟨rfl, ih _⟩

theorem sum_slotAnimations (first : Nat) (slots : List (Nat × Nat)) :
    ((slotAnimations first slots).map (fun a => a.frame_count)).sum =
      (slots.map (fun s => s.2)).sum := by
  induction slots generalizing first with
  | nil => rfl
  | cons s rest ih =>
    by_cases h0 : s.2 = 0
    · rw [slotAnimations_cons_zero _ _ _ h0, ih, List.map_cons, List.sum_cons, h0, Nat.zero_add]
    · rw [slotAnimations_cons_pos _ _ _ h0, List.map_cons, List.sum_cons, ih, List.map_cons,
        List.sum_cons]

theorem slotAnimations_slots (first : Nat) (slots : List (Nat × Nat)) :
    (slotAnimations first slots).map (fun a => (a.id, a.frame_count)) =
      slots.filter (fun s => decide (s.2 ≠ 0)) := by
  induction slots generalizing first with
  | nil => rfl
  | cons s rest ih =>
    by_cases h0 : s.2 = 0
    · rw [slotAnimations_cons_zero _ _ _ h0, ih, List.filter_cons_of_neg (by simp [h0])]
    · rw [slotAnimations_cons_pos _ _ _ h0, List.map_cons, ih,
        List.filter_cons_of_pos (by simp [h0])]

/-! ## Helper lemmas: the animation slots of a CAR file -/

theorem foldlM_carAnimationStep_eq (divisor : Nat) (hd : divisor ≠ 0) (id size : Nat → Nat)
    (l : List Nat) (st : List Animation × Nat) :
    l.foldlM (fun (s : List Animation × Nat) i => carAnimationStep divisor (id i) s (size i)) st =
      Except.ok (st.1 ++ slotAnimations st.2 (l.map (fun i => (id i, size i / divisor))),
        st.2 + (l.map (fun i => size i / divisor)).sum) := by
  induction l generalizing st with
  | nil => simp [slotAnimations, pure, Except.pure]
  | cons i is ih =>
    rw [List.foldlM_cons]
    have hstep : carAnimationStep divisor (id i) st (size i) =
        Except.ok (if size i / divisor = 0 then st
          else (st.1 ++ [⟨id i, st.2, size i / divisor⟩], st.2 + size i / divisor)) := by
      unfold carAnimationStep checkedDiv
      simp only [hd, if_false, bind, Except.bind, pure, Except.pure]
      split <;> rfl
    simp only [bind, Except.bind, hstep]
    rw [ih, List.map_cons, List.map_cons, List.sum_cons]
    by_cases h0 : size i / divisor = 0
    · simp only [h0, if_true, Nat.zero_add]
      rw [slotAnimations_cons_zero _ _ _ rfl]
    · simp only [h0, if_false]
      rw [slotAnimations_cons_pos _ _ _ h0]
      simp [Nat.add_assoc]

theorem foldlM_carAnimationStep_zero (id size : Nat → Nat) (i : Nat) (is : List Nat)
    (st : List Animation × Nat) :
    (i :: is).foldlM (fun (s : List Animation × Nat) i => carAnimationStep 0 (id i) s (size i)) st =
      Except.error LoadError.division_by_zero := by
  rw [List.foldlM_cons]
  simp [carAnimationStep, checkedDiv, bind, Except.bind]

/-! ## Helper lemmas: copies and bounding boxes -/

theorem getElem?_foldl_set_enumFrom (src : List Nat) (n : Nat) (dst : List Nat) (i : Nat) :
    ((src.enumFrom n).foldl (fun d kb => d.set kb.1 kb.2) dst)[i]? =
      if n ≤ i ∧ i < n + src.length ∧ i < dst.length then src[i - n]? else dst[i]? := by
  induction src generalizing n dst with
  | nil =>
    simp only [List.enumFrom_nil, List.foldl_nil, List.length_nil]
    rw [if_neg (by omega)]
  | cons x xs ih =>
    rw [List.enumFrom_cons, List.foldl_cons, ih, List.length_set, List.getElem?_set,
      List.length_cons]
    by_cases h1 : n = i
    · subst h1
      by_cases h2 : n < dst.length
      · simp [h2]
      · simp [h2]
        omega
    · by_cases h3 : n + 1 ≤ i ∧ i < n + 1 + xs.length ∧ i < dst.length
      · have h4 : n ≤ i ∧ i < n + (xs.length + 1) ∧ i < dst.length := by omega
        rw [if_pos h3, if_pos h4]
        obtain ⟨k, hk⟩ : ∃ k, i - n = k + 1 := ⟨i - n - 1, by omega⟩
        rw [hk, List.getElem?_cons_succ]
        congr 1
        omega
      · have h4 : ¬ (n ≤ i ∧ i < n + (xs.length + 1) ∧ i < dst.length) := by omega
        rw [if_neg h3, if_neg h4, if_neg h1]

theorem memcpyInto_full (dst src : List Nat) (h : src.length = dst.length) :
    memcpyInto dst 0 src = src := by
  unfold memcpyInto
  have e : (fun (d : List Nat) (kb : Nat × Nat) => d.set (0 + kb.1) kb.2) =
      (fun d kb => d.set kb.1 kb.2) := by
    funext d kb
    rw [Nat.zero_add]
  rw [e]
  apply List.ext_getElem?
  intro i
  rw [List.enum, getElem?_foldl_set_enumFrom]
  by_cases hi : i < src.length
  · rw [if_pos (by omega)]
    rfl
  · rw [if_neg (by omega), List.getElem?_eq_none (by omega), List.getElem?_eq_none (by omega)]

theorem calculateBoundingBoxes_eq (c : Constants) (buf : FileContent) (off : Nat)
    (vertex_count frame_count : Nat) (old : List m_BBox3) :
    calculateBoundingBoxes c buf off vertex_count frame_count old =
      (List.range frame_count).map
        (fun i => CalculateBoundingBox c buf off (u32 (i * vertex_count)) vertex_count) := by
  unfold calculateBoundingBoxes
  exact foldl_set_range _ _ _ (length_vecResize _ _ _)

/-! ## Helper lemmas: the submodels and sounds of a CAR file -/

theorem prepare_model_animations (c : Constants) (ts : Nat × Nat) (buf : FileContent)
    (vc pc voff poff : Nat) (s : Submodel) :
    (prepare_model c ts buf vc pc voff poff s).animations = s.animations := by
  unfold prepare_model
  simp only [polygonLoop_animations]

theorem prepare_model_frame_count (c : Constants) (ts : Nat × Nat) (buf : FileContent)
    (vc pc voff poff : Nat) (s : Submodel) :
    (prepare_model c ts buf vc pc voff poff s).frame_count = s.frame_count := by
  unfold prepare_model
  simp only [polygonLoop_frame_count]

theorem prepare_model_animations_bboxes (c : Constants) (ts : Nat × Nat) (buf : FileContent)
    (vc pc voff poff : Nat) (s : Submodel) :
    (prepare_model c ts buf vc pc voff poff s).animations_bboxes =
      (List.range s.frame_count).map
        (fun i => CalculateBoundingBox c buf voff (u32 (i * vc)) vc) := by
  unfold prepare_model
  simp only [polygonLoop_frame_count, calculateBoundingBoxes_eq]

theorem prepare_model_three_dvd (c : Constants) (ts : Nat × Nat) (buf : FileContent)
    (vc pc voff poff : Nat) (s : Submodel)
    (h1 : 3 ∣ s.regular_triangles_indeces.length)
    (h2 : 3 ∣ s.transparent_triangles_indeces.length) :
    3 ∣ (prepare_model c ts buf vc pc voff poff s).regular_triangles_indeces.length ∧
      3 ∣ (prepare_model c ts buf vc pc voff poff s).transparent_triangles_indeces.length := by
  unfold prepare_model
  exact polygonLoop_three_dvd _ _ _ _ h1 h2

theorem set_getD_self {α : Type} (l : List α) (i : Nat) (d : α) (h : l.getD i d = d) :
    l.set i d = l := by
  apply List.ext_getElem?
  intro j
  rw [List.getElem?_set]
  split
  · rename_i hij
    subst hij
    split
    · rename_i hlt
      rw [List.getD_eq_getElem?_getD, List.getElem?_eq_getElem hlt] at h
      rw [List.getElem?_eq_getElem hlt]
      exact congrArg some (Option.getD_some.symm.trans h).symm
    · rename_i hlt
      rw [List.getElem?_eq_none (by omega)]
  · rfl

theorem carSubmodelOffset_succ (buf : FileContent) (i : Nat) :
    carSubmodelOffset buf (i + 1) = carSubmodelOffset buf i + carSubmodelBlockSize buf i := by
  unfold carSubmodelOffset
  rw [List.range_succ, List.map_append, List.sum_append]
  simp [Nat.add_assoc]

theorem carSubmodelStep_skip (c : Constants) (ts : Nat × Nat) (buf : FileContent)
    (l : List Submodel) (i : Nat) (hd : l.getD i default = default)
    (hz : CARHeader.submodels_animations buf i 0 + CARHeader.submodels_animations buf i 1 = 0) :
    carSubmodelStep c ts buf (l, carSubmodelOffset buf i) i =
      Except.ok (l.set i (carSubmodelResult c ts buf i), carSubmodelOffset buf (i + 1)) := by
  unfold carSubmodelStep
  simp only [hz, if_true]
  rw [carSubmodelOffset_succ]
  unfold carSubmodelResult carSubmodelBlockSize
  rw [if_pos hz, if_pos hz, set_getD_self l i default hd]
  rfl

theorem carSubmodelStep_zero (c : Constants) (ts : Nat × Nat) (buf : FileContent)
    (l : List Submodel) (i : Nat)
    (hz : CARHeader.submodels_animations buf i 0 + CARHeader.submodels_animations buf i 1 ≠ 0)
    (hv : carSubmodelVertexCount buf i = 0) :
    carSubmodelStep c ts buf (l, carSubmodelOffset buf i) i =
      Except.error LoadError.division_by_zero := by
  unfold carSubmodelStep
  unfold carSubmodelVertexCount at hv
  simp only [hz, if_false, hv, checkedDiv, Nat.mul_zero, if_true, bind, Except.bind]

theorem carSubmodelStep_eq (c : Constants) (ts : Nat × Nat) (buf : FileContent)
    (l : List Submodel) (i : Nat) (hd : l.getD i default = default)
    (hz : CARHeader.submodels_animations buf i 0 + CARHeader.submodels_animations buf i 1 ≠ 0)
    (hv : carSubmodelVertexCount buf i ≠ 0) :
    carSubmodelStep c ts buf (l, carSubmodelOffset buf i) i =
      Except.ok (l.set i (carSubmodelResult c ts buf i), carSubmodelOffset buf (i + 1)) := by
  have hv6 : 6 * carSubmodelVertexCount buf i ≠ 0 := by omega
  have hfold := foldlM_carAnimationStep_eq (6 * carSubmodelVertexCount buf i) hv6 (fun _ => i)
    (fun a => CARHeader.submodels_animations buf i a) [0, 1]
  unfold carSubmodelStep
  rw [carSubmodelOffset_succ]
  unfold carSubmodelResult carSubmodelBlockSize
  rw [if_neg hz, if_neg hz]
  unfold carSubmodelVertexCount at hv6 hfold ⊢
  simp only [hz, if_false, hd, checkedDiv, hv6, bind, Except.bind, hfold, pure, Except.pure,
    prepare_model_animations]
  rfl

theorem carSubmodels_init :
    (vecResize ([] : List Submodel) 3 default).map
      (fun submodel => { submodel with frame_count := 0, z_min := 0, z_max := 0 }) =
      [default, default, default] := by
  rfl

theorem carSubmodels_eq (c : Constants) (ts : Nat × Nat) (buf : FileContent)
    (hv : ∀ i, i < 3 →
      CARHeader.submodels_animations buf i 0 + CARHeader.submodels_animations buf i 1 ≠ 0 →
      carSubmodelVertexCount buf i ≠ 0) :
    carSubmodels c ts buf [] (carSubmodelsOffset buf) =
      Except.ok ((List.range 3).map (carSubmodelResult c ts buf), carSubmodelOffset buf 3) := by
  have step : ∀ (l : List Submodel) (i : Nat), i < 3 → l.getD i default = default →
      carSubmodelStep c ts buf (l, carSubmodelOffset buf i) i =
        Except.ok (l.set i (carSubmodelResult c ts buf i), carSubmodelOffset buf (i + 1)) := by
    intro l i hi hd
    by_cases hz : CARHeader.submodels_animations buf i 0 +
        CARHeader.submodels_animations buf i 1 = 0
    · exact carSubmodelStep_skip c ts buf l i hd hz
    · exact carSubmodelStep_eq c ts buf l i hd hz (hv i hi hz)
  have h0 : carSubmodelsOffset buf = carSubmodelOffset buf 0 := by
    simp [carSubmodelOffset]
  unfold carSubmodels
  rw [carSubmodels_init, h0]
  simp only [List.range, List.range.loop, List.foldlM_cons, List.foldlM_nil, bind, Except.bind]
  rw [step [default, default, default] 0 (by decide) rfl]
  simp only []
  rw [step (List.set [default, default, default] 0 (carSubmodelResult c ts buf 0)) 1 (by decide) rfl]
  simp only []
  rw [step (List.set (List.set [default, default, default] 0 (carSubmodelResult c ts buf 0)) 1 (carSubmodelResult c ts buf 1)) 2 (by decide) rfl]
  rfl

theorem carSubmodels_error (c : Constants) (ts : Nat × Nat) (buf : FileContent)
    (i : Nat) (hi : i < 3)
    (hz : CARHeader.submodels_animations buf i 0 + CARHeader.submodels_animations buf i 1 ≠ 0)
    (hv : carSubmodelVertexCount buf i = 0) (x : List Submodel × Nat) :
    carSubmodels c ts buf [] (carSubmodelsOffset buf) ≠ Except.ok x := by
  have step : ∀ (l : List Submodel) (j : Nat), l.getD j default = default →
      (CARHeader.submodels_animations buf j 0 + CARHeader.submodels_animations buf j 1 ≠ 0 →
        carSubmodelVertexCount buf j ≠ 0) →
      carSubmodelStep c ts buf (l, carSubmodelOffset buf j) j =
        Except.ok (l.set j (carSubmodelResult c ts buf j), carSubmodelOffset buf (j + 1)) := by
    intro l j hd hvj
    by_cases hz : CARHeader.submodels_animations buf j 0 +
        CARHeader.submodels_animations buf j 1 = 0
    · exact carSubmodelStep_skip c ts buf l j hd hz
    · exact carSubmodelStep_eq c ts buf l j hd hz (hvj hz)
  have h0 : carSubmodelsOffset buf = carSubmodelOffset buf 0 := by
    simp [carSubmodelOffset]
  unfold carSubmodels
  rw [carSubmodels_init, h0]
  simp only [List.range, List.range.loop, List.foldlM_cons, List.foldlM_nil, bind, Except.bind]
  by_cases g0 : CARHeader.submodels_animations buf 0 0 + CARHeader.submodels_animations buf 0 1 ≠ 0
      → carSubmodelVertexCount buf 0 ≠ 0
  · rw [step [default, default, default] 0 rfl g0]
    simp only []
    by_cases g1 : CARHeader.submodels_animations buf 1 0 +
        CARHeader.submodels_animations buf 1 1 ≠ 0 → carSubmodelVertexCount buf 1 ≠ 0
    · rw [step (List.set [default, default, default] 0 (carSubmodelResult c ts buf 0)) 1 rfl g1]
      simp only []
      have hi2 : i = 2 := by
        rcases (by omega : i = 0 ∨ i = 1 ∨ i = 2) with e | e | e
        · subst e; exact absurd hv (g0 hz)
        · subst e; exact absurd hv (g1 hz)
        · exact e
      subst hi2
      rw [carSubmodelStep_zero c ts buf _ 2 hz hv]
      simp
    · push_neg at g1
      rw [carSubmodelStep_zero c ts buf _ 1 g1.1 g1.2]
      simp
  · push_neg at g0
    rw [carSubmodelStep_zero c ts buf _ 0 g0.1 g0.2]
    simp

theorem carSoundStep_fst (buf : FileContent) (st : List (List Nat) × Nat) (i : Nat) :
    (carSoundStep buf st i).1 =
      st.1.set i (rdBytes buf st.2 (CARHeader.sounds buf i)) := by
  unfold carSoundStep
  simp only []
  rw [memcpyInto_full _ _ (by rw [length_rdBytes, length_vecResize])]

theorem foldl_carSoundStep_fst (buf : FileContent) (n : Nat) (st : List (List Nat) × Nat) :
    ((List.range n).foldl (carSoundStep buf) st).1 =
      (List.range n).foldl
        (fun l i =>
          l.set i
            (rdBytes buf (st.2 + ((List.range i).map (CARHeader.sounds buf)).sum)
              (CARHeader.sounds buf i)))
        st.1 := by
  induction n with
  | zero => rfl
  | succ n ih =>
    rw [List.range_succ, List.foldl_append, List.foldl_append, List.foldl_cons, List.foldl_nil,
      List.foldl_cons, List.foldl_nil, ← ih]
    rw [carSoundStep_fst, foldl_carSoundStep_snd]

theorem carSounds_eq (buf : FileContent) (sounds : List (List Nat)) :
    carSounds buf sounds (carSubmodelOffset buf 3) =
      (carSoundsResult buf, carSoundOffset buf CARHeader.c_sound_count) := by
  unfold carSounds
  apply Prod.ext
  · rw [foldl_carSoundStep_fst]
    exact foldl_set_range _ _ _ (length_vecResize _ _ _)
  · rw [foldl_carSoundStep_snd]
    rfl

theorem carSoundOffset_last (buf : FileContent) :
    carSoundOffset buf CARHeader.c_sound_count = carFinalOffset buf := by
  unfold carSoundOffset carFinalOffset carSubmodelOffset
  rfl

/-! ## Helper lemmas: the result of `LoadModel_car` -/

theorem carMainAnimations_eq (buf : FileContent) (hv : rdU16 buf 0x4866 ≠ 0) :
    carMainAnimations buf (rdU16 buf 0x4866) [] =
      Except.ok (carMainSlots buf, carMainFrameCount buf) := by
  unfold carMainAnimations
  rw [foldlM_carAnimationStep_eq (6 * rdU16 buf 0x4866) (by omega) (fun i => i)
    (fun i => CARHeader.animations buf i) (List.range 20) ([], 0)]
  unfold carMainSlots carMainFrameCount
  simp

theorem carMainAnimations_zero (buf : FileContent) (l : List Animation)
    (hv : rdU16 buf 0x4866 = 0) :
    carMainAnimations buf (rdU16 buf 0x4866) l = Except.error LoadError.division_by_zero := by
  unfold carMainAnimations
  rw [hv]
  exact foldlM_carAnimationStep_zero (fun i => i) (fun i => CARHeader.animations buf i) 0
    (List.range' 1 19) (l, 0)

theorem LoadModel_car_ok_iff (c : Constants) (buf : FileContent) (out_model m : Model) :
    LoadModel_car c buf out_model = Except.ok m ↔
      rdU16 buf 0x4866 ≠ 0 ∧
      (∀ i, i < 3 →
        CARHeader.submodels_animations buf i 0 + CARHeader.submodels_animations buf i 1 ≠ 0 →
        carSubmodelVertexCount buf i ≠ 0) ∧
      carFinalOffset buf = buf.length ∧ m = carResult c buf out_model := by
  unfold LoadModel_car
  have ha : (carTexture buf (ClearModel out_model)).animations = [] := rfl
  by_cases hv : rdU16 buf 0x4866 = 0
  · simp only [ha]
    rw [carMainAnimations_zero buf _ hv]
    simp [bind, Except.bind, hv]
  · simp only [ha]
    rw [carMainAnimations_eq buf hv]
    simp only [bind, Except.bind]
    have hm := carMainModel_frame c buf (carMainSlots buf, carMainFrameCount buf)
      (carTexture buf (ClearModel out_model))
    have hoff : 0x486C +
        (carMainModel c buf (carMainSlots buf, carMainFrameCount buf)
          (carTexture buf (ClearModel out_model))).texture_data.length +
        (carMainModel c buf (carMainSlots buf, carMainFrameCount buf)
          (carTexture buf (ClearModel out_model))).frame_count * 6 * rdU16 buf 0x4866 =
        carSubmodelsOffset buf := by
      rw [hm.1, hm.2.1]
      simp [carTexture, length_rdBytes, carSubmodelsOffset]
    have hsub : (carMainModel c buf (carMainSlots buf, carMainFrameCount buf)
        (carTexture buf (ClearModel out_model))).submodels = [] := by
      rw [hm.2.2.2.1]
      rfl
    have hts : (carMainModel c buf (carMainSlots buf, carMainFrameCount buf)
        (carTexture buf (ClearModel out_model))).texture_size =
        (g_car_model_texture_width, rdU16 buf 0x486A / g_car_model_texture_width) := by
      rw [hm.2.2.1]
      rfl
    rw [hoff, hsub]
    by_cases hs : ∀ i, i < 3 →
        CARHeader.submodels_animations buf i 0 + CARHeader.submodels_animations buf i 1 ≠ 0 →
        carSubmodelVertexCount buf i ≠ 0
    · rw [carSubmodels_eq c _ buf hs]
      simp only [carSounds_eq, carSoundOffset_last, PC_ASSERT]
      by_cases hl : carFinalOffset buf = buf.length
      · simp only [hl, beq_self_eq_true, if_true, pure, Except.pure, Except.ok.injEq]
        constructor
        · intro h
          refine ⟨hv, hs, trivial, ?_⟩
          rw [← h]
          simp only [carResult, hts]
        · rintro ⟨_, _, _, h⟩
          rw [h]
          simp only [carResult, hts]
      · have hb : (carFinalOffset buf == buf.length) = false := by simpa using hl
        simp [hb, hl]
    · constructor
      · intro h
        exfalso
        push_neg at hs
        obtain ⟨i, hi, hz, hvi⟩ := hs
        cases hsm : carSubmodels c
          (carMainModel c buf (carMainSlots buf, carMainFrameCount buf)
            (carTexture buf (ClearModel out_model))).texture_size buf []
          (carSubmodelsOffset buf) with
        | error e => rw [hsm] at h; cases h
        | ok x => exact carSubmodels_error c _ buf i hi hz hvi x hsm
      · rintro ⟨_, h, _⟩
        exact absurd h hs

/-! ## Helper lemmas: sample buffers -/

theorem length_bytesOf (n : Nat) (f : Nat → Nat) : (bytesOf n f).length = n := by
  simp [bytesOf]

theorem rdU8_bytesOf (n : Nat) (f : Nat → Nat) (off : Nat) :
    rdU8 (bytesOf n f) off = if off < n then f off % 256 else 0 := by
  unfold rdU8 bytesOf
  rw [List.getD_eq_getElem?_getD]
  by_cases h : off < n
  · rw [if_pos h, List.getElem?_map, List.getElem?_range h]
    rfl
  · rw [if_neg h, List.getElem?_eq_none (by simpa using h)]
    rfl

theorem rdU16_bytesOf (n : Nat) (f : Nat → Nat) (off : Nat) (h : off + 1 < n) :
    rdU16 (bytesOf n f) off = f off % 256 + 256 * (f (off + 1) % 256) := by
  unfold rdU16
  rw [rdU8_bytesOf, rdU8_bytesOf, if_pos (by omega), if_pos h]

theorem sampleCarAnimatedFile_header :
    rdU16 sampleCarAnimatedFile 0x4866 = 1 ∧ rdU16 sampleCarAnimatedFile 0x486A = 0 ∧
    (∀ i, i < 20 → CARHeader.animations sampleCarAnimatedFile i =
      if i = 1 then 12 else if i = 3 then 6 else 0) ∧
    (∀ off, 40 ≤ off → off + 1 < 0x4866 → rdU16 sampleCarAnimatedFile off = 0) := by
  unfold sampleCarAnimatedFile CARHeader.animations
  refine ⟨?_, ?_, ?_, ?_⟩
  · rw [rdU16_bytesOf _ _ _ (by norm_num)]
    rfl
  · rw [rdU16_bytesOf _ _ _ (by norm_num)]
    rfl
  · intro i hi
    rw [rdU16_bytesOf _ _ _ (by omega)]
    interval_cases i <;> rfl
  · intro off h1 h2
    rw [rdU16_bytesOf _ _ _ (by omega)]
    repeat rw [if_neg (by omega)]

/-! ## Claims about the animation files of the multi-file `LoadModel_o3` -/

theorem foldlM_animationFileStep_nil_mem (files : List FileContent)
    (st0 : List Animation × Nat × Nat) (h : [] ∈ files) :
    ∃ e, files.foldlM animationFileStep st0 = Except.error e := by
  induction files generalizing st0 with
  | nil => simp at h
  | cons f fs ih =>
    rw [List.foldlM_cons]
    cases hstep : animationFileStep st0 f with
    | error e => exact ⟨e, rfl⟩
    | ok st1 =>
      rcases List.mem_cons.mp h with e | e
      · subst e
        simp [animationFileStep, PC_ASSERT, bind, Except.bind] at hstep
      · obtain ⟨e2, he2⟩ := ih st1 e
        exact ⟨e2, by simp only [bind, Except.bind, he2]⟩

theorem sampleMismatchedFiles_ok :
    ∃ m, LoadModel_o3_multi sampleConstants sampleModelFile sampleMismatchedFiles default =
        Except.ok m ∧
      m.animations = [⟨0, 0, 1⟩, ⟨1, 1, 1⟩] := by
  obtain ⟨hlen, hvc, hpc, hth, h0⟩ := sampleModelFile_header
  have hst : sampleMismatchedFiles.foldlM animationFileStep (([] : List Animation), 0, 0) =
      Except.ok ([⟨0, 0, 1⟩, ⟨1, 1, 1⟩], 2, 2) := by
    rfl
  obtain ⟨fc, hfc⟩ := o3FrameCount_ok_of_ne (rdU16 sampleModelFile 0x4800)
    (combinedAnimations sampleMismatchedFiles 2 2) (by rw [hvc]; decide)
  obtain ⟨inner, hin⟩ : ∃ inner, LoadModel_o3 sampleConstants sampleModelFile
      (combinedAnimations sampleMismatchedFiles 2 2) default = Except.ok inner :=
    ⟨_, (LoadModel_o3_ok_iff _ _ _ _ _).mpr ⟨by rw [hlen, hth]; rfl, fc, hfc, rfl⟩⟩
  refine ⟨{ inner with
      animations := copyAnimations [⟨0, 0, 1⟩, ⟨1, 1, 1⟩] 2 inner.animations },
    (LoadModel_o3_multi_ok_iff _ _ _ _ _).mpr ⟨by decide, by decide, _, inner, hst, hin, rfl⟩,
    ?_⟩
  exact copyAnimations_eq [⟨0, 0, 1⟩, ⟨1, 1, 1⟩] _

/-- C11, as stated, fails: the sample O3 file declares one vertex, the first of the two
animation files declares one vertex and the second two, and the multi-file
`LoadModel_o3` returns a model for them, with one animation for each file. -/
theorem mismatched_vertex_counts_accepted :
    rdU16 sampleModelFile 0x4800 = 1 ∧
      sampleMismatchedFiles.map (fun f => rdU16 f 0) = [1, 2] ∧
      ∃ m : Model,
        LoadModel_o3_multi sampleConstants sampleModelFile sampleMismatchedFiles default =
          Except.ok m ∧
        m.animations = [⟨0, 0, 1⟩, ⟨1, 1, 1⟩] := by
  obtain ⟨_, hvc, _⟩ := sampleModelFile_header
  exact ⟨hvc, by decide, sampleMismatchedFiles_ok⟩

/-- C11, amended: the multi-file `LoadModel_o3` rejects, returning no model, every
input with no animation file, with 32 animation files or more, or with an animation
file that is empty; these are the conditions that it asserts, and the vertex counts in
the first two bytes of the animation files are compared neither with one another nor
with the vertex count of the model file. -/
theorem LoadModel_o3_multi_rejects (c : Constants) (model_file : FileContent)
    (files : List FileContent) (out_model : Model)
    (h : files.length = 0 ∨ 32 ≤ files.length ∨ [] ∈ files) :
    ∃ e, LoadModel_o3_multi c model_file files out_model = Except.error e := by
  cases hr : LoadModel_o3_multi c model_file files out_model with
  | error e => exact ⟨e, rfl⟩
  | ok m =>
    exfalso
    obtain ⟨h1, h2, st, _, hst, _, _⟩ :=
      (LoadModel_o3_multi_ok_iff c model_file files out_model m).mp hr
    rcases h with h | h | h
    · omega
    · omega
    · obtain ⟨e, he⟩ := foldlM_animationFileStep_nil_mem files ([], 0, 0) h
      rw [he] at hst
      cases hst

/-- The amended C11 at the sample O3 file with two animation files of which the second
is empty. -/
theorem LoadModel_o3_multi_rejects_witness :
    ([] : FileContent) ∈ [[1, 0, 1, 0, 2, 0, 3, 0], []] ∧
      ∃ e, LoadModel_o3_multi sampleConstants sampleModelFile [[1, 0, 1, 0, 2, 0, 3, 0], []]
        default = Except.error e :=
  ⟨by simp,
    LoadModel_o3_multi_rejects sampleConstants sampleModelFile [[1, 0, 1, 0, 2, 0, 3, 0], []]
      default (Or.inr (Or.inr (by simp)))⟩

/-! ## Claims about the animations of a CAR file -/

theorem carMainModel_animations (c : Constants) (model_file : FileContent)
    (animations : List Animation × Nat) (out_model : Model) :
    (carMainModel c model_file animations out_model).animations = animations.1 := by
  unfold carMainModel
  rw [CalculateModelZ_preserved (fun m => m.animations) (fun _ _ _ => rfl)]
  simp only [prepare_model_animations]

theorem carResult_animations (c : Constants) (buf : FileContent) (out_model : Model) :
    (carResult c buf out_model).animations = carMainSlots buf ∧
      (carResult c buf out_model).frame_count = carMainFrameCount buf :=
  ⟨carMainModel_animations c buf _ _, (carMainModel_frame c buf _ _).1⟩

/-- C12: for a CAR buffer with main vertex count `n ≥ 1` the loop over the 20 animation
slots of the header returns a list and a frame count, which are the animations and the
frame count of every model that `LoadModel_car` returns for the buffer.  The list
consists of the slots `i` whose quotient `animations[i] / (6 * n)` is non-zero, in slot
order, each with identifier `i` and that quotient as its frame count; the first frame
of an entry is the sum of the frame counts before it, the frame count of the model is
the sum of all of them, and every frame below it lies in exactly one entry. -/
theorem LoadModel_car_main_animations (c : Constants) (buf : FileContent) (out_model : Model)
    (hn : 1 ≤ rdU16 buf 0x4866) :
    ∃ (l : List Animation) (frame_count : Nat),
      carMainAnimations buf (rdU16 buf 0x4866) [] = Except.ok (l, frame_count) ∧
      (∀ m, LoadModel_car c buf out_model = Except.ok m →
        m.animations = l ∧ m.frame_count = frame_count) ∧
      l.map (fun a => (a.id, a.frame_count)) =
        ((List.range 20).map
          (fun i => (i, CARHeader.animations buf i / (6 * rdU16 buf 0x4866)))).filter
          (fun s => decide (s.2 ≠ 0)) ∧
      (∀ (k : Nat) (a : Animation), l[k]? = some a →
        a.first_frame = ((l.take k).map (fun b => b.frame_count)).sum) ∧
      frame_count = (l.map (fun b => b.frame_count)).sum ∧
      ∀ f, f < frame_count → ∃! k : Nat, ∃ a : Animation, l[k]? = some a ∧ a.hasFrame f := by
  have hseq : Sequential 0 (carMainSlots buf) := sequential_slotAnimations 0 _
  have hsum : carMainFrameCount buf = ((carMainSlots buf).map (fun b => b.frame_count)).sum := by
    unfold carMainSlots carMainFrameCount
    rw [sum_slotAnimations, List.map_map]
    rfl
  refine ⟨carMainSlots buf, carMainFrameCount buf, carMainAnimations_eq buf (by omega), ?_,
    slotAnimations_slots 0 _, ?_, hsum, ?_⟩
  · intro m hm
    obtain ⟨_, _, _, e⟩ := (LoadModel_car_ok_iff c buf out_model m).mp hm
    rw [e]
    exact carResult_animations c buf out_model
  · intro k a ha
    rw [sequential_first_frame 0 _ hseq k a ha, Nat.zero_add]
  · intro f hf
    exact sequential_partition 0 _ hseq f (Nat.zero_le f) (by rw [Nat.zero_add, ← hsum]; exact hf)

theorem sampleCarAnimatedFile_slots :
    carMainSlots sampleCarAnimatedFile = [⟨1, 0, 2⟩, ⟨3, 2, 1⟩] ∧
      carMainFrameCount sampleCarAnimatedFile = 3 := by
  obtain ⟨hvc, _, ha, _⟩ := sampleCarAnimatedFile_header
  have e : (List.range 20).map
      (fun i => (i, CARHeader.animations sampleCarAnimatedFile i /
        (6 * rdU16 sampleCarAnimatedFile 0x4866))) =
      (List.range 20).map (fun i => (i, (if i = 1 then 12 else if i = 3 then 6 else 0) / 6)) := by
    apply List.map_congr_left
    intro i hi
    rw [ha i (List.mem_range.mp hi), hvc]
  have e2 : (List.range 20).map
      (fun i => CARHeader.animations sampleCarAnimatedFile i /
        (6 * rdU16 sampleCarAnimatedFile 0x4866)) =
      (List.range 20).map (fun i => (if i = 1 then 12 else if i = 3 then 6 else 0) / 6) := by
    apply List.map_congr_left
    intro i hi
    rw [ha i (List.mem_range.mp hi), hvc]
  unfold carMainSlots carMainFrameCount
  rw [e, e2]
  exact ⟨by decide, by decide⟩

/-- C12 at the sample CAR file whose slots 1 and 3 hold 2 frames and 1 frame. -/
theorem LoadModel_car_main_animations_witness :
    1 ≤ rdU16 sampleCarAnimatedFile 0x4866 ∧
      ∃ (l : List Animation) (frame_count : Nat),
        carMainAnimations sampleCarAnimatedFile (rdU16 sampleCarAnimatedFile 0x4866) [] =
          Except.ok (l, frame_count) ∧
        l = [⟨1, 0, 2⟩, ⟨3, 2, 1⟩] ∧ frame_count = 3 ∧
        ∀ f, f < frame_count →
          ∃! k : Nat, ∃ a : Animation, l[k]? = some a ∧ a.hasFrame f := by
  have hvc : 1 ≤ rdU16 sampleCarAnimatedFile 0x4866 := by
    rw [sampleCarAnimatedFile_header.1]
  obtain ⟨l, fc, h1, _, _, _, _, h6⟩ :=
    LoadModel_car_main_animations sampleConstants sampleCarAnimatedFile default hvc
  have h0 := carMainAnimations_eq sampleCarAnimatedFile (by omega)
  rw [h1, sampleCarAnimatedFile_slots.1, sampleCarAnimatedFile_slots.2] at h0
  simp only [Except.ok.injEq, Prod.mk.injEq] at h0
  exact ⟨hvc, l, fc, h1, h0.1, h0.2, h6⟩

/-! ## Helper lemmas: the submodels of a decoded CAR file -/

theorem carSubmodelResult_animations (c : Constants) (ts : Nat × Nat) (buf : FileContent)
    (i : Nat) :
    (carSubmodelResult c ts buf i).animations =
      slotAnimations 0
        [(i, CARHeader.submodels_animations buf i 0 / (6 * carSubmodelVertexCount buf i)),
         (i, CARHeader.submodels_animations buf i 1 / (6 * carSubmodelVertexCount buf i))] := by
  unfold carSubmodelResult
  split
  · rename_i hz
    have h0 : CARHeader.submodels_animations buf i 0 = 0 := by omega
    have h1 : CARHeader.submodels_animations buf i 1 = 0 := by omega
    rw [h0, h1, Nat.zero_div]
    rfl
  · rfl

theorem carSubmodelResult_frame_count (c : Constants) (ts : Nat × Nat) (buf : FileContent)
    (i : Nat) :
    (carSubmodelResult c ts buf i).frame_count =
      (CARHeader.submodels_animations buf i 0 + CARHeader.submodels_animations buf i 1) /
        (6 * carSubmodelVertexCount buf i) := by
  unfold carSubmodelResult
  split
  · rename_i hz
    rw [hz, Nat.zero_div]
    rfl
  · simp only [prepare_model_frame_count]

theorem carResult_submodels (c : Constants) (buf : FileContent) (out_model : Model) (i : Nat)
    (hi : i < 3) :
    (carResult c buf out_model).submodels.length = 3 ∧
      (carResult c buf out_model).submodels[i]? =
        some (carSubmodelResult c
          (g_car_model_texture_width, rdU16 buf 0x486A / g_car_model_texture_width) buf i) := by
  unfold carResult
  simp only [List.length_map, List.length_range, List.getElem?_map, List.getElem?_range hi,
    Option.map_some', true_and]

theorem carSubmodel_sum (c : Constants) (ts : Nat × Nat) (buf : FileContent) (i : Nat) :
    ((carSubmodelResult c ts buf i).animations.map (fun a => a.frame_count)).sum =
      CARHeader.submodels_animations buf i 0 / (6 * carSubmodelVertexCount buf i) +
        CARHeader.submodels_animations buf i 1 / (6 * carSubmodelVertexCount buf i) := by
  rw [carSubmodelResult_animations, sum_slotAnimations]
  simp

theorem length_slotAnimations_le (first : Nat) (slots : List (Nat × Nat)) :
    (slotAnimations first slots).length ≤ slots.length := by
  induction slots generalizing first with
  | nil => exact Nat.le_refl _
  | cons s rest ih =>
    by_cases h0 : s.2 = 0
    · rw [slotAnimations_cons_zero _ _ _ h0, List.length_cons]
      exact Nat.le_succ_of_le (ih first)
    · rw [slotAnimations_cons_pos _ _ _ h0, List.length_cons, List.length_cons]
      exact Nat.succ_le_succ (ih _)

theorem sampleCarSubmodelFile_header (len0 len1 : Nat) (h0 : len0 < 256) (h1 : len1 < 256) :
    (sampleCarSubmodelFile len0 len1).length = 0x486C + 0x4806 + (len0 + len1) ∧
      rdU16 (sampleCarSubmodelFile len0 len1) 0x4866 = 1 ∧
      rdU16 (sampleCarSubmodelFile len0 len1) 0x486A = 0 ∧
      rdU16 (sampleCarSubmodelFile len0 len1) 40 = len0 ∧
      rdU16 (sampleCarSubmodelFile len0 len1) 42 = len1 ∧
      rdU16 (sampleCarSubmodelFile len0 len1) 0x906C = 1 ∧
      (∀ off, off + 1 < 0x4866 → off % 2 = 0 → off ≠ 40 → off ≠ 42 →
        rdU16 (sampleCarSubmodelFile len0 len1) off = 0) := by
  unfold sampleCarSubmodelFile
  refine ⟨length_bytesOf _ _, ?_, ?_, ?_, ?_, ?_, ?_⟩
  · rw [rdU16_bytesOf _ _ _ (by omega)]
    rfl
  · rw [rdU16_bytesOf _ _ _ (by omega)]
    rfl
  · rw [rdU16_bytesOf _ _ _ (by omega)]
    simp only [if_true]
    norm_num
    omega
  · rw [rdU16_bytesOf _ _ _ (by omega)]
    norm_num
    omega
  · rw [rdU16_bytesOf _ _ _ (by omega)]
    rfl
  · intro off ho hev n40 n42
    rw [rdU16_bytesOf _ _ _ (by omega)]
    rw [if_neg n40, if_neg n42]
    repeat rw [if_neg (by omega)]

theorem sampleCarSubmodelFile_ok (c : Constants) (out_model : Model) (len0 len1 : Nat)
    (h0 : len0 < 256) (h1 : len1 < 256) (hne : len0 + len1 ≠ 0) :
    LoadModel_car c (sampleCarSubmodelFile len0 len1) out_model =
        Except.ok (carResult c (sampleCarSubmodelFile len0 len1) out_model) ∧
      CARHeader.submodels_animations (sampleCarSubmodelFile len0 len1) 0 0 = len0 ∧
      CARHeader.submodels_animations (sampleCarSubmodelFile len0 len1) 0 1 = len1 ∧
      carSubmodelVertexCount (sampleCarSubmodelFile len0 len1) 0 = 1 := by
  obtain ⟨hlen, hvc, htx, hl0, hl1, hsvc, hz⟩ := sampleCarSubmodelFile_header len0 len1 h0 h1
  have ha : ∀ i ∈ List.range 20,
      CARHeader.animations (sampleCarSubmodelFile len0 len1) i /
        (6 * rdU16 (sampleCarSubmodelFile len0 len1) 0x4866) = 0 := by
    intro i hi
    have hi' := List.mem_range.mp hi
    unfold CARHeader.animations
    rw [hz (2 * i) (by omega) (by omega) (by omega) (by omega)]
    simp
  have hs0 : CARHeader.submodels_animations (sampleCarSubmodelFile len0 len1) 0 0 = len0 := hl0
  have hs1 : CARHeader.submodels_animations (sampleCarSubmodelFile len0 len1) 0 1 = len1 := hl1
  have hsz : ∀ i a, 1 ≤ i → i < 3 → a < 2 →
      CARHeader.submodels_animations (sampleCarSubmodelFile len0 len1) i a = 0 := by
    intro i a hi1 hi3 ha2
    unfold CARHeader.submodels_animations
    exact hz _ (by omega) (by omega) (by omega) (by omega)
  have hd : ∀ i ∈ List.range CARHeader.c_sound_count,
      CARHeader.sounds (sampleCarSubmodelFile len0 len1) i = 0 := by
    intro i hi
    have hi' : i < 7 := List.mem_range.mp hi
    unfold CARHeader.sounds
    exact hz _ (by omega) (by omega) (by omega) (by omega)
  have hmain : carMainFrameCount (sampleCarSubmodelFile len0 len1) = 0 := by
    unfold carMainFrameCount
    rw [List.map_congr_left ha]
    simp
  have hso : carSubmodelsOffset (sampleCarSubmodelFile len0 len1) = 0x486C := by
    unfold carSubmodelsOffset
    rw [hmain, htx]
    omega
  have hb0 : carSubmodelBlockSize (sampleCarSubmodelFile len0 len1) 0 =
      0x4806 + (len0 + len1) := by
    unfold carSubmodelBlockSize
    rw [hs0, hs1, if_neg hne]
  have hb : ∀ i, 1 ≤ i → i < 3 → carSubmodelBlockSize (sampleCarSubmodelFile len0 len1) i = 0 := by
    intro i hi1 hi3
    unfold carSubmodelBlockSize
    rw [hsz i 0 hi1 hi3 (by decide), hsz i 1 hi1 hi3 (by decide)]
    rfl
  have hv0 : carSubmodelVertexCount (sampleCarSubmodelFile len0 len1) 0 = 1 := by
    unfold carSubmodelVertexCount carSubmodelOffset
    rw [hso]
    exact hsvc
  refine ⟨(LoadModel_car_ok_iff c _ out_model _).mpr ⟨by rw [hvc]; decide, ?_, ?_, rfl⟩,
    hs0, hs1, hv0⟩
  · intro i hi hsize
    rcases (by omega : i = 0 ∨ (1 ≤ i ∧ i < 3)) with e | ⟨e1, e3⟩
    · subst e
      rw [hv0]
      decide
    · exact absurd (by rw [hsz i 0 e1 e3 (by decide), hsz i 1 e1 e3 (by decide)]) hsize
  · unfold carFinalOffset
    rw [hso, List.map_congr_left hd, hlen]
    have e3 : (List.range 3).map (carSubmodelBlockSize (sampleCarSubmodelFile len0 len1)) =
        [0x4806 + (len0 + len1), 0, 0] := by
      simp only [List.range, List.range.loop, List.map_cons, List.map_nil, hb0,
        hb 1 (by decide) (by decide), hb 2 (by decide) (by decide)]
    rw [e3]
    simp
    omega

/-! ## Claims about the animations of the submodels of a CAR file -/

/-- C13: every submodel `i` of a model that `LoadModel_car` returns has
`(len0 + len1) / (6 * n)` frames, `n` being the vertex count of its block, which is at
least 1 when the submodel is decoded (`len0 + len1 ≠ 0`).  It has at most two
animations, the sum of their frame counts is at most the frame count of the submodel,
the first frame of each is the sum of the frame counts before it (so the first one
starts at frame 0 and each next one where the previous ends), each range ends within
the frames of the submodel, and no frame lies in two of the ranges. -/
theorem LoadModel_car_submodel_animations (c : Constants) (buf : FileContent)
    (out_model m : Model) (i : Nat) (hi : i < 3)
    (h : LoadModel_car c buf out_model = Except.ok m) :
    ∃ s : Submodel, m.submodels[i]? = some s ∧
      (CARHeader.submodels_animations buf i 0 + CARHeader.submodels_animations buf i 1 ≠ 0 →
        1 ≤ carSubmodelVertexCount buf i) ∧
      s.frame_count =
        (CARHeader.submodels_animations buf i 0 + CARHeader.submodels_animations buf i 1) /
          (6 * carSubmodelVertexCount buf i) ∧
      s.animations.length ≤ 2 ∧
      (s.animations.map (fun a => a.frame_count)).sum ≤ s.frame_count ∧
      (∀ (k : Nat) (a : Animation), s.animations[k]? = some a →
        a.first_frame = ((s.animations.take k).map (fun b => b.frame_count)).sum) ∧
      (∀ a ∈ s.animations, a.first_frame + a.frame_count ≤ s.frame_count) ∧
      ∀ (f j k : Nat) (a b : Animation), s.animations[j]? = some a → s.animations[k]? = some b →
        a.hasFrame f → b.hasFrame f → j = k := by
  obtain ⟨_, hv, _, e⟩ := (LoadModel_car_ok_iff c buf out_model m).mp h
  have hsum := carSubmodel_sum c
    (g_car_model_texture_width, rdU16 buf 0x486A / g_car_model_texture_width) buf i
  have hfc := carSubmodelResult_frame_count c
    (g_car_model_texture_width, rdU16 buf 0x486A / g_car_model_texture_width) buf i
  have han := carSubmodelResult_animations c
    (g_car_model_texture_width, rdU16 buf 0x486A / g_car_model_texture_width) buf i
  have hseq : Sequential 0 (carSubmodelResult c
      (g_car_model_texture_width, rdU16 buf 0x486A / g_car_model_texture_width) buf i).animations := by
    rw [han]
    exact sequential_slotAnimations 0 _
  have hle : ((carSubmodelResult c
      (g_car_model_texture_width, rdU16 buf 0x486A / g_car_model_texture_width) buf
        i).animations.map (fun a => a.frame_count)).sum ≤
      (carSubmodelResult c
        (g_car_model_texture_width, rdU16 buf 0x486A / g_car_model_texture_width) buf
          i).frame_count := by
    rw [hsum, hfc]
    exact Nat.add_div_le_add_div _ _ _
  refine ⟨_, by rw [e]; exact (carResult_submodels c buf out_model i hi).2, ?_, hfc, ?_, hle,
    ?_, ?_, ?_⟩
  · intro hz
    have := hv i hi hz
    omega
  · rw [han]
    exact length_slotAnimations_le 0 _
  · intro k a ha
    rw [sequential_first_frame 0 _ hseq k a ha, Nat.zero_add]
  · intro a ha
    have := (sequential_mem 0 _ hseq a ha).2
    omega
  · intro f j k a b ha hb haf hbf
    exact sequential_disjoint 0 _ hseq f j k a b ha hb haf hbf

/-- C13 at the sample CAR file whose submodel 0 has one vertex and animation lengths 6
and 12: the submodel has 3 frames and its two animations take 1 and 2 of them. -/
theorem LoadModel_car_submodel_animations_witness :
    ∃ m : Model,
      LoadModel_car sampleConstants (sampleCarSubmodelFile 6 12) default = Except.ok m ∧
      ∃ s : Submodel, m.submodels[0]? = some s ∧ s.frame_count = 3 ∧
        s.animations = [⟨0, 0, 1⟩, ⟨0, 1, 2⟩] ∧
        (s.animations.map (fun a => a.frame_count)).sum ≤ s.frame_count := by
  obtain ⟨hok, h0, h1, hv⟩ := sampleCarSubmodelFile_ok sampleConstants default 6 12
    (by decide) (by decide) (by decide)
  obtain ⟨s, hs, _, hfc, _, hle, _⟩ :=
    LoadModel_car_submodel_animations sampleConstants (sampleCarSubmodelFile 6 12) default _ 0
      (by decide) hok
  have hs' := (carResult_submodels sampleConstants (sampleCarSubmodelFile 6 12) default 0
    (by decide)).2
  rw [hs] at hs'
  have han := carSubmodelResult_animations sampleConstants
    (g_car_model_texture_width,
      rdU16 (sampleCarSubmodelFile 6 12) 0x486A / g_car_model_texture_width)
    (sampleCarSubmodelFile 6 12) 0
  rw [← Option.some.inj hs', h0, h1, hv] at han
  rw [h0, h1, hv] at hfc
  exact ⟨_, hok, s, hs, hfc, han.trans (by decide), hle⟩

/-- C14, as stated, fails: in the sample CAR file whose submodel 0 has one vertex and
animation lengths 3 and 3 the submodel has `(3 + 3) / 6 = 1` frame and, both quotients
`3 / 6` being zero, no animation: frame 0 lies in no range and the sum of the frame
counts is 0. -/
theorem submodel_frames_uncovered :
    ∃ m : Model,
      LoadModel_car sampleConstants (sampleCarSubmodelFile 3 3) default = Except.ok m ∧
      ∃ s : Submodel, m.submodels[0]? = some s ∧ s.frame_count = 1 ∧ s.animations = [] ∧
        (s.animations.map (fun a => a.frame_count)).sum ≠ s.frame_count := by
  obtain ⟨hok, h0, h1, hv⟩ := sampleCarSubmodelFile_ok sampleConstants default 3 3
    (by decide) (by decide) (by decide)
  have hs := (carResult_submodels sampleConstants (sampleCarSubmodelFile 3 3) default 0
    (by decide)).2
  have han := carSubmodelResult_animations sampleConstants
    (g_car_model_texture_width,
      rdU16 (sampleCarSubmodelFile 3 3) 0x486A / g_car_model_texture_width)
    (sampleCarSubmodelFile 3 3) 0
  have hfc := carSubmodelResult_frame_count sampleConstants
    (g_car_model_texture_width,
      rdU16 (sampleCarSubmodelFile 3 3) 0x486A / g_car_model_texture_width)
    (sampleCarSubmodelFile 3 3) 0
  rw [h0, h1, hv] at han hfc
  have han' := han.trans (show slotAnimations 0 [(0, 3 / (6 * 1)), (0, 3 / (6 * 1))] = [] by
    decide)
  refine ⟨_, hok, _, hs, hfc, han', ?_⟩
  rw [han', hfc]
  decide

/-- C14, amended: for every decoded submodel `i` (`len0 + len1 ≠ 0`) of a model that
`LoadModel_car` returns, with `n` the vertex count of its block, no frame lies in two of
its animation ranges and the sum of the frame counts of its animations is at most the
frame count of the submodel; the sum equals that frame count exactly when
`len0 % (6 * n) + len1 % (6 * n) < 6 * n`, and then every frame of the submodel lies in
exactly one of the ranges. -/
theorem LoadModel_car_submodel_partition (c : Constants) (buf : FileContent)
    (out_model m : Model) (i : Nat) (hi : i < 3)
    (h : LoadModel_car c buf out_model = Except.ok m)
    (hz : CARHeader.submodels_animations buf i 0 + CARHeader.submodels_animations buf i 1 ≠ 0) :
    ∃ s : Submodel, m.submodels[i]? = some s ∧
      (∀ (f j k : Nat) (a b : Animation), s.animations[j]? = some a →
        s.animations[k]? = some b → a.hasFrame f → b.hasFrame f → j = k) ∧
      (s.animations.map (fun a => a.frame_count)).sum ≤ s.frame_count ∧
      ((s.animations.map (fun a => a.frame_count)).sum = s.frame_count ↔
        CARHeader.submodels_animations buf i 0 % (6 * carSubmodelVertexCount buf i) +
          CARHeader.submodels_animations buf i 1 % (6 * carSubmodelVertexCount buf i) <
            6 * carSubmodelVertexCount buf i) ∧
      ((s.animations.map (fun a => a.frame_count)).sum = s.frame_count →
        ∀ f, f < s.frame_count →
          ∃! k : Nat, ∃ a : Animation, s.animations[k]? = some a ∧ a.hasFrame f) := by
  obtain ⟨_, hv, _, e⟩ := (LoadModel_car_ok_iff c buf out_model m).mp h
  have hpos : 0 < 6 * carSubmodelVertexCount buf i := by
    have := hv i hi hz
    omega
  have hsum := carSubmodel_sum c
    (g_car_model_texture_width, rdU16 buf 0x486A / g_car_model_texture_width) buf i
  have hfc := carSubmodelResult_frame_count c
    (g_car_model_texture_width, rdU16 buf 0x486A / g_car_model_texture_width) buf i
  have hseq : Sequential 0 (carSubmodelResult c
      (g_car_model_texture_width, rdU16 buf 0x486A / g_car_model_texture_width) buf i).animations := by
    rw [carSubmodelResult_animations]
    exact sequential_slotAnimations 0 _
  refine ⟨_, by rw [e]; exact (carResult_submodels c buf out_model i hi).2, ?_, ?_, ?_, ?_⟩
  · intro f j k a b ha hb haf hbf
    exact sequential_disjoint 0 _ hseq f j k a b ha hb haf hbf
  · rw [hsum, hfc]
    exact Nat.add_div_le_add_div _ _ _
  · rw [hsum, hfc, Nat.add_div hpos]
    constructor
    · intro heq
      by_contra hlt
      rw [if_pos (by omega)] at heq
      omega
    · intro hlt
      rw [if_neg (by omega)]
      rfl
  · intro heq f hf
    exact sequential_partition 0 _ hseq f (Nat.zero_le f) (by rw [Nat.zero_add, heq]; exact hf)

/-- The amended C14 at the sample CAR file whose submodel 0 has one vertex and animation
lengths 6 and 12: the 3 frames of the submodel are those of its two animations. -/
theorem LoadModel_car_submodel_partition_witness :
    ∃ m : Model,
      LoadModel_car sampleConstants (sampleCarSubmodelFile 6 12) default = Except.ok m ∧
      CARHeader.submodels_animations (sampleCarSubmodelFile 6 12) 0 0 +
        CARHeader.submodels_animations (sampleCarSubmodelFile 6 12) 0 1 ≠ 0 ∧
      ∃ s : Submodel, m.submodels[0]? = some s ∧
        (s.animations.map (fun a => a.frame_count)).sum = s.frame_count ∧
        ∀ f, f < s.frame_count →
          ∃! k : Nat, ∃ a : Animation, s.animations[k]? = some a ∧ a.hasFrame f := by
  obtain ⟨hok, h0, h1, hv⟩ := sampleCarSubmodelFile_ok sampleConstants default 6 12
    (by decide) (by decide) (by decide)
  have hz : CARHeader.submodels_animations (sampleCarSubmodelFile 6 12) 0 0 +
      CARHeader.submodels_animations (sampleCarSubmodelFile 6 12) 0 1 ≠ 0 := by
    rw [h0, h1]
    decide
  obtain ⟨s, hs, _, _, hiff, hpart⟩ :=
    LoadModel_car_submodel_partition sampleConstants (sampleCarSubmodelFile 6 12) default _ 0
      (by decide) hok hz
  have heq := hiff.mpr (by rw [h0, h1, hv]; decide)
  exact ⟨_, hok, hz, s, hs, heq, hpart heq⟩

/-! ## Claims about a CAR file without submodels and sounds -/

theorem rdU16_zeros (n off : Nat) : rdU16 (zeros n) off = 0 := by
  unfold rdU16
  rw [rdU8_zeros, rdU8_zeros]

theorem LoadModel_car_zero (c : Constants) (buf : FileContent) (out_model : Model)
    (hv : rdU16 buf 0x4866 = 0) :
    LoadModel_car c buf out_model = Except.error LoadError.division_by_zero := by
  unfold LoadModel_car
  simp only []
  rw [carMainAnimations_zero buf _ hv]
  rfl

/-- C15, as stated, fails: the all-zero CAR file of `0x486C` bytes declares every
submodel and sound length as 0, its length is `0x486C` plus its 0 texels plus
`frame_count * 6 * vertex_count` for whatever frame count, its vertex count being 0,
and `LoadModel_car` ends in the division of the first animation length by
`6 * vertex_count = 0`. -/
theorem zero_vertex_count_divides :
    (∀ i a, i < 3 → a < 2 → CARHeader.submodels_animations sampleZeroCarFile i a = 0) ∧
      (∀ i, i < 7 → CARHeader.sounds sampleZeroCarFile i = 0) ∧
      rdU16 sampleZeroCarFile 0x4866 = 0 ∧
      (∀ frame_count, sampleZeroCarFile.length =
        0x486C + rdU16 sampleZeroCarFile 0x486A +
          frame_count * 6 * rdU16 sampleZeroCarFile 0x4866) ∧
      LoadModel_car sampleConstants sampleZeroCarFile default =
        Except.error LoadError.division_by_zero := by
  have r : ∀ off, rdU16 sampleZeroCarFile off = 0 := fun off => rdU16_zeros _ off
  refine ⟨fun i a _ _ => r _, fun i _ => r _, r _, ?_, LoadModel_car_zero _ _ _ (r _)⟩
  intro fc
  rw [r, r]
  exact length_zeros _

/-- C15, amended: for every CAR buffer with main vertex count at least 1 whose header
declares all 3 x 2 submodel animation lengths and all 7 sound lengths as 0 and whose
length is `0x486C + texel_count + frame_count * 6 * vertex_count`, the frame count being
the sum of the quotients of the 20 animation slots, `LoadModel_car` returns a model; it
has that frame count, 3 submodels, each with no frame, vertex, index or animation, and
7 sounds, each empty. -/
theorem LoadModel_car_without_submodels (c : Constants) (buf : FileContent) (out_model : Model)
    (hn : 1 ≤ rdU16 buf 0x4866)
    (hsub : ∀ i a, i < 3 → a < 2 → CARHeader.submodels_animations buf i a = 0)
    (hsnd : ∀ i, i < 7 → CARHeader.sounds buf i = 0)
    (hlen : buf.length =
      0x486C + rdU16 buf 0x486A + carMainFrameCount buf * 6 * rdU16 buf 0x4866) :
    ∃ m : Model, LoadModel_car c buf out_model = Except.ok m ∧
      m.frame_count = carMainFrameCount buf ∧
      m.submodels.length = 3 ∧
      (∀ s ∈ m.submodels, s.frame_count = 0 ∧ s.vertices = [] ∧
        s.regular_triangles_indeces = [] ∧ s.transparent_triangles_indeces = [] ∧
        s.animations = []) ∧
      m.sounds.length = 7 ∧ ∀ s ∈ m.sounds, s = [] := by
  have hz : ∀ i, i < 3 →
      CARHeader.submodels_animations buf i 0 + CARHeader.submodels_animations buf i 1 = 0 := by
    intro i hi
    rw [hsub i 0 hi (by decide), hsub i 1 hi (by decide)]
  have hb : ∀ i ∈ List.range 3, carSubmodelBlockSize buf i = 0 := by
    intro i hi
    unfold carSubmodelBlockSize
    rw [if_pos (hz i (List.mem_range.mp hi))]
  have hd : ∀ i ∈ List.range CARHeader.c_sound_count, CARHeader.sounds buf i = 0 :=
    fun i hi => hsnd i (List.mem_range.mp hi)
  have hoff : carFinalOffset buf = buf.length := by
    unfold carFinalOffset carSubmodelsOffset
    rw [List.map_congr_left hb, List.map_congr_left hd, hlen]
    simp
  refine ⟨carResult c buf out_model,
    (LoadModel_car_ok_iff c buf out_model _).mpr
      ⟨by omega, fun i hi hne => absurd (hz i hi) hne, hoff, rfl⟩,
    (carResult_animations c buf out_model).2, (carResult_submodels c buf out_model 0 (by decide)).1,
    ?_, ?_, ?_⟩
  · intro s hs
    unfold carResult at hs
    simp only [List.mem_map, List.mem_range] at hs
    obtain ⟨i, hi, e⟩ := hs
    unfold carSubmodelResult at e
    rw [if_pos (hz i hi)] at e
    subst e
    exact ⟨rfl, rfl, rfl, rfl, rfl⟩
  · unfold carResult carSoundsResult
    simp [CARHeader.c_sound_count]
  · intro s hs
    unfold carResult carSoundsResult at hs
    simp only [List.mem_map, List.mem_range] at hs
    obtain ⟨i, hi, e⟩ := hs
    rw [hsnd i hi] at e
    rw [← e]
    rfl

theorem sampleCarAnimatedFile_length : sampleCarAnimatedFile.length = 0x487E :=
  length_bytesOf _ _

/-- The amended C15 at the sample CAR file with one vertex and 3 frames, whose length
is `0x486C + 0 + 3 * 6 * 1`. -/
theorem LoadModel_car_without_submodels_witness :
    1 ≤ rdU16 sampleCarAnimatedFile 0x4866 ∧
      sampleCarAnimatedFile.length = 0x486C + 0 + 3 * 6 * 1 ∧
      ∃ m : Model, LoadModel_car sampleConstants sampleCarAnimatedFile default = Except.ok m ∧
        m.frame_count = 3 ∧
        m.submodels.length = 3 ∧ (∀ s ∈ m.submodels, s.frame_count = 0) ∧
        m.sounds.length = 7 ∧ ∀ s ∈ m.sounds, s = [] := by
  obtain ⟨hvc, htx, _, hz⟩ := sampleCarAnimatedFile_header
  have hfc := sampleCarAnimatedFile_slots.2
  obtain ⟨m, hm, hf, h3, hs, h7, hsn⟩ :=
    LoadModel_car_without_submodels sampleConstants sampleCarAnimatedFile default
      (by rw [hvc])
      (fun i a hi ha => hz _ (by omega) (by omega))
      (fun i hi => hz _ (by omega) (by omega))
      (by rw [hfc, htx, hvc]; exact sampleCarAnimatedFile_length)
  exact ⟨by rw [hvc], sampleCarAnimatedFile_length, m, hm, hf.trans hfc, h3,
    fun s h => (hs s h).1, h7, hsn⟩

/-! ## Claims about the sounds of a CAR file -/

theorem rdBytes_eq_take_drop (buf : FileContent) (off n : Nat) (h : off + n ≤ buf.length) :
    rdBytes buf off n = ((buf.drop off).take n).map (fun b => b % 256) := by
  apply List.ext_getElem?
  intro k
  unfold rdBytes rdU8
  rw [List.getElem?_map, List.getElem?_map, List.getElem?_take]
  by_cases hk : k < n
  · rw [List.getElem?_range hk, if_pos hk, List.getElem?_drop,
      List.getElem?_eq_getElem (show off + k < buf.length by omega)]
    simp only [Option.map_some', List.getD_eq_getElem?_getD,
      List.getElem?_eq_getElem (show off + k < buf.length by omega), Option.getD_some]
  · rw [if_neg hk, List.getElem?_eq_none (by simpa using hk)]
    rfl

theorem carSoundOffset_mono (buf : FileContent) (i : Nat) (hi : i < CARHeader.c_sound_count) :
    carSoundOffset buf i + CARHeader.sounds buf i ≤ carSoundOffset buf CARHeader.c_sound_count := by
  have key : ∀ n, i < n → carSoundOffset buf i + CARHeader.sounds buf i ≤ carSoundOffset buf n := by
    intro n hn
    induction n with
    | zero => omega
    | succ n ih =>
      have hs : carSoundOffset buf (n + 1) = carSoundOffset buf n + CARHeader.sounds buf n := by
        unfold carSoundOffset
        rw [List.range_succ, List.map_append, List.sum_append]
        simp [Nat.add_assoc]
      rcases Nat.lt_succ_iff_lt_or_eq.mp hn with h | h
      · have := ih h
        omega
      · subst h
        omega
  exact key _ hi

/-- C16: a model that `LoadModel_car` returns has 7 sounds; sound `i` has the length
`sounds[i]` of the header and consists of the bytes of the buffer from the offset
`S + sounds[0] + .. + sounds[i - 1]` on, `S` being the running offset behind the last
submodel block; so the sounds lie back to back in header order, and the last one ends
at the end of the buffer. -/
theorem LoadModel_car_sounds (c : Constants) (buf : FileContent) (out_model m : Model)
    (h : LoadModel_car c buf out_model = Except.ok m) :
    m.sounds.length = 7 ∧
      (∀ i, i < 7 → ∃ s : List Nat, m.sounds[i]? = some s ∧
        s.length = CARHeader.sounds buf i ∧
        s = ((buf.drop
              (carSubmodelOffset buf 3 + ((List.range i).map (CARHeader.sounds buf)).sum)).take
              (CARHeader.sounds buf i)).map (fun b => b % 256)) ∧
      carSubmodelOffset buf 3 + ((List.range 7).map (CARHeader.sounds buf)).sum = buf.length := by
  obtain ⟨_, _, hoff, e⟩ := (LoadModel_car_ok_iff c buf out_model m).mp h
  have hs : m.sounds = carSoundsResult buf := by
    rw [e]
    rfl
  have hend : carSoundOffset buf CARHeader.c_sound_count = buf.length := by
    rw [carSoundOffset_last, hoff]
  refine ⟨by rw [hs]; simp [carSoundsResult, CARHeader.c_sound_count], ?_, hend⟩
  intro i hi
  have hle := carSoundOffset_mono buf i hi
  rw [hend] at hle
  refine ⟨rdBytes buf (carSoundOffset buf i) (CARHeader.sounds buf i), ?_, length_rdBytes _ _ _,
    rdBytes_eq_take_drop _ _ _ hle⟩
  rw [hs]
  unfold carSoundsResult
  rw [List.getElem?_map, List.getElem?_range (show i < CARHeader.c_sound_count from hi)]
  rfl

theorem sampleCarSoundFile_header :
    sampleCarSoundFile.length = 0x486F ∧
      rdU16 sampleCarSoundFile 0x4866 = 1 ∧
      rdU16 sampleCarSoundFile 0x486A = 0 ∧
      rdU16 sampleCarSoundFile 70 = 2 ∧
      rdU16 sampleCarSoundFile 72 = 1 ∧
      (∀ off, off + 1 < 0x4866 → off % 2 = 0 → off ≠ 70 → off ≠ 72 →
        rdU16 sampleCarSoundFile off = 0) ∧
      rdU8 sampleCarSoundFile 0x486C = 0xAA ∧ rdU8 sampleCarSoundFile 0x486D = 0xBB ∧
      rdU8 sampleCarSoundFile 0x486E = 0xCC := by
  unfold sampleCarSoundFile
  refine ⟨length_bytesOf _ _, ?_, ?_, ?_, ?_, ?_, ?_, ?_, ?_⟩
  · rw [rdU16_bytesOf _ _ _ (by omega)]
    rfl
  · rw [rdU16_bytesOf _ _ _ (by omega)]
    rfl
  · rw [rdU16_bytesOf _ _ _ (by omega)]
    rfl
  · rw [rdU16_bytesOf _ _ _ (by omega)]
    rfl
  · intro off ho hev n70 n72
    rw [rdU16_bytesOf _ _ _ (by omega)]
    rw [if_neg n70, if_neg n72]
    repeat rw [if_neg (by omega)]
  · rw [rdU8_bytesOf]
    rfl
  · rw [rdU8_bytesOf]
    rfl
  · rw [rdU8_bytesOf]
    rfl

theorem sampleCarSoundFile_ok (c : Constants) (out_model : Model) :
    LoadModel_car c sampleCarSoundFile out_model =
        Except.ok (carResult c sampleCarSoundFile out_model) ∧
      carSoundsResult sampleCarSoundFile = [[0xAA, 0xBB], [0xCC], [], [], [], [], []] := by
  obtain ⟨hlen, hvc, htx, hs0, hs1, hz, hb0, hb1, hb2⟩ := sampleCarSoundFile_header
  have ha : ∀ i ∈ List.range 20,
      CARHeader.animations sampleCarSoundFile i / (6 * rdU16 sampleCarSoundFile 0x4866) = 0 := by
    intro i hi
    have hi' := List.mem_range.mp hi
    unfold CARHeader.animations
    rw [hz (2 * i) (by omega) (by omega) (by omega) (by omega)]
    simp
  have hsz : ∀ i a, i < 3 → a < 2 → CARHeader.submodels_animations sampleCarSoundFile i a = 0 := by
    intro i a hi3 ha2
    unfold CARHeader.submodels_animations
    exact hz _ (by omega) (by omega) (by omega) (by omega)
  have hd0 : CARHeader.sounds sampleCarSoundFile 0 = 2 := hs0
  have hd1 : CARHeader.sounds sampleCarSoundFile 1 = 1 := hs1
  have hd : ∀ i, 2 ≤ i → i < 7 → CARHeader.sounds sampleCarSoundFile i = 0 := by
    intro i h2 h7
    unfold CARHeader.sounds
    exact hz _ (by omega) (by omega) (by omega) (by omega)
  have hmain : carMainFrameCount sampleCarSoundFile = 0 := by
    unfold carMainFrameCount
    rw [List.map_congr_left ha]
    simp
  have hso : carSubmodelsOffset sampleCarSoundFile = 0x486C := by
    unfold carSubmodelsOffset
    rw [hmain, htx]
    omega
  have hb : ∀ i, i < 3 → carSubmodelBlockSize sampleCarSoundFile i = 0 := by
    intro i hi3
    unfold carSubmodelBlockSize
    rw [hsz i 0 hi3 (by decide), hsz i 1 hi3 (by decide)]
    rfl
  have hs3 : carSubmodelOffset sampleCarSoundFile 3 = 0x486C := by
    unfold carSubmodelOffset
    rw [hso]
    simp only [List.range, List.range.loop, List.map_cons, List.map_nil, hb 0 (by decide),
      hb 1 (by decide), hb 2 (by decide)]
    rfl
  have e7 : List.range CARHeader.c_sound_count = [0, 1, 2, 3, 4, 5, 6] := rfl
  have hsnd : (List.range CARHeader.c_sound_count).map (CARHeader.sounds sampleCarSoundFile) =
      [2, 1, 0, 0, 0, 0, 0] := by
    rw [e7]
    simp only [List.map_cons, List.map_nil, hd0, hd1,
      hd 2 (by decide) (by decide), hd 3 (by decide) (by decide), hd 4 (by decide) (by decide),
      hd 5 (by decide) (by decide), hd 6 (by decide) (by decide)]
  have r0 : ∀ off, rdBytes sampleCarSoundFile off 0 = [] := fun _ => rfl
  have r1 : ∀ off, rdBytes sampleCarSoundFile off 1 = [rdU8 sampleCarSoundFile off] :=
    fun _ => rfl
  have r2 : ∀ off, rdBytes sampleCarSoundFile off 2 =
      [rdU8 sampleCarSoundFile off, rdU8 sampleCarSoundFile (off + 1)] := fun _ => rfl
  have o0 : carSoundOffset sampleCarSoundFile 0 = 0x486C := by
    unfold carSoundOffset
    rw [hs3]
    rfl
  have o1 : carSoundOffset sampleCarSoundFile 1 = 0x486E := by
    unfold carSoundOffset
    rw [hs3]
    have e1 : List.range 1 = [0] := rfl
    rw [e1, List.map_cons, List.map_nil, List.sum_cons, List.sum_nil, hd0]
    rfl
  refine ⟨(LoadModel_car_ok_iff c _ out_model _).mpr ⟨by rw [hvc]; decide, ?_, ?_, rfl⟩, ?_⟩
  · intro i hi hsize
    exact absurd (by rw [hsz i 0 hi (by decide), hsz i 1 hi (by decide)]) hsize
  · rw [← carSoundOffset_last]
    unfold carSoundOffset
    rw [hs3, hlen, hsnd]
    rfl
  · unfold carSoundsResult
    rw [e7]
    simp only [List.map_cons, List.map_nil, hd0, hd1, hd 2 (by decide) (by decide),
      hd 3 (by decide) (by decide), hd 4 (by decide) (by decide), hd 5 (by decide) (by decide),
      hd 6 (by decide) (by decide), r0, r1, r2, o0, o1, hb0, hb1, hb2]

/-- C16 at the sample CAR file with a sound of 2 bytes and a sound of 1 byte. -/
theorem LoadModel_car_sounds_witness :
    ∃ m : Model, LoadModel_car sampleConstants sampleCarSoundFile default = Except.ok m ∧
      m.sounds.length = 7 ∧ m.sounds = [[0xAA, 0xBB], [0xCC], [], [], [], [], []] ∧
      carSubmodelOffset sampleCarSoundFile 3 +
        ((List.range 7).map (CARHeader.sounds sampleCarSoundFile)).sum =
          sampleCarSoundFile.length := by
  obtain ⟨hok, hs⟩ := sampleCarSoundFile_ok sampleConstants default
  obtain ⟨h7, _, hend⟩ :=
    LoadModel_car_sounds sampleConstants sampleCarSoundFile default _ hok
  exact ⟨_, hok, h7, hs, hend⟩

/-! ## Claims about the texture of an O3 file -/

theorem o3_start_texture (c : Constants) (model_file : FileContent) (out_model : Model)
    (vertex_count : Nat) :
    (CalculateModelZ c (o3Texture model_file (ClearModel out_model)) model_file 0x3200
        vertex_count).texture_size = (64, rdU16 model_file 0x4804 &&& 1023) ∧
      (CalculateModelZ c (o3Texture model_file (ClearModel out_model)) model_file 0x3200
        vertex_count).texture_data =
        rdBytes model_file 0x4806 (64 * (rdU16 model_file 0x4804 &&& 1023)) := by
  constructor
  · rw [CalculateModelZ_preserved (fun m => m.texture_size) (fun _ _ _ => rfl)]
    rfl
  · rw [CalculateModelZ_preserved (fun m => m.texture_data) (fun _ _ _ => rfl)]
    rfl

theorem o3Geometry_texture (c : Constants) (model_file animation_file : FileContent)
    (frame_count : Nat) (out_model : Model) :
    (o3Geometry c model_file animation_file frame_count out_model).texture_size =
        out_model.texture_size ∧
      (o3Geometry c model_file animation_file frame_count out_model).texture_data =
        out_model.texture_data :=
  ⟨rfl, rfl⟩

theorem mem_polygonCorners (fmt : CornerFormat) (vertex_count : Nat) (polygon : Polygon_o3)
    (v : Vertex) (h : v ∈ polygonCorners fmt vertex_count polygon) :
    ∃ j : Fin 4, v = cornerVertex fmt polygon j := by
  unfold polygonCorners at h
  split at h <;> simp only [List.mem_cons, List.mem_nil_iff, or_false] at h
  · rcases h with h | h | h
    · exact ⟨0, h⟩
    · exact ⟨1, h⟩
    · exact ⟨2, h⟩
  · rcases h with h | h | h | h
    · exact ⟨0, h⟩
    · exact ⟨1, h⟩
    · exact ⟨2, h⟩
    · exact ⟨3, h⟩

/-- C17: when `LoadModel_o3` returns a model for a model buffer, with `h` the 16-bit
value at offset `0x4804`: the texture size is `(64, h & 1023)`, the texture data are
the `64 * (h & 1023)` bytes of the buffer from offset `0x4806` on, the length of the
buffer is `0x4806 + 64 * (h & 1023)`, and every vertex is a corner of a polygon record
whose V coordinate is the quotient of `uv[j][1] + (v_offset + (h & ~1023))` by the
texture height, `h & ~1023` being `h & 0xFFFFFC00` in 32 bits. -/
theorem LoadModel_o3_texture (c : Constants) (model_file animation_file : FileContent)
    (out_model m : Model)
    (h : LoadModel_o3 c model_file animation_file out_model = Except.ok m) :
    m.texture_size = (64, rdU16 model_file 0x4804 &&& 1023) ∧
      m.texture_data =
        ((model_file.drop 0x4806).take (64 * (rdU16 model_file 0x4804 &&& 1023))).map
          (fun b => b % 256) ∧
      m.texture_data.length = 64 * (rdU16 model_file 0x4804 &&& 1023) ∧
      model_file.length = 0x4806 + 64 * (rdU16 model_file 0x4804 &&& 1023) ∧
      m.vertices =
        (readPolygons model_file 0 (rdU16 model_file 0x4802)).flatMap
          (polygonCorners
            (o3CornerFormat (64, rdU16 model_file 0x4804 &&& 1023)
              (rdU16 model_file 0x4804 &&& 0xFFFFFC00))
            (rdU16 model_file 0x4800)) ∧
      ∀ v ∈ m.vertices,
        ∃ polygon ∈ readPolygons model_file 0 (rdU16 model_file 0x4802), ∃ j : Fin 4,
          v.vertex_id = polygon.vertices_indeces j ∧
          v.tex_coord.1 = ⟨polygon.uv j 0, 64⟩ ∧
          v.tex_coord.2 =
            ⟨polygon.uv j 1 + (polygon.v_offset + (rdU16 model_file 0x4804 &&& 0xFFFFFC00)),
              rdU16 model_file 0x4804 &&& 1023⟩ := by
  obtain ⟨hlen, fc, _, e⟩ := (LoadModel_o3_ok_iff c model_file animation_file out_model m).mp h
  obtain ⟨hts, htd⟩ := o3_start_texture c model_file out_model (rdU16 model_file 0x4800)
  have hv : m.vertices =
      (readPolygons model_file 0 (rdU16 model_file 0x4802)).flatMap
        (polygonCorners
          (o3CornerFormat (64, rdU16 model_file 0x4804 &&& 1023)
            (rdU16 model_file 0x4804 &&& 0xFFFFFC00))
          (rdU16 model_file 0x4800)) := by
    rw [e, o3Geometry_vertices, hts]
    exact polygonLoop_vertices _ _ _ _ (o3_start_vertices c model_file out_model _)
  have htd' : m.texture_data =
      rdBytes model_file 0x4806 (64 * (rdU16 model_file 0x4804 &&& 1023)) := by
    rw [e, (o3Geometry_texture c model_file animation_file fc _).2, htd]
  refine ⟨by rw [e, (o3Geometry_texture c model_file animation_file fc _).1, hts], ?_, ?_,
    by omega, hv, ?_⟩
  · rw [htd']
    exact rdBytes_eq_take_drop _ _ _ (by omega)
  · rw [htd', length_rdBytes]
  · intro v hmem
    rw [hv] at hmem
    obtain ⟨polygon, hp, hvp⟩ := List.mem_flatMap.mp hmem
    obtain ⟨j, hj⟩ := mem_polygonCorners _ _ _ _ hvp
    exact ⟨polygon, hp, j, by rw [hj]; rfl, by rw [hj]; rfl, by rw [hj]; rfl⟩

theorem sampleTexturedFile_header :
    sampleTexturedFile.length = 0x4846 ∧ rdU16 sampleTexturedFile 0x4800 = 1 ∧
      rdU16 sampleTexturedFile 0x4802 = 1 ∧ rdU16 sampleTexturedFile 0x4804 = 0x0401 := by
  unfold sampleTexturedFile
  refine ⟨length_bytesOf _ _, ?_, ?_, ?_⟩
  · rw [rdU16_bytesOf _ _ _ (by omega)]
    rfl
  · rw [rdU16_bytesOf _ _ _ (by omega)]
    rfl
  · rw [rdU16_bytesOf _ _ _ (by omega)]
    rfl

/-- C17 at the sample O3 file whose height field is `0x0401`: the texture is 64 x 1, and
the V coordinate of each corner of its polygon is shifted by 1024. -/
theorem LoadModel_o3_texture_witness :
    ∃ m : Model, LoadModel_o3 sampleConstants sampleTexturedFile [] default = Except.ok m ∧
      m.texture_size = (64, 1) ∧ m.texture_data.length = 64 ∧
      sampleTexturedFile.length = 0x4806 + 64 ∧
      ∀ v ∈ m.vertices,
        ∃ polygon ∈ readPolygons sampleTexturedFile 0 1, ∃ j : Fin 4,
          v.tex_coord.2 = ⟨polygon.uv j 1 + (polygon.v_offset + 1024), 1⟩ := by
  obtain ⟨hlen, hvc, hpc, hth⟩ := sampleTexturedFile_header
  have hlow : rdU16 sampleTexturedFile 0x4804 &&& 1023 = 1 := by rw [hth]; rfl
  have hhigh : rdU16 sampleTexturedFile 0x4804 &&& 0xFFFFFC00 = 1024 := by rw [hth]; rfl
  obtain ⟨m, hm⟩ : ∃ m, LoadModel_o3 sampleConstants sampleTexturedFile [] default =
      Except.ok m :=
    ⟨_, (LoadModel_o3_ok_iff _ _ _ _ _).mpr
      ⟨by rw [hlen, hlow], 1, o3FrameCount_nil _, rfl⟩⟩
  obtain ⟨h1, _, h3, h4, _, h6⟩ :=
    LoadModel_o3_texture sampleConstants sampleTexturedFile [] default m hm
  rw [hlow] at h1 h3 h4
  refine ⟨m, hm, h1, h3, h4, fun v hv => ?_⟩
  obtain ⟨polygon, hp, j, _, _, hj⟩ := h6 v hv
  rw [hpc] at hp
  rw [hlow, hhigh] at hj
  exact ⟨polygon, hp, j, hj⟩

/-! ## Claims about the index lists -/

theorem o3_three_dvd (c : Constants) (model_file animation_file : FileContent)
    (out_model m : Model)
    (h : LoadModel_o3 c model_file animation_file out_model = Except.ok m) :
    3 ∣ m.regular_triangles_indeces.length ∧ 3 ∣ m.transparent_triangles_indeces.length ∧
      m.submodels = [] := by
  obtain ⟨_, fc, _, e⟩ := (LoadModel_o3_ok_iff c model_file animation_file out_model m).mp h
  have h1 : (CalculateModelZ c (o3Texture model_file (ClearModel out_model)) model_file 0x3200
      (rdU16 model_file 0x4800)).regular_triangles_indeces = [] := by
    rw [CalculateModelZ_preserved (fun m => m.regular_triangles_indeces) (fun _ _ _ => rfl)]
    rfl
  have h2 : (CalculateModelZ c (o3Texture model_file (ClearModel out_model)) model_file 0x3200
      (rdU16 model_file 0x4800)).transparent_triangles_indeces = [] := by
    rw [CalculateModelZ_preserved (fun m => m.transparent_triangles_indeces) (fun _ _ _ => rfl)]
    rfl
  have h3 : (CalculateModelZ c (o3Texture model_file (ClearModel out_model)) model_file 0x3200
      (rdU16 model_file 0x4800)).submodels = [] := by
    rw [CalculateModelZ_preserved (fun m => m.submodels) (fun _ _ _ => rfl)]
    rfl
  have key := polygonLoop_three_dvd
    (o3CornerFormat
      (CalculateModelZ c (o3Texture model_file (ClearModel out_model)) model_file 0x3200
        (rdU16 model_file 0x4800)).texture_size (rdU16 model_file 0x4804 &&& 0xFFFFFC00))
    (rdU16 model_file 0x4800) (readPolygons model_file 0 (rdU16 model_file 0x4802))
    { (CalculateModelZ c (o3Texture model_file (ClearModel out_model)) model_file 0x3200
        (rdU16 model_file 0x4800)).toSubmodel with
      frame_count := fc
      animations_vertices :=
        copyPositions (o3InVertices model_file animation_file).1
          (o3InVertices model_file animation_file).2
          (vecResize
            (CalculateModelZ c (o3Texture model_file (ClearModel out_model)) model_file 0x3200
              (rdU16 model_file 0x4800)).animations_vertices
            (u32 (fc * rdU16 model_file 0x4800)) default) }
    (by simp only [h1]; exact Nat.dvd_zero 3) (by simp only [h2]; exact Nat.dvd_zero 3)
  rw [e]
  exact ⟨key.1, key.2, h3⟩

theorem carSubmodelResult_three_dvd (c : Constants) (ts : Nat × Nat) (buf : FileContent)
    (i : Nat) :
    3 ∣ (carSubmodelResult c ts buf i).regular_triangles_indeces.length ∧
      3 ∣ (carSubmodelResult c ts buf i).transparent_triangles_indeces.length := by
  unfold carSubmodelResult
  split
  · exact ⟨Nat.dvd_zero 3, Nat.dvd_zero 3⟩
  · exact prepare_model_three_dvd c ts buf (carSubmodelVertexCount buf i)
      (rdU16 buf (carSubmodelOffset buf i + 0x4802)) (carSubmodelOffset buf i + 0x4806)
      (carSubmodelOffset buf i)
      { (default : Submodel) with
        frame_count :=
          (CARHeader.submodels_animations buf i 0 + CARHeader.submodels_animations buf i 1) /
            (6 * carSubmodelVertexCount buf i) }
      (Nat.dvd_zero 3) (Nat.dvd_zero 3)

theorem car_three_dvd (c : Constants) (buf : FileContent) (out_model m : Model)
    (h : LoadModel_car c buf out_model = Except.ok m) :
    3 ∣ m.regular_triangles_indeces.length ∧ 3 ∣ m.transparent_triangles_indeces.length ∧
      ∀ s ∈ m.submodels, 3 ∣ s.regular_triangles_indeces.length ∧
        3 ∣ s.transparent_triangles_indeces.length := by
  obtain ⟨_, _, _, e⟩ := (LoadModel_car_ok_iff c buf out_model m).mp h
  have key := prepare_model_three_dvd c
    (carTexture buf (ClearModel out_model)).texture_size buf (rdU16 buf 0x4866)
    (rdU16 buf 0x4868) (0x486C + rdU16 buf 0x486A) 0x66
    { (carTexture buf (ClearModel out_model)).toSubmodel with
      animations := carMainSlots buf, frame_count := carMainFrameCount buf }
    (Nat.dvd_zero 3) (Nat.dvd_zero 3)
  have hr : (carResult c buf out_model).regular_triangles_indeces =
      (prepare_model c (carTexture buf (ClearModel out_model)).texture_size buf
        (rdU16 buf 0x4866) (rdU16 buf 0x4868) (0x486C + rdU16 buf 0x486A) 0x66
        { (carTexture buf (ClearModel out_model)).toSubmodel with
          animations := carMainSlots buf
          frame_count := carMainFrameCount buf }).regular_triangles_indeces := by
    unfold carResult carMainModel
    simp only []
    rw [CalculateModelZ_preserved (fun m => m.regular_triangles_indeces) (fun _ _ _ => rfl)]
  have ht : (carResult c buf out_model).transparent_triangles_indeces =
      (prepare_model c (carTexture buf (ClearModel out_model)).texture_size buf
        (rdU16 buf 0x4866) (rdU16 buf 0x4868) (0x486C + rdU16 buf 0x486A) 0x66
        { (carTexture buf (ClearModel out_model)).toSubmodel with
          animations := carMainSlots buf
          frame_count := carMainFrameCount buf }).transparent_triangles_indeces := by
    unfold carResult carMainModel
    simp only []
    rw [CalculateModelZ_preserved (fun m => m.transparent_triangles_indeces) (fun _ _ _ => rfl)]
  rw [e, hr, ht]
  refine ⟨key.1, key.2, fun s hs => ?_⟩
  unfold carResult at hs
  simp only [List.mem_map, List.mem_range] at hs
  obtain ⟨i, _, e2⟩ := hs
  rw [← e2]
  exact carSubmodelResult_three_dvd _ _ _ _

/-- C18: in every model that `LoadModel_o3`, with one animation file or with several,
or `LoadModel_car` returns, the length of the regular index list and the length of the
transparent index list are multiples of 3, and so are they in every submodel of the
model. -/
theorem index_lists_multiple_of_three (c : Constants) (model_file animation_file : FileContent)
    (animation_files : List FileContent) (out_model m : Model)
    (h : LoadModel_o3 c model_file animation_file out_model = Except.ok m ∨
      LoadModel_o3_multi c model_file animation_files out_model = Except.ok m ∨
      LoadModel_car c model_file out_model = Except.ok m) :
    3 ∣ m.regular_triangles_indeces.length ∧ 3 ∣ m.transparent_triangles_indeces.length ∧
      ∀ s ∈ m.submodels, 3 ∣ s.regular_triangles_indeces.length ∧
        3 ∣ s.transparent_triangles_indeces.length := by
  rcases h with h | h | h
  · obtain ⟨h1, h2, h3⟩ := o3_three_dvd c model_file animation_file out_model m h
    refine ⟨h1, h2, fun s hs => ?_⟩
    rw [h3] at hs
    cases hs
  · obtain ⟨_, _, st, inner, _, hin, e⟩ :=
      (LoadModel_o3_multi_ok_iff c model_file animation_files out_model m).mp h
    obtain ⟨h1, h2, h3⟩ := o3_three_dvd c model_file _ out_model inner hin
    rw [e]
    refine ⟨h1, h2, fun s hs => ?_⟩
    have hs' : s ∈ inner.submodels := hs
    rw [h3] at hs'
    cases hs'
  · exact car_three_dvd c model_file out_model m h

/-- C18 at the sample O3 file, whose polygon is a one-sided quad: 6 indices. -/
theorem index_lists_multiple_of_three_witness :
    ∃ m : Model, LoadModel_o3 sampleConstants sampleModelFile [] default = Except.ok m ∧
      3 ∣ m.regular_triangles_indeces.length ∧ 3 ∣ m.transparent_triangles_indeces.length := by
  obtain ⟨hlen, hvc, hpc, hth, h0⟩ := sampleModelFile_header
  obtain ⟨m, hm⟩ : ∃ m, LoadModel_o3 sampleConstants sampleModelFile [] default =
      Except.ok m :=
    ⟨_, (LoadModel_o3_ok_iff _ _ _ _ _).mpr ⟨by rw [hlen, hth]; rfl, 1, o3FrameCount_nil _, rfl⟩⟩
  obtain ⟨h1, h2, _⟩ :=
    index_lists_multiple_of_three sampleConstants sampleModelFile [] [] default m (Or.inl hm)
  exact ⟨m, hm, h1, h2⟩

/-! ## Claims about the initial contents of the output model -/

theorem LoadModel_o3_sounds_kept (c : Constants) (model_file animation_file : FileContent)
    (out_model m : Model)
    (h : LoadModel_o3 c model_file animation_file out_model = Except.ok m) :
    m.sounds = out_model.sounds := by
  obtain ⟨_, fc, _, e⟩ := (LoadModel_o3_ok_iff c model_file animation_file out_model m).mp h
  have hs : (CalculateModelZ c (o3Texture model_file (ClearModel out_model)) model_file 0x3200
      (rdU16 model_file 0x4800)).sounds = out_model.sounds := by
    rw [CalculateModelZ_preserved (fun m => m.sounds) (fun _ _ _ => rfl)]
    rfl
  rw [e, ← hs]
  rfl

/-- C19 fails for `LoadModel_o3`: the sample O3 file with no animation file is decoded
into a model that is empty and into a model that holds one sound of an earlier decode;
both decodes return a model, the first without a sound and the second with the sound of
the earlier decode, `ClearModel` not clearing `sounds` and `LoadModel_o3` not assigning
it; so the two models differ. -/
theorem LoadModel_o3_keeps_sounds :
    ∃ m1 m2 : Model,
      LoadModel_o3 sampleConstants sampleModelFile [] default = Except.ok m1 ∧
      LoadModel_o3 sampleConstants sampleModelFile [] sampleUsedModel = Except.ok m2 ∧
      m1.sounds = [] ∧ m2.sounds = [[1]] ∧ m1 ≠ m2 := by
  obtain ⟨hlen, hvc, hpc, hth, h0⟩ := sampleModelFile_header
  obtain ⟨m1, hm1⟩ : ∃ m, LoadModel_o3 sampleConstants sampleModelFile [] default =
      Except.ok m :=
    ⟨_, (LoadModel_o3_ok_iff _ _ _ _ _).mpr ⟨by rw [hlen, hth]; rfl, 1, o3FrameCount_nil _, rfl⟩⟩
  obtain ⟨m2, hm2⟩ : ∃ m, LoadModel_o3 sampleConstants sampleModelFile [] sampleUsedModel =
      Except.ok m :=
    ⟨_, (LoadModel_o3_ok_iff _ _ _ _ _).mpr ⟨by rw [hlen, hth]; rfl, 1, o3FrameCount_nil _, rfl⟩⟩
  have h1 : m1.sounds = [] := LoadModel_o3_sounds_kept _ _ _ _ _ hm1
  have h2 : m2.sounds = [[1]] := LoadModel_o3_sounds_kept _ _ _ _ _ hm2
  refine ⟨m1, m2, hm1, hm2, h1, h2, fun e => ?_⟩
  rw [e, h2] at h1
  cases h1

/-! ## Helper lemmas: bounding boxes -/

theorem foldl_extend_mono (f : Nat → m_Vec3) (l : List Nat) (b : m_BBox3) :
    ((l.foldl (fun b i => b.extend (f i)) b).min.x ≤ b.min.x ∧
        b.max.x ≤ (l.foldl (fun b i => b.extend (f i)) b).max.x) ∧
      ((l.foldl (fun b i => b.extend (f i)) b).min.y ≤ b.min.y ∧
        b.max.y ≤ (l.foldl (fun b i => b.extend (f i)) b).max.y) ∧
      ((l.foldl (fun b i => b.extend (f i)) b).min.z ≤ b.min.z ∧
        b.max.z ≤ (l.foldl (fun b i => b.extend (f i)) b).max.z) := by
  induction l generalizing b with
  | nil => exact ⟨⟨le_refl _, le_refl _⟩, ⟨le_refl _, le_refl _⟩, ⟨le_refl _, le_refl _⟩⟩
  | cons i is ih =>
    rw [List.foldl_cons]
    obtain ⟨⟨a1, a2⟩, ⟨a3, a4⟩, ⟨a5, a6⟩⟩ := ih (b.extend (f i))
    exact ⟨⟨le_trans a1 (min_le_left _ _), le_trans (le_max_left _ _) a2⟩,
      ⟨le_trans a3 (min_le_left _ _), le_trans (le_max_left _ _) a4⟩,
      ⟨le_trans a5 (min_le_left _ _), le_trans (le_max_left _ _) a6⟩⟩

theorem foldl_extend_contains (f : Nat → m_Vec3) (l : List Nat) (b : m_BBox3) (k : Nat)
    (hk : k ∈ l) :
    (l.foldl (fun b i => b.extend (f i)) b).contains (f k) := by
  induction l generalizing b with
  | nil => simp at hk
  | cons i is ih =>
    rw [List.foldl_cons]
    rcases List.mem_cons.mp hk with e | e
    · subst e
      obtain ⟨⟨a1, a2⟩, ⟨a3, a4⟩, ⟨a5, a6⟩⟩ := foldl_extend_mono f is (b.extend (f k))
      exact ⟨⟨le_trans a1 (min_le_right _ _), le_trans (le_max_right _ _) a2⟩,
        ⟨le_trans a3 (min_le_right _ _), le_trans (le_max_right _ _) a4⟩,
        ⟨le_trans a5 (min_le_right _ _), le_trans (le_max_right _ _) a6⟩⟩
    · exact ih _ e

theorem CalculateBoundingBox_contains (c : Constants) (buf : FileContent)
    (off first vertex_count k : Nat) (hk : k < vertex_count) :
    (CalculateBoundingBox c buf off first vertex_count).contains
      (readVertex buf off (first + k)).scaled :=
  foldl_extend_contains (fun i => (readVertex buf off (first + i)).scaled)
    (List.range vertex_count) _ k (List.mem_range.mpr hk)

theorem CalculateBoundingBox_min_le_max (c : Constants) (buf : FileContent)
    (off first vertex_count : Nat) (h : 1 ≤ vertex_count) :
    (CalculateBoundingBox c buf off first vertex_count).min.x ≤
        (CalculateBoundingBox c buf off first vertex_count).max.x ∧
      (CalculateBoundingBox c buf off first vertex_count).min.y ≤
        (CalculateBoundingBox c buf off first vertex_count).max.y ∧
      (CalculateBoundingBox c buf off first vertex_count).min.z ≤
        (CalculateBoundingBox c buf off first vertex_count).max.z := by
  obtain ⟨⟨a1, a2⟩, ⟨a3, a4⟩, ⟨a5, a6⟩⟩ :=
    CalculateBoundingBox_contains c buf off first vertex_count 0 (by omega)
  exact ⟨le_trans a1 a2, le_trans a3 a4, le_trans a5 a6⟩

theorem o3Geometry_animations_bboxes (c : Constants) (model_file animation_file : FileContent)
    (frame_count : Nat) (out_model : Model) :
    (o3Geometry c model_file animation_file frame_count out_model).animations_bboxes =
      (List.range frame_count).map
        (fun i => CalculateBoundingBox c (o3InVertices model_file animation_file).1
          (o3InVertices model_file animation_file).2 (u32 (i * rdU16 model_file 0x4800))
          (rdU16 model_file 0x4800)) := by
  unfold o3Geometry
  simp only [polygonLoop_frame_count, calculateBoundingBoxes_eq]

theorem o3FrameCount_bound (vertex_count : Nat) (animation_file : FileContent) (fc : Nat)
    (hv : vertex_count < 2 ^ 16) (hlen : animation_file.length < 2 ^ 32)
    (h1 : animation_file.length ≠ 1)
    (h : o3FrameCount vertex_count animation_file = Except.ok fc) :
    fc * vertex_count < 2 ^ 32 := by
  unfold o3FrameCount checkedDiv at h
  cases animation_file with
  | nil =>
    simp only [List.isEmpty_nil, if_true, Except.ok.injEq] at h
    subst h
    omega
  | cons x xs =>
    simp only [List.isEmpty_cons, Bool.false_eq_true, if_false] at h
    by_cases hd : vertex_count * 6 = 0
    · simp [hd, Except.map] at h
    · simp only [hd, if_false, Except.map, Except.ok.injEq] at h
      have h2 : 2 ≤ (x :: xs).length := by
        cases xs with
        | nil => simp at h1
        | cons y ys => simp
      rw [usizeSub_two h2 (by omega)] at h
      have hq : ((x :: xs).length - 2) / (vertex_count * 6) * (vertex_count * 6) ≤
          (x :: xs).length - 2 := Nat.div_mul_le_self _ _
      have hq2 : ((x :: xs).length - 2) / (vertex_count * 6) ≤ (x :: xs).length - 2 :=
        Nat.div_le_self _ _
      rw [u32_of_lt (by omega)] at h
      subst h
      have : ((x :: xs).length - 2) / (vertex_count * 6) * vertex_count ≤
          ((x :: xs).length - 2) / (vertex_count * 6) * (vertex_count * 6) :=
        Nat.mul_le_mul_left _ (by omega)
      omega

theorem map_range_u32 {α : Type} (f : Nat → α) (n vc : Nat) (h : n * vc < 2 ^ 32) :
    (List.range n).map (fun i => f (u32 (i * vc))) = (List.range n).map (fun i => f (i * vc)) := by
  apply List.map_congr_left
  intro i hi
  have hi' := List.mem_range.mp hi
  have : i * vc ≤ n * vc := Nat.mul_le_mul_right _ (by omega)
  rw [u32_of_lt (by omega)]

theorem frame_boxes (c : Constants) (buf : FileContent) (off vc : Nat) (s : Submodel)
    (hb : s.animations_bboxes =
      (List.range s.frame_count).map
        (fun i => CalculateBoundingBox c buf off (u32 (i * vc)) vc))
    (hv : s.animations_vertices =
      copyPositions buf off (List.replicate (u32 (s.frame_count * vc)) default))
    (hbound : s.frame_count * vc < 2 ^ 32) :
    FrameBoxes c buf off vc s := by
  unfold FrameBoxes
  have hb' : s.animations_bboxes =
      (List.range s.frame_count).map (fun i => CalculateBoundingBox c buf off (i * vc) vc) := by
    rw [hb]
    exact map_range_u32 (fun first => CalculateBoundingBox c buf off first vc) _ _ hbound
  refine ⟨hb', fun i k hi hk => ?_⟩
  have h1 : (i + 1) * vc ≤ s.frame_count * vc := Nat.mul_le_mul_right vc hi
  rw [Nat.succ_mul] at h1
  refine ⟨CalculateBoundingBox c buf off (i * vc) vc,
    { (default : AnimationVertex) with pos := (readVertex buf off (i * vc + k)).xyz }, ?_, ?_,
    rfl, CalculateBoundingBox_contains c buf off (i * vc) vc k hk⟩
  · rw [hb', List.getElem?_map, List.getElem?_range hi]
    rfl
  · rw [hv, u32_of_lt hbound]
    exact getElem?_copyPositions_replicate buf off _ _ default (by omega)

theorem prepare_model_animations_vertices (c : Constants) (ts : Nat × Nat) (buf : FileContent)
    (vc pc voff poff : Nat) (s : Submodel) :
    (prepare_model c ts buf vc pc voff poff s).animations_vertices =
      copyPositions buf voff
        (vecResize s.animations_vertices (u32 (s.frame_count * vc)) default) := by
  unfold prepare_model
  simp only [polygonLoop_animations_vertices]

theorem sum_div_mul_le_sum (f : Nat → Nat) (vc : Nat) (l : List Nat) :
    (l.map (fun i => f i / (6 * vc))).sum * vc ≤ (l.map f).sum := by
  induction l with
  | nil => simp
  | cons i is ih =>
    rw [List.map_cons, List.sum_cons, List.map_cons, List.sum_cons, Nat.add_mul]
    have h1 : f i / (6 * vc) * (6 * vc) ≤ f i := Nat.div_mul_le_self _ _
    have h2 : f i / (6 * vc) * vc ≤ f i / (6 * vc) * (6 * vc) :=
      Nat.mul_le_mul_left _ (by omega)
    omega

theorem sum_map_le (f : Nat → Nat) (B : Nat) (hf : ∀ i, f i ≤ B) (l : List Nat) :
    (l.map f).sum ≤ l.length * B := by
  induction l with
  | nil => simp
  | cons i is ih =>
    rw [List.map_cons, List.sum_cons, List.length_cons, Nat.succ_mul]
    have := hf i
    omega

theorem carMainFrameCount_bound (buf : FileContent) :
    carMainFrameCount buf * rdU16 buf 0x4866 < 2 ^ 32 := by
  unfold carMainFrameCount
  have h1 := sum_div_mul_le_sum (CARHeader.animations buf) (rdU16 buf 0x4866) (List.range 20)
  have h2 := sum_map_le (CARHeader.animations buf) 65535
    (fun i => by have := rdU16_lt buf (2 * i); unfold CARHeader.animations; omega) (List.range 20)
  rw [List.length_range] at h2
  omega

theorem carSubmodel_bound (buf : FileContent) (i : Nat) :
    (CARHeader.submodels_animations buf i 0 + CARHeader.submodels_animations buf i 1) /
      (6 * carSubmodelVertexCount buf i) * carSubmodelVertexCount buf i < 2 ^ 32 := by
  have h1 : (CARHeader.submodels_animations buf i 0 + CARHeader.submodels_animations buf i 1) /
      (6 * carSubmodelVertexCount buf i) * (6 * carSubmodelVertexCount buf i) ≤
      CARHeader.submodels_animations buf i 0 + CARHeader.submodels_animations buf i 1 :=
    Nat.div_mul_le_self _ _
  have h2 : (CARHeader.submodels_animations buf i 0 + CARHeader.submodels_animations buf i 1) /
      (6 * carSubmodelVertexCount buf i) * carSubmodelVertexCount buf i ≤
      (CARHeader.submodels_animations buf i 0 + CARHeader.submodels_animations buf i 1) /
      (6 * carSubmodelVertexCount buf i) * (6 * carSubmodelVertexCount buf i) :=
    Nat.mul_le_mul_left _ (by omega)
  have h3 := rdU16_lt buf (40 + 4 * i + 2 * 0)
  have h4 := rdU16_lt buf (40 + 4 * i + 2 * 1)
  unfold CARHeader.submodels_animations at h1 h2 ⊢
  omega

theorem carResult_frames (c : Constants) (buf : FileContent) (out_model : Model) :
    (carResult c buf out_model).animations_bboxes =
        (List.range (carResult c buf out_model).frame_count).map
          (fun i => CalculateBoundingBox c buf (0x486C + rdU16 buf 0x486A)
            (u32 (i * rdU16 buf 0x4866)) (rdU16 buf 0x4866)) ∧
      (carResult c buf out_model).animations_vertices =
        copyPositions buf (0x486C + rdU16 buf 0x486A)
          (List.replicate (u32 ((carResult c buf out_model).frame_count * rdU16 buf 0x4866))
            default) := by
  rw [(carResult_animations c buf out_model).2]
  constructor
  · unfold carResult carMainModel
    simp only []
    rw [CalculateModelZ_preserved (fun m => m.animations_bboxes) (fun _ _ _ => rfl)]
    simp only [prepare_model_animations_bboxes]
  · unfold carResult carMainModel
    simp only []
    rw [CalculateModelZ_preserved (fun m => m.animations_vertices) (fun _ _ _ => rfl)]
    simp only [prepare_model_animations_vertices]
    rw [show (carTexture buf (ClearModel out_model)).animations_vertices = [] from rfl,
      vecResize_nil]

theorem carSubmodelResult_frames (c : Constants) (ts : Nat × Nat) (buf : FileContent) (i : Nat) :
    (carSubmodelResult c ts buf i).animations_bboxes =
        (List.range (carSubmodelResult c ts buf i).frame_count).map
          (fun k => CalculateBoundingBox c buf (carSubmodelOffset buf i + 0x4806)
            (u32 (k * carSubmodelVertexCount buf i)) (carSubmodelVertexCount buf i)) ∧
      (carSubmodelResult c ts buf i).animations_vertices =
        copyPositions buf (carSubmodelOffset buf i + 0x4806)
          (List.replicate
            (u32 ((carSubmodelResult c ts buf i).frame_count * carSubmodelVertexCount buf i))
            default) := by
  unfold carSubmodelResult
  split
  · refine ⟨rfl, ?_⟩
    rw [show (default : Submodel).frame_count = 0 from rfl, Nat.zero_mul]
    rfl
  · constructor
    · simp only [prepare_model_animations_bboxes, prepare_model_frame_count]
    · simp only [prepare_model_animations_vertices, prepare_model_frame_count]
      rw [show (default : Submodel).animations_vertices = [] from rfl, vecResize_nil]

/-! ## Claims about the bounding boxes -/

theorem o3_frame_boxes (c : Constants) (model_file animation_file : FileContent)
    (out_model m : Model)
    (h : LoadModel_o3 c model_file animation_file out_model = Except.ok m)
    (hlen : animation_file.length < 2 ^ 32) (h1 : animation_file.length ≠ 1) :
    FrameBoxes c (o3InVertices model_file animation_file).1
      (o3InVertices model_file animation_file).2 (rdU16 model_file 0x4800) m.toSubmodel := by
  obtain ⟨_, fc, hfc, e⟩ := (LoadModel_o3_ok_iff c model_file animation_file out_model m).mp h
  have hb := o3FrameCount_bound _ _ fc (rdU16_lt model_file 0x4800) hlen h1 hfc
  have hs := o3_start_fields c model_file out_model (rdU16 model_file 0x4800)
  have hf : m.frame_count = fc := by rw [e]; exact o3Geometry_frame_count _ _ _ _ _
  apply frame_boxes
  · show m.animations_bboxes = _
    rw [hf, e]
    exact o3Geometry_animations_bboxes _ _ _ _ _
  · show m.animations_vertices = _
    rw [hf, e]
    exact o3Geometry_animations_vertices _ _ _ _ _ hs.2
  · show m.frame_count * _ < _
    rw [hf]
    exact hb

theorem car_frame_boxes (c : Constants) (buf : FileContent) (out_model m : Model)
    (h : LoadModel_car c buf out_model = Except.ok m) :
    FrameBoxes c buf (0x486C + rdU16 buf 0x486A) (rdU16 buf 0x4866) m.toSubmodel ∧
      ∀ i, i < 3 → ∃ s : Submodel, m.submodels[i]? = some s ∧
        FrameBoxes c buf (carSubmodelOffset buf i + 0x4806) (carSubmodelVertexCount buf i) s := by
  obtain ⟨_, _, _, e⟩ := (LoadModel_car_ok_iff c buf out_model m).mp h
  subst e
  constructor
  · apply frame_boxes
    · exact (carResult_frames c buf out_model).1
    · exact (carResult_frames c buf out_model).2
    · show (carResult c buf out_model).frame_count * _ < _
      rw [(carResult_animations c buf out_model).2]
      exact carMainFrameCount_bound buf
  · intro i hi
    refine ⟨_, (carResult_submodels c buf out_model i hi).2, ?_⟩
    apply frame_boxes
    · exact (carSubmodelResult_frames c _ buf i).1
    · exact (carSubmodelResult_frames c _ buf i).2
    · rw [carSubmodelResult_frame_count]
      exact carSubmodel_bound buf i

theorem sampleCarSubmodelFile_offset (len0 len1 : Nat) (h0 : len0 < 256) (h1 : len1 < 256) :
    carSubmodelOffset (sampleCarSubmodelFile len0 len1) 0 = 0x486C := by
  obtain ⟨_, _, htx, _, _, _, hz⟩ := sampleCarSubmodelFile_header len0 len1 h0 h1
  have ha : ∀ i ∈ List.range 20,
      CARHeader.animations (sampleCarSubmodelFile len0 len1) i /
        (6 * rdU16 (sampleCarSubmodelFile len0 len1) 0x4866) = 0 := by
    intro i hi
    have hi' := List.mem_range.mp hi
    unfold CARHeader.animations
    rw [hz (2 * i) (by omega) (by omega) (by omega) (by omega)]
    simp
  unfold carSubmodelOffset carSubmodelsOffset carMainFrameCount
  rw [List.map_congr_left ha, htx]
  simp

/-- C20: for a run of `vertex_count ≥ 1` raw positions the box that
`CalculateBoundingBox` computes has `min ≤ max` in each coordinate and contains every
position of the run scaled by `1 / 2048`.  In a model that `LoadModel_o3` returns (the
animation file being shorter than `2 ^ 32` bytes and not a single byte), in a model that
`LoadModel_car` returns and in each of its 3 submodels, entry `i` of `animations_bboxes`
is that box for the `vertex_count` positions of frame `i`, which are those that
`animations_vertices` holds for the frame. -/
theorem bounding_boxes_contain (c : Constants) :
    (∀ (buf : FileContent) (off first vertex_count : Nat), 1 ≤ vertex_count →
      ((CalculateBoundingBox c buf off first vertex_count).min.x ≤
          (CalculateBoundingBox c buf off first vertex_count).max.x ∧
        (CalculateBoundingBox c buf off first vertex_count).min.y ≤
          (CalculateBoundingBox c buf off first vertex_count).max.y ∧
        (CalculateBoundingBox c buf off first vertex_count).min.z ≤
          (CalculateBoundingBox c buf off first vertex_count).max.z) ∧
      ∀ k, k < vertex_count →
        (CalculateBoundingBox c buf off first vertex_count).contains
          (readVertex buf off (first + k)).scaled) ∧
    (∀ (model_file animation_file : FileContent) (out_model m : Model),
      LoadModel_o3 c model_file animation_file out_model = Except.ok m →
      animation_file.length < 2 ^ 32 → animation_file.length ≠ 1 →
      FrameBoxes c (o3InVertices model_file animation_file).1
        (o3InVertices model_file animation_file).2 (rdU16 model_file 0x4800) m.toSubmodel) ∧
    (∀ (model_file : FileContent) (out_model m : Model),
      LoadModel_car c model_file out_model = Except.ok m →
      FrameBoxes c model_file (0x486C + rdU16 model_file 0x486A) (rdU16 model_file 0x4866)
          m.toSubmodel ∧
        ∀ i, i < 3 → ∃ s : Submodel, m.submodels[i]? = some s ∧
          FrameBoxes c model_file (carSubmodelOffset model_file i + 0x4806)
            (carSubmodelVertexCount model_file i) s) :=
  ⟨fun buf off first vertex_count h =>
      ⟨CalculateBoundingBox_min_le_max c buf off first vertex_count h,
        fun k hk => CalculateBoundingBox_contains c buf off first vertex_count k hk⟩,
    fun model_file animation_file out_model m h hlen h1 =>
      o3_frame_boxes c model_file animation_file out_model m h hlen h1,
    fun model_file out_model m h => car_frame_boxes c model_file out_model m h⟩

/-- C20 at the sample O3 file decoded with no animation file, at the run of its one
base-pose position, and at the sample CAR file whose submodel 0 has 3 frames. -/
theorem bounding_boxes_contain_witness :
    (1 ≤ 1 ∧
      (CalculateBoundingBox sampleConstants sampleModelFile 0x3200 0 1).min.x ≤
        (CalculateBoundingBox sampleConstants sampleModelFile 0x3200 0 1).max.x) ∧
    (∃ m : Model, LoadModel_o3 sampleConstants sampleModelFile [] default = Except.ok m ∧
      FrameBoxes sampleConstants sampleModelFile 0x3200 1 m.toSubmodel) ∧
    ∃ m : Model,
      LoadModel_car sampleConstants (sampleCarSubmodelFile 6 12) default = Except.ok m ∧
      ∃ s : Submodel, m.submodels[0]? = some s ∧ s.frame_count = 3 ∧
        FrameBoxes sampleConstants (sampleCarSubmodelFile 6 12) (0x486C + 0x4806) 1 s := by
  obtain ⟨hA, hB, hC⟩ := bounding_boxes_contain sampleConstants
  obtain ⟨hlen, hvc, hpc, hth, h0⟩ := sampleModelFile_header
  obtain ⟨m, hm⟩ : ∃ m, LoadModel_o3 sampleConstants sampleModelFile [] default =
      Except.ok m :=
    ⟨_, (LoadModel_o3_ok_iff _ _ _ _ _).mpr ⟨by rw [hlen, hth]; rfl, 1, o3FrameCount_nil _, rfl⟩⟩
  obtain ⟨hok, h0', h1', hv⟩ := sampleCarSubmodelFile_ok sampleConstants default 6 12
    (by decide) (by decide) (by decide)
  refine ⟨⟨Nat.le_refl 1, (hA sampleModelFile 0x3200 0 1 (Nat.le_refl 1)).1.1⟩, ⟨m, hm, ?_⟩,
    _, hok, ?_⟩
  · have hb := hB sampleModelFile [] default m hm (by decide) (by decide)
    rw [hvc] at hb
    exact hb
  · obtain ⟨s, hs, hfb⟩ := (hC (sampleCarSubmodelFile 6 12) default _ hok).2 0 (by decide)
    have hs' := (carResult_submodels sampleConstants (sampleCarSubmodelFile 6 12) default 0
      (by decide)).2
    rw [hs] at hs'
    have hfc := carSubmodelResult_frame_count sampleConstants
      (g_car_model_texture_width,
        rdU16 (sampleCarSubmodelFile 6 12) 0x486A / g_car_model_texture_width)
      (sampleCarSubmodelFile 6 12) 0
    rw [← Option.some.inj hs', h0', h1', hv] at hfc
    have ho := sampleCarSubmodelFile_offset 6 12 (by decide) (by decide)
    rw [hv, ho] at hfb
    exact ⟨s, hs, hfc, hfb⟩

/-! ## Helper lemmas: the polygon lists of a decoded model -/

theorem o3_polygon_lists (c : Constants) (model_file animation_file : FileContent)
    (out_model m : Model)
    (h : LoadModel_o3 c model_file animation_file out_model = Except.ok m) :
    ∃ S : Submodel, S.vertices = [] ∧ S.regular_triangles_indeces = [] ∧
      S.transparent_triangles_indeces = [] ∧
      m.toSubmodel.vertices =
        (polygonLoop
          (o3CornerFormat (64, rdU16 model_file 0x4804 &&& 1023)
            (rdU16 model_file 0x4804 &&& 0xFFFFFC00))
          (rdU16 model_file 0x4800) (readPolygons model_file 0 (rdU16 model_file 0x4802))
          S).vertices ∧
      m.toSubmodel.regular_triangles_indeces =
        (polygonLoop
          (o3CornerFormat (64, rdU16 model_file 0x4804 &&& 1023)
            (rdU16 model_file 0x4804 &&& 0xFFFFFC00))
          (rdU16 model_file 0x4800) (readPolygons model_file 0 (rdU16 model_file 0x4802))
          S).regular_triangles_indeces ∧
      m.toSubmodel.transparent_triangles_indeces =
        (polygonLoop
          (o3CornerFormat (64, rdU16 model_file 0x4804 &&& 1023)
            (rdU16 model_file 0x4804 &&& 0xFFFFFC00))
          (rdU16 model_file 0x4800) (readPolygons model_file 0 (rdU16 model_file 0x4802))
          S).transparent_triangles_indeces := by
  obtain ⟨_, fc, _, e⟩ := (LoadModel_o3_ok_iff c model_file animation_file out_model m).mp h
  obtain ⟨hts, _⟩ := o3_start_texture c model_file out_model (rdU16 model_file 0x4800)
  have h1 : (CalculateModelZ c (o3Texture model_file (ClearModel out_model)) model_file 0x3200
      (rdU16 model_file 0x4800)).regular_triangles_indeces = [] := by
    rw [CalculateModelZ_preserved (fun m => m.regular_triangles_indeces) (fun _ _ _ => rfl)]
    rfl
  have h2 : (CalculateModelZ c (o3Texture model_file (ClearModel out_model)) model_file 0x3200
      (rdU16 model_file 0x4800)).transparent_triangles_indeces = [] := by
    rw [CalculateModelZ_preserved (fun m => m.transparent_triangles_indeces) (fun _ _ _ => rfl)]
    rfl
  have h3 := o3_start_vertices c model_file out_model (rdU16 model_file 0x4800)
  refine ⟨{ (CalculateModelZ c (o3Texture model_file (ClearModel out_model)) model_file 0x3200
        (rdU16 model_file 0x4800)).toSubmodel with
      frame_count := fc
      animations_vertices :=
        copyPositions (o3InVertices model_file animation_file).1
          (o3InVertices model_file animation_file).2
          (vecResize
            (CalculateModelZ c (o3Texture model_file (ClearModel out_model)) model_file 0x3200
              (rdU16 model_file 0x4800)).animations_vertices
            (u32 (fc * rdU16 model_file 0x4800)) default) }, h3, h1, h2, ?_, ?_, ?_⟩
  · rw [e, ← hts]
    rfl
  · rw [e, ← hts]
    rfl
  · rw [e, ← hts]
    rfl

theorem car_polygon_lists (c : Constants) (buf : FileContent) (out_model m : Model)
    (h : LoadModel_car c buf out_model = Except.ok m) :
    ∃ S : Submodel, S.vertices = [] ∧ S.regular_triangles_indeces = [] ∧
      S.transparent_triangles_indeces = [] ∧
      m.toSubmodel.vertices =
        (polygonLoop
          (carCornerFormat (g_car_model_texture_width, rdU16 buf 0x486A / g_car_model_texture_width))
          (rdU16 buf 0x4866) (readPolygons buf 0x66 (rdU16 buf 0x4868)) S).vertices ∧
      m.toSubmodel.regular_triangles_indeces =
        (polygonLoop
          (carCornerFormat (g_car_model_texture_width, rdU16 buf 0x486A / g_car_model_texture_width))
          (rdU16 buf 0x4866) (readPolygons buf 0x66 (rdU16 buf 0x4868))
          S).regular_triangles_indeces ∧
      m.toSubmodel.transparent_triangles_indeces =
        (polygonLoop
          (carCornerFormat (g_car_model_texture_width, rdU16 buf 0x486A / g_car_model_texture_width))
          (rdU16 buf 0x4866) (readPolygons buf 0x66 (rdU16 buf 0x4868))
          S).transparent_triangles_indeces := by
  obtain ⟨_, _, _, e⟩ := (LoadModel_car_ok_iff c buf out_model m).mp h
  subst e
  refine ⟨{ (carTexture buf (ClearModel out_model)).toSubmodel with
      animations := carMainSlots buf
      frame_count := carMainFrameCount buf
      animations_vertices :=
        copyPositions buf (0x486C + rdU16 buf 0x486A)
          (vecResize (carTexture buf (ClearModel out_model)).animations_vertices
            (u32 (carMainFrameCount buf * rdU16 buf 0x4866)) default) }, rfl, rfl, rfl,
    ?_, ?_, ?_⟩
  · unfold carResult carMainModel
    simp only []
    rw [CalculateModelZ_preserved (fun m => m.vertices) (fun _ _ _ => rfl)]
    rfl
  · unfold carResult carMainModel
    simp only []
    rw [CalculateModelZ_preserved (fun m => m.regular_triangles_indeces) (fun _ _ _ => rfl)]
    rfl
  · unfold carResult carMainModel
    simp only []
    rw [CalculateModelZ_preserved (fun m => m.transparent_triangles_indeces) (fun _ _ _ => rfl)]
    rfl

theorem carSubmodel_polygon_lists (c : Constants) (ts : Nat × Nat) (buf : FileContent) (i : Nat)
    (hz : CARHeader.submodels_animations buf i 0 + CARHeader.submodels_animations buf i 1 ≠ 0) :
    ∃ S : Submodel, S.vertices = [] ∧ S.regular_triangles_indeces = [] ∧
      S.transparent_triangles_indeces = [] ∧
      (carSubmodelResult c ts buf i).vertices =
        (polygonLoop (carCornerFormat ts) (carSubmodelVertexCount buf i)
          (readPolygons buf (carSubmodelOffset buf i) (rdU16 buf (carSubmodelOffset buf i + 0x4802)))
          S).vertices ∧
      (carSubmodelResult c ts buf i).regular_triangles_indeces =
        (polygonLoop (carCornerFormat ts) (carSubmodelVertexCount buf i)
          (readPolygons buf (carSubmodelOffset buf i) (rdU16 buf (carSubmodelOffset buf i + 0x4802)))
          S).regular_triangles_indeces ∧
      (carSubmodelResult c ts buf i).transparent_triangles_indeces =
        (polygonLoop (carCornerFormat ts) (carSubmodelVertexCount buf i)
          (readPolygons buf (carSubmodelOffset buf i) (rdU16 buf (carSubmodelOffset buf i + 0x4802)))
          S).transparent_triangles_indeces := by
  unfold carSubmodelResult
  rw [if_neg hz]
  exact ⟨{ (default : Submodel) with
      frame_count :=
        (CARHeader.submodels_animations buf i 0 + CARHeader.submodels_animations buf i 1) /
          (6 * carSubmodelVertexCount buf i)
      animations_vertices :=
        copyPositions buf (carSubmodelOffset buf i + 0x4806)
          (vecResize (default : Submodel).animations_vertices
            (u32 ((CARHeader.submodels_animations buf i 0 +
              CARHeader.submodels_animations buf i 1) /
                (6 * carSubmodelVertexCount buf i) * carSubmodelVertexCount buf i)) default) },
    rfl, rfl, rfl, rfl, rfl, rfl⟩

/-! ## Claims about a one-quad O3 file -/

/-- C21: an O3 model buffer of `0x4806 + 4096` bytes with vertex count 4, polygon count
1 and height field 64 whose polygon record holds the vertex indices 0, 1, 2, 3, the UVs
(0,0), (1,0), (1,1), (0,1), no two-sided and no translucent flag and `v_offset` 0 is
decoded, with no animation file, to a model with the regular indices
`[2, 1, 0, 0, 3, 2]`, no transparent index, 4 vertices, 1 frame, and corner `j` having
`vertex_id` `j` and the texture coordinates `u_j / 64` and `v_j / 64`. -/
theorem LoadModel_o3_quad (c : Constants) (buf : FileContent) (out_model : Model)
    (hlen : buf.length = 0x4806 + 4096)
    (hvc : rdU16 buf 0x4800 = 4) (hpc : rdU16 buf 0x4802 = 1) (hth : rdU16 buf 0x4804 = 64)
    (hidx : ∀ j : Fin 4, (readPolygon buf 0).vertices_indeces j = j.val)
    (hu : ∀ j : Fin 4, (readPolygon buf 0).uv j 0 = ![0, 1, 1, 0] j)
    (hv : ∀ j : Fin 4, (readPolygon buf 0).uv j 1 = ![0, 0, 1, 1] j)
    (hflags : (readPolygon buf 0).flags &&& 0x01 = 0 ∧ (readPolygon buf 0).flags &&& 0x0C = 0)
    (hvo : (readPolygon buf 0).v_offset = 0) :
    ∃ m : Model, LoadModel_o3 c buf [] out_model = Except.ok m ∧
      m.regular_triangles_indeces = [2, 1, 0, 0, 3, 2] ∧
      m.transparent_triangles_indeces = [] ∧
      m.vertices.length = 4 ∧ m.frame_count = 1 ∧
      ∀ j : Fin 4, ∃ v : Vertex, m.vertices[j.val]? = some v ∧ v.vertex_id = j.val ∧
        v.tex_coord = (⟨![0, 1, 1, 0] j, 64⟩, ⟨![0, 0, 1, 1] j, 64⟩) := by
  have hlow : rdU16 buf 0x4804 &&& 1023 = 64 := by rw [hth]; rfl
  have hhigh : rdU16 buf 0x4804 &&& 0xFFFFFC00 = 0 := by rw [hth]; rfl
  obtain ⟨m, hm⟩ : ∃ m, LoadModel_o3 c buf [] out_model = Except.ok m :=
    ⟨_, (LoadModel_o3_ok_iff _ _ _ _ _).mpr
      ⟨by rw [hlen, hlow], 1, o3FrameCount_nil _, rfl⟩⟩
  obtain ⟨S, hS1, hS2, hS3, hmv, hmr, hmt⟩ := o3_polygon_lists c buf [] out_model m hm
  have hfc : m.frame_count = 1 := by
    obtain ⟨_, fc, hfc, e⟩ := (LoadModel_o3_ok_iff c buf [] out_model m).mp hm
    rw [o3FrameCount_nil] at hfc
    rw [e, o3Geometry_frame_count]
    exact (Except.ok.inj hfc).symm
  have hpolys : readPolygons buf 0 (rdU16 buf 0x4802) = [readPolygon buf 0] := by
    rw [hpc]
    rfl
  have htri : polygon_is_triangle 4 (readPolygon buf 0) = false := by
    apply Bool.eq_false_iff.mpr
    intro h
    have := (polygon_is_triangle_iff 4 (readPolygon buf 0)).mp h
    rw [hidx 3] at this
    exact absurd this (by decide)
  have htwo : polygon_is_twosided (readPolygon buf 0) = false := by
    apply Bool.eq_false_iff.mpr
    intro h
    exact (polygon_is_twosided_iff _).mp h hflags.1
  have htr : transparent (readPolygon buf 0) = false := by
    apply Bool.eq_false_iff.mpr
    intro h
    exact (transparent_iff _).mp h hflags.2
  rw [hpolys, hvc, hlow, hhigh] at hmv hmr hmt
  have hv4 : m.vertices =
      [cornerVertex (o3CornerFormat (64, 64) 0) (readPolygon buf 0) 0,
       cornerVertex (o3CornerFormat (64, 64) 0) (readPolygon buf 0) 1,
       cornerVertex (o3CornerFormat (64, 64) 0) (readPolygon buf 0) 2,
       cornerVertex (o3CornerFormat (64, 64) 0) (readPolygon buf 0) 3] := by
    show m.toSubmodel.vertices = _
    rw [hmv, polygonLoop_vertices _ _ _ _ hS1]
    simp [polygonCorners, htri]
  refine ⟨m, hm, ?_, ?_, by rw [hv4]; rfl, hfc, ?_⟩
  · show m.toSubmodel.regular_triangles_indeces = _
    rw [hmr]
    show (polygonStep _ 4 (S, 0) (readPolygon buf 0)).1.regular_triangles_indeces = _
    rw [polygonStep_regular, htr, hS2, writeIndeces_eq, htri, htwo]
    rfl
  · show m.toSubmodel.transparent_triangles_indeces = _
    rw [hmt]
    show (polygonStep _ 4 (S, 0) (readPolygon buf 0)).1.transparent_triangles_indeces = _
    rw [polygonStep_transparent, htr, hS3]
    rfl
  · intro j
    rw [hv4]
    fin_cases j
    · exact ⟨_, rfl, hidx 0, by
        show ((⟨(readPolygon buf 0).uv 0 0, 64⟩ : FloatQuot),
          (⟨(readPolygon buf 0).uv 0 1 + ((readPolygon buf 0).v_offset + 0), 64⟩ : FloatQuot)) = _
        rw [hu 0, hv 0, hvo]
        rfl⟩
    · exact ⟨_, rfl, hidx 1, by
        show ((⟨(readPolygon buf 0).uv 1 0, 64⟩ : FloatQuot),
          (⟨(readPolygon buf 0).uv 1 1 + ((readPolygon buf 0).v_offset + 0), 64⟩ : FloatQuot)) = _
        rw [hu 1, hv 1, hvo]
        rfl⟩
    · exact ⟨_, rfl, hidx 2, by
        show ((⟨(readPolygon buf 0).uv 2 0, 64⟩ : FloatQuot),
          (⟨(readPolygon buf 0).uv 2 1 + ((readPolygon buf 0).v_offset + 0), 64⟩ : FloatQuot)) = _
        rw [hu 2, hv 2, hvo]
        rfl⟩
    · exact ⟨_, rfl, hidx 3, by
        show ((⟨(readPolygon buf 0).uv 3 0, 64⟩ : FloatQuot),
          (⟨(readPolygon buf 0).uv 3 1 + ((readPolygon buf 0).v_offset + 0), 64⟩ : FloatQuot)) = _
        rw [hu 3, hv 3, hvo]
        rfl⟩

theorem sampleQuadFile_header :
    sampleQuadFile.length = 0x4806 + 4096 ∧ rdU16 sampleQuadFile 0x4800 = 4 ∧
      rdU16 sampleQuadFile 0x4802 = 1 ∧ rdU16 sampleQuadFile 0x4804 = 64 ∧
      (∀ j : Fin 4, (readPolygon sampleQuadFile 0).vertices_indeces j = j.val) ∧
      (∀ j : Fin 4, (readPolygon sampleQuadFile 0).uv j 0 = ![0, 1, 1, 0] j) ∧
      (∀ j : Fin 4, (readPolygon sampleQuadFile 0).uv j 1 = ![0, 0, 1, 1] j) ∧
      (readPolygon sampleQuadFile 0).flags = 0 ∧ (readPolygon sampleQuadFile 0).v_offset = 0 := by
  unfold sampleQuadFile readPolygon
  refine ⟨length_bytesOf _ _, ?_, ?_, ?_, ?_, ?_, ?_, ?_, ?_⟩
  · rw [rdU16_bytesOf _ _ _ (by omega)]
    rfl
  · rw [rdU16_bytesOf _ _ _ (by omega)]
    rfl
  · rw [rdU16_bytesOf _ _ _ (by omega)]
    rfl
  · intro j
    fin_cases j <;> (simp only []; rw [rdU16_bytesOf _ _ _ (by norm_num)]; rfl)
  · intro j
    fin_cases j <;> (simp only []; rw [rdU16_bytesOf _ _ _ (by norm_num)]; rfl)
  · intro j
    fin_cases j <;> (simp only []; rw [rdU16_bytesOf _ _ _ (by norm_num)]; rfl)
  · simp only []
    rw [rdU8_bytesOf]
    rfl
  · simp only []
    rw [rdU16_bytesOf _ _ _ (by norm_num)]
    rfl

/-- C21 at the sample buffer, all zero but for the fields that the claim names. -/
theorem LoadModel_o3_quad_witness :
    sampleQuadFile.length = 0x4806 + 4096 ∧
      ∃ m : Model, LoadModel_o3 sampleConstants sampleQuadFile [] default = Except.ok m ∧
        m.regular_triangles_indeces = [2, 1, 0, 0, 3, 2] ∧
        m.transparent_triangles_indeces = [] ∧
        m.vertices.length = 4 ∧ m.frame_count = 1 ∧
        ∀ j : Fin 4, ∃ v : Vertex, m.vertices[j.val]? = some v ∧ v.vertex_id = j.val ∧
          v.tex_coord = (⟨![0, 1, 1, 0] j, 64⟩, ⟨![0, 0, 1, 1] j, 64⟩) := by
  obtain ⟨hlen, hvc, hpc, hth, hidx, hu, hv, hfl, hvo⟩ := sampleQuadFile_header
  exact ⟨hlen, LoadModel_o3_quad sampleConstants sampleQuadFile default hlen hvc hpc hth hidx hu hv
    (by rw [hfl]; exact ⟨rfl, rfl⟩) hvo⟩

/-! ## Helper lemmas: index values -/

theorem writeIndeces_block_range (vertex_count : Nat) (polygon : Polygon_o3) (dst : List Nat)
    (b : Nat) (hb : b + polygon_vertex_count vertex_count polygon ≤ 65536) :
    ∀ x ∈ (writeIndeces vertex_count polygon dst b).drop dst.length,
      b ≤ x ∧ x < b + polygon_vertex_count vertex_count polygon := by
  rw [writeIndeces_eq, List.drop_left]
  unfold polygon_vertex_count at hb ⊢
  intro x hx
  cases htri : polygon_is_triangle vertex_count polygon
  · simp only [htri, if_false, Bool.false_eq_true] at hb hx ⊢
    have e0 : u16 (b + 0) = b + 0 := u16_of_lt (by omega)
    have e1 : u16 (b + 1) = b + 1 := u16_of_lt (by omega)
    have e2 : u16 (b + 2) = b + 2 := u16_of_lt (by omega)
    have e3 : u16 (b + 3) = b + 3 := u16_of_lt (by omega)
    rw [e0, e1, e2, e3] at hx
    cases htwo : polygon_is_twosided polygon <;>
      simp only [htwo, if_true, if_false, Bool.false_eq_true, List.mem_append, List.mem_cons,
        List.mem_nil_iff, or_false] at hx <;>
      omega
  · simp only [htri, if_true] at hb hx ⊢
    have e0 : u16 (b + 0) = b + 0 := u16_of_lt (by omega)
    have e1 : u16 (b + 1) = b + 1 := u16_of_lt (by omega)
    have e2 : u16 (b + 2) = b + 2 := u16_of_lt (by omega)
    rw [e0, e1, e2] at hx
    cases htwo : polygon_is_twosided polygon <;>
      simp only [htwo, if_true, if_false, Bool.false_eq_true, List.mem_append, List.mem_cons,
        List.mem_nil_iff, or_false] at hx <;>
      omega

theorem foldl_polygonStep_index_lt (fmt : CornerFormat) (vertex_count : Nat)
    (polygons : List Polygon_o3) (st : Submodel × Nat)
    (h1 : ∀ x ∈ st.1.regular_triangles_indeces, x < st.2)
    (h2 : ∀ x ∈ st.1.transparent_triangles_indeces, x < st.2)
    (hb : (polygons.foldl (polygonStep fmt vertex_count) st).2 ≤ 65536) :
    (∀ x ∈ (polygons.foldl (polygonStep fmt vertex_count) st).1.regular_triangles_indeces,
        x < (polygons.foldl (polygonStep fmt vertex_count) st).2) ∧
      ∀ x ∈ (polygons.foldl (polygonStep fmt vertex_count) st).1.transparent_triangles_indeces,
        x < (polygons.foldl (polygonStep fmt vertex_count) st).2 := by
  induction polygons generalizing st with
  | nil => exact ⟨h1, h2⟩
  | cons p ps ih =>
    rw [List.foldl_cons] at hb ⊢
    have hs := foldl_polygonStep_snd fmt vertex_count ps (polygonStep fmt vertex_count st p)
    have hp := polygonStep_snd fmt vertex_count st p
    have hle : st.2 + polygon_vertex_count vertex_count p ≤ 65536 := by omega
    have key : ∀ dst : List Nat, (∀ x ∈ dst, x < st.2) →
        ∀ x ∈ writeIndeces vertex_count p dst st.2,
          x < st.2 + polygon_vertex_count vertex_count p := by
      intro dst hd x hx
      rw [← List.take_append_drop dst.length (writeIndeces vertex_count p dst st.2)] at hx
      rcases List.mem_append.mp hx with hx | hx
      · rw [writeIndeces_eq, List.take_left] at hx
        have := hd x hx
        omega
      · exact (writeIndeces_block_range vertex_count p dst st.2 hle x hx).2
    apply ih _ _ _ hb
    · intro x hx
      rw [polygonStep_regular] at hx
      rw [hp]
      split at hx
      · have := h1 x hx
        omega
      · exact key _ h1 x hx
    · intro x hx
      rw [polygonStep_transparent] at hx
      rw [hp]
      split at hx
      · exact key _ h2 x hx
      · have := h2 x hx
        omega

theorem polygonLoop_index_lt (fmt : CornerFormat) (vertex_count : Nat)
    (polygons : List Polygon_o3) (S : Submodel) (hv : S.vertices = [])
    (hr : S.regular_triangles_indeces = []) (ht : S.transparent_triangles_indeces = [])
    (hb : (polygonLoop fmt vertex_count polygons S).vertices.length ≤ 65536) :
    (∀ x ∈ (polygonLoop fmt vertex_count polygons S).regular_triangles_indeces,
        x < (polygonLoop fmt vertex_count polygons S).vertices.length) ∧
      ∀ x ∈ (polygonLoop fmt vertex_count polygons S).transparent_triangles_indeces,
        x < (polygonLoop fmt vertex_count polygons S).vertices.length := by
  unfold polygonLoop at hb ⊢
  have hinv := foldl_polygonStep_invariant fmt vertex_count polygons (S, 0) (by simp [hv])
  rw [← hinv] at hb ⊢
  exact foldl_polygonStep_index_lt fmt vertex_count polygons (S, 0)
    (by simp [hr]) (by simp [ht]) hb

theorem sampleCarQuadFile_ok (c : Constants) (out_model : Model) :
    LoadModel_car c sampleCarQuadFile out_model =
        Except.ok (carResult c sampleCarQuadFile out_model) ∧
      rdU16 sampleCarQuadFile 0x4866 = 1 ∧ rdU16 sampleCarQuadFile 0x4868 = 1 ∧
      rdU16 sampleCarQuadFile 0x486A = 0 ∧ sampleCarQuadFile.length = 0x486C := by
  have hlen : sampleCarQuadFile.length = 0x486C := length_bytesOf _ _
  have hvc : rdU16 sampleCarQuadFile 0x4866 = 1 := by
    unfold sampleCarQuadFile
    rw [rdU16_bytesOf _ _ _ (by omega)]
    rfl
  have hpc : rdU16 sampleCarQuadFile 0x4868 = 1 := by
    unfold sampleCarQuadFile
    rw [rdU16_bytesOf _ _ _ (by omega)]
    rfl
  have htx : rdU16 sampleCarQuadFile 0x486A = 0 := by
    unfold sampleCarQuadFile
    rw [rdU16_bytesOf _ _ _ (by omega)]
    rfl
  have hz : ∀ off, off + 1 < 0x4866 → rdU16 sampleCarQuadFile off = 0 := by
    intro off ho
    unfold sampleCarQuadFile
    rw [rdU16_bytesOf _ _ _ (by omega)]
    repeat rw [if_neg (by omega)]
  refine ⟨(LoadModel_car_ok_iff c _ out_model _).mpr ⟨by rw [hvc]; decide, ?_, ?_, rfl⟩,
    hvc, hpc, htx, hlen⟩
  · intro i hi hsize
    unfold CARHeader.submodels_animations at hsize
    rw [hz _ (by omega), hz _ (by omega)] at hsize
    exact absurd rfl hsize
  · rw [sample_car_offset sampleCarQuadFile htx hz, hlen]

/-! ## Claims about the values in the index lists -/

/-- C29: in a state of the polygon loop (`current_vertex_index` being the number of
vertices output so far) whose polygon keeps the number of vertices within 65536, the
indices that the iteration appends all lie in the polygon's own corner range, from the
number of vertices before the iteration up to the number after it.  So in every model
that `LoadModel_o3` or `LoadModel_car` returns, and in every submodel of it, with at
most 65536 vertices, every entry of the regular and of the transparent index list is
below the number of vertices. -/
theorem index_values_in_range (c : Constants) :
    (∀ (fmt : CornerFormat) (vertex_count : Nat) (st : Submodel × Nat) (polygon : Polygon_o3),
      st.2 = st.1.vertices.length →
      (polygonStep fmt vertex_count st polygon).1.vertices.length ≤ 65536 →
      ∀ x ∈ (dst_indeces (polygonStep fmt vertex_count st polygon).1 polygon).drop
          (dst_indeces st.1 polygon).length,
        st.1.vertices.length ≤ x ∧
          x < (polygonStep fmt vertex_count st polygon).1.vertices.length) ∧
    (∀ (model_file animation_file : FileContent) (out_model m : Model),
      LoadModel_o3 c model_file animation_file out_model = Except.ok m →
      m.vertices.length ≤ 65536 →
      ∀ x ∈ m.regular_triangles_indeces ++ m.transparent_triangles_indeces,
        x < m.vertices.length) ∧
    (∀ (model_file : FileContent) (out_model m : Model),
      LoadModel_car c model_file out_model = Except.ok m →
      (m.vertices.length ≤ 65536 →
        ∀ x ∈ m.regular_triangles_indeces ++ m.transparent_triangles_indeces,
          x < m.vertices.length) ∧
      ∀ s ∈ m.submodels, s.vertices.length ≤ 65536 →
        ∀ x ∈ s.regular_triangles_indeces ++ s.transparent_triangles_indeces,
          x < s.vertices.length) := by
  refine ⟨?_, ?_, ?_⟩
  · intro fmt vertex_count st polygon hst hb x hx
    rw [polygonStep_vertices, length_writeCorners, ← hst] at hb ⊢
    rw [polygonStep_dst] at hx
    exact writeIndeces_block_range vertex_count polygon _ st.2 hb x hx
  · intro model_file animation_file out_model m h hb x hx
    obtain ⟨S, hS1, hS2, hS3, hmv, hmr, hmt⟩ :=
      o3_polygon_lists c model_file animation_file out_model m h
    have hb' : m.toSubmodel.vertices.length ≤ 65536 := hb
    rw [hmv] at hb'
    obtain ⟨k1, k2⟩ := polygonLoop_index_lt _ _ _ S hS1 hS2 hS3 hb'
    show x < m.toSubmodel.vertices.length
    rw [hmv]
    rcases List.mem_append.mp hx with hx | hx
    · exact k1 x (by rw [← hmr]; exact hx)
    · exact k2 x (by rw [← hmt]; exact hx)
  · intro model_file out_model m h
    constructor
    · intro hb x hx
      obtain ⟨S, hS1, hS2, hS3, hmv, hmr, hmt⟩ := car_polygon_lists c model_file out_model m h
      have hb' : m.toSubmodel.vertices.length ≤ 65536 := hb
      rw [hmv] at hb'
      obtain ⟨k1, k2⟩ := polygonLoop_index_lt _ _ _ S hS1 hS2 hS3 hb'
      show x < m.toSubmodel.vertices.length
      rw [hmv]
      rcases List.mem_append.mp hx with hx | hx
      · exact k1 x (by rw [← hmr]; exact hx)
      · exact k2 x (by rw [← hmt]; exact hx)
    · intro s hs hb x hx
      obtain ⟨_, _, _, e⟩ := (LoadModel_car_ok_iff c model_file out_model m).mp h
      rw [e] at hs
      unfold carResult at hs
      simp only [List.mem_map, List.mem_range] at hs
      obtain ⟨i, _, e2⟩ := hs
      subst e2
      by_cases hz : CARHeader.submodels_animations model_file i 0 +
          CARHeader.submodels_animations model_file i 1 = 0
      · unfold carSubmodelResult at hx
        rw [if_pos hz] at hx
        exact absurd hx (by simp; exact ⟨List.not_mem_nil x, List.not_mem_nil x⟩)
      · obtain ⟨S, hS1, hS2, hS3, hmv, hmr, hmt⟩ :=
          carSubmodel_polygon_lists c
            (g_car_model_texture_width, rdU16 model_file 0x486A / g_car_model_texture_width)
            model_file i hz
        rw [hmv] at hb ⊢
        obtain ⟨k1, k2⟩ := polygonLoop_index_lt _ _ _ S hS1 hS2 hS3 hb
        rcases List.mem_append.mp hx with hx | hx
        · exact k1 x (by rw [← hmr]; exact hx)
        · exact k2 x (by rw [← hmt]; exact hx)

/-- C29 at an iteration for the sample triangle and at the decodes of the sample O3
file and the sample CAR file with one quad each. -/
theorem index_values_in_range_witness :
    (∀ x ∈ (dst_indeces (polygonStep (o3CornerFormat (64, 64) 0) 3 (default, 0)
          sampleTriangle).1 sampleTriangle).drop 0, 0 ≤ x ∧ x < 3) ∧
      (∃ m : Model, LoadModel_o3 sampleConstants sampleQuadFile [] default = Except.ok m ∧
        m.vertices.length = 4 ∧
        ∀ x ∈ m.regular_triangles_indeces ++ m.transparent_triangles_indeces,
          x < m.vertices.length) ∧
      ∃ m : Model, LoadModel_car sampleConstants sampleCarQuadFile default = Except.ok m ∧
        (m.vertices.length ≤ 65536 →
          ∀ x ∈ m.regular_triangles_indeces ++ m.transparent_triangles_indeces,
            x < m.vertices.length) := by
  obtain ⟨hA, hB, hC⟩ := index_values_in_range sampleConstants
  obtain ⟨hlen, hvc, hpc, hth, hidx, hu, hv, hfl, hvo⟩ := sampleQuadFile_header
  have hlow : rdU16 sampleQuadFile 0x4804 &&& 1023 = 64 := by rw [hth]; rfl
  obtain ⟨m, hm⟩ : ∃ m, LoadModel_o3 sampleConstants sampleQuadFile [] default = Except.ok m :=
    ⟨_, (LoadModel_o3_ok_iff _ _ _ _ _).mpr
      ⟨by rw [hlen, hlow], 1, o3FrameCount_nil _, rfl⟩⟩
  have hv4 : m.vertices.length = 4 := by
    obtain ⟨S, hS1, _, _, hmv, _, _⟩ := o3_polygon_lists sampleConstants sampleQuadFile []
      default m hm
    show m.toSubmodel.vertices.length = 4
    have hpolys : readPolygons sampleQuadFile 0 (rdU16 sampleQuadFile 0x4802) =
        [readPolygon sampleQuadFile 0] := by
      rw [hpc]
      rfl
    rw [hmv, polygonLoop_vertices _ _ _ _ hS1, hpolys, hvc]
    have htri : polygon_is_triangle 4 (readPolygon sampleQuadFile 0) = false := by
      apply Bool.eq_false_iff.mpr
      intro h
      have := (polygon_is_triangle_iff 4 (readPolygon sampleQuadFile 0)).mp h
      rw [hidx 3] at this
      exact absurd this (by decide)
    simp [polygonCorners, htri]
  refine ⟨?_, ⟨m, hm, hv4, hB sampleQuadFile [] default m hm (by rw [hv4]; decide)⟩,
    _, (sampleCarQuadFile_ok sampleConstants default).1,
    (hC sampleCarQuadFile default _ (sampleCarQuadFile_ok sampleConstants default).1).1⟩
  have h := hA (o3CornerFormat (64, 64) 0) 3 (default, 0) sampleTriangle rfl (by decide)
  intro x hx
  have := h x hx
  exact ⟨this.1, this.2.trans_le (by decide)⟩

/-! ## Claims about the groups mask -/

theorem GroupIdToGroupsMask_ne_zero (group_id : Nat) : GroupIdToGroupsMask group_id ≠ 0 := by
  unfold GroupIdToGroupsMask
  split
  · decide
  · assumption

theorem polygonLoop_groups_mask (fmt : CornerFormat) (vertex_count : Nat)
    (polygons : List Polygon_o3) (S : Submodel) (hv : S.vertices = []) :
    ∀ v ∈ (polygonLoop fmt vertex_count polygons S).vertices,
      ∃ polygon ∈ polygons, v.groups_mask = fmt.groups_mask polygon := by
  intro v hmem
  rw [polygonLoop_vertices _ _ _ _ hv] at hmem
  obtain ⟨polygon, hp, hvp⟩ := List.mem_flatMap.mp hmem
  obtain ⟨j, hj⟩ := mem_polygonCorners _ _ _ _ hvp
  exact ⟨polygon, hp, by rw [hj]; rfl⟩

/-- C22: `GroupIdToGroupsMask` maps the group 0 to 64 and every other group to itself.
Every vertex of a model that `LoadModel_car` returns, and of each of its submodels,
has the groups mask that the function gives for the group of its polygon record, which
is not 0; every vertex of a model that `LoadModel_o3` returns has the groups mask
255. -/
theorem groups_mask_values (c : Constants) :
    (GroupIdToGroupsMask 0 = 64 ∧ ∀ g, g ≠ 0 → GroupIdToGroupsMask g = g) ∧
    (∀ (model_file : FileContent) (out_model m : Model),
      LoadModel_car c model_file out_model = Except.ok m →
      (∀ v ∈ m.vertices, v.groups_mask ≠ 0 ∧
        ∃ polygon ∈ readPolygons model_file 0x66 (rdU16 model_file 0x4868),
          v.groups_mask = GroupIdToGroupsMask polygon.group_id) ∧
      ∀ s ∈ m.submodels, ∀ v ∈ s.vertices, v.groups_mask ≠ 0) ∧
    (∀ (model_file animation_file : FileContent) (out_model m : Model),
      LoadModel_o3 c model_file animation_file out_model = Except.ok m →
      ∀ v ∈ m.vertices, v.groups_mask = 255) := by
  refine ⟨⟨rfl, fun g hg => ?_⟩, ?_, ?_⟩
  · unfold GroupIdToGroupsMask
    rw [if_neg hg]
  · intro model_file out_model m h
    constructor
    · intro v hv
      obtain ⟨S, hS1, _, _, hmv, _, _⟩ := car_polygon_lists c model_file out_model m h
      have hv' : v ∈ m.toSubmodel.vertices := hv
      rw [hmv] at hv'
      obtain ⟨polygon, hp, e⟩ := polygonLoop_groups_mask _ _ _ S hS1 v hv'
      exact ⟨by rw [e]; exact GroupIdToGroupsMask_ne_zero _, polygon, hp, e⟩
    · intro s hs v hv
      obtain ⟨_, _, _, e⟩ := (LoadModel_car_ok_iff c model_file out_model m).mp h
      rw [e] at hs
      unfold carResult at hs
      simp only [List.mem_map, List.mem_range] at hs
      obtain ⟨i, _, e2⟩ := hs
      subst e2
      by_cases hz : CARHeader.submodels_animations model_file i 0 +
          CARHeader.submodels_animations model_file i 1 = 0
      · unfold carSubmodelResult at hv
        rw [if_pos hz] at hv
        exact absurd hv (List.not_mem_nil v)
      · obtain ⟨S, hS1, _, _, hmv, _, _⟩ :=
          carSubmodel_polygon_lists c
            (g_car_model_texture_width, rdU16 model_file 0x486A / g_car_model_texture_width)
            model_file i hz
        rw [hmv] at hv
        obtain ⟨polygon, _, e3⟩ := polygonLoop_groups_mask _ _ _ S hS1 v hv
        rw [e3]
        exact GroupIdToGroupsMask_ne_zero _
  · intro model_file animation_file out_model m h v hv
    obtain ⟨S, hS1, _, _, hmv, _, _⟩ := o3_polygon_lists c model_file animation_file out_model m h
    have hv' : v ∈ m.toSubmodel.vertices := hv
    rw [hmv] at hv'
    obtain ⟨polygon, _, e⟩ := polygonLoop_groups_mask _ _ _ S hS1 v hv'
    rw [e]
    rfl

theorem sampleCarQuadFile_vertices (m : Model)
    (h : LoadModel_car sampleConstants sampleCarQuadFile default = Except.ok m) :
    m.vertices.length = 4 := by
  obtain ⟨_, hvc, hpc, _, _⟩ := sampleCarQuadFile_ok sampleConstants default
  obtain ⟨S, hS1, _, _, hmv, _, _⟩ := car_polygon_lists sampleConstants sampleCarQuadFile
    default m h
  show m.toSubmodel.vertices.length = 4
  have hpolys : readPolygons sampleCarQuadFile 0x66 (rdU16 sampleCarQuadFile 0x4868) =
      [readPolygon sampleCarQuadFile 0x66] := by
    rw [hpc]
    rfl
  have hi3 : (readPolygon sampleCarQuadFile 0x66).vertices_indeces 3 = 0 := by
    unfold readPolygon sampleCarQuadFile
    simp only []
    rw [rdU16_bytesOf _ _ _ (by decide)]
    rfl
  have htri : polygon_is_triangle 1 (readPolygon sampleCarQuadFile 0x66) = false := by
    apply Bool.eq_false_iff.mpr
    intro h
    have := (polygon_is_triangle_iff 1 (readPolygon sampleCarQuadFile 0x66)).mp h
    rw [hi3] at this
    exact absurd this (by decide)
  rw [hmv, polygonLoop_vertices _ _ _ _ hS1, hpolys, hvc]
  simp [polygonCorners, htri]

/-- C22 at the sample CAR file and the sample O3 file with one quad each: 4 vertices
with a groups mask other than 0, and 4 vertices with the groups mask 255. -/
theorem groups_mask_values_witness :
    (∃ m : Model, LoadModel_car sampleConstants sampleCarQuadFile default = Except.ok m ∧
      m.vertices.length = 4 ∧ ∀ v ∈ m.vertices, v.groups_mask ≠ 0) ∧
    ∃ m : Model, LoadModel_o3 sampleConstants sampleQuadFile [] default = Except.ok m ∧
      ∀ v ∈ m.vertices, v.groups_mask = 255 := by
  obtain ⟨_, hB, hC⟩ := groups_mask_values sampleConstants
  obtain ⟨hlen, hvc, hpc, hth, hidx, hu, hv, hfl, hvo⟩ := sampleQuadFile_header
  have hlow : rdU16 sampleQuadFile 0x4804 &&& 1023 = 64 := by rw [hth]; rfl
  obtain ⟨m, hm⟩ : ∃ m, LoadModel_o3 sampleConstants sampleQuadFile [] default = Except.ok m :=
    ⟨_, (LoadModel_o3_ok_iff _ _ _ _ _).mpr
      ⟨by rw [hlen, hlow], 1, o3FrameCount_nil _, rfl⟩⟩
  have hok := (sampleCarQuadFile_ok sampleConstants default).1
  exact ⟨⟨_, hok, sampleCarQuadFile_vertices _ hok,
      fun v hv => ((hB sampleCarQuadFile default _ hok).1 v hv).1⟩,
    m, hm, hC sampleQuadFile [] default m hm⟩

/-! ## Claims about the z extent of an O3 model -/

theorem foldl_z (buf : FileContent) (off : Nat) (l : List Nat) (m : Model) :
    (l.foldl
        (fun m v =>
          { m with
            z_max := Max.max m.z_max
              (((readVertex buf off v).xyz.2.2 : ℚ) * g_3o_model_coords_scale),
            z_min := Min.min m.z_min
              (((readVertex buf off v).xyz.2.2 : ℚ) * g_3o_model_coords_scale) }) m).z_max =
        l.foldl
          (fun z v => Max.max z (((readVertex buf off v).xyz.2.2 : ℚ) * g_3o_model_coords_scale))
          m.z_max ∧
      (l.foldl
        (fun m v =>
          { m with
            z_max := Max.max m.z_max
              (((readVertex buf off v).xyz.2.2 : ℚ) * g_3o_model_coords_scale),
            z_min := Min.min m.z_min
              (((readVertex buf off v).xyz.2.2 : ℚ) * g_3o_model_coords_scale) }) m).z_min =
        l.foldl
          (fun z v => Min.min z (((readVertex buf off v).xyz.2.2 : ℚ) * g_3o_model_coords_scale))
          m.z_min := by
  induction l generalizing m with
  | nil => exact ⟨rfl, rfl⟩
  | cons v vs ih =>
    rw [List.foldl_cons, List.foldl_cons, List.foldl_cons]
    exact ih _

theorem CalculateModelZ_z (c : Constants) (model : Model) (buf : FileContent)
    (off vertex_count : Nat) :
    (CalculateModelZ c model buf off vertex_count).z_max =
        (List.range vertex_count).foldl
          (fun z v => Max.max z (((readVertex buf off v).xyz.2.2 : ℚ) * g_3o_model_coords_scale))
          c.min_float ∧
      (CalculateModelZ c model buf off vertex_count).z_min =
        (List.range vertex_count).foldl
          (fun z v => Min.min z (((readVertex buf off v).xyz.2.2 : ℚ) * g_3o_model_coords_scale))
          c.max_float := by
  unfold CalculateModelZ
  exact foldl_z buf off _ _

theorem foldl_max_spec (f : Nat → ℚ) (l : List Nat) (z0 : ℚ) :
    z0 ≤ l.foldl (fun z v => Max.max z (f v)) z0 ∧
      (∀ v ∈ l, f v ≤ l.foldl (fun z v => Max.max z (f v)) z0) ∧
      (l.foldl (fun z v => Max.max z (f v)) z0 = z0 ∨
        ∃ v ∈ l, l.foldl (fun z v => Max.max z (f v)) z0 = f v) := by
  induction l generalizing z0 with
  | nil => exact ⟨le_refl _, fun v hv => absurd hv (List.not_mem_nil v), Or.inl rfl⟩
  | cons a as ih =>
    rw [List.foldl_cons]
    obtain ⟨h1, h2, h3⟩ := ih (Max.max z0 (f a))
    refine ⟨le_trans (le_max_left _ _) h1, ?_, ?_⟩
    · intro v hv
      rcases List.mem_cons.mp hv with e | e
      · subst e
        exact le_trans (le_max_right _ _) h1
      · exact h2 v e
    · rcases h3 with h3 | ⟨v, hv, h3⟩
      · rcases max_choice z0 (f a) with e | e
        · exact Or.inl (h3.trans e)
        · exact Or.inr ⟨a, List.mem_cons_self _ _, h3.trans e⟩
      · exact Or.inr ⟨v, List.mem_cons_of_mem _ hv, h3⟩

theorem foldl_min_spec (f : Nat → ℚ) (l : List Nat) (z0 : ℚ) :
    l.foldl (fun z v => Min.min z (f v)) z0 ≤ z0 ∧
      (∀ v ∈ l, l.foldl (fun z v => Min.min z (f v)) z0 ≤ f v) ∧
      (l.foldl (fun z v => Min.min z (f v)) z0 = z0 ∨
        ∃ v ∈ l, l.foldl (fun z v => Min.min z (f v)) z0 = f v) := by
  induction l generalizing z0 with
  | nil => exact ⟨le_refl _, fun v hv => absurd hv (List.not_mem_nil v), Or.inl rfl⟩
  | cons a as ih =>
    rw [List.foldl_cons]
    obtain ⟨h1, h2, h3⟩ := ih (Min.min z0 (f a))
    refine ⟨le_trans h1 (min_le_left _ _), ?_, ?_⟩
    · intro v hv
      rcases List.mem_cons.mp hv with e | e
      · subst e
        exact le_trans h1 (min_le_right _ _)
      · exact h2 v e
    · rcases h3 with h3 | ⟨v, hv, h3⟩
      · rcases min_choice z0 (f a) with e | e
        · exact Or.inl (h3.trans e)
        · exact Or.inr ⟨a, List.mem_cons_self _ _, h3.trans e⟩
      · exact Or.inr ⟨v, List.mem_cons_of_mem _ hv, h3⟩

theorem rdS16_range (buf : FileContent) (off : Nat) :
    -32768 ≤ rdS16 buf off ∧ rdS16 buf off ≤ 32767 := by
  unfold rdS16
  have := rdU16_lt buf off
  split <;> constructor <;> omega

theorem scaled_z_range (buf : FileContent) (off v : Nat) :
    (-16 : ℚ) ≤ ((readVertex buf off v).xyz.2.2 : ℚ) * g_3o_model_coords_scale ∧
      ((readVertex buf off v).xyz.2.2 : ℚ) * g_3o_model_coords_scale ≤ 16 := by
  obtain ⟨h1, h2⟩ := rdS16_range buf (off + 6 * v + 4)
  have h1' : ((-32768 : Int) : ℚ) ≤ ((rdS16 buf (off + 6 * v + 4) : Int) : ℚ) := by
    exact_mod_cast h1
  have h2' : ((rdS16 buf (off + 6 * v + 4) : Int) : ℚ) ≤ ((32767 : Int) : ℚ) := by
    exact_mod_cast h2
  unfold readVertex g_3o_model_coords_scale
  simp only []
  push_cast at h1' h2'
  constructor <;> linarith

theorem o3Geometry_z (c : Constants) (model_file animation_file : FileContent)
    (frame_count : Nat) (out_model : Model) :
    (o3Geometry c model_file animation_file frame_count out_model).z_max = out_model.z_max ∧
      (o3Geometry c model_file animation_file frame_count out_model).z_min = out_model.z_min := by
  unfold o3Geometry
  simp only []
  exact ⟨(polygonLoop_z _ _ _ _).2, (polygonLoop_z _ _ _ _).1⟩

theorem o3_z (c : Constants) (model_file animation_file : FileContent) (out_model m : Model)
    (h : LoadModel_o3 c model_file animation_file out_model = Except.ok m) :
    m.z_max =
        (List.range (rdU16 model_file 0x4800)).foldl
          (fun z v =>
            Max.max z (((readVertex model_file 0x3200 v).xyz.2.2 : ℚ) * g_3o_model_coords_scale))
          c.min_float ∧
      m.z_min =
        (List.range (rdU16 model_file 0x4800)).foldl
          (fun z v =>
            Min.min z (((readVertex model_file 0x3200 v).xyz.2.2 : ℚ) * g_3o_model_coords_scale))
          c.max_float := by
  obtain ⟨_, fc, _, e⟩ := (LoadModel_o3_ok_iff c model_file animation_file out_model m).mp h
  rw [e, (o3Geometry_z _ _ _ _ _).1, (o3Geometry_z _ _ _ _ _).2]
  exact CalculateModelZ_z c _ model_file 0x3200 _

/-- C23: when `LoadModel_o3` returns a model for a model buffer with one animation
buffer and a model for it with another one, whatever the two initial output models,
the two models have the same `z_min` and the same `z_max`.  These bound the z
components, scaled by `1 / 2048`, of the `vertex_count` positions at offset `0x3200` of
the model buffer, and with at least one position and constants `min_float ≤ -16` and
`16 ≤ max_float` (every scaled z lies in that range) they are the least and the
greatest of them. -/
theorem LoadModel_o3_z_extent (c : Constants) (model_file a1 a2 : FileContent)
    (out1 out2 m1 m2 : Model)
    (h1 : LoadModel_o3 c model_file a1 out1 = Except.ok m1)
    (h2 : LoadModel_o3 c model_file a2 out2 = Except.ok m2) :
    m1.z_min = m2.z_min ∧ m1.z_max = m2.z_max ∧
      (∀ v, v < rdU16 model_file 0x4800 →
        m1.z_min ≤ ((readVertex model_file 0x3200 v).xyz.2.2 : ℚ) * g_3o_model_coords_scale ∧
        ((readVertex model_file 0x3200 v).xyz.2.2 : ℚ) * g_3o_model_coords_scale ≤ m1.z_max) ∧
      (1 ≤ rdU16 model_file 0x4800 → c.min_float ≤ -16 → 16 ≤ c.max_float →
        (∃ v, v < rdU16 model_file 0x4800 ∧
          m1.z_min = ((readVertex model_file 0x3200 v).xyz.2.2 : ℚ) * g_3o_model_coords_scale) ∧
        ∃ v, v < rdU16 model_file 0x4800 ∧
          m1.z_max = ((readVertex model_file 0x3200 v).xyz.2.2 : ℚ) * g_3o_model_coords_scale) := by
  obtain ⟨hmax1, hmin1⟩ := o3_z c model_file a1 out1 m1 h1
  obtain ⟨hmax2, hmin2⟩ := o3_z c model_file a2 out2 m2 h2
  obtain ⟨x1, x2, x3⟩ := foldl_max_spec
    (fun v => ((readVertex model_file 0x3200 v).xyz.2.2 : ℚ) * g_3o_model_coords_scale)
    (List.range (rdU16 model_file 0x4800)) c.min_float
  obtain ⟨n1, n2, n3⟩ := foldl_min_spec
    (fun v => ((readVertex model_file 0x3200 v).xyz.2.2 : ℚ) * g_3o_model_coords_scale)
    (List.range (rdU16 model_file 0x4800)) c.max_float
  refine ⟨hmin1.trans hmin2.symm, hmax1.trans hmax2.symm, ?_, ?_⟩
  · intro v hv
    rw [hmin1, hmax1]
    exact ⟨n2 v (List.mem_range.mpr hv), x2 v (List.mem_range.mpr hv)⟩
  · intro hvc hlo hhi
    have h0 : 0 ∈ List.range (rdU16 model_file 0x4800) := List.mem_range.mpr (by omega)
    have r0 := scaled_z_range model_file 0x3200 0
    constructor
    · rw [hmin1]
      rcases n3 with e | ⟨v, hv, e⟩
      · refine ⟨0, by omega, ?_⟩
        have := n2 0 h0
        rw [e] at this ⊢
        exact le_antisymm this (le_trans r0.2 hhi)
      · exact ⟨v, List.mem_range.mp hv, e⟩
    · rw [hmax1]
      rcases x3 with e | ⟨v, hv, e⟩
      · refine ⟨0, by omega, ?_⟩
        have := x2 0 h0
        rw [e] at this ⊢
        exact le_antisymm (le_trans hlo r0.1) this
      · exact ⟨v, List.mem_range.mp hv, e⟩

/-- C23 at the sample O3 file with one quad: decoded with no animation file and with
an animation file of one frame, it has the same z extent. -/
theorem LoadModel_o3_z_extent_witness :
    ∃ m1 m2 : Model,
      LoadModel_o3 sampleConstants sampleQuadFile [] default = Except.ok m1 ∧
      LoadModel_o3 sampleConstants sampleQuadFile (zeros 26) sampleUsedModel = Except.ok m2 ∧
      m1.z_min = m2.z_min ∧ m1.z_max = m2.z_max := by
  obtain ⟨hlen, hvc, hpc, hth, _⟩ := sampleQuadFile_header
  have hlow : rdU16 sampleQuadFile 0x4804 &&& 1023 = 64 := by rw [hth]; rfl
  obtain ⟨m1, hm1⟩ : ∃ m, LoadModel_o3 sampleConstants sampleQuadFile [] default = Except.ok m :=
    ⟨_, (LoadModel_o3_ok_iff _ _ _ _ _).mpr
      ⟨by rw [hlen, hlow], 1, o3FrameCount_nil _, rfl⟩⟩
  obtain ⟨fc, hfc⟩ := o3FrameCount_ok_of_ne (rdU16 sampleQuadFile 0x4800) (zeros 26)
    (by rw [hvc]; decide)
  obtain ⟨m2, hm2⟩ : ∃ m, LoadModel_o3 sampleConstants sampleQuadFile (zeros 26)
      sampleUsedModel = Except.ok m :=
    ⟨_, (LoadModel_o3_ok_iff _ _ _ _ _).mpr ⟨by rw [hlen, hlow], fc, hfc, rfl⟩⟩
  obtain ⟨e1, e2, _⟩ :=
    LoadModel_o3_z_extent sampleConstants sampleQuadFile [] (zeros 26) default sampleUsedModel
      m1 m2 hm1 hm2
  exact ⟨m1, m2, hm1, hm2, e1, e2⟩

/-! ## Claims about the sizes of the animation data -/

theorem frame_sizes (c : Constants) (buf : FileContent) (off vc : Nat) (s : Submodel)
    (hb : s.animations_bboxes =
      (List.range s.frame_count).map
        (fun i => CalculateBoundingBox c buf off (u32 (i * vc)) vc))
    (hv : s.animations_vertices =
      copyPositions buf off (List.replicate (u32 (s.frame_count * vc)) default))
    (hbound : s.frame_count * vc < 2 ^ 32) :
    s.animations_vertices.length = s.frame_count * vc ∧
      s.animations_bboxes.length = s.frame_count ∧
      ∀ v, v < s.animations_vertices.length →
        ∃ a : AnimationVertex, s.animations_vertices[v]? = some a ∧
          a.pos = (readVertex buf off v).xyz := by
  have hl : s.animations_vertices.length = s.frame_count * vc := by
    rw [hv, length_copyPositions, List.length_replicate, u32_of_lt hbound]
  refine ⟨hl, by rw [hb, List.length_map, List.length_range], fun v hlt => ?_⟩
  rw [hl] at hlt
  refine ⟨{ (default : AnimationVertex) with pos := (readVertex buf off v).xyz }, ?_, rfl⟩
  rw [hv, u32_of_lt hbound]
  exact getElem?_copyPositions_replicate buf off _ _ default hlt

theorem o3FrameCount_eq (vertex_count : Nat) (animation_file : FileContent) (fc : Nat)
    (hlen : animation_file.length < 2 ^ 32) (h1 : animation_file.length ≠ 1)
    (hne : animation_file ≠ [])
    (h : o3FrameCount vertex_count animation_file = Except.ok fc) :
    fc = (animation_file.length - 2) / (vertex_count * 6) := by
  unfold o3FrameCount checkedDiv at h
  cases animation_file with
  | nil => exact absurd rfl hne
  | cons x xs =>
    simp only [List.isEmpty_cons, Bool.false_eq_true, if_false] at h
    by_cases hd : vertex_count * 6 = 0
    · simp [hd, Except.map] at h
    · simp only [hd, if_false, Except.map, Except.ok.injEq] at h
      have h2 : 2 ≤ (x :: xs).length := by
        cases xs with
        | nil => simp at h1
        | cons y ys => simp
      rw [usizeSub_two h2 (by omega)] at h
      have hq2 : ((x :: xs).length - 2) / (vertex_count * 6) ≤ (x :: xs).length - 2 :=
        Nat.div_le_self _ _
      rw [u32_of_lt (by omega)] at h
      exact h.symm

/-- C24: in a model that `LoadModel_o3` returns for an animation buffer that is empty
or has at least 2 and less than `2 ^ 32` bytes, `animations_vertices` has
`frame_count * vertex_count` entries and `animations_bboxes` has `frame_count`
entries; when the animation buffer is not empty, `frame_count` is
`(animation_size - 2) / (vertex_count * 6)` and entry `v` of `animations_vertices` holds
the position `v` of the array at offset 2 of the animation buffer.  In a model that
`LoadModel_car` returns and in each of its 3 submodels the two sizes are
`frame_count * vertex_count`, with the vertex count of the model or of the submodel
block, and `frame_count`. -/
theorem animation_sizes (c : Constants) :
    (∀ (model_file animation_file : FileContent) (out_model m : Model),
      LoadModel_o3 c model_file animation_file out_model = Except.ok m →
      animation_file.length < 2 ^ 32 → animation_file.length ≠ 1 →
      m.animations_vertices.length = m.frame_count * rdU16 model_file 0x4800 ∧
      m.animations_bboxes.length = m.frame_count ∧
      (animation_file ≠ [] →
        m.frame_count = (animation_file.length - 2) / (rdU16 model_file 0x4800 * 6) ∧
        ∀ v, v < m.animations_vertices.length →
          ∃ a : AnimationVertex, m.animations_vertices[v]? = some a ∧
            a.pos = (readVertex animation_file 2 v).xyz)) ∧
    (∀ (model_file : FileContent) (out_model m : Model),
      LoadModel_car c model_file out_model = Except.ok m →
      (m.animations_vertices.length = m.frame_count * rdU16 model_file 0x4866 ∧
        m.animations_bboxes.length = m.frame_count) ∧
      ∀ i, i < 3 → ∃ s : Submodel, m.submodels[i]? = some s ∧
        s.animations_vertices.length = s.frame_count * carSubmodelVertexCount model_file i ∧
        s.animations_bboxes.length = s.frame_count) := by
  constructor
  · intro model_file animation_file out_model m h hlen h1
    obtain ⟨_, fc, hfc, e⟩ := (LoadModel_o3_ok_iff c model_file animation_file out_model m).mp h
    have hb := o3FrameCount_bound _ _ fc (rdU16_lt model_file 0x4800) hlen h1 hfc
    have hs := o3_start_fields c model_file out_model (rdU16 model_file 0x4800)
    have hf : m.frame_count = fc := by rw [e]; exact o3Geometry_frame_count _ _ _ _ _
    obtain ⟨k1, k2, k3⟩ := frame_sizes c (o3InVertices model_file animation_file).1
      (o3InVertices model_file animation_file).2 (rdU16 model_file 0x4800) m.toSubmodel
      (by
        show m.animations_bboxes = _
        rw [hf, e]
        exact o3Geometry_animations_bboxes _ _ _ _ _)
      (by
        show m.animations_vertices = _
        rw [hf, e]
        exact o3Geometry_animations_vertices _ _ _ _ _ hs.2)
      (by
        show m.frame_count * _ < _
        rw [hf]
        exact hb)
    refine ⟨k1, k2, fun hne => ⟨?_, ?_⟩⟩
    · rw [hf]
      exact o3FrameCount_eq _ _ fc hlen h1 hne hfc
    · have hin : o3InVertices model_file animation_file = (animation_file, 2) := by
        unfold o3InVertices
        cases animation_file with
        | nil => exact absurd rfl hne
        | cons x xs => rfl
      rw [hin] at k3
      exact k3
  · intro model_file out_model m h
    obtain ⟨_, _, _, e⟩ := (LoadModel_car_ok_iff c model_file out_model m).mp h
    subst e
    constructor
    · obtain ⟨k1, k2, _⟩ := frame_sizes c model_file (0x486C + rdU16 model_file 0x486A)
        (rdU16 model_file 0x4866) (carResult c model_file out_model).toSubmodel
        (carResult_frames c model_file out_model).1 (carResult_frames c model_file out_model).2
        (by
          show (carResult c model_file out_model).frame_count * _ < _
          rw [(carResult_animations c model_file out_model).2]
          exact carMainFrameCount_bound model_file)
      exact ⟨k1, k2⟩
    · intro i hi
      obtain ⟨k1, k2, _⟩ := frame_sizes c model_file (carSubmodelOffset model_file i + 0x4806)
        (carSubmodelVertexCount model_file i)
        (carSubmodelResult c
          (g_car_model_texture_width, rdU16 model_file 0x486A / g_car_model_texture_width)
          model_file i)
        (carSubmodelResult_frames c _ model_file i).1
        (carSubmodelResult_frames c _ model_file i).2
        (by
          rw [carSubmodelResult_frame_count]
          exact carSubmodel_bound model_file i)
      exact ⟨_, (carResult_submodels c model_file out_model i hi).2, k1, k2⟩

/-- C24 at the sample O3 file with one quad, which has 4 vertices, decoded with an
animation file of 2 + 2 * 24 bytes, and at the sample CAR file whose submodel 0 has 3
frames. -/
theorem animation_sizes_witness :
    (∃ m : Model,
      LoadModel_o3 sampleConstants sampleQuadFile (zeros 50) default = Except.ok m ∧
      m.frame_count = 2 ∧ m.animations_vertices.length = 2 * 4 ∧
      m.animations_bboxes.length = 2) ∧
    ∃ m : Model,
      LoadModel_car sampleConstants (sampleCarSubmodelFile 6 12) default = Except.ok m ∧
      ∃ s : Submodel, m.submodels[0]? = some s ∧
        s.animations_vertices.length = s.frame_count * 1 ∧
        s.animations_bboxes.length = s.frame_count := by
  obtain ⟨hA, hB⟩ := animation_sizes sampleConstants
  obtain ⟨hlen, hvc, hpc, hth, _⟩ := sampleQuadFile_header
  have hlow : rdU16 sampleQuadFile 0x4804 &&& 1023 = 64 := by rw [hth]; rfl
  have hl50 : (zeros 50).length = 50 := length_zeros 50
  obtain ⟨fc, hfc⟩ := o3FrameCount_ok_of_ne (rdU16 sampleQuadFile 0x4800) (zeros 50)
    (by rw [hvc]; decide)
  obtain ⟨m, hm⟩ : ∃ m, LoadModel_o3 sampleConstants sampleQuadFile (zeros 50)
      default = Except.ok m :=
    ⟨_, (LoadModel_o3_ok_iff _ _ _ _ _).mpr ⟨by rw [hlen, hlow], fc, hfc, rfl⟩⟩
  obtain ⟨k1, k2, k3⟩ := hA sampleQuadFile (zeros 50) default m hm
    (by rw [hl50]; decide) (by rw [hl50]; decide)
  have hne : zeros 50 ≠ [] := by
    intro e
    rw [e] at hl50
    exact absurd hl50 (by decide)
  have hf : m.frame_count = 2 := by
    rw [(k3 hne).1, hl50, hvc]
  rw [hf, hvc] at k1
  rw [hf] at k2
  obtain ⟨hok, _, _, hv⟩ := sampleCarSubmodelFile_ok sampleConstants default 6 12
    (by decide) (by decide) (by decide)
  obtain ⟨s, hs, j1, j2⟩ := (hB (sampleCarSubmodelFile 6 12) default _ hok).2 0 (by decide)
  rw [hv] at j1
  exact ⟨⟨m, hm, hf, k1, k2⟩, _, hok, s, hs, j1, j2⟩

/-! ## Claims about the byte ranges that `LoadModel_car` consumes -/

theorem carSubmodelOffset_le (buf : FileContent) (i j : Nat) (h : i ≤ j) :
    carSubmodelOffset buf i ≤ carSubmodelOffset buf j := by
  induction j with
  | zero =>
    have : i = 0 := by omega
    rw [this]
  | succ n ih =>
    rcases Nat.lt_or_ge i (n + 1) with hlt | hge
    · have := ih (by omega)
      rw [carSubmodelOffset_succ]
      omega
    · have : i = n + 1 := by omega
      rw [this]

theorem carSoundOffset_succ (buf : FileContent) (i : Nat) :
    carSoundOffset buf (i + 1) = carSoundOffset buf i + CARHeader.sounds buf i := by
  unfold carSoundOffset
  rw [List.range_succ, List.map_append, List.sum_append]
  simp [Nat.add_assoc]

theorem carSoundOffset_le (buf : FileContent) (i j : Nat) (h : i ≤ j) :
    carSoundOffset buf i ≤ carSoundOffset buf j := by
  induction j with
  | zero =>
    have : i = 0 := by omega
    rw [this]
  | succ n ih =>
    rcases Nat.lt_or_ge i (n + 1) with hlt | hge
    · have := ih (by omega)
      rw [carSoundOffset_succ]
      omega
    · have : i = n + 1 := by omega
      rw [this]

theorem carSubmodelStep_offset_le (c : Constants) (ts : Nat × Nat) (buf : FileContent)
    (st st2 : List Submodel × Nat) (i : Nat)
    (h : carSubmodelStep c ts buf st i = Except.ok st2) : st.2 ≤ st2.2 := by
  unfold carSubmodelStep at h
  simp only [] at h
  split at h
  · simp only [pure, Except.pure, Except.ok.injEq] at h
    rw [← h]
  · cases hd : checkedDiv
        (CARHeader.submodels_animations buf i 0 + CARHeader.submodels_animations buf i 1)
        (6 * rdU16 buf (st.2 + 0x4800)) with
    | error e =>
      rw [hd] at h
      simp [bind, Except.bind] at h
    | ok fc =>
      rw [hd] at h
      simp only [bind, Except.bind] at h
      split at h
      · exact absurd h (by simp)
      · simp only [pure, Except.pure, Except.ok.injEq] at h
        rw [← h]
        exact Nat.le_add_right _ _

/-- C30: when `LoadModel_car` returns a model, the frames of the main model, which are
`frame_count * 6 * vertex_count` bytes from offset `0x486C + texel_count` on, end inside
the buffer; the frames of each submodel that is not skipped, which are
`frame_count * 6 * vertex_count` bytes from its block offset plus `0x4806` on, end before
the next block offset, which is inside the buffer; each of the 7 sound ranges ends inside
the buffer; and the running offset never decreases: neither in a step over a submodel or
a sound, nor along the block offsets and the sound offsets, whose last one is the buffer
size. -/
theorem car_ranges_in_buffer (c : Constants) (buf : FileContent) (out_model m : Model)
    (h : LoadModel_car c buf out_model = Except.ok m) :
    0x486C + rdU16 buf 0x486A + m.frame_count * 6 * rdU16 buf 0x4866 ≤ buf.length ∧
    (∀ i, i < 3 →
      CARHeader.submodels_animations buf i 0 + CARHeader.submodels_animations buf i 1 ≠ 0 →
      ∃ s : Submodel, m.submodels[i]? = some s ∧
        carSubmodelOffset buf i + 0x4806 + s.frame_count * 6 * carSubmodelVertexCount buf i ≤
          carSubmodelOffset buf (i + 1) ∧
        carSubmodelOffset buf (i + 1) ≤ buf.length) ∧
    (∀ i, i < CARHeader.c_sound_count →
      carSoundOffset buf i + CARHeader.sounds buf i ≤ buf.length) ∧
    (0x486C + rdU16 buf 0x486A + m.frame_count * 6 * rdU16 buf 0x4866 =
        carSubmodelOffset buf 0 ∧
      (∀ i j, i ≤ j → carSubmodelOffset buf i ≤ carSubmodelOffset buf j) ∧
      carSubmodelOffset buf 3 = carSoundOffset buf 0 ∧
      (∀ i j, i ≤ j → carSoundOffset buf i ≤ carSoundOffset buf j) ∧
      carSoundOffset buf CARHeader.c_sound_count = buf.length) ∧
    (∀ (ts : Nat × Nat) (st st2 : List Submodel × Nat) (i : Nat),
      carSubmodelStep c ts buf st i = Except.ok st2 → st.2 ≤ st2.2) ∧
    ∀ (st : List (List Nat) × Nat) (i : Nat), st.2 ≤ (carSoundStep buf st i).2 := by
  obtain ⟨_, _, hfin, e⟩ := (LoadModel_car_ok_iff c buf out_model m).mp h
  have hf : m.frame_count = carMainFrameCount buf := by
    rw [e]
    exact (carResult_animations c buf out_model).2
  have hlast : carSoundOffset buf CARHeader.c_sound_count = buf.length := by
    rw [carSoundOffset_last, hfin]
  have h0 : carSubmodelOffset buf 0 = carSubmodelsOffset buf := by
    unfold carSubmodelOffset
    simp
  have h30 : carSubmodelOffset buf 3 = carSoundOffset buf 0 := by
    unfold carSoundOffset
    simp
  have hsub : ∀ i, i ≤ 3 → carSubmodelOffset buf i ≤ buf.length := by
    intro i hi
    have a1 := carSubmodelOffset_le buf i 3 hi
    have a2 := carSoundOffset_le buf 0 CARHeader.c_sound_count (Nat.zero_le _)
    omega
  have hmain : 0x486C + rdU16 buf 0x486A + m.frame_count * 6 * rdU16 buf 0x4866 =
      carSubmodelOffset buf 0 := by
    rw [h0, hf]
    rfl
  refine ⟨?_, ?_, ?_, ⟨hmain, carSubmodelOffset_le buf, h30, carSoundOffset_le buf, hlast⟩,
    fun ts st st2 i => carSubmodelStep_offset_le c ts buf st st2 i, ?_⟩
  · rw [hmain]
    exact hsub 0 (by decide)
  · intro i hi hz
    have hs : m.submodels[i]? = some (carSubmodelResult c
        (g_car_model_texture_width, rdU16 buf 0x486A / g_car_model_texture_width) buf i) := by
      rw [e]
      exact (carResult_submodels c buf out_model i hi).2
    refine ⟨_, hs, ?_, hsub (i + 1) (by omega)⟩
    · rw [carSubmodelResult_frame_count, carSubmodelOffset_succ]
      unfold carSubmodelBlockSize
      rw [if_neg hz]
      have hd := Nat.div_mul_le_self
        (CARHeader.submodels_animations buf i 0 + CARHeader.submodels_animations buf i 1)
        (6 * carSubmodelVertexCount buf i)
      rw [Nat.mul_assoc]
      omega
  · intro i hi
    have := carSoundOffset_mono buf i hi
    omega
  · intro st i
    unfold carSoundStep
    exact Nat.le_add_right _ _

/-- C30 at the sample CAR file whose submodel 0 has animation lengths 6 and 12. -/
theorem car_ranges_in_buffer_witness :
    ∃ m : Model,
      LoadModel_car sampleConstants (sampleCarSubmodelFile 6 12) default = Except.ok m ∧
      0x486C + rdU16 (sampleCarSubmodelFile 6 12) 0x486A +
          m.frame_count * 6 * rdU16 (sampleCarSubmodelFile 6 12) 0x4866 ≤
        (sampleCarSubmodelFile 6 12).length ∧
      ∃ s : Submodel, m.submodels[0]? = some s ∧
        carSubmodelOffset (sampleCarSubmodelFile 6 12) 0 + 0x4806 +
            s.frame_count * 6 * carSubmodelVertexCount (sampleCarSubmodelFile 6 12) 0 ≤
          carSubmodelOffset (sampleCarSubmodelFile 6 12) (0 + 1) ∧
        carSubmodelOffset (sampleCarSubmodelFile 6 12) (0 + 1) ≤
          (sampleCarSubmodelFile 6 12).length := by
  obtain ⟨hok, h0, h1, _⟩ := sampleCarSubmodelFile_ok sampleConstants default 6 12
    (by decide) (by decide) (by decide)
  obtain ⟨k1, k2, _⟩ := car_ranges_in_buffer sampleConstants (sampleCarSubmodelFile 6 12)
    default _ hok
  exact ⟨_, hok, k1, k2 0 (by decide) (by rw [h0, h1]; decide)⟩

/-! ## Claims about the packed normal -/

theorem floor_scaled_le (theta : ℚ) (h0 : 0 ≤ theta) (h1 : theta ≤ 1) :
    ⌊theta * 64⌋.toNat ≤ 64 ∧ (theta < 1 → ⌊theta * 64⌋.toNat ≤ 63) ∧
      (theta = 1 → ⌊theta * 64⌋.toNat = 64) := by
  have hn : 0 ≤ ⌊theta * 64⌋ := Int.floor_nonneg.mpr (by positivity)
  have hle : ⌊theta * 64⌋ ≤ 64 := by
    have : ⌊theta * 64⌋ < 65 := Int.floor_lt.mpr (by push_cast; linarith)
    omega
  refine ⟨by omega, fun hlt => ?_, fun he => ?_⟩
  · have : ⌊theta * 64⌋ < 64 := Int.floor_lt.mpr (by push_cast; linarith)
    omega
  · have : (64 : Int) ≤ ⌊theta * 64⌋ := Int.le_floor.mpr (by push_cast; linarith)
    omega

theorem packNormal_eq (a b : Nat) (ha : a ≤ 64) (hb : b ≤ 64) :
    u16 (u16 a ||| (u16 b <<< 8)) = b * 256 + a := by
  have ea : u16 a = a := u16_of_lt (by omega)
  have eb : u16 b = b := u16_of_lt (by omega)
  have h := Nat.mul_add_lt_is_or (show a < 2 ^ 8 by omega) b
  have e1 : u16 a ||| (u16 b <<< 8) = 2 ^ 8 * b + a := by
    rw [ea, eb, Nat.shiftLeft_eq, Nat.lor_comm, Nat.mul_comm, h]
  rw [e1, u16_of_lt (by omega)]
  omega

/-- C28 fails at the boundary: for `theta = 1` the low byte of the packed normal is 64,
not `min (floor (theta * 64)) 63 = 63`, and for `phi = 1` the high byte is 64. -/
theorem packNormal_not_clamped :
    packNormal 1 0 &&& 0xFF = 64 ∧ min ⌊(1 : ℚ) * 64⌋.toNat 63 = 63 ∧
      packNormal 0 1 >>> 8 = 64 := by
  have h1 : ⌊(1 : ℚ) * 64⌋.toNat = 64 := (floor_scaled_le 1 (by norm_num) (by norm_num)).2.2 rfl
  have h0 : ⌊(0 : ℚ) * 64⌋.toNat = 0 := by norm_num
  unfold packNormal floatToUShort
  rw [h1, h0]
  exact ⟨by decide, by decide, by decide⟩

/-- C28, amended: for `theta` and `phi` in the closed range from 0 to 1 the low byte of
the packed normal is `floor (theta * 64)` and its high byte is `floor (phi * 64)`, both
at most 64; the low byte is `min (floor (theta * 64)) 63` when `theta < 1` and 64 when
`theta = 1`, the high byte is `min (floor (phi * 64)) 63` when `phi < 1` and 64 when
`phi = 1`: nothing clamps a field to 6 bits. -/
theorem packNormal_fields (theta phi : ℚ) (ht0 : 0 ≤ theta) (ht1 : theta ≤ 1)
    (hp0 : 0 ≤ phi) (hp1 : phi ≤ 1) :
    packNormal theta phi &&& 0xFF = ⌊theta * 64⌋.toNat ∧
      packNormal theta phi >>> 8 = ⌊phi * 64⌋.toNat ∧
      ⌊theta * 64⌋.toNat ≤ 64 ∧ ⌊phi * 64⌋.toNat ≤ 64 ∧
      (theta < 1 → packNormal theta phi &&& 0xFF = min ⌊theta * 64⌋.toNat 63) ∧
      (phi < 1 → packNormal theta phi >>> 8 = min ⌊phi * 64⌋.toNat 63) ∧
      (theta = 1 → packNormal theta phi &&& 0xFF = 64) ∧
      (phi = 1 → packNormal theta phi >>> 8 = 64) := by
  obtain ⟨a1, a2, a3⟩ := floor_scaled_le theta ht0 ht1
  obtain ⟨b1, b2, b3⟩ := floor_scaled_le phi hp0 hp1
  have e : packNormal theta phi = ⌊phi * 64⌋.toNat * 256 + ⌊theta * 64⌋.toNat := by
    unfold packNormal floatToUShort
    exact packNormal_eq _ _ a1 b1
  have lo : packNormal theta phi &&& 0xFF = ⌊theta * 64⌋.toNat := by
    rw [e, show (0xFF : Nat) = 2 ^ 8 - 1 from rfl, Nat.and_pow_two_sub_one_eq_mod]
    omega
  have hi : packNormal theta phi >>> 8 = ⌊phi * 64⌋.toNat := by
    rw [e, Nat.shiftRight_eq_div_pow]
    omega
  refine ⟨lo, hi, a1, b1, fun h => ?_, fun h => ?_, fun h => ?_, fun h => ?_⟩
  · rw [lo, Nat.min_eq_left (a2 h)]
  · rw [hi, Nat.min_eq_left (b2 h)]
  · rw [lo, a3 h]
  · rw [hi, b3 h]

/-- C28 as amended, at `theta = 1 / 2` and `phi = 1`. -/
theorem packNormal_fields_witness :
    packNormal (1 / 2) 1 &&& 0xFF = ⌊(1 / 2 : ℚ) * 64⌋.toNat ∧
      packNormal (1 / 2) 1 >>> 8 = 64 := by
  have h := packNormal_fields (1 / 2) 1 (by norm_num) (by norm_num) (by norm_num) (by norm_num)
  exact ⟨h.1, h.2.2.2.2.2.2.2 rfl⟩

/-! ## Helper lemmas: `CalculateNormals` -/

theorem foldlM_except_invariant {ε α β : Type} (f : β → α → Except ε β) (P : β → Prop)
    (l : List α)
    (hstep : ∀ b a b2, a ∈ l → P b → f b a = Except.ok b2 → P b2)
    (b b2 : β) (hb : P b) (h : l.foldlM f b = Except.ok b2) : P b2 := by
  induction l generalizing b with
  | nil =>
    simp only [List.foldlM, pure, Except.pure, Except.ok.injEq] at h
    rw [← h]
    exact hb
  | cons a as ih =>
    simp only [List.foldlM, bind, Except.bind] at h
    cases hf : f b a with
    | error e =>
      rw [hf] at h
      exact absurd h (by simp)
    | ok b1 =>
      rw [hf] at h
      exact ih (fun b a2 b3 ha => hstep b a2 b3 (List.mem_cons_of_mem _ ha)) b1
        (hstep b a b1 (List.mem_cons_self _ _) hb hf) h

theorem foldlM_except_ok {ε α β : Type} (f : β → α → Except ε β) (P : β → Prop)
    (l : List α)
    (hstep : ∀ b a, a ∈ l → P b → ∃ b2, f b a = Except.ok b2 ∧ P b2)
    (b : β) (hb : P b) : ∃ b2, l.foldlM f b = Except.ok b2 ∧ P b2 := by
  induction l generalizing b with
  | nil => exact ⟨b, rfl, hb⟩
  | cons a as ih =>
    obtain ⟨b1, h1, p1⟩ := hstep b a (List.mem_cons_self _ _) hb
    obtain ⟨b2, h2, p2⟩ := ih (fun b a2 ha => hstep b a2 (List.mem_cons_of_mem _ ha)) b1 p1
    refine ⟨b2, ?_, p2⟩
    simp only [List.foldlM, bind, Except.bind, h1]
    exact h2

theorem map_set_same {α β : Type} [Inhabited α] (f : α → β) (l : List α) (i : Nat) (x : α)
    (h : f x = f (l.getD i default)) : (l.set i x).map f = l.map f := by
  apply List.ext_getElem?
  intro j
  rw [List.getElem?_map, List.getElem?_map, List.getElem?_set]
  split
  · rename_i hij
    subst hij
    split
    · rename_i hlt
      rw [List.getD_eq_getElem?_getD, List.getElem?_eq_getElem hlt] at h
      rw [List.getElem?_eq_getElem hlt]
      simp only [Option.map_some', Option.getD_some] at h ⊢
      rw [h]
    · rename_i hlt
      rw [List.getElem?_eq_none (by omega)]
  · rfl

theorem getD_index (l : List UnpackedVertex) (i : Nat) :
    (l.getD i default).index = (l.map (fun u => u.index)).getD i 0 := by
  rw [List.getD_eq_getElem?_getD, List.getD_eq_getElem?_getD, List.getElem?_map]
  cases l[i]? <;> rfl

theorem map_index_set (l : List UnpackedVertex) (base : List Nat) (i : Nat)
    (x : UnpackedVertex) (hl : l.map (fun u => u.index) = base)
    (h : x.index = base.getD i 0) : (l.set i x).map (fun u => u.index) = base := by
  rw [map_set_same _ l i x (by rw [getD_index, hl]; exact h), hl]

theorem unpack_eq (submodel : Submodel) (first_index : Nat) :
    [0, 1].foldlM (unpackPass submodel first_index) [] =
      if submodel.transparent_triangles_indeces.length % 3 = 0 then
        Except.ok
          ((submodel.transparent_triangles_indeces ++ submodel.regular_triangles_indeces).map
            (unpackVertex submodel first_index))
      else Except.error LoadError.assertion_failed := by
  by_cases h : submodel.transparent_triangles_indeces.length % 3 = 0 <;>
    simp [List.foldlM, unpackPass, PC_ASSERT, bind, Except.bind, pure, Except.pure, h]

theorem map_index_unpack (submodel : Submodel) (first_index : Nat) (indices : List Nat) :
    (indices.map (unpackVertex submodel first_index)).map (fun u => u.index) = indices := by
  rw [List.map_map]
  exact List.map_id _

theorem faceNormalStep_index (ops : FloatOps) (l : List UnpackedVertex) (base : List Nat)
    (v : Nat) (hl : l.map (fun u => u.index) = base) :
    (faceNormalStep ops l v).map (fun u => u.index) = base := by
  unfold faceNormalStep
  refine map_index_set _ base _ _ (map_index_set _ base _ _ (map_index_set _ base _ _ hl ?_) ?_) ?_
  · rw [← hl]
    exact getD_index l v
  · rw [← hl]
    exact getD_index l (v + 1)
  · rw [← hl]
    exact getD_index l (v + 2)

theorem faceNormals_index (ops : FloatOps) (l : List UnpackedVertex) :
    (faceNormals ops l).map (fun u => u.index) = l.map (fun u => u.index) := by
  unfold faceNormals
  generalize (List.range ((l.length + 2) / 3)).map (fun t => t * 3) = steps
  have key : ∀ (steps : List Nat) (l2 : List UnpackedVertex),
      l2.map (fun u => u.index) = l.map (fun u => u.index) →
      (steps.foldl (faceNormalStep ops) l2).map (fun u => u.index) =
        l.map (fun u => u.index) := by
    intro steps
    induction steps with
    | nil => exact fun l2 h => h
    | cons v vs ih => exact fun l2 h => ih _ (faceNormalStep_index ops l2 _ v h)
  exact key steps l rfl

theorem smoothPair_index (ops : FloatOps) (l : List UnpackedVertex) (base : List Nat)
    (v v2 : Nat) (hl : l.map (fun u => u.index) = base) :
    (smoothPair ops l v v2).map (fun u => u.index) = base := by
  unfold smoothPair
  simp only []
  split
  · exact hl
  · split
    · exact hl
    · refine map_index_set _ base _ _ (map_index_set _ base _ _ hl ?_) ?_
      · rw [← hl]
        exact getD_index l v
      · rw [← hl]
        exact getD_index l v2

theorem finishVertex_index (ops : FloatOps) (l : List UnpackedVertex) (base : List Nat)
    (v : Nat) (hl : l.map (fun u => u.index) = base) :
    (finishVertex ops l v).map (fun u => u.index) = base := by
  unfold finishVertex
  simp only []
  split
  · refine map_index_set _ base _ _ hl ?_
    rw [← hl]
    exact getD_index l v
  · exact hl

theorem smoothStep_index (ops : FloatOps) (l : List UnpackedVertex) (base : List Nat)
    (v : Nat) (hl : l.map (fun u => u.index) = base) :
    (smoothStep ops l v).map (fun u => u.index) = base := by
  unfold smoothStep
  apply finishVertex_index
  generalize List.range' (v + 3) (l.length - (v + 3)) = steps
  induction steps generalizing l with
  | nil => exact hl
  | cons v2 vs ih => exact ih _ (smoothPair_index ops l base v v2 hl)

theorem smoothNormals_index (ops : FloatOps) (l : List UnpackedVertex) :
    (smoothNormals ops l).map (fun u => u.index) = l.map (fun u => u.index) := by
  unfold smoothNormals
  generalize List.range l.length = steps
  have key : ∀ (steps : List Nat) (l2 : List UnpackedVertex),
      l2.map (fun u => u.index) = l.map (fun u => u.index) →
      (steps.foldl (smoothStep ops) l2).map (fun u => u.index) =
        l.map (fun u => u.index) := by
    intro steps
    induction steps with
    | nil => exact fun l2 h => h
    | cons v vs ih => exact fun l2 h => ih _ (smoothStep_index ops l2 _ v h)
  exact key steps l rfl

theorem foldl_applyStep (first_index : Nat) (vertices : List UnpackedVertex)
    (av : List AnimationVertex) :
    (vertices.foldl (applyStep first_index) av).length = av.length ∧
      (vertices.foldl (applyStep first_index) av).map (fun a => a.pos) =
        av.map (fun a => a.pos) ∧
      ∀ j, (∀ index ∈ vertices.map (fun u => u.index), j ≠ first_index + index) →
        (vertices.foldl (applyStep first_index) av)[j]? = av[j]? := by
  induction vertices generalizing av with
  | nil => exact ⟨rfl, rfl, fun _ _ => rfl⟩
  | cons u us ih =>
    obtain ⟨h1, h2, h3⟩ := ih (applyStep first_index av u)
    rw [List.foldl_cons]
    refine ⟨?_, ?_, ?_⟩
    · rw [h1]
      unfold applyStep
      exact List.length_set _ _ _
    · rw [h2]
      unfold applyStep
      exact map_set_same _ _ _ _ rfl
    · intro j hj
      rw [h3 j (fun index hi => hj index (by
        rw [List.map_cons]
        exact List.mem_cons_of_mem _ hi))]
      unfold applyStep
      have hne := hj u.index (by
        rw [List.map_cons]
        exact List.mem_cons_self _ _)
      exact List.getElem?_set_ne (Ne.symm hne)

theorem Submodel.NormalsOnly.refl (s : Submodel) : s.NormalsOnly s :=
  ⟨rfl, rfl, rfl, rfl, rfl, rfl, rfl, rfl, rfl, rfl, fun _ _ => rfl⟩

theorem calculateFrameNormals_ok (ops : FloatOps) (s : Submodel) (anim : Animation)
    (frame : Nat) (h3 : s.transparent_triangles_indeces.length % 3 = 0) :
    ∃ t, calculateFrameNormals ops s anim frame = Except.ok t := by
  unfold calculateFrameNormals
  simp only [unpack_eq, h3, if_true, bind, Except.bind, pure, Except.pure]
  exact ⟨_, rfl⟩

theorem calculateFrameNormals_only (ops : FloatOps) (s0 s t : Submodel) (anim : Animation)
    (frame : Nat) (ha : anim ∈ s0.animations) (hf : frame < anim.frame_count)
    (hs : s0.NormalsOnly s) (h : calculateFrameNormals ops s anim frame = Except.ok t) :
    s0.NormalsOnly t := by
  obtain ⟨e1, e2, e3, e4, e5, e6, e7, e8, e9, e10, e11⟩ := hs
  unfold calculateFrameNormals at h
  simp only [unpack_eq, bind, Except.bind, pure, Except.pure] at h
  split at h
  · exact absurd h (by simp)
  · rename_i vs hv
    split at hv
    · simp only [Except.ok.injEq] at hv h
      subst hv
      obtain ⟨k1, k2, k3⟩ := foldl_applyStep (firstIndex s anim frame)
        (smoothNormals ops (faceNormals ops
          ((s.transparent_triangles_indeces ++ s.regular_triangles_indeces).map
            (unpackVertex s (firstIndex s anim frame)))))
        s.animations_vertices
      rw [smoothNormals_index, faceNormals_index, map_index_unpack] at k3
      rw [← h]
      refine ⟨e1, e2, e3, e4, e5, e6, e7, e8, k1.trans e9, k2.trans e10, fun j hj => ?_⟩
      show (List.foldl _ _ _)[j]? = _
      rw [k3 j ?_]
      · exact e11 j hj
      · intro index hi heq
        apply hj
        refine ⟨anim, ha, frame, hf, index, ?_, ?_⟩
        · rw [← e5, ← e4]
          exact hi
        · rw [heq]
          unfold firstIndex
          rw [e3]
    · exact absurd hv (by simp)

theorem calculateSubmodelNormals_only (ops : FloatOps) (s t : Submodel)
    (h : calculateSubmodelNormals ops s = Except.ok t) : s.NormalsOnly t := by
  unfold calculateSubmodelNormals at h
  refine foldlM_except_invariant _ (fun u => s.NormalsOnly u) s.animations ?_ s t
    (Submodel.NormalsOnly.refl s) h
  intro b anim b2 ha hb hstep
  refine foldlM_except_invariant _ (fun u => s.NormalsOnly u) (List.range anim.frame_count) ?_
    b b2 hb hstep
  intro c frame c2 hfr hc hfc
  exact calculateFrameNormals_only ops s c c2 anim frame ha (List.mem_range.mp hfr) hc hfc

theorem calculateSubmodelNormals_ok (ops : FloatOps) (s : Submodel)
    (h3 : s.transparent_triangles_indeces.length % 3 = 0) :
    ∃ t, calculateSubmodelNormals ops s = Except.ok t := by
  unfold calculateSubmodelNormals
  obtain ⟨t, ht, _⟩ := foldlM_except_ok
    (fun submodel anim =>
      (List.range anim.frame_count).foldlM
        (fun submodel frame => calculateFrameNormals ops submodel anim frame) submodel)
    (fun u => s.NormalsOnly u) s.animations
    (by
      intro b anim ha hb
      refine foldlM_except_ok _ (fun u => s.NormalsOnly u) (List.range anim.frame_count) ?_ b hb
      intro c frame hfr hc
      obtain ⟨c2, hc2⟩ := calculateFrameNormals_ok ops c anim frame
        (by rw [hc.2.2.2.2.1]; exact h3)
      exact ⟨c2, hc2,
        calculateFrameNormals_only ops s c c2 anim frame ha (List.mem_range.mp hfr) hc hc2⟩)
    s (Submodel.NormalsOnly.refl s)
  exact ⟨t, ht⟩

theorem calculateSubmodelsNormals_only (ops : FloatOps) (l l2 : List Submodel)
    (h : calculateSubmodelsNormals ops l = Except.ok l2) :
    l2.length = l.length ∧
      ∀ (i : Nat) (s : Submodel), l[i]? = some s → ∃ t, l2[i]? = some t ∧ s.NormalsOnly t := by
  induction l generalizing l2 with
  | nil =>
    simp only [calculateSubmodelsNormals, pure, Except.pure, Except.ok.injEq] at h
    subst h
    exact ⟨rfl, fun i s hs => absurd hs (by simp)⟩
  | cons a as ih =>
    simp only [calculateSubmodelsNormals, bind, Except.bind, pure, Except.pure] at h
    cases ha : calculateSubmodelNormals ops a with
    | error e =>
      rw [ha] at h
      exact absurd h (by simp)
    | ok a2 =>
      rw [ha] at h
      simp only [] at h
      cases hr : calculateSubmodelsNormals ops as with
      | error e =>
        rw [hr] at h
        exact absurd h (by simp)
      | ok as2 =>
        rw [hr] at h
        simp only [Except.ok.injEq] at h
        subst h
        obtain ⟨i1, i2⟩ := ih as2 hr
        refine ⟨by simp [i1], fun i s hs => ?_⟩
        cases i with
        | zero =>
          simp only [List.getElem?_cons_zero, Option.some.injEq] at hs
          subst hs
          exact ⟨a2, List.getElem?_cons_zero, calculateSubmodelNormals_only ops _ a2 ha⟩
        | succ n =>
          simp only [List.getElem?_cons_succ] at hs ⊢
          exact i2 n s hs

theorem calculateSubmodelsNormals_ok (ops : FloatOps) (l : List Submodel)
    (h3 : ∀ s ∈ l, s.transparent_triangles_indeces.length % 3 = 0) :
    ∃ l2, calculateSubmodelsNormals ops l = Except.ok l2 := by
  induction l with
  | nil => exact ⟨[], rfl⟩
  | cons a as ih =>
    obtain ⟨a2, ha⟩ := calculateSubmodelNormals_ok ops a (h3 a (List.mem_cons_self _ _))
    obtain ⟨as2, hr⟩ := ih (fun s hs => h3 s (List.mem_cons_of_mem _ hs))
    refine ⟨a2 :: as2, ?_⟩
    simp only [calculateSubmodelsNormals, bind, Except.bind, pure, Except.pure, ha, hr]

theorem CalculateNormals_ok (ops : FloatOps) (model : Model)
    (h3 : ∀ s ∈ model.submodels, s.transparent_triangles_indeces.length % 3 = 0) :
    ∃ m, CalculateNormals ops model = Except.ok m := by
  obtain ⟨l2, hl⟩ := calculateSubmodelsNormals_ok ops model.submodels h3
  unfold CalculateNormals
  simp only [bind, Except.bind, pure, Except.pure, hl]
  exact ⟨_, rfl⟩

theorem CalculateNormals_submodels (ops : FloatOps) (model m : Model)
    (h : CalculateNormals ops model = Except.ok m) :
    calculateSubmodelsNormals ops model.submodels = Except.ok m.submodels ∧
      m = { model with submodels := m.submodels } := by
  unfold CalculateNormals at h
  simp only [bind, Except.bind, pure, Except.pure] at h
  cases hl : calculateSubmodelsNormals ops model.submodels with
  | error e =>
    rw [hl] at h
    exact absurd h (by simp)
  | ok l2 =>
    rw [hl] at h
    simp only [Except.ok.injEq] at h
    subst h
    exact ⟨rfl, rfl⟩

/-! ## Claims about the effect of `CalculateNormals` -/

/-- What `CalculateNormals` leaves alone in this embedding, in which a store past the
end of `animations_vertices` is dropped: when it returns a model, the main model's own
fields, the texture and the sounds are those of the given model, there are as many
submodels, and each submodel keeps its animations, frame count, vertices, index lists,
bounding boxes and z extent, the number of its `animations_vertices` and every position
in them; a slot of `animations_vertices` that is not `first_index + index` for any frame
of an animation and any entry `index` of an index list keeps its whole value. -/
theorem CalculateNormals_changes_normals_only (ops : FloatOps) (model m : Model)
    (h : CalculateNormals ops model = Except.ok m) :
    m.toSubmodel = model.toSubmodel ∧ m.texture_size = model.texture_size ∧
    m.texture_data = model.texture_data ∧ m.sounds = model.sounds ∧
    m.submodels.length = model.submodels.length ∧
    ∀ (i : Nat) (s : Submodel), model.submodels[i]? = some s →
      ∃ t : Submodel, m.submodels[i]? = some t ∧
        t.animations = s.animations ∧ t.frame_count = s.frame_count ∧
        t.vertices = s.vertices ∧
        t.regular_triangles_indeces = s.regular_triangles_indeces ∧
        t.transparent_triangles_indeces = s.transparent_triangles_indeces ∧
        t.animations_bboxes = s.animations_bboxes ∧ t.z_min = s.z_min ∧ t.z_max = s.z_max ∧
        t.animations_vertices.length = s.animations_vertices.length ∧
        t.animations_vertices.map (fun a => a.pos) =
          s.animations_vertices.map (fun a => a.pos) ∧
        ∀ j, ¬ s.Addressed j → t.animations_vertices[j]? = s.animations_vertices[j]? := by
  obtain ⟨hl, e⟩ := CalculateNormals_submodels ops model m h
  obtain ⟨k1, k2⟩ := calculateSubmodelsNormals_only ops model.submodels m.submodels hl
  refine ⟨?_, ?_, ?_, ?_, k1, fun i s hs => ?_⟩
  · rw [e]
  · rw [e]
  · rw [e]
  · rw [e]
  · obtain ⟨t, ht, hN⟩ := k2 i s hs
    exact ⟨t, ht, hN⟩

theorem sample_firstIndex (frame : Nat) (h : frame < 2) :
    firstIndex sampleNormalsSubmodel ⟨0, 0, 2⟩ frame = 9 * frame := by
  interval_cases frame <;> rfl

theorem sample_not_addressed (j : Nat) (h3 : 3 ≤ j) (h8 : j < 8) :
    ¬ sampleNormalsSubmodel.Addressed j := by
  rintro ⟨anim, ha, frame, hf, index, hi, e⟩
  have ha2 : anim = ⟨0, 0, 2⟩ := by simpa [sampleNormalsSubmodel] using ha
  subst ha2
  have hf2 : frame < 2 := hf
  rw [sample_firstIndex frame hf2] at e
  have ht : sampleNormalsSubmodel.transparent_triangles_indeces = [] := rfl
  have hr : sampleNormalsSubmodel.regular_triangles_indeces = [2, 1, 0] := rfl
  rw [ht, hr] at hi
  have hi2 : index = 2 ∨ index = 1 ∨ index = 0 := by simpa using hi
  omega

/-- The sample model, whose submodel has 8 animation vertices: the slots 3 to 7 are not
`first_index + index` for any frame and entry, and slot 3 keeps its value. -/
theorem CalculateNormals_changes_normals_only_witness :
    ∃ m : Model, CalculateNormals sampleFloatOps sampleNormalsModel = Except.ok m ∧
      m.toSubmodel = sampleNormalsModel.toSubmodel ∧
      m.sounds = sampleNormalsModel.sounds ∧
      ∃ t : Submodel, m.submodels[0]? = some t ∧
        t.animations_vertices.map (fun a => a.pos) =
          sampleNormalsSubmodel.animations_vertices.map (fun a => a.pos) ∧
        t.animations_vertices[3]? = some ⟨(0, 0, 1), 0⟩ := by
  obtain ⟨m, hm⟩ := CalculateNormals_ok sampleFloatOps sampleNormalsModel
    (fun s hs => by
      have : s = sampleNormalsSubmodel := by simpa [sampleNormalsModel] using hs
      rw [this]
      rfl)
  obtain ⟨k1, _, _, k4, _, k6⟩ :=
    CalculateNormals_changes_normals_only sampleFloatOps sampleNormalsModel m hm
  obtain ⟨t, ht, _, _, _, _, _, _, _, _, _, hp, hu⟩ := k6 0 sampleNormalsSubmodel rfl
  exact ⟨m, hm, k1, k4, t, ht, hp,
    (hu 3 (sample_not_addressed 3 (by decide) (by decide))).trans rfl⟩

/-! ## The slots that `CalculateNormals` addresses -/

theorem sample_frame_zero :
    calculateFrameNormals sampleFloatOps sampleNormalsSubmodel ⟨0, 0, 2⟩ 0 =
      Except.ok sampleNormalsResult := by
  have hp : packNormal 1 (1 / 2) = 8256 := by
    unfold packNormal floatToUShort
    norm_num
    rfl
  have hu : ([] ++ [2, 1, 0]).map (unpackVertex sampleNormalsSubmodel 0) =
      [⟨2, 1, ⟨0, 1, 0⟩, default, default, 0⟩, ⟨1, 1, ⟨1, 0, 0⟩, default, default, 0⟩,
       ⟨0, 0, ⟨0, 0, 0⟩, default, default, 0⟩] := by
    simp [unpackVertex, sampleNormalsSubmodel, vertexHash]
  have hf : faceNormals sampleFloatOps
      [⟨2, 1, ⟨0, 1, 0⟩, default, default, 0⟩, ⟨1, 1, ⟨1, 0, 0⟩, default, default, 0⟩,
       ⟨0, 0, ⟨0, 0, 0⟩, default, default, 0⟩] =
      [⟨2, 1, ⟨0, 1, 0⟩, ⟨0, 0, -1⟩, ⟨0, 0, -1⟩, 0⟩,
       ⟨1, 1, ⟨1, 0, 0⟩, ⟨0, 0, -1⟩, ⟨0, 0, -1⟩, 0⟩,
       ⟨0, 0, ⟨0, 0, 0⟩, ⟨0, 0, -1⟩, ⟨0, 0, -1⟩, 0⟩] := by
    simp [faceNormals, faceNormalStep, sampleFloatOps, List.range_succ]
  have hs : smoothNormals sampleFloatOps
      [⟨2, 1, ⟨0, 1, 0⟩, ⟨0, 0, -1⟩, ⟨0, 0, -1⟩, 0⟩,
       ⟨1, 1, ⟨1, 0, 0⟩, ⟨0, 0, -1⟩, ⟨0, 0, -1⟩, 0⟩,
       ⟨0, 0, ⟨0, 0, 0⟩, ⟨0, 0, -1⟩, ⟨0, 0, -1⟩, 0⟩] =
      [⟨2, 1, ⟨0, 1, 0⟩, ⟨0, 0, -1⟩, ⟨0, 0, -1⟩, 8256⟩,
       ⟨1, 1, ⟨1, 0, 0⟩, ⟨0, 0, -1⟩, ⟨0, 0, -1⟩, 8256⟩,
       ⟨0, 0, ⟨0, 0, 0⟩, ⟨0, 0, -1⟩, ⟨0, 0, -1⟩, 8256⟩] := by
    simp [smoothNormals, smoothStep, finishVertex, sampleFloatOps, List.range_succ, List.range']
    norm_num
    exact hp
  unfold calculateFrameNormals
  simp only [unpack_eq, bind, Except.bind, pure, Except.pure]
  rw [sample_firstIndex 0 (by decide)]
  have ht : sampleNormalsSubmodel.transparent_triangles_indeces = [] := rfl
  have hr : sampleNormalsSubmodel.regular_triangles_indeces = [2, 1, 0] := rfl
  rw [ht, hr]
  simp only [List.length_nil, Nat.zero_mod, if_true, Nat.mul_zero]
  rw [hu, hf, hs]
  rfl

theorem calculateFrameNormals_eq (ops : FloatOps) (s : Submodel) (anim : Animation)
    (frame : Nat) (h3 : s.transparent_triangles_indeces.length % 3 = 0) :
    calculateFrameNormals ops s anim frame =
      Except.ok { s with
        animations_vertices :=
          (smoothNormals ops (faceNormals ops
            ((s.transparent_triangles_indeces ++ s.regular_triangles_indeces).map
              (unpackVertex s (firstIndex s anim frame))))).foldl
            (applyStep (firstIndex s anim frame)) s.animations_vertices } := by
  unfold calculateFrameNormals
  simp only [unpack_eq, h3, if_true, bind, Except.bind, pure, Except.pure]

theorem foldl_applyStep_past (first_index : Nat) (vertices : List UnpackedVertex)
    (av : List AnimationVertex)
    (h : ∀ index ∈ vertices.map (fun u => u.index), av.length ≤ first_index + index) :
    vertices.foldl (applyStep first_index) av = av := by
  apply List.ext_getElem?
  intro j
  obtain ⟨k1, _, k3⟩ := foldl_applyStep first_index vertices av
  by_cases hj : j < av.length
  · exact k3 j (fun index hi => by
      have := h index hi
      omega)
  · rw [List.getElem?_eq_none (by rw [k1]; exact Nat.le_of_not_lt hj)]
    exact (List.getElem?_eq_none (Nat.le_of_not_lt hj)).symm

theorem sample_frame_one :
    calculateFrameNormals sampleFloatOps
      sampleNormalsResult
      ⟨0, 0, 2⟩ 1 =
      Except.ok sampleNormalsResult := by
  have h3 : sampleNormalsResult.transparent_triangles_indeces.length % 3 = 0 := rfl
  rw [calculateFrameNormals_eq _ _ _ _ h3, foldl_applyStep_past]
  rw [smoothNormals_index, faceNormals_index, map_index_unpack]
  intro index hi
  have h2 : index = 2 ∨ index = 1 ∨ index = 0 := by
    rw [show sampleNormalsResult.transparent_triangles_indeces = [] from rfl,
      show sampleNormalsResult.regular_triangles_indeces = [2, 1, 0] from rfl] at hi
    simpa using hi
  have hfi : firstIndex
      sampleNormalsResult
      ⟨0, 0, 2⟩ 1 = 9 := rfl
  rw [hfi, show sampleNormalsResult.animations_vertices.length = 8 from rfl]
  omega

theorem sample_normals :
    CalculateNormals sampleFloatOps sampleNormalsModel =
      Except.ok { sampleNormalsModel with submodels := [sampleNormalsResult] } := by
  have hs : calculateSubmodelNormals sampleFloatOps sampleNormalsSubmodel =
      Except.ok sampleNormalsResult := by
    unfold calculateSubmodelNormals
    rw [show sampleNormalsSubmodel.animations = [⟨0, 0, 2⟩] from rfl]
    simp only [List.foldlM, bind, Except.bind, pure, Except.pure]
    rw [sample_frame_zero]
    simp only []
    rw [sample_frame_one]
  unfold CalculateNormals
  rw [show sampleNormalsModel.submodels = [sampleNormalsSubmodel] from rfl]
  simp only [calculateSubmodelsNormals, bind, Except.bind, pure, Except.pure, hs]

/-- C25 fails on `sampleNormalsModel`, whose submodel has 4 vertices in each of 2 frames
and the index list 2, 1, 0 over the 3 corners of a triangle, which are the vertices 3,
2 and 1.  The claim has the slots `(0 + f) * 4 + vertex_id`, which are 3, 2, 1 in frame
0 and 7, 6, 5 in frame 1.  `CalculateNormals` addresses the slots `first_index + index`
with `first_index = (0 + f) * 3 * 3`: the slots 2, 1, 0 in frame 0 and 11, 10, 9, past
the 8 entries, in frame 1.  So the instance of the entry 2, a corner of vertex 3 at
(0, 0, 1), gets the position (0, 1, 0) of vertex 2; with the sample float operations
the packed normal 8256 goes to the slots 0, 1 and 2, slot 0 being the one of vertex 0,
which no corner refers to; and with any float operations the slots from 3 on, which are
the one of the referred vertex 3 in frame 0 and all those of frame 1, keep their values. -/
theorem CalculateNormals_wrong_slots :
    sampleNormalsSubmodel.regular_triangles_indeces.map
        (fun index => (0 + 0) * 4 + (sampleNormalsSubmodel.vertices.getD index default).vertex_id) =
      [3, 2, 1] ∧
    sampleNormalsSubmodel.regular_triangles_indeces.map
        (fun index => (0 + 1) * 4 + (sampleNormalsSubmodel.vertices.getD index default).vertex_id) =
      [7, 6, 5] ∧
    sampleNormalsSubmodel.regular_triangles_indeces.map
        (fun index => firstIndex sampleNormalsSubmodel ⟨0, 0, 2⟩ 0 + index) = [2, 1, 0] ∧
    sampleNormalsSubmodel.regular_triangles_indeces.map
        (fun index => firstIndex sampleNormalsSubmodel ⟨0, 0, 2⟩ 1 + index) = [11, 10, 9] ∧
    sampleNormalsSubmodel.animations_vertices.length = 2 * 4 ∧
    (unpackVertex sampleNormalsSubmodel (firstIndex sampleNormalsSubmodel ⟨0, 0, 2⟩ 0) 2).pos_v3 =
      ⟨0, 1, 0⟩ ∧
    CalculateNormals sampleFloatOps sampleNormalsModel =
      Except.ok { sampleNormalsModel with submodels := [sampleNormalsResult] } ∧
    ∀ ops : FloatOps, ∃ (m : Model) (t : Submodel),
      CalculateNormals ops sampleNormalsModel = Except.ok m ∧ m.submodels[0]? = some t ∧
      t.animations_vertices.drop 3 = sampleNormalsSubmodel.animations_vertices.drop 3 := by
  refine ⟨rfl, rfl, rfl, rfl, rfl, ?_, sample_normals, fun ops => ?_⟩
  · rw [sample_firstIndex 0 (by decide)]
    simp [unpackVertex, sampleNormalsSubmodel]
  · obtain ⟨m, hm⟩ := CalculateNormals_ok ops sampleNormalsModel
      (fun s hs => by
        have : s = sampleNormalsSubmodel := by simpa [sampleNormalsModel] using hs
        rw [this]
        rfl)
    obtain ⟨hl, _⟩ := CalculateNormals_submodels ops sampleNormalsModel m hm
    obtain ⟨_, k2⟩ := calculateSubmodelsNormals_only ops _ _ hl
    obtain ⟨t, ht, hN⟩ := k2 0 sampleNormalsSubmodel rfl
    refine ⟨m, t, hm, ht, ?_⟩
    apply List.ext_getElem?
    intro j
    rw [List.getElem?_drop, List.getElem?_drop]
    by_cases hj : 3 + j < 8
    · exact hN.2.2.2.2.2.2.2.2.2.2 (3 + j) (sample_not_addressed (3 + j) (by omega) hj)
    · have hlen : t.animations_vertices.length = 8 := hN.2.2.2.2.2.2.2.2.1
      rw [List.getElem?_eq_none (by omega)]
      exact (List.getElem?_eq_none (Nat.le_of_not_lt hj)).symm

/-! ## Claims about the smoothing pass -/

/-- C26 fails on the pair of the instances 0 and 3 of `sampleParallelInstances`, which
have equal hashes and positions and face normals of dot product 1, above the limit:
`smoothPair` adds nothing to their accumulators.  On the same pair of
`samplePerpendicularInstances`, whose face normals have the dot product 0, below the
limit, it adds the face normal of each instance to the accumulator of the other one. -/
theorem smoothPair_inverted :
    sampleFloatOps.dot ⟨0, 0, 1⟩ ⟨0, 0, 1⟩ = 1 ∧ normals_dot_limit < 1 ∧
    smoothPair sampleFloatOps sampleParallelInstances 0 3 = sampleParallelInstances ∧
    sampleFloatOps.dot ⟨0, 0, 1⟩ ⟨1, 0, 0⟩ = 0 ∧ 0 < normals_dot_limit ∧
    (smoothPair sampleFloatOps samplePerpendicularInstances 0 3).map
        (fun u => u.smoothed_normal) =
      [⟨1, 0, 1⟩, ⟨0, 0, 1⟩, ⟨0, 0, 1⟩, ⟨1, 0, 1⟩, ⟨1, 0, 0⟩, ⟨1, 0, 0⟩] ∧
    (smoothPair sampleFloatOps samplePerpendicularInstances 0 3).map
        (fun u => u.face_normal) =
      samplePerpendicularInstances.map (fun u => u.face_normal) := by
  refine ⟨?_, ?_, ?_, ?_, ?_, ?_, ?_⟩
  · norm_num [sampleFloatOps]
  · norm_num [normals_dot_limit]
  · norm_num [smoothPair, sampleParallelInstances, sampleFloatOps, m_Vec3.ne, normals_dot_limit]
  · norm_num [sampleFloatOps]
  · norm_num [normals_dot_limit]
  · norm_num [smoothPair, samplePerpendicularInstances, sampleFloatOps, m_Vec3.ne,
      normals_dot_limit]
  · norm_num [smoothPair, samplePerpendicularInstances, sampleFloatOps, m_Vec3.ne,
      normals_dot_limit]

/-! ## Claims about the ids of the animations -/

theorem slotAnimations_ids_sublist (first : Nat) (slots : List (Nat × Nat)) :
    ((slotAnimations first slots).map (fun a => a.id)).Sublist (slots.map (fun s => s.1)) := by
  induction slots generalizing first with
  | nil => exact List.Sublist.slnil
  | cons s rest ih =>
    by_cases h0 : s.2 = 0
    · rw [slotAnimations_cons_zero _ _ _ h0, List.map_cons]
      exact List.Sublist.cons _ (ih first)
    · rw [slotAnimations_cons_pos _ _ _ h0, List.map_cons, List.map_cons]
      exact List.Sublist.cons₂ _ (ih _)

theorem carMainSlots_ids_nodup (buf : FileContent) :
    ((carMainSlots buf).map (fun a => a.id)).Nodup := by
  unfold carMainSlots
  refine List.Nodup.sublist (slotAnimations_ids_sublist 0 _) ?_
  rw [List.map_map]
  exact (List.nodup_range 20).map_on (fun x _ y _ h => h)

theorem carSubmodelResult_ids (c : Constants) (ts : Nat × Nat) (buf : FileContent) (i : Nat) :
    ∀ a ∈ (carSubmodelResult c ts buf i).animations, a.id = i := by
  intro a ha
  have hsub := slotAnimations_ids_sublist 0
    [(i, CARHeader.submodels_animations buf i 0 / (6 * carSubmodelVertexCount buf i)),
     (i, CARHeader.submodels_animations buf i 1 / (6 * carSubmodelVertexCount buf i))]
  rw [← carSubmodelResult_animations c ts buf i] at hsub
  have hm : a.id ∈ (carSubmodelResult c ts buf i).animations.map (fun a => a.id) :=
    List.mem_map_of_mem _ ha
  have := hsub.subset hm
  simpa using this

theorem foldlM_animationFileStep_ids (files : List FileContent)
    (st0 st : List Animation × Nat × Nat)
    (h : files.foldlM animationFileStep st0 = Except.ok st) :
    st.1.map (fun a => a.id) =
      st0.1.map (fun a => a.id) ++ List.range' st0.1.length files.length := by
  induction files generalizing st0 with
  | nil =>
    simp only [List.foldlM, pure, Except.pure, Except.ok.injEq] at h
    rw [← h]
    simp
  | cons f fs ih =>
    simp only [List.foldlM, bind, Except.bind] at h
    cases hf : animationFileStep st0 f with
    | error e =>
      rw [hf] at h
      exact absurd h (by simp)
    | ok st1 =>
      rw [hf] at h
      have h1 : st1.1.map (fun a => a.id) = st0.1.map (fun a => a.id) ++ [st0.1.length] := by
        unfold animationFileStep at hf
        simp only [bind, Except.bind, pure, Except.pure] at hf
        split at hf
        · exact absurd hf (by simp)
        · split at hf
          · exact absurd hf (by simp)
          · simp only [Except.ok.injEq] at hf
            rw [← hf]
            simp
      have hl : st1.1.length = st0.1.length + 1 := by
        have := congrArg List.length h1
        simpa using this
      rw [ih st1 h, h1, hl, List.length_cons, List.range'_succ, List.append_assoc]
      rfl

/-- The ids of the animations are pairwise distinct in a model that `LoadModel_o3`
returns, for one animation file and for several ones, and in the main model that
`LoadModel_car` returns; in submodel `i` of the latter every animation has the id
`i`. -/
theorem animation_ids (c : Constants) :
    (∀ (model_file animation_file : FileContent) (out_model m : Model),
      LoadModel_o3 c model_file animation_file out_model = Except.ok m →
      (m.animations.map (fun a => a.id)).Nodup) ∧
    (∀ (model_file : FileContent) (files : List FileContent) (out_model m : Model),
      LoadModel_o3_multi c model_file files out_model = Except.ok m →
      m.animations.map (fun a => a.id) = List.range files.length) ∧
    (∀ (model_file : FileContent) (out_model m : Model),
      LoadModel_car c model_file out_model = Except.ok m →
      (m.animations.map (fun a => a.id)).Nodup ∧
      ∀ i, i < 3 →
        ∃ s : Submodel, m.submodels[i]? = some s ∧ ∀ a ∈ s.animations, a.id = i) := by
  refine ⟨?_, ?_, ?_⟩
  · intro model_file animation_file out_model m h
    obtain ⟨_, fc, _, e⟩ := (LoadModel_o3_ok_iff c model_file animation_file out_model m).mp h
    rw [e, o3Geometry_animations _ _ _ _ _
      (o3_start_fields c model_file out_model (rdU16 model_file 0x4800)).1]
    simp
  · intro model_file files out_model m h
    obtain ⟨_, _, st, inner, hst, _, e⟩ :=
      (LoadModel_o3_multi_ok_iff c model_file files out_model m).mp h
    have hids := foldlM_animationFileStep_ids files _ st hst
    simp only [List.map_nil, List.nil_append, List.length_nil] at hids
    have hl : st.1.length = files.length := by
      have := congrArg List.length hids
      simpa using this
    rw [e]
    show (copyAnimations st.1 files.length inner.animations).map (fun a => a.id) = _
    rw [← hl, copyAnimations_eq, hids, hl, List.range_eq_range']
  · intro model_file out_model m h
    obtain ⟨_, _, _, e⟩ := (LoadModel_car_ok_iff c model_file out_model m).mp h
    subst e
    refine ⟨?_, fun i hi => ⟨_, (carResult_submodels c model_file out_model i hi).2,
      carSubmodelResult_ids c _ model_file i⟩⟩
    rw [(carResult_animations c model_file out_model).1]
    exact carMainSlots_ids_nodup model_file

/-- C31 fails on the sample CAR file whose submodel 0 has the animation lengths 6 and
12 and one vertex: `LoadModel_car` returns a model whose submodel 0 has two animations,
of 1 and of 2 frames, and both have the id 0, the index of the submodel. -/
theorem submodel_animation_ids_repeat :
    ∃ m : Model,
      LoadModel_car sampleConstants (sampleCarSubmodelFile 6 12) default = Except.ok m ∧
      ∃ s : Submodel, m.submodels[0]? = some s ∧
        s.animations = [⟨0, 0, 1⟩, ⟨0, 1, 2⟩] ∧
        s.animations.map (fun a => a.id) = [0, 0] ∧
        ¬ (s.animations.map (fun a => a.id)).Nodup := by
  obtain ⟨hok, h0, h1, hv⟩ := sampleCarSubmodelFile_ok sampleConstants default 6 12
    (by decide) (by decide) (by decide)
  have hs := (carResult_submodels sampleConstants (sampleCarSubmodelFile 6 12) default 0
    (by decide)).2
  have han := carSubmodelResult_animations sampleConstants
    (g_car_model_texture_width,
      rdU16 (sampleCarSubmodelFile 6 12) 0x486A / g_car_model_texture_width)
    (sampleCarSubmodelFile 6 12) 0
  rw [h0, h1, hv] at han
  have han2 := han.trans
    (show slotAnimations 0 [(0, 6 / (6 * 1)), (0, 12 / (6 * 1))] = [⟨0, 0, 1⟩, ⟨0, 1, 2⟩] by
      decide)
  refine ⟨_, hok, _, hs, han2, ?_, ?_⟩
  · rw [han2]
    rfl
  · rw [han2]
    decide

/-! ## Helper lemmas: the hash of a vertex instance -/

theorem pos_v3_injective (p q : Int × Int × Int)
    (h : (⟨p.1, p.2.1, p.2.2⟩ : m_Vec3) = ⟨q.1, q.2.1, q.2.2⟩) : p = q := by
  obtain ⟨p1, p2, p3⟩ := p
  obtain ⟨q1, q2, q3⟩ := q
  simp only [m_Vec3.mk.injEq, Int.cast_inj] at h
  obtain ⟨h1, h2, h3⟩ := h
  simp only [h1, h2, h3]

theorem m_Vec3.ne_eq_false_iff (a b : m_Vec3) : a.ne b = false ↔ a = b := by
  unfold m_Vec3.ne
  rw [decide_eq_false_iff_not]
  constructor
  · intro h
    obtain ⟨ax, ay, az⟩ := a
    obtain ⟨bx, by2, bz⟩ := b
    simp only [not_or, not_not] at h
    simp only [m_Vec3.mk.injEq]
    exact h
  · intro h
    subst h
    simp

theorem fromPosition_skip_iff (u w : UnpackedVertex) (hu : u.FromPosition)
    (hw : w.FromPosition) :
    (u.hash ≠ w.hash ∨ u.pos_v3.ne w.pos_v3 = true) ↔ u.pos_v3.ne w.pos_v3 = true := by
  constructor
  · rintro (hh | hp)
    · obtain ⟨p, hp1, hp2⟩ := hu
      obtain ⟨q, hq1, hq2⟩ := hw
      by_contra hne
      have hf : u.pos_v3.ne w.pos_v3 = false := by simpa using hne
      have he := (m_Vec3.ne_eq_false_iff _ _).mp hf
      rw [hp2, hq2] at he
      have hpq := pos_v3_injective p q he
      apply hh
      rw [hp1, hq1, hpq]
    · exact hp
  · exact Or.inr

theorem default_fromPosition : (default : UnpackedVertex).FromPosition :=
  ⟨(0, 0, 0), rfl, by
    show (default : m_Vec3) = _
    simp only [Int.cast_zero]
    rfl⟩

theorem unpackVertex_fromPosition (submodel : Submodel) (first_index index : Nat) :
    (unpackVertex submodel first_index index).FromPosition :=
  ⟨(submodel.animations_vertices.getD (first_index + index) default).pos, rfl, rfl⟩

theorem getD_fromPosition (l : List UnpackedVertex) (h : ∀ u ∈ l, u.FromPosition) (i : Nat) :
    (l.getD i default).FromPosition := by
  rw [List.getD_eq_getElem?_getD]
  by_cases hi : i < l.length
  · rw [List.getElem?_eq_getElem hi]
    exact h _ (List.getElem_mem _)
  · rw [List.getElem?_eq_none (Nat.le_of_not_lt hi)]
    exact default_fromPosition

theorem fromPosition_of_eq (u w : UnpackedVertex) (hu : u.FromPosition)
    (h1 : w.hash = u.hash) (h2 : w.pos_v3 = u.pos_v3) : w.FromPosition := by
  obtain ⟨p, hp1, hp2⟩ := hu
  exact ⟨p, h1.trans hp1, h2.trans hp2⟩

theorem set_fromPosition (l : List UnpackedVertex) (h : ∀ u ∈ l, u.FromPosition) (i : Nat)
    (x : UnpackedVertex) (hx : x.FromPosition) : ∀ u ∈ l.set i x, u.FromPosition := by
  intro u hu
  rcases List.mem_or_eq_of_mem_set hu with hm | he
  · exact h u hm
  · rw [he]
    exact hx

theorem faceNormalStep_fromPosition (ops : FloatOps) (l : List UnpackedVertex) (v : Nat)
    (h : ∀ u ∈ l, u.FromPosition) : ∀ u ∈ faceNormalStep ops l v, u.FromPosition := by
  unfold faceNormalStep
  simp only []
  apply set_fromPosition
  · apply set_fromPosition
    · apply set_fromPosition
      · exact h
      · exact fromPosition_of_eq _ _ (getD_fromPosition l h v) rfl rfl
    · exact fromPosition_of_eq _ _ (getD_fromPosition l h (v + 1)) rfl rfl
  · exact fromPosition_of_eq _ _ (getD_fromPosition l h (v + 2)) rfl rfl

theorem faceNormals_fromPosition (ops : FloatOps) (l : List UnpackedVertex)
    (h : ∀ u ∈ l, u.FromPosition) : ∀ u ∈ faceNormals ops l, u.FromPosition := by
  unfold faceNormals
  generalize (List.range ((l.length + 2) / 3)).map (fun t => t * 3) = steps
  induction steps generalizing l with
  | nil => exact h
  | cons v vs ih => exact ih _ (faceNormalStep_fromPosition ops l v h)

theorem smoothPair_fromPosition (ops : FloatOps) (l : List UnpackedVertex) (v v2 : Nat)
    (h : ∀ u ∈ l, u.FromPosition) : ∀ u ∈ smoothPair ops l v v2, u.FromPosition := by
  unfold smoothPair
  simp only []
  split
  · exact h
  · split
    · exact h
    · apply set_fromPosition
      · apply set_fromPosition
        · exact h
        · exact fromPosition_of_eq _ _ (getD_fromPosition l h v) rfl rfl
      · exact fromPosition_of_eq _ _ (getD_fromPosition l h v2) rfl rfl

theorem finishVertex_fromPosition (ops : FloatOps) (l : List UnpackedVertex) (v : Nat)
    (h : ∀ u ∈ l, u.FromPosition) : ∀ u ∈ finishVertex ops l v, u.FromPosition := by
  unfold finishVertex
  simp only []
  split
  · apply set_fromPosition
    · exact h
    · exact fromPosition_of_eq _ _ (getD_fromPosition l h v) rfl rfl
  · exact h

theorem smoothPair_eq_byPosition (ops : FloatOps) (l : List UnpackedVertex) (v v2 : Nat)
    (h : ∀ u ∈ l, u.FromPosition) :
    smoothPair ops l v v2 = smoothPairByPosition ops l v v2 := by
  unfold smoothPair smoothPairByPosition
  simp only [fromPosition_skip_iff _ _ (getD_fromPosition l h v) (getD_fromPosition l h v2)]

theorem foldl_smoothPair_eq (ops : FloatOps) (v : Nat) (steps : List Nat)
    (l : List UnpackedVertex) (h : ∀ u ∈ l, u.FromPosition) :
    steps.foldl (fun vertices v2 => smoothPair ops vertices v v2) l =
        steps.foldl (fun vertices v2 => smoothPairByPosition ops vertices v v2) l ∧
      ∀ u ∈ steps.foldl (fun vertices v2 => smoothPair ops vertices v v2) l,
        u.FromPosition := by
  induction steps generalizing l with
  | nil => exact ⟨rfl, h⟩
  | cons v2 vs ih =>
    rw [List.foldl_cons, List.foldl_cons, ← smoothPair_eq_byPosition ops l v v2 h]
    exact ih _ (smoothPair_fromPosition ops l v v2 h)

theorem smoothStep_eq_byPosition (ops : FloatOps) (l : List UnpackedVertex) (v : Nat)
    (h : ∀ u ∈ l, u.FromPosition) :
    smoothStep ops l v = smoothStepByPosition ops l v ∧
      ∀ u ∈ smoothStep ops l v, u.FromPosition := by
  unfold smoothStep smoothStepByPosition
  obtain ⟨h1, h2⟩ := foldl_smoothPair_eq ops v (List.range' (v + 3) (l.length - (v + 3))) l h
  rw [← h1]
  exact ⟨rfl, finishVertex_fromPosition ops _ v h2⟩

theorem smoothNormals_eq_byPosition (ops : FloatOps) (l : List UnpackedVertex)
    (h : ∀ u ∈ l, u.FromPosition) :
    smoothNormals ops l = smoothNormalsByPosition ops l := by
  unfold smoothNormals smoothNormalsByPosition
  generalize List.range l.length = steps
  induction steps generalizing l with
  | nil => rfl
  | cons v vs ih =>
    rw [List.foldl_cons, List.foldl_cons, ← (smoothStep_eq_byPosition ops l v h).1]
    exact ih _ (smoothStep_eq_byPosition ops l v h).2

/-! ## Claims about the hash of a vertex instance -/

/-- C32: the hash of a raw position is the sum of its three components modulo `2 ^ 16`,
and two raw positions with equal float positions are equal and have equal hashes.  So
for two vertex instances that `unpackVertex` fills from the slots of two index-list
entries, the pair passes the test of the smoothing pass, hashes equal and positions
equal, exactly when the two raw positions are equal, and exactly when the float
positions are equal; and on the instances of a frame, with their face normals
calculated, the smoothing pass gives the same result as the pass that matches on the
positions alone. -/
theorem hash_match_refines (ops : FloatOps) :
    (∀ p : Int × Int × Int,
      (vertexHash p : Int) = (p.1 + p.2.1 + p.2.2) % 2 ^ 16 ∧ vertexHash p < 2 ^ 16) ∧
    (∀ p q : Int × Int × Int, (⟨p.1, p.2.1, p.2.2⟩ : m_Vec3) = ⟨q.1, q.2.1, q.2.2⟩ →
      p = q ∧ vertexHash p = vertexHash q) ∧
    (∀ (submodel : Submodel) (first_index i j : Nat),
      (¬ ((unpackVertex submodel first_index i).hash ≠
            (unpackVertex submodel first_index j).hash ∨
          (unpackVertex submodel first_index i).pos_v3.ne
            (unpackVertex submodel first_index j).pos_v3 = true) ↔
        (submodel.animations_vertices.getD (first_index + i) default).pos =
          (submodel.animations_vertices.getD (first_index + j) default).pos) ∧
      (¬ ((unpackVertex submodel first_index i).hash ≠
            (unpackVertex submodel first_index j).hash ∨
          (unpackVertex submodel first_index i).pos_v3.ne
            (unpackVertex submodel first_index j).pos_v3 = true) ↔
        ¬ ((unpackVertex submodel first_index i).pos_v3.ne
            (unpackVertex submodel first_index j).pos_v3 = true))) ∧
    (∀ (submodel : Submodel) (first_index : Nat) (indices : List Nat),
      smoothNormals ops (faceNormals ops (indices.map (unpackVertex submodel first_index))) =
        smoothNormalsByPosition ops
          (faceNormals ops (indices.map (unpackVertex submodel first_index)))) := by
  refine ⟨fun p => ?_, fun p q h => ?_, fun submodel first_index i j => ?_,
    fun submodel first_index indices => ?_⟩
  · unfold vertexHash
    have h0 : 0 ≤ (p.1 + p.2.1 + p.2.2) % 2 ^ 16 := Int.emod_nonneg _ (by norm_num)
    have h1 : (p.1 + p.2.1 + p.2.2) % 2 ^ 16 < 2 ^ 16 := Int.emod_lt_of_pos _ (by norm_num)
    refine ⟨Int.toNat_of_nonneg h0, ?_⟩
    omega
  · have hpq := pos_v3_injective p q h
    exact ⟨hpq, by rw [hpq]⟩
  · have hiff := fromPosition_skip_iff _ _ (unpackVertex_fromPosition submodel first_index i)
      (unpackVertex_fromPosition submodel first_index j)
    refine ⟨?_, not_congr hiff⟩
    rw [hiff, Bool.not_eq_true, m_Vec3.ne_eq_false_iff]
    constructor
    · intro h
      exact pos_v3_injective _ _ h
    · intro h
      show (⟨_, _, _⟩ : m_Vec3) = ⟨_, _, _⟩
      rw [h]
  · refine smoothNormals_eq_byPosition ops _ (faceNormals_fromPosition ops _ ?_)
    intro u hu
    obtain ⟨k, _, rfl⟩ := List.mem_map.mp hu
    exact unpackVertex_fromPosition submodel first_index k

/-- C32 at the sample submodel, frame 0, with the sample float operations. -/
theorem hash_match_refines_witness :
    smoothNormals sampleFloatOps
        (faceNormals sampleFloatOps ([2, 1, 0].map (unpackVertex sampleNormalsSubmodel 0))) =
      smoothNormalsByPosition sampleFloatOps
        (faceNormals sampleFloatOps ([2, 1, 0].map (unpackVertex sampleNormalsSubmodel 0))) :=
  (hash_match_refines sampleFloatOps).2.2.2 sampleNormalsSubmodel 0 [2, 1, 0]

/-! ## Claims about the vertices that `CalculateNormals` leaves alone -/

theorem sample_one_frame :
    calculateFrameNormals sampleFloatOps sampleOneFrameSubmodel ⟨0, 0, 1⟩ 0 =
      Except.ok { sampleOneFrameSubmodel with
        animations_vertices :=
          [⟨(0, 0, 0), 8256⟩, ⟨(1, 0, 0), 8256⟩, ⟨(0, 1, 0), 8256⟩, ⟨(0, 0, 1), 0⟩] } := by
  have hp : packNormal 1 (1 / 2) = 8256 := by
    unfold packNormal floatToUShort
    norm_num
    rfl
  have hu : ([] ++ [2, 1, 0]).map (unpackVertex sampleOneFrameSubmodel 0) =
      [⟨2, 1, ⟨0, 1, 0⟩, default, default, 0⟩, ⟨1, 1, ⟨1, 0, 0⟩, default, default, 0⟩,
       ⟨0, 0, ⟨0, 0, 0⟩, default, default, 0⟩] := by
    simp [unpackVertex, sampleOneFrameSubmodel, vertexHash]
  have hf : faceNormals sampleFloatOps
      [⟨2, 1, ⟨0, 1, 0⟩, default, default, 0⟩, ⟨1, 1, ⟨1, 0, 0⟩, default, default, 0⟩,
       ⟨0, 0, ⟨0, 0, 0⟩, default, default, 0⟩] =
      [⟨2, 1, ⟨0, 1, 0⟩, ⟨0, 0, -1⟩, ⟨0, 0, -1⟩, 0⟩,
       ⟨1, 1, ⟨1, 0, 0⟩, ⟨0, 0, -1⟩, ⟨0, 0, -1⟩, 0⟩,
       ⟨0, 0, ⟨0, 0, 0⟩, ⟨0, 0, -1⟩, ⟨0, 0, -1⟩, 0⟩] := by
    simp [faceNormals, faceNormalStep, sampleFloatOps, List.range_succ]
  have hs : smoothNormals sampleFloatOps
      [⟨2, 1, ⟨0, 1, 0⟩, ⟨0, 0, -1⟩, ⟨0, 0, -1⟩, 0⟩,
       ⟨1, 1, ⟨1, 0, 0⟩, ⟨0, 0, -1⟩, ⟨0, 0, -1⟩, 0⟩,
       ⟨0, 0, ⟨0, 0, 0⟩, ⟨0, 0, -1⟩, ⟨0, 0, -1⟩, 0⟩] =
      [⟨2, 1, ⟨0, 1, 0⟩, ⟨0, 0, -1⟩, ⟨0, 0, -1⟩, 8256⟩,
       ⟨1, 1, ⟨1, 0, 0⟩, ⟨0, 0, -1⟩, ⟨0, 0, -1⟩, 8256⟩,
       ⟨0, 0, ⟨0, 0, 0⟩, ⟨0, 0, -1⟩, ⟨0, 0, -1⟩, 8256⟩] := by
    simp [smoothNormals, smoothStep, finishVertex, sampleFloatOps, List.range_succ, List.range']
    norm_num
    exact hp
  have h3 : sampleOneFrameSubmodel.transparent_triangles_indeces.length % 3 = 0 := rfl
  rw [calculateFrameNormals_eq _ _ _ _ h3]
  have hfi : firstIndex sampleOneFrameSubmodel ⟨0, 0, 1⟩ 0 = 0 := rfl
  have ht : sampleOneFrameSubmodel.transparent_triangles_indeces = [] := rfl
  have hr : sampleOneFrameSubmodel.regular_triangles_indeces = [2, 1, 0] := rfl
  rw [hfi, ht, hr, hu, hf, hs]
  rfl

/-- C27 fails on `sampleOneFrameModel`, whose submodel has 4 vertices in 1 frame and the
index list 2, 1, 0 over the 3 corners of a triangle, which are the vertices 3, 2 and 1:
vertex 0 is referenced by no index-list entry, and its slot is `(0 + 0) * 4 + 0 = 0`.
`CalculateNormals` addresses the slots `first_index + index`, which are 2, 1 and 0, all
within the 4 entries, so slot 0 of the unreferenced vertex 0 gets the packed normal
8256 in place of its previous 0, while slot 3 of the referenced vertex 3 keeps 0.  All
the rest of the model is as it was. -/
theorem CalculateNormals_unreferenced_vertex :
    sampleOneFrameSubmodel.transparent_triangles_indeces = [] ∧
    sampleOneFrameSubmodel.regular_triangles_indeces.map
        (fun index => (sampleOneFrameSubmodel.vertices.getD index default).vertex_id) =
      [3, 2, 1] ∧
    sampleOneFrameSubmodel.regular_triangles_indeces.map
        (fun index => firstIndex sampleOneFrameSubmodel ⟨0, 0, 1⟩ 0 + index) = [2, 1, 0] ∧
    sampleOneFrameSubmodel.animations_vertices.length = 1 * 4 ∧
    sampleOneFrameSubmodel.animations_vertices[(0 + 0) * 4 + 0]? = some ⟨(0, 0, 0), 0⟩ ∧
    CalculateNormals sampleFloatOps sampleOneFrameModel =
      Except.ok { sampleOneFrameModel with
        submodels :=
          [{ sampleOneFrameSubmodel with
              animations_vertices :=
                [⟨(0, 0, 0), 8256⟩, ⟨(1, 0, 0), 8256⟩, ⟨(0, 1, 0), 8256⟩, ⟨(0, 0, 1), 0⟩] }] } := by
  refine ⟨rfl, rfl, rfl, rfl, rfl, ?_⟩
  have hs : calculateSubmodelNormals sampleFloatOps sampleOneFrameSubmodel =
      Except.ok { sampleOneFrameSubmodel with
        animations_vertices :=
          [⟨(0, 0, 0), 8256⟩, ⟨(1, 0, 0), 8256⟩, ⟨(0, 1, 0), 8256⟩, ⟨(0, 0, 1), 0⟩] } := by
    unfold calculateSubmodelNormals
    rw [show sampleOneFrameSubmodel.animations = [⟨0, 0, 1⟩] from rfl]
    simp only [List.foldlM, bind, Except.bind, pure, Except.pure]
    rw [sample_one_frame]
  unfold CalculateNormals
  rw [show sampleOneFrameModel.submodels = [sampleOneFrameSubmodel] from rfl]
  simp only [calculateSubmodelsNormals, bind, Except.bind, pure, Except.pure, hs]

end PanzerChasm
